import Mathlib

/-!
# Verification development for `src/exclusive_audio.cc`

A shallow embedding of the streaming core of the audio engine: the
single-producer/single-consumer `RingBuffer`, the render steps and render
threads of the backends, the exclusive-mode format negotiation, the write
path, the opening and closing of streams, and the ring as the producer thread
and the consumer thread share it.

Conventions of the embedding.

* A byte is a `Fin 256`.
* `size_t` is 64 bits wide.  Every `size_t` addition, subtraction and
  multiplication of the source is written with `sizeAdd` / `sizeSub` /
  `sizeMul`, which wrap modulo `2 ^ 64`, so an unsigned underflow shows up as a
  huge value, exactly as in C++.  `unsigned int` arithmetic wraps modulo
  `2 ^ 32` (`uintAdd`, `uintMul`).
* A pointer to a byte buffer is an `Option (List Byte)`: `none` is the null
  pointer, `some buf` points at the first byte of the memory block `buf`.
* Functions that touch memory return an `Option`; `none` stands for undefined
  behaviour (an out-of-bounds `memcpy`/`memset`, a division by zero) or a
  thrown exception.
* The answers of the platform audio libraries are parameters of the functions
  that call them.
* A `double` is an IEEE 754 binary64 value (`Double`): finite, infinite or
  NaN, with every arithmetic result rounded to nearest, ties to even.  The
  latencies `GetStats` computes are given as the exact values of their
  expressions.
* What other threads do while a function runs is a parameter of the function;
  where two threads share the ring without a lock, their steps interleave in
  any order and the atomic cursors follow the acquire/release rules of the C++
  memory model.
-/

namespace ExclusiveAudio

/-! ## Machine arithmetic -/

/-- One byte (`uint8_t`). -/
abbrev Byte := Fin 256

/-- Number of values of a `size_t` (64-bit targets). -/
def SIZE_MODULUS : Nat := 18446744073709551616

/-- Number of values of an `unsigned int` / `uint32_t`. -/
def UINT_MODULUS : Nat := 4294967296

/-- Largest element count `std::vector<uint8_t>` accepts (`max_size()`,
which is `PTRDIFF_MAX` on 64-bit targets). -/
def VECTOR_MAX_SIZE : Nat := 9223372036854775807

/-- Addition `a + b` of two `size_t` values. -/
def sizeAdd (a b : Nat) : Nat := (a + b) % SIZE_MODULUS

/-- Subtraction `a - b` of two `size_t` values (wraps on underflow). -/
def sizeSub (a b : Nat) : Nat := (a + SIZE_MODULUS - b % SIZE_MODULUS) % SIZE_MODULUS

/-- Multiplication `a * b` of two `size_t` values. -/
def sizeMul (a b : Nat) : Nat := (a * b) % SIZE_MODULUS

/-- Multiplication `a * b` of two `unsigned int` values. -/
def uintMul (a b : Nat) : Nat := (a * b) % UINT_MODULUS

/-! ## The type `double`

A `double` is an IEEE 754 binary64 value: a finite value, one of the two
infinities, or NaN.  A finite value is the rational it denotes (the two zeros
are not told apart; no `double` of the source is a negative zero by the time
its sign matters).  The result of an arithmetic operation is the exact result
rounded to the nearest `double`, ties to the even significand, which is the
rounding the three platforms run with. -/

/-- A value of type `double`. -/
inductive Double where
  | finite (q : ℚ)
  | posInf
  | negInf
  | nan
  deriving DecidableEq, Repr

/-- A literal such as `20.0` or `1000.0`; every integer literal of the source
is a `double` exactly. -/
instance (n : Nat) : OfNat Double n := ⟨Double.finite n⟩

/-- The integer nearest to `q`; of two nearest integers the even one. -/
def Double.roundHalfEven (q : ℚ) : ℤ :=
  let f := Rat.floor q
  let r := q - f
  if r < 1 / 2 then f else if 1 / 2 < r then f + 1 else if f % 2 = 0 then f else f + 1

/-- The number of binary digits of `n` less one (0 for `n < 2`); the first
argument bounds the recursion and `n` itself is enough. -/
def Double.log2 : Nat → Nat → Nat
  | 0, _ => 0
  | fuel + 1, n => if n < 2 then 0 else Double.log2 fuel (n / 2) + 1

/-- The binary exponent of a positive rational `q`: the integer `k` with
`2 ^ k ≤ q < 2 ^ (k + 1)`. -/
def Double.exponent (q : ℚ) : ℤ :=
  let c : ℤ := (Double.log2 q.num.toNat q.num.toNat : ℤ) - (Double.log2 q.den q.den : ℤ)
  if (2 : ℚ) ^ c ≤ q then c else c - 1

/-- Rounding of a positive rational to binary64: a significand of 53 bits, the
unit in the last place no smaller than `2 ^ (-1074)`, and overflow to
`+infinity` from `2 ^ 1024` on. -/
def Double.roundPos (q : ℚ) : Double :=
  let e : ℤ := max (Double.exponent q - 52) (-1074)
  let m : ℤ := Double.roundHalfEven (q / (2 : ℚ) ^ e)
  let v : ℚ := (m : ℚ) * (2 : ℚ) ^ e
  if v < (2 : ℚ) ^ (1024 : ℕ) then Double.finite v else Double.posInf

/-- The negation `-x`. -/
def Double.neg : Double → Double
  | .finite q => .finite (-q)
  | .posInf => .negInf
  | .negInf => .posInf
  | .nan => .nan

/-- Rounding of an exact result to binary64. -/
def Double.round (q : ℚ) : Double :=
  if q = 0 then Double.finite 0
  else if 0 < q then Double.roundPos q
  else (Double.roundPos (-q)).neg

/-- The conversion `static_cast<double>(n)` of an unsigned integer. -/
def Double.ofNat (n : Nat) : Double := Double.round n

/-- The comparison `x < y`, false when either side is NaN. -/
def Double.lt : Double → Double → Bool
  | .finite a, .finite b => decide (a < b)
  | .finite _, .posInf => true
  | .negInf, .finite _ => true
  | .negInf, .posInf => true
  | _, _ => false

/-- The product `x * y`. -/
def Double.mul : Double → Double → Double
  | .finite a, .finite b => Double.round (a * b)
  | .finite a, .posInf => if a = 0 then .nan else if 0 < a then .posInf else .negInf
  | .finite a, .negInf => if a = 0 then .nan else if 0 < a then .negInf else .posInf
  | .posInf, .finite b => if b = 0 then .nan else if 0 < b then .posInf else .negInf
  | .negInf, .finite b => if b = 0 then .nan else if 0 < b then .negInf else .posInf
  | .posInf, .posInf => .posInf
  | .posInf, .negInf => .negInf
  | .negInf, .posInf => .negInf
  | .negInf, .negInf => .posInf
  | _, _ => .nan

/-- The quotient `x / y`; a zero divisor is the positive zero. -/
def Double.div : Double → Double → Double
  | .finite a, .finite b =>
    if b = 0 then (if a = 0 then .nan else if 0 < a then .posInf else .negInf)
    else Double.round (a / b)
  | .finite _, .posInf => .finite 0
  | .finite _, .negInf => .finite 0
  | .posInf, .finite b => if 0 ≤ b then .posInf else .negInf
  | .negInf, .finite b => if 0 ≤ b then .negInf else .posInf
  | _, _ => .nan

/-- The conversion `static_cast<size_t>(x)`: the value truncated towards zero,
undefined (`none`) when `x` is NaN or infinite or when the truncated value is
not a `size_t`. -/
def Double.toSize : Double → Option Nat
  | .finite q =>
    if q ≤ -1 then none
    else if (Rat.floor q).toNat < SIZE_MODULUS then some (Rat.floor q).toNat
    else none
  | _ => none

/-! ## Raw memory operations -/

/-- The call `std::memcpy(dst + off, src + soff, n)`.  The result is the
destination block after the copy; `none` when one of the two ranges leaves its
block. -/
def memcpy (dst : List Byte) (off : Nat) (src : List Byte) (soff n : Nat) :
    Option (List Byte) :=
  if off + n ≤ dst.length ∧ soff + n ≤ src.length then
    some (dst.take off ++ (src.drop soff).take n ++ dst.drop (off + n))
  else none

/-- The call `std::memset(dst + off, 0, n)`; `none` when the range leaves the
block. -/
def memsetZero (dst : List Byte) (off n : Nat) : Option (List Byte) :=
  if off + n ≤ dst.length then
    some (dst.take off ++ List.replicate n (0 : Byte) ++ dst.drop (off + n))
  else none

/-! ## `struct RingBuffer` -/

/-- The fields of `struct RingBuffer`: `data`, `capacity`, `readPos` (head,
owned by the consumer) and `writePos` (tail, owned by the producer). -/
structure RingBuffer where
  data : List Byte
  capacity : Nat
  readPos : Nat
  writePos : Nat
  deriving DecidableEq, Repr

/-- A default-constructed `RingBuffer` (before `init`). -/
def RingBuffer.fresh : RingBuffer := { data := [], capacity := 0, readPos := 0, writePos := 0 }

/-- `RingBuffer::init(size)`.  `data.assign(capacity, 0)` throws
`std::length_error` when `capacity` exceeds `max_size()`; that is `none`. -/
def RingBuffer.init (size : Nat) : Option RingBuffer :=
  let capacity := if size ≠ 0 then size else 1
  if capacity ≤ VECTOR_MAX_SIZE then
    some { data := List.replicate capacity 0, capacity := capacity, readPos := 0, writePos := 0 }
  else none

/-- `RingBuffer::size()`. -/
def RingBuffer.size (rb : RingBuffer) : Nat := rb.capacity

/-- `RingBuffer::availableToRead()`: `(w + capacity - r) % capacity`. -/
def RingBuffer.availableToRead (rb : RingBuffer) : Nat :=
  let r := rb.readPos
  let w := rb.writePos
  sizeSub (sizeAdd w rb.capacity) r % rb.capacity

/-- `RingBuffer::availableToWrite()`: `capacity - availableToRead() - 1`. -/
def RingBuffer.availableToWrite (rb : RingBuffer) : Nat :=
  sizeSub (sizeSub rb.capacity rb.availableToRead) 1

/-- `RingBuffer::write(src, len)`: the ring afterwards and the returned count.
`none` is undefined behaviour (out-of-bounds copy, `% 0`). -/
def RingBuffer.write (rb : RingBuffer) (src : Option (List Byte)) (len : Nat) :
    Option (RingBuffer × Nat) :=
  match src with
  | none => some (rb, 0)
  | some buf =>
    if len = 0 then some (rb, 0)
    else
      let r := rb.readPos
      let t := rb.writePos
      let avail :=
        if t ≥ r then sizeSub (sizeSub rb.capacity (sizeSub t r)) 1
        else sizeSub (sizeSub r t) 1
      if avail = 0 then some (rb, 0)
      else
        let len := if len > avail then avail else len
        let first := min len (sizeSub rb.capacity t)
        match memcpy rb.data t buf 0 first with
        | none => none
        | some d1 =>
          match (if len > first then memcpy d1 0 buf first (sizeSub len first) else some d1) with
          | none => none
          | some d2 =>
            if rb.capacity = 0 then none
            else some ({ rb with data := d2, writePos := sizeAdd t len % rb.capacity }, len)

/-- `RingBuffer::read(dst, len)`: the ring afterwards, the destination block
afterwards and the returned count.  `none` is undefined behaviour. -/
def RingBuffer.read (rb : RingBuffer) (dst : Option (List Byte)) (len : Nat) :
    Option (RingBuffer × Option (List Byte) × Nat) :=
  match dst with
  | none => some (rb, none, 0)
  | some out =>
    if len = 0 then some (rb, some out, 0)
    else
      let r := rb.readPos
      let t := rb.writePos
      if rb.capacity = 0 then none
      else
        let avail := sizeSub (sizeAdd t rb.capacity) r % rb.capacity
        if avail = 0 then some (rb, some out, 0)
        else
          let len := if len > avail then avail else len
          let first := min len (sizeSub rb.capacity r)
          match memcpy out 0 rb.data r first with
          | none => none
          | some o1 =>
            match (if len > first then memcpy o1 first rb.data 0 (sizeSub len first) else some o1) with
            | none => none
            | some o2 =>
              some ({ rb with readPos := sizeAdd r len % rb.capacity }, some o2, len)

/-! ## Well-formed rings and their unread content -/

/-- The representation invariant of a ring: `data` holds exactly `capacity`
bytes, the capacity is positive and allocatable, and both cursors index into
`data`. -/
structure RingBuffer.WellFormed (rb : RingBuffer) : Prop where
  data_len : rb.data.length = rb.capacity
  cap_pos : 0 < rb.capacity
  cap_le : rb.capacity ≤ VECTOR_MAX_SIZE
  read_lt : rb.readPos < rb.capacity
  write_lt : rb.writePos < rb.capacity

/-- The unread bytes a ring holds, oldest first: the bytes stored at
`readPos`, `readPos + 1`, ... (indices taken modulo `capacity`) up to, but not
including, `writePos`. -/
def RingBuffer.unread (rb : RingBuffer) : List Byte :=
  (List.range rb.availableToRead).map
    (fun i => rb.data.getD ((rb.readPos + i) % rb.capacity) 0)

/-- Ring states reachable from `RingBuffer::init(n)` by a finite sequence of
`write` and `read` calls that do not run into undefined behaviour.  The
arguments of the calls are arbitrary (null pointers and zero lengths
included). -/
inductive RingBuffer.Reachable : RingBuffer → Prop
  | init {n : Nat} {rb : RingBuffer} : RingBuffer.init n = some rb → Reachable rb
  | write {rb rb' : RingBuffer} {src : Option (List Byte)} {len k : Nat} :
      Reachable rb → rb.write src len = some (rb', k) → Reachable rb'
  | read {rb rb' : RingBuffer} {dst dst' : Option (List Byte)} {len k : Nat} :
      Reachable rb → rb.read dst len = some (rb', dst', k) → Reachable rb'

/-- A run of `write` calls, one per byte string, each call passing the whole
string.  The result is the ring afterwards and the counts the calls returned,
in call order. -/
def RingBuffer.writeAll (rb : RingBuffer) : List (List Byte) → Option (RingBuffer × List Nat)
  | [] => some (rb, [])
  | w :: ws =>
    match rb.write (some w) w.length with
    | none => none
    | some (rb', k) =>
      match RingBuffer.writeAll rb' ws with
      | none => none
      | some (rb'', ks) => some (rb'', k :: ks)

/-- A run of `read` calls, each with its own destination block and requested
length.  The result is the ring afterwards, the counts the calls returned and
the bytes each call delivered (the first `count` bytes of its destination block
after the call), in call order. -/
def RingBuffer.readAll (rb : RingBuffer) :
    List (List Byte × Nat) → Option (RingBuffer × List Nat × List (List Byte))
  | [] => some (rb, [], [])
  | (dst, len) :: rs =>
    match rb.read (some dst) len with
    | none => none
    | some (rb', dst', k) =>
      match RingBuffer.readAll rb' rs with
      | none => none
      | some (rb'', ks, outs) => some (rb'', k :: ks, ((dst'.getD []).take k) :: outs)

/-! ## `struct OutputStreamState` and `GetStats` -/

/-- The fields of `struct OutputStreamState` that the core reads or writes.
`isOpen` is the field `open`.  `bufferFrames` exists on Windows only,
`bufferSize` and `periodSize` on Linux only; the backend handles are left out. -/
structure OutputStreamState where
  sampleRate : Nat := 44100
  channels : Nat := 2
  bitDepth : Nat := 16
  bytesPerFrame : Nat := (16 / 8) * 2
  ringDurationMs : Double := 0
  isOpen : Bool := false
  running : Bool := false
  paused : Bool := false
  ring : RingBuffer := RingBuffer.fresh
  lastHardwarePaddingFrames : Nat := 0
  bufferFrames : Nat := 0
  bufferSize : Nat := 0
  periodSize : Nat := 0
  deriving DecidableEq, Repr

/-- The object `GetStats` returns for a registered stream.  The latencies are
`double`s in the source; here they are the exact rational values of the same
expressions. -/
structure Stats where
  buffered : Nat
  free : Nat
  ringSize : Nat
  sampleRate : Nat
  channels : Nat
  bitDepth : Nat
  bytesPerFrame : Nat
  ringDurationMs : Double
  ringLatencyMs : ℚ
  hardwareLatencyMs : ℚ
  totalSystemLatencyMs : ℚ
  running : Bool
  paused : Bool
  deriving DecidableEq, Repr

/-- `GetStats`, from the point where the stream `s` has been looked up. -/
def GetStats (s : OutputStreamState) : Stats :=
  let buffered := s.ring.availableToRead
  let freeBytes := s.ring.availableToWrite
  let ringSizeBytes := s.ring.size
  let ringFrames : ℚ := if s.bytesPerFrame > 0 then (buffered : ℚ) / (s.bytesPerFrame : ℚ) else 0
  let ringLatencyMs : ℚ :=
    if s.bytesPerFrame > 0 then (ringFrames * 1000) / (s.sampleRate : ℚ) else 0
  let hardwareLatencyMs : ℚ :=
    if s.bytesPerFrame > 0 then
      ((s.lastHardwarePaddingFrames : ℚ) * 1000) / (s.sampleRate : ℚ)
    else 0
  { buffered := buffered
    free := freeBytes
    ringSize := ringSizeBytes
    sampleRate := s.sampleRate
    channels := s.channels
    bitDepth := s.bitDepth
    bytesPerFrame := s.bytesPerFrame
    ringDurationMs := s.ringDurationMs
    ringLatencyMs := ringLatencyMs
    hardwareLatencyMs := hardwareLatencyMs
    totalSystemLatencyMs := ringLatencyMs + hardwareLatencyMs
    running := s.running
    paused := s.paused }

/-! ## The render steps of the three backends -/

/-- Addition `a + b` of two `unsigned int` values. -/
def uintAdd (a b : Nat) : Nat := (a + b) % UINT_MODULUS

/-- `std::vector<uint8_t>::resize(n)`: the vector is cut to `n` bytes, or zero
bytes are appended up to `n`. -/
def vectorResize (v : List Byte) (n : Nat) : List Byte :=
  v.take n ++ List.replicate (n - v.length) 0

/-- The buffer fill of one iteration of `WasapiRenderThread`: the statements
from the computation of `bytesRequested` to the end of the `if (s->paused)`
statement.  `temp` is the scratch vector of the thread, `framesToWrite` the
demand and `data` the non-null block `GetBuffer` handed out.  The result is the
stream, `temp` and `data` afterwards. -/
def WasapiRenderThread_fill (s : OutputStreamState) (temp : List Byte) (framesToWrite : Nat)
    (data : List Byte) : Option (OutputStreamState × List Byte × List Byte) :=
  let frameBytes := s.bytesPerFrame
  let bytesRequested := sizeMul framesToWrite frameBytes
  if s.paused then
    match memsetZero data 0 bytesRequested with
    | none => none
    | some d => some (s, temp, d)
  else
    let temp := vectorResize temp bytesRequested
    match s.ring.read (some temp) bytesRequested with
    | none => none
    | some (ring', tempAfter, bytesRead) =>
      let temp := tempAfter.getD temp
      if bytesRead > 0 then
        match memcpy data 0 temp 0 bytesRead with
        | none => none
        | some d1 =>
          if bytesRead < bytesRequested then
            match memsetZero d1 bytesRead (sizeSub bytesRequested bytesRead) with
            | none => none
            | some d2 => some ({ s with ring := ring' }, temp, d2)
          else some ({ s with ring := ring' }, temp, d1)
      else
        match memsetZero data 0 bytesRequested with
        | none => none
        | some d => some ({ s with ring := ring' }, temp, d)

/-- One `AudioBuffer` of the `AudioBufferList` CoreAudio passes to the render
callback: the (non-null) block `mData` and the byte count `mDataByteSize`. -/
structure AudioBuffer where
  mData : List Byte
  mDataByteSize : Nat
  deriving DecidableEq, Repr

/-- The loop `for (i...) memset(ioData->mBuffers[i].mData, 0,
ioData->mBuffers[i].mDataByteSize)` of `CoreAudioRenderCallback`. -/
def CoreAudioRenderCallback_silence : List AudioBuffer → Option (List AudioBuffer)
  | [] => some []
  | b :: bs =>
    match memsetZero b.mData 0 b.mDataByteSize with
    | none => none
    | some d =>
      match CoreAudioRenderCallback_silence bs with
      | none => none
      | some bs' => some ({ b with mData := d } :: bs')

/-- The inner loop over `frame` of the non-interleaved path of
`CoreAudioRenderCallback`, for channel `i`, on the block `channelBuffer`.
`srcOffset` and `dstOffset` are computed in `unsigned int`. -/
def CoreAudioRenderCallback_channel (s : OutputStreamState) (interleaved : List Byte)
    (inNumberFrames i : Nat) (channelBuffer : List Byte) : Option (List Byte) :=
  (List.range inNumberFrames).foldlM
    (fun cb frame =>
      let srcOffset := uintAdd (uintMul frame s.bytesPerFrame) (uintMul i (s.bitDepth / 8))
      let dstOffset := uintMul frame (s.bitDepth / 8)
      if sizeAdd srcOffset (s.bitDepth / 8) ≤ interleaved.length then
        memcpy cb dstOffset interleaved srcOffset (s.bitDepth / 8)
      else memsetZero cb dstOffset (s.bitDepth / 8))
    channelBuffer

/-- The outer loop over the buffers of the non-interleaved path of
`CoreAudioRenderCallback`, starting at channel index `i`. -/
def CoreAudioRenderCallback_deinterleave (s : OutputStreamState) (interleaved : List Byte)
    (inNumberFrames bytesPerChannel : Nat) : Nat → List AudioBuffer → Option (List AudioBuffer)
  | _, [] => some []
  | i, b :: bs =>
    match CoreAudioRenderCallback_channel s interleaved inNumberFrames i b.mData with
    | none => none
    | some d =>
      match CoreAudioRenderCallback_deinterleave s interleaved inNumberFrames bytesPerChannel
          (i + 1) bs with
      | none => none
      | some bs' => some ({ mData := d, mDataByteSize := bytesPerChannel } :: bs')

/-- `CoreAudioRenderCallback` for a non-null stream `s`, a demand of
`inNumberFrames` frames and the buffer list `ioData`.  The result is the
stream and the buffer list afterwards and whether `ringCv.notify_all()` was
called. -/
def CoreAudioRenderCallback (s : OutputStreamState) (inNumberFrames : Nat)
    (ioData : List AudioBuffer) : Option (OutputStreamState × List AudioBuffer × Bool) :=
  if !s.running then
    match CoreAudioRenderCallback_silence ioData with
    | none => none
    | some io => some (s, io, false)
  else
    let requestedBytes := sizeMul inNumberFrames s.bytesPerFrame
    let s := { s with lastHardwarePaddingFrames := inNumberFrames }
    if s.paused then
      match CoreAudioRenderCallback_silence ioData with
      | none => none
      | some io => some (s, io, true)
    else
      match ioData with
      | [b] =>
        match s.ring.read (some b.mData) requestedBytes with
        | none => none
        | some (ring', outAfter, bytesFromRing) =>
          let outputBuffer := outAfter.getD b.mData
          match (if bytesFromRing < requestedBytes then
              memsetZero outputBuffer bytesFromRing (sizeSub requestedBytes bytesFromRing)
            else some outputBuffer) with
          | none => none
          | some out =>
            some ({ s with ring := ring' },
              [{ mData := out, mDataByteSize := requestedBytes % UINT_MODULUS }], true)
      | bufs =>
        let interleaved := List.replicate requestedBytes (0 : Byte)
        match s.ring.read (some interleaved) requestedBytes with
        | none => none
        | some (ring', ilAfter, bytesFromRing) =>
          let interleaved := ilAfter.getD interleaved
          match (if bytesFromRing < requestedBytes then
              memsetZero interleaved bytesFromRing (sizeSub requestedBytes bytesFromRing)
            else some interleaved) with
          | none => none
          | some il =>
            if bufs.length = 0 then none
            else
              let bytesPerChannel := (requestedBytes / bufs.length) % UINT_MODULUS
              match CoreAudioRenderCallback_deinterleave s il inNumberFrames bytesPerChannel
                  0 bufs with
              | none => none
              | some io => some ({ s with ring := ring' }, io, true)

/-- The vector `tempBuffer(s->periodSize * s->bytesPerFrame)` that
`AlsaRenderThread` allocates before its loop. -/
def AlsaRenderThread_tempBuffer (s : OutputStreamState) : List Byte :=
  List.replicate (sizeMul s.periodSize s.bytesPerFrame) 0

/-- The buffer fill of one iteration of `AlsaRenderThread`: in the paused
branch the `memset` of `tempBuffer`, otherwise the statements from
`bytesToRead` to `framesToWrite`.  The result is the stream and `tempBuffer`
afterwards and the frame count passed to `snd_pcm_writei` together with
`tempBuffer`.  `none` includes the division by a zero `bytesPerFrame`. -/
def AlsaRenderThread_fill (s : OutputStreamState) (tempBuffer : List Byte) :
    Option (OutputStreamState × List Byte × Nat) :=
  if s.paused then
    match memsetZero tempBuffer 0 tempBuffer.length with
    | none => none
    | some t => some (s, t, s.periodSize)
  else
    let bytesToRead := sizeMul s.periodSize s.bytesPerFrame
    match s.ring.read (some tempBuffer) bytesToRead with
    | none => none
    | some (ring', tempAfter, bytesRead) =>
      let temp := tempAfter.getD tempBuffer
      match (if bytesRead < bytesToRead then
          memsetZero temp bytesRead (sizeSub bytesToRead bytesRead)
        else some temp) with
      | none => none
      | some t =>
        if s.bytesPerFrame = 0 then none
        else some ({ s with ring := ring' }, t, bytesToRead / s.bytesPerFrame)

/-- `Pause`, from the point where the stream has been looked up:
`s->paused.store(true)`. -/
def Pause (s : OutputStreamState) : OutputStreamState := { s with paused := true }

/-- `Resume`, from the point where the stream has been looked up:
`s->paused.store(false)`. -/
def Resume (s : OutputStreamState) : OutputStreamState := { s with paused := false }

/-- Consecutive iterations of `WasapiRenderThread`, one per demand
`(framesToWrite, data)`: the buffer fill of each, threading the stream and the
scratch vector.  The result lists the blocks handed back to the device. -/
def WasapiRenderThread_serve (s : OutputStreamState) (temp : List Byte) :
    List (Nat × List Byte) → Option (OutputStreamState × List Byte × List (List Byte))
  | [] => some (s, temp, [])
  | (n, data) :: ds =>
    match WasapiRenderThread_fill s temp n data with
    | none => none
    | some (s', temp', out) =>
      match WasapiRenderThread_serve s' temp' ds with
      | none => none
      | some (s'', temp'', outs) => some (s'', temp'', out :: outs)

/-- Consecutive invocations of `CoreAudioRenderCallback`, one per demand
`(inNumberFrames, ioData)`, threading the stream.  The result lists the buffer
lists handed back to the device. -/
def CoreAudioRenderCallback_serve (s : OutputStreamState) :
    List (Nat × List AudioBuffer) → Option (OutputStreamState × List (List AudioBuffer))
  | [] => some (s, [])
  | (n, io) :: ds =>
    match CoreAudioRenderCallback s n io with
    | none => none
    | some (s', io', _) =>
      match CoreAudioRenderCallback_serve s' ds with
      | none => none
      | some (s'', outs) => some (s'', io' :: outs)

/-- `k` consecutive iterations of `AlsaRenderThread`: the buffer fill of each,
threading the stream and `tempBuffer`.  The result lists, per iteration, the
block and the frame count passed to `snd_pcm_writei`. -/
def AlsaRenderThread_serve (s : OutputStreamState) (tempBuffer : List Byte) :
    Nat → Option (OutputStreamState × List Byte × List (List Byte × Nat))
  | 0 => some (s, tempBuffer, [])
  | k + 1 =>
    match AlsaRenderThread_fill s tempBuffer with
    | none => none
    | some (s', t, frames) =>
      match AlsaRenderThread_serve s' t k with
      | none => none
      | some (s'', t', outs) => some (s'', t', (t, frames) :: outs)

/-- The bytes an `AudioBufferList` carries: the first `mDataByteSize` bytes of
each buffer, in buffer order. -/
def audioBytes (ioData : List AudioBuffer) : List Byte :=
  (ioData.map (fun b => b.mData.take b.mDataByteSize)).flatten

/-! ## Exclusive-mode format negotiation -/

/-- Number of values of a `WORD` (16 bits). -/
def WORD_MODULUS : Nat := 65536

/-- `SPEAKER_FRONT_LEFT | SPEAKER_FRONT_RIGHT` (Windows SDK: `0x1 | 0x2`). -/
def SPEAKER_FRONT_LEFT_RIGHT : Nat := 3

/-- `SPEAKER_FRONT_CENTER` (Windows SDK: `0x4`). -/
def SPEAKER_FRONT_CENTER : Nat := 4

/-- The fields of `WAVEFORMATEXTENSIBLE` that `BuildFormat` fills in;
`isFloat` says whether `SubFormat` is `KSDATAFORMAT_SUBTYPE_IEEE_FLOAT`
(otherwise it is `KSDATAFORMAT_SUBTYPE_PCM`). -/
structure WAVEFORMATEXTENSIBLE where
  nChannels : Nat
  nSamplesPerSec : Nat
  wBitsPerSample : Nat
  nBlockAlign : Nat
  nAvgBytesPerSec : Nat
  wValidBitsPerSample : Nat
  dwChannelMask : Nat
  isFloat : Bool
  deriving DecidableEq, Repr

/-- `BuildFormat(sampleRate, channels, bitDepth, isFloat, fmt)`: the format it
leaves in `fmt`.  `nChannels`, `wBitsPerSample` and `nBlockAlign` are `WORD`s,
`nAvgBytesPerSec` is a `DWORD`. -/
def BuildFormat (sampleRate channels bitDepth : Nat) (isFloat : Bool) : WAVEFORMATEXTENSIBLE :=
  let nChannels := channels % WORD_MODULUS
  let wBitsPerSample := bitDepth % WORD_MODULUS
  let nBlockAlign := ((nChannels * wBitsPerSample) / 8) % WORD_MODULUS
  { nChannels := nChannels
    nSamplesPerSec := sampleRate
    wBitsPerSample := wBitsPerSample
    nBlockAlign := nBlockAlign
    nAvgBytesPerSec := (nBlockAlign * sampleRate) % UINT_MODULUS
    wValidBitsPerSample := wBitsPerSample
    dwChannelMask :=
      if channels = 1 then SPEAKER_FRONT_CENTER
      else if channels = 2 then SPEAKER_FRONT_LEFT_RIGHT
      else 0
    isFloat := isFloat }

/-- The vector `candidates` that `InitWasapi` builds in exclusive mode, as
pairs (bit depth, floating point). -/
def InitWasapi_candidates (bitDepth : Nat) (bitPerfect : Bool) : List (Nat × Bool) :=
  let candidates : List (Nat × Bool) :=
    if bitDepth = 32 then [(32, true), (32, false), (24, false), (16, false)]
    else if bitDepth = 24 then [(24, false), (16, false)]
    else [(bitDepth, false)] ++ (if bitDepth ≠ 16 then [(16, false)] else [])
  if bitPerfect then
    let isFloat := decide (bitDepth = 32)
    [(bitDepth, isFloat)]
  else candidates

/-- The format part of `InitWasapi` (from `WAVEFORMATEXTENSIBLE reqExt{}` to
the assignment of `bytesPerFrame` after the `if (exclusive)` statement).
`IsFormatSupported` is the answer of `client->IsFormatSupported` in exclusive
share mode (`true` for `S_OK`), `mixFormat` the outcome of `GetMixFormat`
(`none` when it fails).  `none` is `return false`. -/
def InitWasapi_format (s : OutputStreamState) (exclusive bitPerfect : Bool)
    (IsFormatSupported : WAVEFORMATEXTENSIBLE → Bool)
    (mixFormat : Option WAVEFORMATEXTENSIBLE) : Option OutputStreamState :=
  if exclusive then
    match (InitWasapi_candidates s.bitDepth bitPerfect).find?
        (fun c => IsFormatSupported (BuildFormat s.sampleRate s.channels c.1 c.2)) with
    | some c =>
      let s := { s with bitDepth := c.1, bytesPerFrame := uintMul (c.1 / 8) s.channels }
      some { s with bytesPerFrame := uintMul (s.bitDepth / 8) s.channels }
    | none => none
  else
    match mixFormat with
    | none => none
    | some m =>
      let s := { s with sampleRate := m.nSamplesPerSec, channels := m.nChannels,
                        bitDepth := m.wBitsPerSample }
      some { s with bytesPerFrame := uintMul (s.bitDepth / 8) s.channels }

/-- The vector `candidates` that `InitCoreAudio` builds in exclusive mode. -/
def InitCoreAudio_candidates (bitDepth : Nat) (bitPerfect : Bool) : List (Nat × Bool) :=
  if bitDepth = 32 then
    if bitPerfect then [(32, true), (32, false)]
    else [(32, true), (32, false), (24, false), (16, false)]
  else if bitDepth = 24 then
    if bitPerfect then [(24, false)]
    else [(24, false), (32, true), (32, false), (16, false)]
  else if bitDepth = 16 then
    if bitPerfect then [(16, false)]
    else [(16, false), (32, true), (24, false)]
  else []

/-- The fields of the `AudioStreamBasicDescription` that `InitCoreAudio` reads
back from the audio unit (the sample rate is taken to be integral). -/
structure AudioStreamBasicDescription where
  mSampleRate : Nat
  mChannelsPerFrame : Nat
  mBitsPerChannel : Nat
  deriving DecidableEq, Repr

/-- The format part of `InitCoreAudio` (from `bool formatSet = false` to the
assignment of `bytesPerFrame`).  `TrySetFormat sampleRate channels bitDepth
isFloat` is the answer of the function of that name, `currentASBD` the outcome
of `AudioUnitGetProperty(kAudioUnitProperty_StreamFormat)` (`none` when it
fails).  With an integral sample rate the branch that tries to re-set the
sample rate is never entered. -/
def InitCoreAudio_format (s : OutputStreamState) (exclusive bitPerfect : Bool)
    (TrySetFormat : Nat → Nat → Nat → Bool → Bool)
    (currentASBD : Option AudioStreamBasicDescription) : OutputStreamState :=
  let accepted : Option (Nat × Bool) :=
    if exclusive then
      (InitCoreAudio_candidates s.bitDepth bitPerfect).find?
        (fun candidate => TrySetFormat s.sampleRate s.channels candidate.1 candidate.2)
    else none
  let s :=
    match accepted with
    | some candidate => { s with bitDepth := candidate.1 }
    | none =>
      match currentASBD with
      | some a => { s with sampleRate := a.mSampleRate, channels := a.mChannelsPerFrame,
                           bitDepth := a.mBitsPerChannel }
      | none => s
  { s with bytesPerFrame := uintMul (s.bitDepth / 8) s.channels }

/-- The ALSA sample formats the source names; `OTHER` is any other value of
`snd_pcm_format_t`. -/
inductive snd_pcm_format_t where
  | S16_LE | S16_BE | S24_LE | S24_BE | S24_3LE | S24_3BE | S32_LE | S32_BE
  | FLOAT_LE | FLOAT_BE | OTHER
  deriving DecidableEq, Repr

/-- `AlsaFormatToBitDepth`. -/
def AlsaFormatToBitDepth : snd_pcm_format_t → Nat
  | .S16_LE | .S16_BE => 16
  | .S24_LE | .S24_BE | .S24_3LE | .S24_3BE => 24
  | .S32_LE | .S32_BE => 32
  | .FLOAT_LE | .FLOAT_BE => 32
  | .OTHER => 16

/-- `BitDepthToAlsaFormat`. -/
def BitDepthToAlsaFormat (bitDepth : Nat) (isFloat : Bool) : snd_pcm_format_t :=
  if isFloat ∧ bitDepth = 32 then .FLOAT_LE
  else if bitDepth = 16 then .S16_LE
  else if bitDepth = 24 then .S24_LE
  else if bitDepth = 32 then .S32_LE
  else .S16_LE

/-- The answers of the ALSA library to the calls `TrySetAlsaParams` makes on
one device (`true` and `some` stand for a non-negative return value).  A call
repeated with the same argument gets the same answer. -/
structure AlsaPcm where
  hw_params_any : Bool
  hw_params_set_access : Bool
  hw_params_set_format : snd_pcm_format_t → Bool
  hw_params_get_format : Option snd_pcm_format_t
  hw_params_set_channels : Nat → Bool
  hw_params_get_channels_min : Option Nat
  hw_params_get_channels_max : Option Nat
  hw_params_set_rate_near : Nat → Option Nat
  hw_params_set_buffer_size_near : Nat → Bool
  hw_params_set_period_size_near : Nat → Bool
  hw_params : Bool
  hw_params_get_buffer_size : Nat
  hw_params_get_period_size : Nat

/-- The vector `candidates` that `TrySetAlsaParams` builds in exclusive mode. -/
def TrySetAlsaParams_candidates (bitDepth : Nat) (bitPerfect : Bool) : List (Nat × Bool) :=
  if bitDepth = 32 then
    if bitPerfect then [(32, true), (32, false)]
    else [(32, true), (32, false), (24, false), (16, false)]
  else if bitDepth = 24 then
    if bitPerfect then [(24, false)]
    else [(24, false), (32, true), (32, false), (16, false)]
  else if bitDepth = 16 then
    if bitPerfect then [(16, false)]
    else [(16, false), (32, true), (24, false)]
  else []

/-- The channel part of `TrySetAlsaParams`: the channel count the stream ends
with, `none` for `return false`. -/
def TrySetAlsaParams_channels (pcm : AlsaPcm) (channels : Nat) : Option Nat :=
  if pcm.hw_params_set_channels channels then some channels
  else
    let ok : Bool :=
      match pcm.hw_params_get_channels_min with
      | none => false
      | some minCh =>
        match pcm.hw_params_get_channels_max with
        | none => false
        | some maxCh =>
          if channels ≥ minCh ∧ channels ≤ maxCh then pcm.hw_params_set_channels channels
          else true
    if ok then some channels
    else if pcm.hw_params_set_channels 2 then some 2
    else none

/-- `TrySetAlsaParams(pcm, s, exclusive, bitPerfect)`: the stream afterwards,
`none` for `return false`. -/
def TrySetAlsaParams (pcm : AlsaPcm) (s : OutputStreamState) (exclusive bitPerfect : Bool) :
    Option OutputStreamState :=
  if !pcm.hw_params_any then none
  else if !pcm.hw_params_set_access then none
  else
    let accepted : Option (Nat × Bool) :=
      if exclusive then
        (TrySetAlsaParams_candidates s.bitDepth bitPerfect).find?
          (fun candidate =>
            pcm.hw_params_set_format (BitDepthToAlsaFormat candidate.1 candidate.2))
      else none
    let bitDepth : Option Nat :=
      match accepted with
      | some candidate => some candidate.1
      | none =>
        match pcm.hw_params_get_format with
        | some format => some (AlsaFormatToBitDepth format)
        | none => if pcm.hw_params_set_format .S16_LE then some 16 else none
    match bitDepth with
    | none => none
    | some bitDepth =>
      match TrySetAlsaParams_channels pcm s.channels with
      | none => none
      | some channels =>
        match pcm.hw_params_set_rate_near s.sampleRate with
        | none => none
        | some actualRate =>
          let bufferSize := uintMul actualRate 100 / 1000
          let periodSize := bufferSize / 4
          if !pcm.hw_params_set_buffer_size_near bufferSize then none
          else if !pcm.hw_params_set_period_size_near periodSize then none
          else if !pcm.hw_params then none
          else
            some { s with bitDepth := bitDepth, channels := channels, sampleRate := actualRate,
                          bufferSize := pcm.hw_params_get_buffer_size,
                          periodSize := pcm.hw_params_get_period_size,
                          bytesPerFrame := uintMul (bitDepth / 8) channels }

/-! ## The write path: `WriteToRingBlocking` and the `Write*` entry points

The ring is a single-producer single-consumer queue: the render thread takes
bytes out with `ring.read` without holding `ringMutex`, and the flags `open`,
`running` and `paused` are atomics that other threads store to at any time.
What the other threads do while a write call runs is an input of the model. -/

/-- An action of another thread on the stream while a write call is in
progress: the render thread's `ring.read(dst, n)`, or a store to one of the
atomic flags. -/
inductive EnvOp where
  | consume (n : Nat)
  | storeOpen (b : Bool)
  | storeRunning (b : Bool)
  | storePaused (b : Bool)
  deriving DecidableEq, Repr

/-- Effect of one action of another thread: the stream afterwards and the
bytes the action took out of the ring. -/
def EnvOp.apply (s : OutputStreamState) : EnvOp → Option (OutputStreamState × List Byte)
  | .consume n =>
    match s.ring.read (some (List.replicate n 0)) n with
    | none => none
    | some (ring', dst', k) => some ({ s with ring := ring' }, (dst'.getD []).take k)
  | .storeOpen b => some ({ s with isOpen := b }, [])
  | .storeRunning b => some ({ s with running := b }, [])
  | .storePaused b => some ({ s with paused := b }, [])

/-- Effect of a sequence of actions of other threads, in order. -/
def EnvOp.applyAll (s : OutputStreamState) :
    List EnvOp → Option (OutputStreamState × List Byte)
  | [] => some (s, [])
  | op :: ops =>
    match op.apply s with
    | none => none
    | some (s', out) =>
      match EnvOp.applyAll s' ops with
      | none => none
      | some (s'', outs) => some (s'', out ++ outs)

/-- What the other threads do around one iteration of the loop of
`WriteToRingBlocking`: `before` the loop condition is evaluated, `between`
the call of `availableToWrite()` and the store to `writePos` in `ring.write`,
and `asleep`, while the writer is inside `ringCv.wait_until`.  `wake` is the
time in milliseconds on the steady clock at which the wait is woken (by
`notify_all` or spuriously); `none` means nothing wakes it. -/
structure WriteEnv where
  before : List EnvOp := []
  between : List EnvOp := []
  asleep : List EnvOp := []
  wake : Option Nat := none
  deriving DecidableEq, Repr

/-- The place where `WriteToRingBlocking` returns: the guard at entry, the loop
condition (`done`: `totalWritten < len` is false; `stopped`: one of the flags
is false), the `break` of a non-blocking call on a full ring (`full`), the
`break` after `wait_until` returned `timeout` (`timedOut`), the `break` after
the write of a non-blocking call (`single`). -/
inductive WriteExit where
  | guard
  | done
  | stopped
  | full
  | timedOut
  | single
  deriving DecidableEq, Repr

/-- The state of a call of `WriteToRingBlocking`: the local `totalWritten` and
the stream, together with bookkeeping that the source does not keep: the bytes
the render thread has taken out of the ring since the call began, the number of
`wait_until` calls and of `ring.write` calls made, and the time on the steady
clock. -/
structure WriteRun where
  totalWritten : Nat
  stream : OutputStreamState
  consumed : List Byte := []
  waits : Nat := 0
  writes : Nat := 0
  clock : Nat := 0
  deriving DecidableEq, Repr

/-- The call `s->ringCv.wait_until(lock, deadline)` with `wait_until` counted
in `waits`: woken at a time before the deadline the call returns `no_timeout`
and the loop goes round again (`none`); otherwise it returns `timeout` at the
deadline and the loop is left. -/
def WriteToRingBlocking_wait (deadline : Nat) (wake : Option Nat) (st : WriteRun) :
    Option WriteExit × WriteRun :=
  match wake with
  | none =>
    (some WriteExit.timedOut,
      { st with waits := st.waits + 1, clock := max st.clock deadline })
  | some w =>
    if w < deadline then
      (none, { st with waits := st.waits + 1, clock := max st.clock w })
    else
      (some WriteExit.timedOut,
        { st with waits := st.waits + 1, clock := max st.clock deadline })

/-- The lines `wrote = s->ring.write(src + totalWritten, chunk)`,
`totalWritten += wrote` and the `break` of a non-blocking call. -/
def WriteToRingBlocking_write (src : List Byte) (timeoutMs chunk : Nat) (st : WriteRun) :
    Option (Option WriteExit × WriteRun) :=
  match st.stream.ring.write (some (src.drop st.totalWritten)) chunk with
  | none => none
  | some (ring', wrote) =>
    some (if timeoutMs = 0 then some WriteExit.single else none,
      { st with stream := { st.stream with ring := ring' },
                totalWritten := sizeAdd st.totalWritten wrote,
                writes := st.writes + 1 })

/-- The loop condition and the loop body of `WriteToRingBlocking`, with the
other threads acting `between` the call of `availableToWrite()` and the write,
or while the writer is `asleep` in `wait_until`. -/
def WriteToRingBlocking_body (src : List Byte) (len timeoutMs deadline : Nat)
    (e : WriteEnv) (st : WriteRun) : Option (Option WriteExit × WriteRun) :=
  if ¬ st.totalWritten < len then some (some WriteExit.done, st)
  else if ¬ (st.stream.running = true ∧ st.stream.isOpen = true) then
    some (some WriteExit.stopped, st)
  else
    let avail := st.stream.ring.availableToWrite
    if avail = 0 then
      if timeoutMs = 0 then some (some WriteExit.full, st)
      else
        match EnvOp.applyAll st.stream e.asleep with
        | none => none
        | some (s2, c2) =>
          some (WriteToRingBlocking_wait deadline e.wake
            { st with stream := s2, consumed := st.consumed ++ c2 })
    else
      let chunk := min avail (sizeSub len st.totalWritten)
      match EnvOp.applyAll st.stream e.between with
      | none => none
      | some (s2, c2) =>
        WriteToRingBlocking_write src timeoutMs chunk
          { st with stream := s2, consumed := st.consumed ++ c2 }

/-- One iteration of the `while` loop of `WriteToRingBlocking` with the other
threads behaving as `e` says.  The result is the place of return if the
iteration leaves the loop (`none` if it goes round again) and the state
afterwards; `none` is undefined behaviour in a ring operation. -/
def WriteToRingBlocking_step (src : List Byte) (len timeoutMs deadline : Nat)
    (e : WriteEnv) (st : WriteRun) : Option (Option WriteExit × WriteRun) :=
  match EnvOp.applyAll st.stream e.before with
  | none => none
  | some (s1, c1) =>
    WriteToRingBlocking_body src len timeoutMs deadline e
      { st with stream := s1, consumed := st.consumed ++ c1 }

/-- The `while` loop of `WriteToRingBlocking`.  The first argument bounds the
number of iterations; `none` is undefined behaviour in a ring operation or an
exhausted bound.  An iteration beyond the end of the list of environments runs
with no interference. -/
def WriteToRingBlocking_loop (src : List Byte) (len timeoutMs deadline : Nat) :
    Nat → List WriteEnv → WriteRun → Option (WriteExit × WriteRun)
  | 0, _, _ => none
  | fuel + 1, envs, st =>
    match WriteToRingBlocking_step src len timeoutMs deadline (envs.headD {}) st with
    | none => none
    | some (some ex, r) => some (ex, r)
    | some (none, st') =>
      WriteToRingBlocking_loop src len timeoutMs deadline fuel envs.tail st'

/-- `WriteToRingBlocking(s, src, len, timeoutMs)` entered at time `now` with
the other threads behaving as `envs` says.  The deadline is computed once, at
entry.  The loop is given `envs.length + len + 1` iterations. -/
def WriteToRingBlocking (s : OutputStreamState) (src : Option (List Byte))
    (len timeoutMs now : Nat) (envs : List WriteEnv) : Option (WriteExit × WriteRun) :=
  match src with
  | none => some (WriteExit.guard, { totalWritten := 0, stream := s, clock := now })
  | some buf =>
    if !s.isOpen || !s.running || len = 0 then
      some (WriteExit.guard, { totalWritten := 0, stream := s, clock := now })
    else
      let deadline := now + timeoutMs
      WriteToRingBlocking_loop buf len timeoutMs deadline (envs.length + len + 1) envs
        { totalWritten := 0, stream := s, clock := now }

/-- The conversion `static_cast<int>(written)` of a `size_t` to a 32-bit
`int`. -/
def sizeToInt (n : Nat) : Int :=
  let m := n % UINT_MODULUS
  if m < 2147483648 then (m : Int) else (m : Int) - (UINT_MODULUS : Int)

/-- The tail shared by the three `Write*` functions: choose the timeout, call
`WriteToRingBlocking`, convert the count.  The result is the returned `int`,
the stream afterwards and the bytes the render thread took meanwhile. -/
def Write_ring (s : OutputStreamState) (data : Option (List Byte)) (len : Nat)
    (blocking : Bool) (now : Nat) (envs : List WriteEnv) :
    Option (Int × OutputStreamState × List Byte) :=
  let timeoutMs := if blocking then 2000 else 0
  match WriteToRingBlocking s data len timeoutMs now envs with
  | none => none
  | some (_, r) => some (sizeToInt r.totalWritten, r.stream, r.consumed)

/-- `WriteWasapi(s, data, len, blocking)` for a non-null `s`. -/
def WriteWasapi (s : OutputStreamState) (data : Option (List Byte)) (len : Nat)
    (blocking : Bool) (now : Nat) (envs : List WriteEnv) :
    Option (Int × OutputStreamState × List Byte) :=
  if !s.isOpen then some (-1, s, [])
  else if data.isNone || len = 0 then some (0, s, [])
  else if !s.running then some (-1, s, [])
  else Write_ring s data len blocking now envs

/-- `WriteCoreAudio(s, data, len, blocking)` for a non-null `s`. -/
def WriteCoreAudio (s : OutputStreamState) (data : Option (List Byte)) (len : Nat)
    (blocking : Bool) (now : Nat) (envs : List WriteEnv) :
    Option (Int × OutputStreamState × List Byte) :=
  if !s.isOpen then some (-1, s, [])
  else if data.isNone || len = 0 then some (0, s, [])
  else Write_ring s data len blocking now envs

/-- `WriteAlsa(s, data, len, blocking)` for a non-null `s`. -/
def WriteAlsa (s : OutputStreamState) (data : Option (List Byte)) (len : Nat)
    (blocking : Bool) (now : Nat) (envs : List WriteEnv) :
    Option (Int × OutputStreamState × List Byte) :=
  if !s.isOpen then some (-1, s, [])
  else if data.isNone || len = 0 then some (0, s, [])
  else Write_ring s data len blocking now envs

/-! ## Opening a stream: `InitWasapi`, `InitCoreAudio`, `InitAlsa`, `OpenOutput`

The `Init*` functions assign to `*s` as they go, and `OpenOutput` passes the
same `s` to its second attempt, so a failing run returns the stream it leaves
behind together with `false`.  `none` is an exception thrown by `ring.init`,
or the undefined conversion to `size_t` of a `ringFramesD` that is NaN,
infinite or too large. -/

/-- The answers of the Windows audio stack during one run of `InitWasapi`:
`Activate` says whether every call up to and including
`device->Activate(IAudioClient)` succeeds, `Initialize exclusive` is the answer
of `client->Initialize` in the given share mode, `GetBufferSize` is `none` when
the call fails. -/
structure WasapiDevice where
  Activate : Bool
  IsFormatSupported : WAVEFORMATEXTENSIBLE → Bool
  GetMixFormat : Option WAVEFORMATEXTENSIBLE
  Initialize : Bool → Bool
  GetBufferSize : Option Nat
  CreateEvent : Bool
  SetEventHandle : Bool
  GetService : Bool

/-- The ring sizing of `InitWasapi`: from the clamping of `bufferMs` to the
assignment of `ringDurationMs`. -/
def InitWasapi_ring (s : OutputStreamState) (bufferMs : Double) (bufferFrames : Nat) :
    Option OutputStreamState :=
  let bufferMs : Double := if bufferMs.lt 20 then 20 else bufferMs
  let bufferMs : Double := if Double.lt 2000 bufferMs then 2000 else bufferMs
  let ringFramesD : Double := ((Double.ofNat s.sampleRate).mul bufferMs).div 1000
  let ringFramesD : Double :=
    if ringFramesD.lt ((Double.ofNat bufferFrames).mul 2) then (Double.ofNat bufferFrames).mul 2
    else ringFramesD
  match ringFramesD.toSize with
  | none => none
  | some ringFrames =>
    let ringBytes := sizeMul ringFrames s.bytesPerFrame
    match RingBuffer.init ringBytes with
    | none => none
    | some ring =>
      some { s with ring := ring,
                    ringDurationMs :=
                      ((Double.ofNat ringFrames).mul 1000).div (Double.ofNat s.sampleRate) }

/-- `InitWasapi(s, deviceId, exclusive, bufferMs, bitPerfect)` against the
device `dev` that `deviceId` selects: the returned `bool` and the stream
afterwards.  The render thread the function starts is not part of the
result. -/
def InitWasapi (dev : WasapiDevice) (s : OutputStreamState) (exclusive : Bool)
    (bufferMs : Double) (bitPerfect : Bool) : Option (Bool × OutputStreamState) :=
  if !dev.Activate then some (false, s)
  else
    match InitWasapi_format s exclusive bitPerfect dev.IsFormatSupported dev.GetMixFormat with
    | none => some (false, s)
    | some s =>
      if !dev.Initialize exclusive then some (false, s)
      else
        match dev.GetBufferSize with
        | none => some (false, s)
        | some bufferFrames =>
          if bufferFrames = 0 then some (false, s)
          else if !dev.CreateEvent then some (false, s)
          else if !dev.SetEventHandle then some (false, s)
          else if !dev.GetService then some (false, s)
          else
            match InitWasapi_ring { s with bufferFrames := bufferFrames } bufferMs
                bufferFrames with
            | none => none
            | some s => some (true, { s with isOpen := true, running := false })

/-- The answers of CoreAudio during one run of `InitCoreAudio`: `setup` says
whether every call before the format negotiation succeeds (finding and
instantiating the output unit, enabling output, selecting the device). -/
structure CoreAudioDevice where
  setup : Bool
  TrySetFormat : Nat → Nat → Nat → Bool → Bool
  currentASBD : Option AudioStreamBasicDescription
  SetRenderCallback : Bool
  AudioUnitInitialize : Bool
  AudioOutputUnitStart : Bool

/-- The ring sizing of `InitCoreAudio`. -/
def InitCoreAudio_ring (s : OutputStreamState) (bufferMs : Double) : Option OutputStreamState :=
  let bufferMs : Double := if bufferMs.lt 20 then 20 else bufferMs
  let bufferMs : Double := if Double.lt 2000 bufferMs then 2000 else bufferMs
  let ringFramesD : Double := ((Double.ofNat s.sampleRate).mul bufferMs).div 1000
  let minFrames : Double := (Double.ofNat s.sampleRate).div 50
  let ringFramesD : Double := if ringFramesD.lt minFrames then minFrames else ringFramesD
  match ringFramesD.toSize with
  | none => none
  | some ringFrames =>
    let ringBytes := sizeMul ringFrames s.bytesPerFrame
    match RingBuffer.init ringBytes with
    | none => none
    | some ring =>
      some { s with ring := ring,
                    ringDurationMs :=
                      ((Double.ofNat ringFrames).mul 1000).div (Double.ofNat s.sampleRate) }

/-- `InitCoreAudio(s, deviceId, exclusive, bufferMs, bitPerfect)` against the
device `dev`: the returned `bool` and the stream afterwards. -/
def InitCoreAudio (dev : CoreAudioDevice) (s : OutputStreamState) (exclusive : Bool)
    (bufferMs : Double) (bitPerfect : Bool) : Option (Bool × OutputStreamState) :=
  if !dev.setup then some (false, s)
  else
    let s := InitCoreAudio_format s exclusive bitPerfect dev.TrySetFormat dev.currentASBD
    if !dev.SetRenderCallback then some (false, s)
    else if !dev.AudioUnitInitialize then some (false, s)
    else
      match InitCoreAudio_ring s bufferMs with
      | none => none
      | some s =>
        if !dev.AudioOutputUnitStart then some (false, s)
        else some (true, { s with isOpen := true, running := true })

/-- The stream `TrySetAlsaParams` leaves behind when it returns `false`: the
fields assigned before the failing call keep their new values. -/
def TrySetAlsaParams_failed (pcm : AlsaPcm) (s : OutputStreamState)
    (exclusive bitPerfect : Bool) : OutputStreamState :=
  if !pcm.hw_params_any then s
  else if !pcm.hw_params_set_access then s
  else
    let accepted : Option (Nat × Bool) :=
      if exclusive then
        (TrySetAlsaParams_candidates s.bitDepth bitPerfect).find?
          (fun candidate =>
            pcm.hw_params_set_format (BitDepthToAlsaFormat candidate.1 candidate.2))
      else none
    let bitDepth : Option Nat :=
      match accepted with
      | some candidate => some candidate.1
      | none =>
        match pcm.hw_params_get_format with
        | some format => some (AlsaFormatToBitDepth format)
        | none => if pcm.hw_params_set_format .S16_LE then some 16 else none
    match bitDepth with
    | none => s
    | some bitDepth =>
      match TrySetAlsaParams_channels pcm s.channels with
      | none => { s with bitDepth := bitDepth }
      | some channels =>
        match pcm.hw_params_set_rate_near s.sampleRate with
        | none => { s with bitDepth := bitDepth, channels := channels }
        | some actualRate =>
          { s with bitDepth := bitDepth, channels := channels, sampleRate := actualRate }

/-- The answers of ALSA during one run of `InitAlsa`. -/
structure AlsaDevice where
  snd_pcm_open : Bool
  pcm : AlsaPcm
  snd_pcm_prepare : Bool

/-- The ring sizing of `InitAlsa`. -/
def InitAlsa_ring (s : OutputStreamState) (bufferMs : Double) : Option OutputStreamState :=
  let bufferMs : Double := if bufferMs.lt 20 then 20 else bufferMs
  let bufferMs : Double := if Double.lt 2000 bufferMs then 2000 else bufferMs
  let ringFramesD : Double := ((Double.ofNat s.sampleRate).mul bufferMs).div 1000
  let ringFramesD : Double :=
    if ringFramesD.lt ((Double.ofNat s.periodSize).mul 4) then (Double.ofNat s.periodSize).mul 4
    else ringFramesD
  match ringFramesD.toSize with
  | none => none
  | some ringFrames =>
    let ringBytes := sizeMul ringFrames s.bytesPerFrame
    match RingBuffer.init ringBytes with
    | none => none
    | some ring =>
      some { s with ring := ring,
                    ringDurationMs :=
                      ((Double.ofNat ringFrames).mul 1000).div (Double.ofNat s.sampleRate) }

/-- `InitAlsa(s, deviceId, exclusive, bufferMs, bitPerfect)` against the device
`dev`: the returned `bool` and the stream afterwards.  The render thread the
function starts is not part of the result. -/
def InitAlsa (dev : AlsaDevice) (s : OutputStreamState) (exclusive : Bool)
    (bufferMs : Double) (bitPerfect : Bool) : Option (Bool × OutputStreamState) :=
  if !dev.snd_pcm_open then some (false, s)
  else
    match TrySetAlsaParams dev.pcm s exclusive bitPerfect with
    | none => some (false, TrySetAlsaParams_failed dev.pcm s exclusive bitPerfect)
    | some s =>
      match InitAlsa_ring s bufferMs with
      | none => none
      | some s =>
        if !dev.snd_pcm_prepare then some (false, s)
        else some (true, { s with isOpen := true })

/-- The options `OpenOutput` reads, with the defaults it uses for absent
ones. -/
structure OpenOptions where
  sampleRate : Nat := 44100
  channels : Nat := 2
  bitDepth : Nat := 16
  mode : String := "exclusive"
  bufferMs : Double := 250
  bitPerfect : Bool := false
  strictBitPerfect : Bool := false
  deriving DecidableEq, Repr

/-- The object `OpenOutput` returns for an opened stream. -/
structure OpenResult where
  handle : Nat
  sampleRate : Nat
  channels : Nat
  bitDepth : Nat
  ringDurationMs : Double
  deriving DecidableEq, Repr

/-- The globals `g_streams` (a map from handles to streams, here an association
list) and `g_nextId` (a `uint32_t`, initially 1). -/
structure Registry where
  g_streams : List (Nat × OutputStreamState) := []
  g_nextId : Nat := 1
  deriving DecidableEq, Repr

/-- What a call of `OpenOutput` ends with: a `TypeError` carrying the message
given to `ThrowTypeError` (and no stream), or the result object. -/
inductive OpenOutcome where
  | error (message : String)
  | opened (result : OpenResult)
  deriving DecidableEq, Repr

/-- The stream `OpenOutput` allocates and fills from the options. -/
def OpenOutput_state (opts : OpenOptions) : OutputStreamState :=
  { sampleRate := opts.sampleRate, channels := opts.channels, bitDepth := opts.bitDepth,
    bytesPerFrame := uintMul (opts.bitDepth / 8) opts.channels }

/-- The end of `OpenOutput`: `handle = g_nextId++`, `g_streams[handle] = s`
and the result object. -/
def OpenOutput_register (reg : Registry) (s : OutputStreamState) : Registry × OpenOutcome :=
  let handle := reg.g_nextId
  ({ g_streams := (handle, s) :: reg.g_streams.filter (fun p => decide (p.1 ≠ handle)),
     g_nextId := (reg.g_nextId + 1) % UINT_MODULUS },
   OpenOutcome.opened
     { handle := handle, sampleRate := s.sampleRate, channels := s.channels,
       bitDepth := s.bitDepth, ringDurationMs := s.ringDurationMs })

/-- `OpenOutput` on Windows, from the allocation of the stream on.  `dev`
answers the first run of `InitWasapi`, `retry` the second. -/
def OpenOutput_win32 (dev retry : WasapiDevice) (reg : Registry) (opts : OpenOptions) :
    Option (Registry × OpenOutcome) :=
  let s := OpenOutput_state opts
  if opts.mode = "shared" then
    match InitWasapi dev s false opts.bufferMs opts.bitPerfect with
    | none => none
    | some (ok, s) =>
      if !ok then some (reg, OpenOutcome.error "Failed to open shared WASAPI output")
      else some (OpenOutput_register reg s)
  else if opts.mode = "exclusive" then
    match InitWasapi dev s true opts.bufferMs opts.bitPerfect with
    | none => none
    | some (ok, s) =>
      if !ok then
        if opts.strictBitPerfect then
          some (reg,
            OpenOutcome.error "Exclusive format not supported in strict bitPerfect mode")
        else
          match InitWasapi retry s false opts.bufferMs opts.bitPerfect with
          | none => none
          | some (ok, s) =>
            if !ok then
              some (reg, OpenOutcome.error
                "Failed to open exclusive output; shared fallback also failed")
            else some (OpenOutput_register reg s)
      else some (OpenOutput_register reg s)
  else some (reg, OpenOutcome.error "Unknown mode; expected 'exclusive' or 'shared'")

/-- `OpenOutput` on macOS, from the allocation of the stream on. -/
def OpenOutput_macos (dev retry : CoreAudioDevice) (reg : Registry) (opts : OpenOptions) :
    Option (Registry × OpenOutcome) :=
  let s := OpenOutput_state opts
  let exclusive := decide (opts.mode = "exclusive")
  match InitCoreAudio dev s exclusive opts.bufferMs opts.bitPerfect with
  | none => none
  | some (ok, s) =>
    if !ok then
      if opts.strictBitPerfect && exclusive then
        some (reg,
          OpenOutcome.error "Exclusive format not supported in strict bitPerfect mode")
      else
        match InitCoreAudio retry s false opts.bufferMs false with
        | none => none
        | some (ok, s) =>
          if !ok then some (reg, OpenOutcome.error "Failed to open CoreAudio output")
          else some (OpenOutput_register reg s)
    else some (OpenOutput_register reg s)

/-- `OpenOutput` on Linux, from the allocation of the stream on. -/
def OpenOutput_linux (dev retry : AlsaDevice) (reg : Registry) (opts : OpenOptions) :
    Option (Registry × OpenOutcome) :=
  let s := OpenOutput_state opts
  let exclusive := decide (opts.mode = "exclusive")
  match InitAlsa dev s exclusive opts.bufferMs opts.bitPerfect with
  | none => none
  | some (ok, s) =>
    if !ok then
      if opts.strictBitPerfect && exclusive then
        some (reg,
          OpenOutcome.error "Exclusive format not supported in strict bitPerfect mode")
      else
        match InitAlsa retry s false opts.bufferMs false with
        | none => none
        | some (ok, s) =>
          if !ok then some (reg, OpenOutcome.error "Failed to open ALSA output")
          else some (OpenOutput_register reg s)
    else some (OpenOutput_register reg s)

/-! ## Operands of the subtractions in `RingBuffer::write` and `read` -/

/-- The operand pairs `(a, b)` of the subtractions `a - b` that
`RingBuffer::write(src, len)` evaluates for a non-null `src`, in evaluation
order: those of the free-space formula, `capacity - t`, and `len - first` when
the copy wraps. -/
def RingBuffer.write_subtractions (rb : RingBuffer) (len : Nat) : List (Nat × Nat) :=
  if len = 0 then []
  else
    let r := rb.readPos
    let t := rb.writePos
    let availOps : List (Nat × Nat) :=
      if t ≥ r then
        [(t, r), (rb.capacity, sizeSub t r), (sizeSub rb.capacity (sizeSub t r), 1)]
      else [(r, t), (sizeSub r t, 1)]
    let avail :=
      if t ≥ r then sizeSub (sizeSub rb.capacity (sizeSub t r)) 1
      else sizeSub (sizeSub r t) 1
    if avail = 0 then availOps
    else
      let len := if len > avail then avail else len
      let first := min len (sizeSub rb.capacity t)
      availOps ++ [(rb.capacity, t)] ++ (if len > first then [(len, first)] else [])

/-- The operand pairs `(a, b)` of the subtractions `a - b` that
`RingBuffer::read(dst, len)` evaluates for a non-null `dst`, in evaluation
order: `(t + capacity) - r`, `capacity - r`, and `len - first` when the copy
wraps. -/
def RingBuffer.read_subtractions (rb : RingBuffer) (len : Nat) : List (Nat × Nat) :=
  if len = 0 then []
  else
    let r := rb.readPos
    let t := rb.writePos
    let avail := sizeSub (sizeAdd t rb.capacity) r % rb.capacity
    if avail = 0 then [(sizeAdd t rb.capacity, r)]
    else
      let len := if len > avail then avail else len
      let first := min len (sizeSub rb.capacity r)
      [(sizeAdd t rb.capacity, r), (rb.capacity, r)]
        ++ (if len > first then [(len, first)] else [])

/-! ## The frame count of the ring -/

/-- The value of the local `ringFrames` in the three `Init*` functions, which
differ in the minimum `minFrames` only: `bufferMs` clamped to `[20, 2000]`,
`ringFramesD = sampleRate * bufferMs / 1000` raised to `minFrames` if it is
less, and the conversion to `size_t` (`none` where it is undefined). -/
def ringFramesFor (sampleRate : Nat) (bufferMs minFrames : Double) : Option Nat :=
  let bufferMs : Double := if bufferMs.lt 20 then 20 else bufferMs
  let bufferMs : Double := if Double.lt 2000 bufferMs then 2000 else bufferMs
  let ringFramesD : Double := ((Double.ofNat sampleRate).mul bufferMs).div 1000
  let ringFramesD : Double := if ringFramesD.lt minFrames then minFrames else ringFramesD
  ringFramesD.toSize

/-- The local `ringFrames` of `InitWasapi`: at least `bufferFrames * 2.0`. -/
def InitWasapi_ringFrames (sampleRate : Nat) (bufferMs : Double) (bufferFrames : Nat) :
    Option Nat :=
  ringFramesFor sampleRate bufferMs ((Double.ofNat bufferFrames).mul 2)

/-- The local `ringFrames` of `InitCoreAudio`: at least `sampleRate / 50.0`. -/
def InitCoreAudio_ringFrames (sampleRate : Nat) (bufferMs : Double) : Option Nat :=
  ringFramesFor sampleRate bufferMs ((Double.ofNat sampleRate).div 50)

/-- The local `ringFrames` of `InitAlsa`: at least `periodSize * 4`. -/
def InitAlsa_ringFrames (sampleRate : Nat) (bufferMs : Double) (periodSize : Nat) :
    Option Nat :=
  ringFramesFor sampleRate bufferMs ((Double.ofNat periodSize).mul 4)

/-- The value assigned to `ringDurationMs`:
`static_cast<double>(ringFrames) * 1000.0 / static_cast<double>(sampleRate)`. -/
def ringDurationFor (ringFrames sampleRate : Nat) : Double :=
  ((Double.ofNat ringFrames).mul 1000).div (Double.ofNat sampleRate)

/-! ## `Close` and the registry -/

/-- What a call of `Close` ends with: a `TypeError` carrying the message given
to `ThrowTypeError`, or the value `undefined`. -/
inductive CloseOutcome where
  | error (message : String)
  | undefined
  deriving DecidableEq, Repr

/-- `Close(info)`: `handle` is `info[0]` converted to `uint32_t`, or `none`
when the argument is missing or not a number.  The result is the registry
afterwards, the stream that was handed to `CloseWasapi` / `CloseCoreAudio` /
`CloseAlsa` and deleted (if any), and what the call ends with. -/
def Close (reg : Registry) (handle : Option Nat) :
    Registry × Option OutputStreamState × CloseOutcome :=
  match handle with
  | none => (reg, none, CloseOutcome.error "close(handle) requires a handle")
  | some handle =>
    match reg.g_streams.find? (fun p => p.1 == handle) with
    | some p =>
      ({ reg with g_streams := reg.g_streams.filter (fun p => decide (p.1 ≠ handle)) },
       some p.2, CloseOutcome.undefined)
    | none => (reg, none, CloseOutcome.undefined)

/-- The registry states that `n` successful opens, and any number of closes
between them, lead to from the initial globals. -/
inductive Registry.Reachable : Nat → Registry → Prop where
  | start : Registry.Reachable 0 {}
  | opened {n : Nat} {reg : Registry} (s : OutputStreamState) :
      Registry.Reachable n reg → Registry.Reachable (n + 1) (OpenOutput_register reg s).1
  | closed {n : Nat} {reg : Registry} (handle : Nat) :
      Registry.Reachable n reg → Registry.Reachable n (Close reg (some handle)).1
/-! ## Sessions: write calls and render steps in sequence -/

/-- An event of a playback session, seen from the stream: a call
`WriteToRingBlocking(s, buf, len, timeoutMs)` with `len` the length of `buf`,
while the other threads behave as `envs` says, or a render step of one of the
three backends: the buffer fill of one iteration of `WasapiRenderThread` with
the demand `framesToWrite` and the block `data` handed out by `GetBuffer`, one
invocation of `CoreAudioRenderCallback` with the demand `inNumberFrames` and
the buffer list `ioData`, or the buffer fill of one iteration of
`AlsaRenderThread`, whose demand is `periodSize`. -/
inductive SessionOp where
  | write (buf : List Byte) (timeoutMs : Nat) (envs : List WriteEnv)
  | renderWasapi (framesToWrite : Nat) (data : List Byte)
  | renderCoreAudio (inNumberFrames : Nat) (ioData : List AudioBuffer)
  | renderAlsa
  deriving DecidableEq, Repr

/-- A session: the stream, the scratch vector `temp` of `WasapiRenderThread`
and the vector `tempBuffer` of `AlsaRenderThread`, together with bookkeeping
that the source does not keep: the bytes the write calls have reported as
written, the blocks handed to the device by the render steps (the first
`framesToWrite * bytesPerFrame` bytes of `data`, the bytes the buffer list
carries, the frames of `tempBuffer` passed to `snd_pcm_writei`), the bytes the
render thread took out of the ring while a write call was in progress, call by
call, and the number of bytes taken out of the ring in all. -/
structure Session where
  stream : OutputStreamState
  temp : List Byte := []
  tempBuffer : List Byte := []
  accepted : List Byte := []
  handed : List (List Byte) := []
  during : List (List Byte) := []
  consumed : Nat := 0
  deriving DecidableEq, Repr

/-- The session at the start of playback on the stream `s`: nothing written,
nothing handed out, and `tempBuffer` as `AlsaRenderThread` allocates it. -/
def Session.start (s : OutputStreamState) : Session :=
  { stream := s, tempBuffer := AlsaRenderThread_tempBuffer s }

/-- One event of a session; `none` is undefined behaviour. -/
def Session.step (ss : Session) : SessionOp → Option Session
  | .write buf timeoutMs envs =>
    match WriteToRingBlocking ss.stream (some buf) buf.length timeoutMs 0 envs with
    | none => none
    | some (_, r) =>
      some { ss with stream := r.stream,
                     accepted := ss.accepted ++ buf.take r.totalWritten,
                     during := ss.during ++ [r.consumed],
                     consumed := ss.consumed + r.consumed.length }
  | .renderWasapi framesToWrite data =>
    match WasapiRenderThread_fill ss.stream ss.temp framesToWrite data with
    | none => none
    | some (s', temp', out) =>
      some { ss with stream := s', temp := temp',
                     handed := ss.handed
                       ++ [out.take (sizeMul framesToWrite ss.stream.bytesPerFrame)],
                     consumed := ss.consumed
                       + (ss.stream.ring.availableToRead - s'.ring.availableToRead) }
  | .renderCoreAudio inNumberFrames ioData =>
    match CoreAudioRenderCallback ss.stream inNumberFrames ioData with
    | none => none
    | some (s', ioData', _) =>
      some { ss with stream := s',
                     handed := ss.handed ++ [audioBytes ioData'],
                     consumed := ss.consumed
                       + (ss.stream.ring.availableToRead - s'.ring.availableToRead) }
  | .renderAlsa =>
    match AlsaRenderThread_fill ss.stream ss.tempBuffer with
    | none => none
    | some (s', tempBuffer', framesToWrite) =>
      some { ss with stream := s', tempBuffer := tempBuffer',
                     handed := ss.handed
                       ++ [tempBuffer'.take (framesToWrite * ss.stream.bytesPerFrame)],
                     consumed := ss.consumed
                       + (ss.stream.ring.availableToRead - s'.ring.availableToRead) }

/-- The events of a session in order. -/
def Session.run (ss : Session) : List SessionOp → Option Session
  | [] => some ss
  | op :: ops =>
    match ss.step op with
    | none => none
    | some ss' => Session.run ss' ops

/-- The `i`-th frame of `frameBytes` bytes in a block. -/
def frameAt (frameBytes : Nat) (block : List Byte) (i : Nat) : List Byte :=
  (block.drop (i * frameBytes)).take frameBytes

/-- An action of another thread that is a read of whole frames by the render
thread. -/
def EnvOp.wholeFrames (frameBytes : Nat) : EnvOp → Bool
  | .consume n => decide (n % frameBytes = 0)
  | _ => false

/-- The other threads do nothing during a write call but read whole frames. -/
def WriteEnv.wholeFrames (frameBytes : Nat) (e : WriteEnv) : Bool :=
  (e.before ++ e.between ++ e.asleep).all (EnvOp.wholeFrames frameBytes)

/-- An event that deals in whole frames: a write of a whole number of frames
for which the ring has room at the time of the call, during which the render
thread reads whole frames only; a WASAPI demand for a number of frames that the
block `data` has room for; a CoreAudio demand with one buffer of the size of
the demand (the interleaved layout); an ALSA demand on a stream whose period
has a byte count that fits `size_t` and is not zero bytes per frame. -/
def SessionOp.wholeFrames (ss : Session) : SessionOp → Bool
  | .write buf _ envs =>
    decide (buf.length % ss.stream.bytesPerFrame = 0
      ∧ buf.length ≤ ss.stream.ring.availableToWrite)
      && envs.all (WriteEnv.wholeFrames ss.stream.bytesPerFrame)
  | .renderWasapi framesToWrite data =>
    decide (framesToWrite < UINT_MODULUS
      ∧ framesToWrite * ss.stream.bytesPerFrame ≤ data.length)
  | .renderCoreAudio inNumberFrames ioData =>
    match ioData with
    | [b] =>
      decide (inNumberFrames * ss.stream.bytesPerFrame < UINT_MODULUS
        ∧ b.mDataByteSize = inNumberFrames * ss.stream.bytesPerFrame
        ∧ b.mDataByteSize ≤ b.mData.length)
    | _ => false
  | .renderAlsa =>
    decide (ss.stream.periodSize * ss.stream.bytesPerFrame < SIZE_MODULUS
      ∧ 0 < ss.stream.bytesPerFrame)

/-- Every event of the session deals in whole frames at the time it takes
place. -/
def Session.wholeFrames (ss : Session) : List SessionOp → Bool
  | [] => true
  | op :: ops =>
    op.wholeFrames ss &&
      (match ss.step op with
       | none => true
       | some ss' => Session.wholeFrames ss' ops)

/-- The block `block` consists of whole frames of `frameBytes` bytes: `k`
bytes that stand in `accepted` from offset `c` on, both multiples of
`frameBytes`, followed by zeros. -/
def Framed (frameBytes : Nat) (accepted block : List Byte) : Prop :=
  ∃ c k, frameBytes ∣ c ∧ frameBytes ∣ k ∧ c + k ≤ accepted.length ∧ k ≤ block.length ∧
    frameBytes ∣ block.length ∧
    block = (accepted.drop c).take k ++ List.replicate (block.length - k) 0

/-- The invariant of a session that deals in whole frames, on a stream that is
`s0` but for its ring and `lastHardwarePaddingFrames`: the ring is well formed
and holds the bytes accepted and not yet consumed, `tempBuffer` has the size it
was allocated with, the counts of bytes accepted and consumed are multiples of
`bytesPerFrame`, and every block handed to the device or taken during a write
call consists of whole frames. -/
structure Session.Aligned (s0 : OutputStreamState) (ss : Session) : Prop where
  wf : ss.stream.ring.WellFormed
  same : ∃ ring padding,
    ss.stream = { s0 with ring := ring, lastHardwarePaddingFrames := padding }
  temp : ss.tempBuffer.length = sizeMul s0.periodSize s0.bytesPerFrame
  unread : ss.accepted.drop ss.consumed = ss.stream.ring.unread
  le : ss.consumed ≤ ss.accepted.length
  cons : s0.bytesPerFrame ∣ ss.consumed
  acc : s0.bytesPerFrame ∣ ss.accepted.length
  handed : ∀ block ∈ ss.handed ++ ss.during, Framed s0.bytesPerFrame ss.accepted block

/-- The bytes the write calls of a session pass, in order. -/
def Session.offered : List SessionOp → List Byte
  | [] => []
  | .write buf _ _ :: ops => buf ++ Session.offered ops
  | _ :: ops => Session.offered ops

/-- The byte counts the render steps of a session on the stream `s` ask for, in
order: `framesToWrite * bytesPerFrame`, `inNumberFrames * bytesPerFrame`,
`periodSize * bytesPerFrame`. -/
def Session.demanded (s : OutputStreamState) : List SessionOp → List Nat
  | [] => []
  | .write _ _ _ :: ops => Session.demanded s ops
  | .renderWasapi framesToWrite _ :: ops =>
    (framesToWrite * s.bytesPerFrame) :: Session.demanded s ops
  | .renderCoreAudio inNumberFrames _ :: ops =>
    (inNumberFrames * s.bytesPerFrame) :: Session.demanded s ops
  | .renderAlsa :: ops => (s.periodSize * s.bytesPerFrame) :: Session.demanded s ops

/-! ## The render threads: `WasapiRenderThread` and `AlsaRenderThread`

The loops of the two render threads, one iteration per element of a list of
answers of the backend.  `ringCv.notify_all()` and the hand-over of a block to
the device are recorded as events. -/

/-- A store to one of the atomic flags of the stream by a thread other than
the render thread (`Close*`, `Pause`, `Resume`). -/
inductive FlagStore where
  | storeOpen (b : Bool)
  | storeRunning (b : Bool)
  | storePaused (b : Bool)
  deriving DecidableEq, Repr

/-- Effect of a store to a flag. -/
def FlagStore.apply (s : OutputStreamState) : FlagStore → OutputStreamState
  | .storeOpen b => { s with isOpen := b }
  | .storeRunning b => { s with running := b }
  | .storePaused b => { s with paused := b }

/-- Effect of a sequence of stores, in order. -/
def FlagStore.applyAll (s : OutputStreamState) (stores : List FlagStore) : OutputStreamState :=
  stores.foldl FlagStore.apply s

/-- What a render thread does that others can observe: a block of `frames`
frames accepted by the device (`ReleaseBuffer` succeeded, `snd_pcm_writei`
returned a count), and a call `ringCv.notify_all()`. -/
inductive RenderEvent where
  | handed (block : List Byte) (frames : Nat)
  | notify
  deriving DecidableEq, Repr

/-- The state of a render thread: the stream, its scratch vector (`temp`,
`tempBuffer`), the events so far, and whether the thread function has
returned. -/
structure RenderRun where
  stream : OutputStreamState
  temp : List Byte := []
  events : List RenderEvent := []
  exited : Bool := false
  deriving DecidableEq, Repr

/-- Return values of `WaitForSingleObject`; `WAIT_FAILED` stands for every
value other than `WAIT_OBJECT_0` and `WAIT_TIMEOUT`. -/
inductive WaitResult where
  | WAIT_OBJECT_0
  | WAIT_TIMEOUT
  | WAIT_FAILED
  deriving DecidableEq, Repr

/-- What happens around one iteration of the loop of `WasapiRenderThread`: the
stores of other threads `before` the loop condition is evaluated and
`duringWait`, the result of the wait, of `GetCurrentPadding` (`none`: failed),
of `GetBuffer` (`none`: failed or a null block) and of `ReleaseBuffer`. -/
structure WasapiCycle where
  before : List FlagStore := []
  duringWait : List FlagStore := []
  waitRes : WaitResult := WaitResult.WAIT_OBJECT_0
  GetCurrentPadding : Option Nat := some 0
  GetBuffer : Option (List Byte) := none
  ReleaseBuffer : Bool := true
  deriving DecidableEq, Repr

/-- One evaluation of the loop condition of `WasapiRenderThread` followed by
the loop body.  The flag of the result says whether the loop is left (the
condition is false, or a `break`); `none` is undefined behaviour in the buffer
fill. -/
def WasapiRenderThread_iteration (st : RenderRun) (c : WasapiCycle) :
    Option (Bool × RenderRun) :=
  let s := FlagStore.applyAll st.stream c.before
  if !(s.running && s.isOpen) then some (true, { st with stream := s })
  else
    let s := FlagStore.applyAll s c.duringWait
    if !s.running then some (true, { st with stream := s })
    else
      match c.waitRes with
      | .WAIT_TIMEOUT => some (false, { st with stream := s })
      | .WAIT_FAILED => some (true, { st with stream := s })
      | .WAIT_OBJECT_0 =>
        match c.GetCurrentPadding with
        | none => some (true, { st with stream := s })
        | some padding =>
          let s := { s with lastHardwarePaddingFrames := padding }
          let framesToWrite := if s.bufferFrames > padding then s.bufferFrames - padding else 0
          if framesToWrite = 0 then some (false, { st with stream := s })
          else
            match c.GetBuffer with
            | none => some (true, { st with stream := s })
            | some data =>
              match WasapiRenderThread_fill s st.temp framesToWrite data with
              | none => none
              | some (s', temp', out) =>
                if !c.ReleaseBuffer then some (true, { st with stream := s', temp := temp' })
                else
                  some (false,
                    { st with stream := s', temp := temp',
                              events := st.events
                                ++ [RenderEvent.handed out framesToWrite, RenderEvent.notify] })

/-- The `while` loop of `WasapiRenderThread`, one iteration per cycle.  The
flag of the result says whether the loop has been left; when the cycles are
used up first the thread is still in its loop. -/
def WasapiRenderThread_loop (st : RenderRun) : List WasapiCycle → Option (Bool × RenderRun)
  | [] => some (false, st)
  | c :: cs =>
    match WasapiRenderThread_iteration st c with
    | none => none
    | some (true, st') => some (true, st')
    | some (false, st') => WasapiRenderThread_loop st' cs

/-- `WasapiRenderThread(s)` for a non-null `s`: `valid` says whether the
handles `audioClient`, `renderClient` and `hEvent` are all set, `Start` whether
`IAudioClient::Start` succeeds. -/
def WasapiRenderThread (s : OutputStreamState) (valid Start : Bool)
    (cycles : List WasapiCycle) : Option RenderRun :=
  if !valid then some { stream := { s with isOpen := false }, exited := true }
  else
    let s := { s with running := true }
    if !Start then
      some { stream := { s with running := false, isOpen := false }, exited := true }
    else
      match WasapiRenderThread_loop { stream := s } cycles with
      | none => none
      | some (false, st) => some st
      | some (true, st) =>
        some { st with stream := { st.stream with running := false, isOpen := false },
                       events := st.events ++ [RenderEvent.notify],
                       exited := true }

/-- The error number `EPIPE`. -/
def EPIPE : Int := 32

/-- What happens around one iteration of the loop of `AlsaRenderThread`: the
stores of other threads `before` the loop condition is evaluated, the value
`snd_pcm_writei` returns (a frame count or a negated error number), the value
`snd_pcm_prepare` returns if it is called, and `snd_pcm_delay` (`some d`: it
returned 0 with `delayFrames = d`). -/
structure AlsaCycle where
  before : List FlagStore := []
  snd_pcm_writei : Int := 0
  snd_pcm_prepare : Int := 0
  snd_pcm_delay : Option Int := none
  deriving DecidableEq, Repr

/-- One evaluation of the loop condition of `AlsaRenderThread` followed by the
loop body.  The flag of the result says whether the loop is left; `none` is
undefined behaviour in the buffer fill. -/
def AlsaRenderThread_iteration (st : RenderRun) (c : AlsaCycle) : Option (Bool × RenderRun) :=
  let s := FlagStore.applyAll st.stream c.before
  if !s.running then some (true, { st with stream := s })
  else if s.paused then
    match AlsaRenderThread_fill s st.temp with
    | none => none
    | some (s', t, frames) =>
      let err := c.snd_pcm_writei
      let events := if err ≥ 0 then st.events ++ [RenderEvent.handed t frames] else st.events
      if err = -EPIPE then some (false, { st with stream := s', temp := t, events := events })
      else if err < 0 then some (true, { st with stream := s', temp := t, events := events })
      else some (false, { st with stream := s', temp := t, events := events })
  else
    match AlsaRenderThread_fill s st.temp with
    | none => none
    | some (s', t, framesToWrite) =>
      let framesWritten := c.snd_pcm_writei
      let events :=
        if framesWritten ≥ 0 then st.events ++ [RenderEvent.handed t framesToWrite]
        else st.events
      if framesWritten = -EPIPE ∧ c.snd_pcm_prepare < 0 then
        some (true, { st with stream := s', temp := t, events := events })
      else if framesWritten ≠ -EPIPE ∧ framesWritten < 0 then
        some (true, { st with stream := s', temp := t, events := events })
      else
        let s' :=
          match c.snd_pcm_delay with
          | some delayFrames =>
            if delayFrames ≥ 0 then
              { s' with lastHardwarePaddingFrames := (delayFrames % (UINT_MODULUS : Int)).toNat }
            else s'
          | none => s'
        some (false,
          { st with stream := s', temp := t, events := events ++ [RenderEvent.notify] })

/-- The `while` loop of `AlsaRenderThread`, one iteration per cycle. -/
def AlsaRenderThread_loop (st : RenderRun) : List AlsaCycle → Option (Bool × RenderRun)
  | [] => some (false, st)
  | c :: cs =>
    match AlsaRenderThread_iteration st c with
    | none => none
    | some (true, st') => some (true, st')
    | some (false, st') => AlsaRenderThread_loop st' cs

/-- `AlsaRenderThread(s)` for a non-null `s`: `valid` says whether `pcmHandle`
is set. -/
def AlsaRenderThread (s : OutputStreamState) (valid : Bool) (cycles : List AlsaCycle) :
    Option RenderRun :=
  if !valid then some { stream := s, exited := true }
  else
    let s := { s with running := true }
    match AlsaRenderThread_loop { stream := s, temp := AlsaRenderThread_tempBuffer s } cycles with
    | none => none
    | some (false, st) => some st
    | some (true, st) =>
      some { st with stream := { st.stream with running := false }, exited := true }
/-! ## The ring shared by two threads

`RingBuffer::write` runs on the producer thread and `RingBuffer::read` on the
consumer thread, with no lock.  Each call is three steps here: the load of the
cursor of the other side (`memory_order_acquire`), the rest of the call up to
the end of the copies, and the store to the own cursor
(`memory_order_release`); the steps of the two threads interleave in any
order.

The memory orders are modelled as the C++ memory model defines them for this
program.  Every cursor has one storing thread, so its modification order is
the order of the stores; a load of it by the other thread returns one of the
stores made so far, but none older than a store the loading thread has
already loaded.  A release store publishes the copies its thread made before
it, and an acquire load that returns the store makes those copies happen
before everything the loading thread does next; that is the only
synchronisation between the two threads.  A copy of one thread and a copy of
the other that touch the same byte of `data`, one of them a write, without the
one happening before the other, are a data race. -/

/-- A store to `readPos` or `writePos`: the value stored and the number of
bytes the storing thread had copied in all (out of the ring for `readPos`, into
it for `writePos`) when it made the store.  The copies are numbered in the
order in which their thread makes them, so the store publishes the copies
numbered below `copied`. -/
structure CursorStore where
  value : Nat
  copied : Nat
  deriving DecidableEq, Repr

/-- The stores to a cursor so far: the latest one and the ones before it,
newest first. -/
structure CursorHistory where
  latest : CursorStore := { value := 0, copied := 0 }
  older : List CursorStore := []
  deriving DecidableEq, Repr

/-- All stores to a cursor, newest first. -/
def CursorHistory.stores (h : CursorHistory) : List CursorStore := h.latest :: h.older

/-- A further store to a cursor. -/
def CursorHistory.store (h : CursorHistory) (m : CursorStore) : CursorHistory :=
  { latest := m, older := h.latest :: h.older }

/-- Where a thread stands in its call of `write` or `read`: between two calls,
after the acquire load of the cursor of the other side (which returned
`cursor`), or after its copies, with the value `cursor` still to be stored to
its own cursor. -/
inductive SpscPhase where
  | idle
  | loaded (cursor : Nat)
  | copied (cursor : Nat)
  deriving DecidableEq, Repr

/-- A thread: where it stands, and how many copies of the other thread happen
before its next step (the largest `copied` among the stores it has loaded). -/
structure SpscThread where
  phase : SpscPhase := SpscPhase.idle
  knows : Nat := 0
  deriving DecidableEq, Repr

/-- The ring shared by the producer and the consumer: `data`, `capacity`, the
stores to the two cursors, the two threads, and bookkeeping that the source
does not keep: the bytes copied into the ring and the bytes copied out of it,
each in the order of the copies, the index in `data` of each of those copies,
and whether a data race has taken place. -/
structure Spsc where
  data : List Byte
  capacity : Nat
  readPos : CursorHistory := {}
  writePos : CursorHistory := {}
  producer : SpscThread := {}
  consumer : SpscThread := {}
  written : List Byte := []
  delivered : List Byte := []
  writtenAt : List Nat := []
  deliveredAt : List Nat := []
  raced : Bool := false
  deriving DecidableEq, Repr

/-- The shared ring after `RingBuffer::init(size)`, which happens before both
threads start. -/
def Spsc.init (size : Nat) : Option Spsc :=
  match RingBuffer.init size with
  | none => none
  | some rb => some { data := rb.data, capacity := rb.capacity }

/-- A step of one of the two threads.  `producerLoad age` is
`readPos.load(memory_order_acquire)` in `write`, returning the store that has
`age` stores after it; `producerCopy src len` is the rest of `write(src, len)`
up to the second `memcpy`; `producerStore` is
`writePos.store(..., memory_order_release)`.  The three steps of the consumer
are those of `read(dst, len)`. -/
inductive SpscStep where
  | producerLoad (age : Nat)
  | producerCopy (src : List Byte) (len : Nat)
  | producerStore
  | consumerLoad (age : Nat)
  | consumerCopy (dst : List Byte) (len : Nat)
  | consumerStore
  deriving DecidableEq, Repr

/-- Whether one of the `count` bytes that a thread copies from the cursor value
`cursor` on is a byte that a copy of the other thread has touched without that
copy happening before.  The `i`-th byte copied is the byte of `data` at index
`(cursor + i) % capacity` (the first `memcpy` runs up to the end of `data`, the
second from its start); `others` lists the indices of the copies of the other
thread in order, and those numbered below `knows` happen before. -/
def Spsc.conflict (capacity cursor count : Nat) (others : List Nat) (knows : Nat) : Bool :=
  (List.range count).any (fun i =>
    (others.drop knows).any (fun index => decide (index = (cursor + i) % capacity)))

/-- One step.  A step that its thread cannot take where it stands, or a load of
a store that does not exist or is older than one the thread has loaded before,
leaves the state as it is; `none` is undefined behaviour in `write` or
`read`. -/
def Spsc.step (st : Spsc) : SpscStep → Option Spsc
  | .producerLoad age =>
    match st.producer.phase, st.readPos.stores[age]? with
    | .idle, some m =>
      if st.producer.knows ≤ m.copied then
        some { st with producer := { phase := .loaded m.value, knows := m.copied } }
      else some st
    | _, _ => some st
  | .producerCopy src len =>
    match st.producer.phase with
    | .loaded r =>
      let snapshot : RingBuffer :=
        { data := st.data, capacity := st.capacity, readPos := r,
          writePos := st.writePos.latest.value }
      match snapshot.write (some src) len with
      | none => none
      | some (rb', k) =>
        some { st with
          data := rb'.data
          written := st.written ++ src.take k
          writtenAt := st.writtenAt
            ++ (List.range k).map (fun i => (st.writePos.latest.value + i) % st.capacity)
          producer :=
            { st.producer with
              phase := if k = 0 then .idle else .copied rb'.writePos }
          raced := st.raced ||
            Spsc.conflict st.capacity st.writePos.latest.value k st.deliveredAt
              st.producer.knows }
    | _ => some st
  | .producerStore =>
    match st.producer.phase with
    | .copied t =>
      some { st with
        writePos := st.writePos.store { value := t, copied := st.written.length }
        producer := { st.producer with phase := .idle } }
    | _ => some st
  | .consumerLoad age =>
    match st.consumer.phase, st.writePos.stores[age]? with
    | .idle, some m =>
      if st.consumer.knows ≤ m.copied then
        some { st with consumer := { phase := .loaded m.value, knows := m.copied } }
      else some st
    | _, _ => some st
  | .consumerCopy dst len =>
    match st.consumer.phase with
    | .loaded t =>
      let snapshot : RingBuffer :=
        { data := st.data, capacity := st.capacity,
          readPos := st.readPos.latest.value, writePos := t }
      match snapshot.read (some dst) len with
      | none => none
      | some (rb', dst', k) =>
        some { st with
          delivered := st.delivered ++ (dst'.getD []).take k
          deliveredAt := st.deliveredAt
            ++ (List.range k).map (fun i => (st.readPos.latest.value + i) % st.capacity)
          consumer :=
            { st.consumer with
              phase := if k = 0 then .idle else .copied rb'.readPos }
          raced := st.raced ||
            Spsc.conflict st.capacity st.readPos.latest.value k st.writtenAt
              st.consumer.knows }
    | _ => some st
  | .consumerStore =>
    match st.consumer.phase with
    | .copied r =>
      some { st with
        readPos := st.readPos.store { value := r, copied := st.delivered.length }
        consumer := { st.consumer with phase := .idle } }
    | _ => some st

/-- The steps of a schedule in order. -/
def Spsc.run (st : Spsc) : List SpscStep → Option Spsc
  | [] => some st
  | a :: as =>
    match st.step a with
    | none => none
    | some st' => Spsc.run st' as

/-- The caller of `write(src, len)` passes a block of at least `len` bytes, and
the caller of `read(dst, len)` a block with room for `len` bytes. -/
def SpscStep.valid : SpscStep → Bool
  | .producerCopy src len => decide (len ≤ src.length)
  | .consumerCopy dst len => decide (len ≤ dst.length)
  | _ => true
/-- The invariant of the shared ring.  With `R` and `W` the counts published
by the latest stores to `readPos` and `writePos`: the values stored to a cursor
are its counts modulo the capacity, with counts that grow from store to store;
the counts are ordered as
`producer.knows <= R <= delivered <= consumer.knows <= W <= written
< producer.knows + capacity`; each thread stands where its counts say; the
bytes numbered from `R` up to the number written lie in `data` at their index;
the bytes delivered are the first bytes written; the copy numbered `p` of
either thread touched the byte at index `p % capacity`; and no data race has
taken place. -/
structure Spsc.Inv (st : Spsc) : Prop where
  cap_pos : 0 < st.capacity
  cap_le : st.capacity ≤ VECTOR_MAX_SIZE
  data_len : st.data.length = st.capacity
  rhist : ∀ m ∈ st.readPos.stores,
    m.value = m.copied % st.capacity ∧ m.copied ≤ st.readPos.latest.copied
  rsorted : st.readPos.stores.Pairwise (fun a b => b.copied < a.copied)
  whist : ∀ m ∈ st.writePos.stores,
    m.value = m.copied % st.capacity ∧ m.copied ≤ st.writePos.latest.copied
  wsorted : st.writePos.stores.Pairwise (fun a b => b.copied < a.copied)
  kp_le : st.producer.knows ≤ st.readPos.latest.copied
  r_le : st.readPos.latest.copied ≤ st.delivered.length
  rc_le : st.delivered.length ≤ st.consumer.knows
  kc_le : st.consumer.knows ≤ st.writePos.latest.copied
  w_le : st.writePos.latest.copied ≤ st.written.length
  wc_lt : st.written.length < st.producer.knows + st.capacity
  pphase :
    (st.producer.phase = SpscPhase.idle → st.written.length = st.writePos.latest.copied) ∧
    (∀ r, st.producer.phase = SpscPhase.loaded r →
      st.written.length = st.writePos.latest.copied ∧ r = st.producer.knows % st.capacity) ∧
    (∀ t, st.producer.phase = SpscPhase.copied t →
      t = st.written.length % st.capacity ∧ st.writePos.latest.copied < st.written.length)
  cphase :
    (st.consumer.phase = SpscPhase.idle → st.delivered.length = st.readPos.latest.copied) ∧
    (∀ t, st.consumer.phase = SpscPhase.loaded t →
      st.delivered.length = st.readPos.latest.copied ∧ t = st.consumer.knows % st.capacity) ∧
    (∀ r, st.consumer.phase = SpscPhase.copied r →
      r = st.delivered.length % st.capacity ∧ st.readPos.latest.copied < st.delivered.length)
  content : ∀ p, st.readPos.latest.copied ≤ p → p < st.written.length →
    st.data[p % st.capacity]? = st.written[p]?
  fifo : st.delivered = st.written.take st.delivered.length
  wat : st.writtenAt = (List.range st.written.length).map (fun p => p % st.capacity)
  dat : st.deliveredAt = (List.range st.delivered.length).map (fun p => p % st.capacity)
  race_free : st.raced = false
/-! ## Concrete states used to exercise the theorems -/

/-- The ring after `init(4)`, `write` of the bytes 1, 2, 3 and a `read` of two
bytes: one unread byte (3) at index 2. -/
def exampleRing : RingBuffer :=
  { data := [1, 2, 3, 0], capacity := 4, readPos := 2, writePos := 3 }

/-- The ring after `init(4)`, `write` of the bytes 1, 2, 3 and a `read` of all
three: empty, with both cursors at index 3, so the next write wraps. -/
def exampleEmptyRing : RingBuffer :=
  { data := [1, 2, 3, 0], capacity := 4, readPos := 3, writePos := 3 }

/-- A running stream of 2-byte frames over `exampleRing` (one unread byte),
with an ALSA period of two frames. -/
def exampleStream : OutputStreamState :=
  { bytesPerFrame := 2, channels := 1, isOpen := true, running := true, ring := exampleRing,
    periodSize := 2 }

/-- The stream `OpenOutput` sets up for a request of 32 bits, 2 channels at
44100 Hz, before the backend is initialised. -/
def exampleRequest32 : OutputStreamState :=
  { sampleRate := 44100, channels := 2, bitDepth := 32, bytesPerFrame := (32 / 8) * 2 }

/-- A WASAPI device that supports 16-bit integer PCM only. -/
def exampleIsFormatSupported16 (fmt : WAVEFORMATEXTENSIBLE) : Bool :=
  fmt.wBitsPerSample == 16 && !fmt.isFloat

/-- A CoreAudio unit that accepts 16-bit integer PCM only. -/
def exampleTrySetFormat16 (_sampleRate _channels bitDepth : Nat) (isFloat : Bool) : Bool :=
  bitDepth == 16 && !isFloat

/-- An ALSA device that accepts `S16_LE` only and every other request. -/
def examplePcm16 : AlsaPcm :=
  { hw_params_any := true
    hw_params_set_access := true
    hw_params_set_format := fun f => decide (f = snd_pcm_format_t.S16_LE)
    hw_params_get_format := none
    hw_params_set_channels := fun _ => true
    hw_params_get_channels_min := some 1
    hw_params_get_channels_max := some 2
    hw_params_set_rate_near := fun r => some r
    hw_params_set_buffer_size_near := fun _ => true
    hw_params_set_period_size_near := fun _ => true
    hw_params := true
    hw_params_get_buffer_size := 4410
    hw_params_get_period_size := 1102 }

/-- What `TrySetAlsaParams` leaves of `exampleRequest32` on `examplePcm16`. -/
def exampleAlsaOpened16 : OutputStreamState :=
  { sampleRate := 44100, channels := 2, bitDepth := 16, bytesPerFrame := 4,
    bufferSize := 4410, periodSize := 1102 }

/-- A full ring: three unread bytes in a ring of capacity 4. -/
def exampleFullRing : RingBuffer :=
  { data := [1, 2, 3, 0], capacity := 4, readPos := 0, writePos := 3 }

/-- An open, running 16-bit mono stream whose ring is full. -/
def exampleFullStream : OutputStreamState :=
  { bytesPerFrame := 2, channels := 1, isOpen := true, running := true,
    ring := exampleFullRing, periodSize := 2 }

/-- A request for 32 bits, mono, 1000 Hz, exclusive, with a 20 ms ring. -/
def exampleOpen32 : OpenOptions :=
  { sampleRate := 1000, channels := 1, bitDepth := 32, bufferMs := 20 }

/-- A WASAPI device whose only exclusive format is 32-bit float and whose
hardware buffer holds 10 frames. -/
def exampleWasapiFloat32 : WasapiDevice :=
  { Activate := true
    IsFormatSupported := fun fmt => fmt.isFloat && fmt.wBitsPerSample == 32
    GetMixFormat := none
    Initialize := fun _ => true
    GetBufferSize := some 10
    CreateEvent := true
    SetEventHandle := true
    GetService := true }

/-- The same device with 32-bit integer PCM as its only exclusive format. -/
def exampleWasapiInt32 : WasapiDevice :=
  { exampleWasapiFloat32 with
    IsFormatSupported := fun fmt => !fmt.isFloat && fmt.wBitsPerSample == 32 }

/-- A WASAPI device that supports no exclusive format and mixes 16-bit mono at
1000 Hz in shared mode. -/
def exampleWasapiShared : WasapiDevice :=
  { exampleWasapiFloat32 with
    IsFormatSupported := fun _ => false
    GetMixFormat := some (BuildFormat 1000 1 16 false) }

/-- A CoreAudio unit that rejects every format it is asked to set and runs at
16-bit mono, 1000 Hz. -/
def exampleCoreAudioRejecting : CoreAudioDevice :=
  { setup := true
    TrySetFormat := fun _ _ _ _ => false
    currentASBD := some { mSampleRate := 1000, mChannelsPerFrame := 1, mBitsPerChannel := 16 }
    SetRenderCallback := true
    AudioUnitInitialize := true
    AudioOutputUnitStart := true }

/-- A CoreAudio unit that cannot be set up. -/
def exampleCoreAudioAbsent : CoreAudioDevice :=
  { exampleCoreAudioRejecting with setup := false }

/-- An ALSA device that accepts `S16_LE` only and cannot be prepared. -/
def exampleAlsaUnprepared : AlsaDevice :=
  { snd_pcm_open := true, pcm := examplePcm16, snd_pcm_prepare := false }

/-- An ALSA device that accepts `S16_LE` only. -/
def exampleAlsa16 : AlsaDevice :=
  { snd_pcm_open := true, pcm := examplePcm16, snd_pcm_prepare := true }

/-- The stream that `InitWasapi` leaves of `exampleOpen32` on
`exampleWasapiFloat32` and on `exampleWasapiInt32`. -/
def exampleOpened32 : OutputStreamState :=
  { sampleRate := 1000, channels := 1, bitDepth := 32, bytesPerFrame := 4,
    ringDurationMs := 20, isOpen := true,
    ring := { data := List.replicate 80 0, capacity := 80, readPos := 0, writePos := 0 },
    bufferFrames := 10 }

/-- A request for 4 bits, mono, 1000 Hz, with a 20 ms ring. -/
def exampleOpen4 : OpenOptions :=
  { sampleRate := 1000, channels := 1, bitDepth := 4, bufferMs := 20 }

/-- A CoreAudio unit that rejects every format it is asked to set and whose
current format cannot be read. -/
def exampleCoreAudioNoFormat : CoreAudioDevice :=
  { exampleCoreAudioRejecting with currentASBD := none }

/-- The stream that `OpenOutput` registers for `exampleOpen4` on
`exampleCoreAudioNoFormat`, after one render callback of 480 frames: its frame
size is 0 bytes. -/
def exampleZeroFrameStream : OutputStreamState :=
  { sampleRate := 1000, channels := 1, bitDepth := 4, bytesPerFrame := 0,
    ringDurationMs := 20, isOpen := true, running := true,
    ring := { data := [0], capacity := 1, readPos := 0, writePos := 0 },
    lastHardwarePaddingFrames := 480 }

/-- A request for 12 bits, stereo, 1000 Hz, with a 20 ms ring. -/
def exampleOpen12 : OpenOptions :=
  { sampleRate := 1000, channels := 2, bitDepth := 12, bufferMs := 20 }

/-- A WASAPI device whose only exclusive format has 12 bits per sample. -/
def exampleWasapi12 : WasapiDevice :=
  { exampleWasapiFloat32 with
    IsFormatSupported := fun fmt => !fmt.isFloat && fmt.wBitsPerSample == 12 }

/-- The stream that `OpenOutput` registers for `exampleOpen12` on
`exampleWasapi12`. -/
def exampleOpened12 : OutputStreamState :=
  { sampleRate := 1000, channels := 2, bitDepth := 12, bytesPerFrame := 2,
    ringDurationMs := 20, isOpen := true,
    ring := { data := List.replicate 40 0, capacity := 40, readPos := 0, writePos := 0 },
    bufferFrames := 10 }

/-- A WASAPI device whose only exclusive format is 16-bit integer stereo. -/
def exampleIsFormatSupportedStereo16 (fmt : WAVEFORMATEXTENSIBLE) : Bool :=
  fmt.nChannels == 2 && fmt.wBitsPerSample == 16 && !fmt.isFloat

/-- A request for 16 bits, mono, 11025 Hz, with a 20 ms ring. -/
def exampleOpen11025 : OpenOptions :=
  { sampleRate := 11025, channels := 1, bitDepth := 16, bufferMs := 20 }

/-- A CoreAudio unit that accepts 16-bit integer PCM at every rate. -/
def exampleCoreAudio16 : CoreAudioDevice :=
  { exampleCoreAudioRejecting with TrySetFormat := exampleTrySetFormat16 }

/-- The device `exampleWasapiFloat32` with an endpoint buffer of 1500
frames. -/
def exampleWasapiLargeBuffer : WasapiDevice :=
  { exampleWasapiFloat32 with GetBufferSize := some 1500 }

/-- The stream that `InitAlsa` leaves of `exampleOpen16` on
`exampleAlsaShortPeriod`: periods of 10 frames, a ring of 40 frames. -/
def exampleAlsaOpenedRing : OutputStreamState :=
  { sampleRate := 1000, channels := 1, bitDepth := 16, bytesPerFrame := 2,
    ringDurationMs := 40, isOpen := true,
    ring := { data := List.replicate 80 0, capacity := 80, readPos := 0, writePos := 0 },
    bufferSize := 40, periodSize := 10 }

/-- A request for 32 bits, mono, 100 Hz, with a 20 ms ring. -/
def exampleOpen100 : OpenOptions :=
  { sampleRate := 100, channels := 1, bitDepth := 32, bufferMs := 20 }

/-- The device `exampleWasapiFloat32` with an endpoint buffer of one frame. -/
def exampleWasapiOneFrame : WasapiDevice :=
  { exampleWasapiFloat32 with GetBufferSize := some 1 }

/-- The stream that `InitWasapi` leaves of `exampleOpen100` on
`exampleWasapiOneFrame`, a ring of two frames of four bytes, once the render
thread has set `running`. -/
def exampleFrameStream : OutputStreamState :=
  { sampleRate := 100, channels := 1, bitDepth := 32, bytesPerFrame := 4,
    ringDurationMs := 20, isOpen := true, running := true,
    ring := { data := List.replicate 8 0, capacity := 8, readPos := 0, writePos := 0 },
    bufferFrames := 1 }
/-- The stream `exampleAlsaOpenedRing` once `Pause` has been called and the
render thread has set `running`. -/
def exampleAlsaPaused : OutputStreamState :=
  { exampleAlsaOpenedRing with running := true, paused := true }
/-- A schedule on a ring of 4 bytes in which the two threads overlap: the
consumer loads `writePos` while the producer has copied 3 bytes and not yet
stored its cursor (and finds nothing to read), and the producer loads a
`readPos` that is out of date while the consumer has copied 2 bytes out (and
finds no room). -/
def exampleSchedule : List SpscStep :=
  [.producerLoad 0, .producerCopy [1, 2, 3] 3, .consumerLoad 0,
   .consumerCopy [0, 0] 2, .producerStore, .consumerLoad 0, .consumerCopy [0, 0] 2,
   .producerLoad 0, .producerCopy [4, 5] 2, .consumerStore, .producerLoad 0,
   .producerCopy [4, 5] 2, .producerStore, .consumerLoad 1, .consumerCopy [0, 0, 0] 3,
   .consumerStore, .consumerLoad 0, .consumerCopy [0, 0, 0] 3]
/-- The request `exampleOpen32` with a `bufferMs` that is NaN. -/
def exampleOpenNaN : OpenOptions :=
  { exampleOpen32 with bufferMs := Double.nan }

/-- A running stream of 4-byte frames with an empty ring of 16 bytes and an
ALSA period of one frame. -/
def exampleSessionStream : OutputStreamState :=
  { sampleRate := 100, channels := 1, bitDepth := 32, bytesPerFrame := 4,
    isOpen := true, running := true,
    ring := { data := List.replicate 16 0, capacity := 16, readPos := 0, writePos := 0 },
    periodSize := 1 }

/-- A session on `exampleSessionStream`: a write of two frames; an ALSA period;
a blocking write of one frame during which the render thread reads one frame;
a CoreAudio demand for two frames; a WASAPI demand for one frame. -/
def exampleSession : List SessionOp :=
  [.write [1, 2, 3, 4, 5, 6, 7, 8] 0 [],
   .renderAlsa,
   .write [9, 10, 11, 12] 2000 [{ between := [EnvOp.consume 4] }],
   .renderCoreAudio 2 [{ mData := List.replicate 8 0, mDataByteSize := 8 }],
   .renderWasapi 1 (List.replicate 4 0)]

/-! # Theorems -/

/-! ## Arithmetic of well-formed rings -/

theorem sizeSub_eq {a b : Nat} (h : b ≤ a) (ha : a < SIZE_MODULUS) : sizeSub a b = a - b := by
  unfold sizeSub SIZE_MODULUS at *
  omega

theorem sizeAdd_eq {a b : Nat} (h : a + b < SIZE_MODULUS) : sizeAdd a b = a + b := by
  unfold sizeAdd
  exact Nat.mod_eq_of_lt h

theorem mod_wrap {x c : Nat} (h1 : c ≤ x) (h2 : x < 2 * c) : x % c = x - c := by
  rw [Nat.mod_eq_sub_mod h1]
  apply Nat.mod_eq_of_lt
  omega

theorem RingBuffer.WellFormed.cap_lt {rb : RingBuffer} (h : rb.WellFormed) :
    rb.capacity < 9223372036854775808 := by
  have := h.cap_le
  unfold VECTOR_MAX_SIZE at this
  omega

theorem RingBuffer.availableToRead_eq {rb : RingBuffer} (h : rb.WellFormed) :
    rb.availableToRead =
      if rb.readPos ≤ rb.writePos then rb.writePos - rb.readPos
      else rb.writePos + rb.capacity - rb.readPos := by
  have hc := h.cap_pos
  have hm := h.cap_lt
  have hr := h.read_lt
  have hw := h.write_lt
  unfold RingBuffer.availableToRead
  simp only []
  rw [sizeAdd_eq (by unfold SIZE_MODULUS; omega), sizeSub_eq (by omega) (by unfold SIZE_MODULUS; omega)]
  split
  · rw [mod_wrap (by omega) (by omega)]; omega
  · rw [Nat.mod_eq_of_lt (by omega)]

theorem RingBuffer.availableToRead_lt {rb : RingBuffer} (h : rb.WellFormed) :
    rb.availableToRead < rb.capacity := by
  rw [RingBuffer.availableToRead_eq h]
  have hc := h.cap_pos
  have hr := h.read_lt
  have hw := h.write_lt
  split <;> omega

theorem RingBuffer.availableToWrite_eq {rb : RingBuffer} (h : rb.WellFormed) :
    rb.availableToWrite = rb.capacity - 1 - rb.availableToRead := by
  have hlt := RingBuffer.availableToRead_lt h
  have hm := h.cap_lt
  unfold RingBuffer.availableToWrite
  have h1 : sizeSub rb.capacity rb.availableToRead = rb.capacity - rb.availableToRead :=
    sizeSub_eq (by omega) (by unfold SIZE_MODULUS; omega)
  rw [h1, sizeSub_eq (by omega) (by unfold SIZE_MODULUS; omega)]
  omega

theorem getElem?_index_congr {l : List Byte} {i j : Nat} (h : i = j) : l[i]? = l[j]? := by
  rw [h]

theorem memcpy_getElem? {dst src d : List Byte} {off soff n : Nat}
    (h : memcpy dst off src soff n = some d) (j : Nat) :
    d[j]? = if off ≤ j ∧ j < off + n then src[soff + (j - off)]? else dst[j]? := by
  unfold memcpy at h
  split at h
  · rename_i hb
    injection h with h
    subst h
    by_cases h1 : j < off
    · rw [List.append_assoc, List.getElem?_append_left (by simp; omega), if_neg (by omega)]
      simp [List.getElem?_take, h1]
    · by_cases h2 : j < off + n
      · rw [List.getElem?_append_left (by simp; omega), List.getElem?_append_right (by simp; omega),
          if_pos (by omega)]
        have e1 : (List.take off dst).length = off := by simp; omega
        rw [e1, List.getElem?_take, if_pos (by omega), List.getElem?_drop]
      · rw [List.getElem?_append_right (by simp; omega), if_neg (by omega)]
        have e1 : (List.take off dst ++ List.take n (List.drop soff src)).length = off + n := by
          simp; omega
        rw [e1, List.getElem?_drop]
        exact getElem?_index_congr (by omega)
  · cases h

theorem memcpy_length {dst src d : List Byte} {off soff n : Nat}
    (h : memcpy dst off src soff n = some d) : d.length = dst.length := by
  unfold memcpy at h
  split at h
  · injection h with h
    subst h
    simp
    omega
  · cases h

theorem memcpy_isSome (dst : List Byte) (off : Nat) (src : List Byte) (soff n : Nat)
    (h1 : off + n ≤ dst.length) (h2 : soff + n ≤ src.length) :
    ∃ d, memcpy dst off src soff n = some d := by
  unfold memcpy
  rw [if_pos ⟨h1, h2⟩]
  exact ⟨_, rfl⟩

theorem mod_two_cases {x c : Nat} (h : x < 2 * c) :
    (x < c ∧ x % c = x) ∨ (c ≤ x ∧ x % c = x - c) := by
  by_cases hx : x < c
  · exact Or.inl ⟨hx, Nat.mod_eq_of_lt hx⟩
  · exact Or.inr ⟨by omega, mod_wrap (by omega) h⟩

theorem RingBuffer.write_avail_eq {rb : RingBuffer} (h : rb.WellFormed) :
    (if rb.writePos ≥ rb.readPos then
        sizeSub (sizeSub rb.capacity (sizeSub rb.writePos rb.readPos)) 1
      else sizeSub (sizeSub rb.readPos rb.writePos) 1) = rb.availableToWrite := by
  have hc := h.cap_pos
  have hm := h.cap_lt
  have hr := h.read_lt
  have hw := h.write_lt
  rw [RingBuffer.availableToWrite_eq h, RingBuffer.availableToRead_eq h]
  split
  · rename_i hge
    have e1 : sizeSub rb.writePos rb.readPos = rb.writePos - rb.readPos :=
      sizeSub_eq hge (by unfold SIZE_MODULUS; omega)
    have e2 : sizeSub rb.capacity (rb.writePos - rb.readPos)
        = rb.capacity - (rb.writePos - rb.readPos) :=
      sizeSub_eq (by omega) (by unfold SIZE_MODULUS; omega)
    rw [e1, e2, sizeSub_eq (by omega) (by unfold SIZE_MODULUS; omega)]
    omega
  · rename_i hlt
    have e1 : sizeSub rb.readPos rb.writePos = rb.readPos - rb.writePos :=
      sizeSub_eq (by omega) (by unfold SIZE_MODULUS; omega)
    rw [e1, sizeSub_eq (by omega) (by unfold SIZE_MODULUS; omega)]
    omega

/-- What `write` does on a well-formed ring when it accepts `n > 0` bytes: the
data array afterwards, byte by byte. -/
theorem RingBuffer.write_eq {rb : RingBuffer} (h : rb.WellFormed) (buf : List Byte) (len : Nat)
    (hlen : len ≤ buf.length) (hpos : 0 < min len rb.availableToWrite) :
    ∃ d2 : List Byte,
      rb.write (some buf) len =
        some ({ rb with data := d2,
                        writePos := (rb.writePos + min len rb.availableToWrite) % rb.capacity },
              min len rb.availableToWrite) ∧
      d2.length = rb.capacity ∧
      ∀ j, j < rb.capacity → d2[j]? =
        if (j + rb.capacity - rb.writePos) % rb.capacity < min len rb.availableToWrite then
          buf[(j + rb.capacity - rb.writePos) % rb.capacity]?
        else rb.data[j]? := by
  have hc := h.cap_pos
  have hm := h.cap_lt
  have hr := h.read_lt
  have hw := h.write_lt
  have hd := h.data_len
  have haw := RingBuffer.availableToWrite_eq h
  have har := RingBuffer.availableToRead_lt h
  set n := min len rb.availableToWrite with hn
  have hlen0 : len ≠ 0 := by omega
  have hav0 : rb.availableToWrite ≠ 0 := by omega
  have hclamp : (if len > rb.availableToWrite then rb.availableToWrite else len) = n := by
    split <;> omega
  have hsub : sizeSub rb.capacity rb.writePos = rb.capacity - rb.writePos :=
    sizeSub_eq (by omega) (by unfold SIZE_MODULUS; omega)
  have hadd : sizeAdd rb.writePos n = rb.writePos + n :=
    sizeAdd_eq (by unfold SIZE_MODULUS; omega)
  unfold RingBuffer.write
  simp only [hlen0, if_false, RingBuffer.write_avail_eq h, hav0, hclamp, hsub, hadd]
  set first := min n (rb.capacity - rb.writePos) with hfirst
  obtain ⟨d1, hd1⟩ := memcpy_isSome rb.data rb.writePos buf 0 first (by omega) (by omega)
  have hl1 := memcpy_length hd1
  have hg1 := memcpy_getElem? hd1
  rw [hd1]
  simp only []
  by_cases hwrap : n > first
  · have hsub2 : sizeSub n first = n - first :=
      sizeSub_eq (by omega) (by unfold SIZE_MODULUS; omega)
    obtain ⟨d2, hd2⟩ := memcpy_isSome d1 0 buf first (n - first) (by omega) (by omega)
    have hl2 := memcpy_length hd2
    have hg2 := memcpy_getElem? hd2
    rw [if_pos hwrap, hsub2, hd2]
    simp only [if_neg (Nat.pos_iff_ne_zero.mp hc)]
    refine ⟨d2, rfl, by omega, ?_⟩
    intro j hj
    rw [hg2 j, hg1 j]
    rcases mod_two_cases (x := j + rb.capacity - rb.writePos) (c := rb.capacity) (by omega)
      with ⟨c1, e1⟩ | ⟨c1, e1⟩
    · rw [e1]
      by_cases hj2 : j < n - first
      · rw [if_pos (by omega), if_pos (by omega)]
        exact getElem?_index_congr (by omega)
      · rw [if_neg (by omega), if_neg (by omega), if_neg (by omega)]
    · rw [e1]
      by_cases hj2 : j < rb.writePos + first
      · rw [if_neg (by omega), if_pos (by omega), if_pos (by omega)]
        exact getElem?_index_congr (by omega)
      · rw [if_neg (by omega), if_neg (by omega), if_neg (by omega)]
  · rw [if_neg hwrap]
    simp only [if_neg (Nat.pos_iff_ne_zero.mp hc)]
    refine ⟨d1, rfl, by omega, ?_⟩
    intro j hj
    rw [hg1 j]
    rcases mod_two_cases (x := j + rb.capacity - rb.writePos) (c := rb.capacity) (by omega)
      with ⟨c1, e1⟩ | ⟨c1, e1⟩
    · rw [e1, if_neg (by omega), if_neg (by omega)]
    · rw [e1]
      by_cases hj2 : j < rb.writePos + first
      · rw [if_pos (by omega), if_pos (by omega)]
        exact getElem?_index_congr (by omega)
      · rw [if_neg (by omega), if_neg (by omega)]

theorem RingBuffer.unread_length (rb : RingBuffer) :
    rb.unread.length = rb.availableToRead := by
  simp [RingBuffer.unread]

theorem RingBuffer.unread_getElem? (rb : RingBuffer) (i : Nat) :
    rb.unread[i]? =
      if i < rb.availableToRead then
        some (rb.data[(rb.readPos + i) % rb.capacity]?.getD 0)
      else none := by
  unfold RingBuffer.unread
  rw [List.getElem?_map]
  by_cases h : i < rb.availableToRead
  · rw [List.getElem?_range h, if_pos h]
    simp only [Option.map, List.getD_eq_getElem?_getD]
  · rw [if_neg h, List.getElem?_eq_none (by simp; omega)]
    rfl

theorem RingBuffer.availableToRead_cases {rb : RingBuffer} (h : rb.WellFormed) :
    (rb.readPos ≤ rb.writePos ∧ rb.availableToRead = rb.writePos - rb.readPos) ∨
    (rb.writePos < rb.readPos ∧
      rb.availableToRead = rb.writePos + rb.capacity - rb.readPos) := by
  rw [RingBuffer.availableToRead_eq h]
  by_cases hle : rb.readPos ≤ rb.writePos
  · exact Or.inl ⟨hle, by rw [if_pos hle]⟩
  · exact Or.inr ⟨by omega, by rw [if_neg hle]⟩

/-- Offset of the `i`-th ring position after the read cursor, measured from the
write cursor. -/
theorem ring_offset {c r t a i : Nat} (hc : 0 < c) (hr : r < c) (ht : t < c) (hi : i < c)
    (ha : (r ≤ t ∧ a = t - r) ∨ (t < r ∧ a = t + c - r)) :
    ((r + i) % c + c - t) % c = if i < a then i + c - a else i - a := by
  rcases mod_two_cases (x := r + i) (c := c) (by omega) with ⟨c1, e1⟩ | ⟨c1, e1⟩
  · rw [e1]
    rcases mod_two_cases (x := r + i + c - t) (c := c) (by omega) with ⟨c2, e2⟩ | ⟨c2, e2⟩
    · rw [e2]; split <;> omega
    · rw [e2]; split <;> omega
  · rw [e1]
    rcases mod_two_cases (x := r + i - c + c - t) (c := c) (by omega) with ⟨c2, e2⟩ | ⟨c2, e2⟩
    · rw [e2]; split <;> omega
    · rw [e2]; split <;> omega

/-- Effect of `write` on a well-formed ring: it succeeds, accepts
`min len availableToWrite()` bytes, keeps the ring well formed, leaves the read
cursor alone and appends the accepted bytes behind the unread ones. -/
theorem RingBuffer.write_spec {rb : RingBuffer} (h : rb.WellFormed) (buf : List Byte)
    (len : Nat) (hlen : len ≤ buf.length) :
    ∃ rb', rb.write (some buf) len = some (rb', min len rb.availableToWrite) ∧
      rb'.WellFormed ∧ rb'.capacity = rb.capacity ∧ rb'.readPos = rb.readPos ∧
      rb'.unread = rb.unread ++ buf.take (min len rb.availableToWrite) := by
  have hc := h.cap_pos
  have hm := h.cap_lt
  have hr := h.read_lt
  have hw := h.write_lt
  have hd := h.data_len
  have haw := RingBuffer.availableToWrite_eq h
  have har := RingBuffer.availableToRead_lt h
  have hcases := RingBuffer.availableToRead_cases h
  by_cases hpos : 0 < min len rb.availableToWrite
  · obtain ⟨d2, hw2, hl2, hg2⟩ := RingBuffer.write_eq h buf len hlen hpos
    generalize hn : min len rb.availableToWrite = n at *
    have hnle : n ≤ rb.capacity - 1 - rb.availableToRead := by omega
    have hnlen : n ≤ len := by omega
    have hwf : RingBuffer.WellFormed
        { rb with data := d2, writePos := (rb.writePos + n) % rb.capacity } :=
      ⟨hl2, hc, h.cap_le, hr, Nat.mod_lt _ hc⟩
    have hcases2 := RingBuffer.availableToRead_cases hwf
    simp only [] at hcases2
    have hnew : RingBuffer.availableToRead
        { rb with data := d2, writePos := (rb.writePos + n) % rb.capacity }
          = rb.availableToRead + n := by
      rcases mod_two_cases (x := rb.writePos + n) (c := rb.capacity) (by omega)
        with ⟨c1, e1⟩ | ⟨c1, e1⟩
      · omega
      · omega
    refine ⟨_, hw2, hwf, rfl, rfl, ?_⟩
    apply List.ext_getElem?
    intro i
    rw [RingBuffer.unread_getElem?, hnew]
    simp only []
    by_cases hi : i < rb.availableToRead
    · rw [List.getElem?_append_left (by rw [RingBuffer.unread_length]; exact hi),
        RingBuffer.unread_getElem?, if_pos hi, if_pos (by omega),
        hg2 _ (Nat.mod_lt _ hc), ring_offset hc hr hw (by omega) hcases, if_pos hi,
        if_neg (by omega)]
    · rw [List.getElem?_append_right (by rw [RingBuffer.unread_length]; omega),
        RingBuffer.unread_length]
      by_cases hi2 : i < rb.availableToRead + n
      · rw [if_pos hi2, List.getElem?_take, if_pos (by omega),
          hg2 _ (Nat.mod_lt _ hc), ring_offset hc hr hw (by omega) hcases, if_neg hi,
          if_pos (by omega)]
        have hb : i - rb.availableToRead < buf.length := by omega
        rw [List.getElem?_eq_getElem hb]
        rfl
      · rw [if_neg hi2, List.getElem?_eq_none (by simp; omega)]
  · have hn0 : min len rb.availableToWrite = 0 := by omega
    rw [hn0]
    refine ⟨rb, ?_, h, rfl, rfl, by simp⟩
    unfold RingBuffer.write
    by_cases hl0 : len = 0
    · simp [hl0]
    · have : rb.availableToWrite = 0 := by omega
      simp [hl0, RingBuffer.write_avail_eq h, this]

theorem getElem?_getD_some {l : List Byte} {k : Nat} (h : k < l.length) :
    some (l[k]?.getD 0) = l[k]? := by
  rw [List.getElem?_eq_getElem h]
  rfl

/-- What `read` does on a well-formed ring when it delivers `n > 0` bytes: the
destination block afterwards, byte by byte. -/
theorem RingBuffer.read_eq {rb : RingBuffer} (h : rb.WellFormed) (out : List Byte) (len : Nat)
    (hlen : len ≤ out.length) (hpos : 0 < min len rb.availableToRead) :
    ∃ o2 : List Byte,
      rb.read (some out) len =
        some ({ rb with readPos := (rb.readPos + min len rb.availableToRead) % rb.capacity },
              some o2, min len rb.availableToRead) ∧
      o2.length = out.length ∧
      ∀ j, o2[j]? =
        if j < min len rb.availableToRead then rb.data[(rb.readPos + j) % rb.capacity]?
        else out[j]? := by
  have hc := h.cap_pos
  have hm := h.cap_lt
  have hr := h.read_lt
  have hw := h.write_lt
  have hd := h.data_len
  have har := RingBuffer.availableToRead_lt h
  have hlen0 : len ≠ 0 := by omega
  have hav0 : rb.availableToRead ≠ 0 := by omega
  have havdef : sizeSub (sizeAdd rb.writePos rb.capacity) rb.readPos % rb.capacity
      = rb.availableToRead := rfl
  generalize hn : min len rb.availableToRead = n at *
  have hclamp : (if len > rb.availableToRead then rb.availableToRead else len) = n := by
    split <;> omega
  have hsub : sizeSub rb.capacity rb.readPos = rb.capacity - rb.readPos :=
    sizeSub_eq (by omega) (by unfold SIZE_MODULUS; omega)
  have hadd : sizeAdd rb.readPos n = rb.readPos + n :=
    sizeAdd_eq (by unfold SIZE_MODULUS; omega)
  unfold RingBuffer.read
  simp only [hlen0, if_false, if_neg (Nat.pos_iff_ne_zero.mp hc), havdef, hav0, hclamp, hsub,
    hadd]
  generalize hfirst : min n (rb.capacity - rb.readPos) = first
  obtain ⟨o1, ho1⟩ := memcpy_isSome out 0 rb.data rb.readPos first (by omega) (by omega)
  have hl1 := memcpy_length ho1
  have hg1 := memcpy_getElem? ho1
  rw [ho1]
  simp only []
  by_cases hwrap : n > first
  · have hsub2 : sizeSub n first = n - first :=
      sizeSub_eq (by omega) (by unfold SIZE_MODULUS; omega)
    obtain ⟨o2, ho2⟩ := memcpy_isSome o1 first rb.data 0 (n - first) (by omega) (by omega)
    have hl2 := memcpy_length ho2
    have hg2 := memcpy_getElem? ho2
    rw [if_pos hwrap, hsub2, ho2]
    refine ⟨o2, rfl, by omega, ?_⟩
    intro j
    rw [hg2 j, hg1 j]
    by_cases hj : j < first
    · rw [if_neg (by omega), if_pos (by omega), if_pos (by omega),
        Nat.mod_eq_of_lt (by omega)]
      exact getElem?_index_congr (by omega)
    · by_cases hj2 : j < n
      · rw [if_pos (by omega), if_pos (by omega), mod_wrap (by omega) (by omega)]
        exact getElem?_index_congr (by omega)
      · rw [if_neg (by omega), if_neg (by omega), if_neg (by omega)]
  · rw [if_neg hwrap]
    refine ⟨o1, rfl, by omega, ?_⟩
    intro j
    rw [hg1 j]
    by_cases hj : j < n
    · rw [if_pos (by omega), if_pos (by omega), Nat.mod_eq_of_lt (by omega)]
      exact getElem?_index_congr (by omega)
    · rw [if_neg (by omega), if_neg (by omega)]

/-- Effect of `read` on a well-formed ring: it succeeds, delivers
`min len availableToRead()` bytes, namely the oldest unread ones, into the
front of the destination block, keeps the ring well formed, leaves the write
cursor and the stored bytes alone and keeps the remaining unread bytes. -/
theorem RingBuffer.read_spec {rb : RingBuffer} (h : rb.WellFormed) (out : List Byte)
    (len : Nat) (hlen : len ≤ out.length) :
    ∃ rb', rb.read (some out) len =
        some (rb', some (rb.unread.take (min len rb.availableToRead)
                          ++ out.drop (min len rb.availableToRead)),
              min len rb.availableToRead) ∧
      rb'.WellFormed ∧ rb'.capacity = rb.capacity ∧ rb'.writePos = rb.writePos ∧
      rb'.data = rb.data ∧
      rb'.unread = rb.unread.drop (min len rb.availableToRead) ∧
      (min len rb.availableToRead = 0 → rb' = rb) ∧
      rb'.readPos = (rb.readPos + min len rb.availableToRead) % rb.capacity := by
  have hc := h.cap_pos
  have hm := h.cap_lt
  have hr := h.read_lt
  have hw := h.write_lt
  have hd := h.data_len
  have har := RingBuffer.availableToRead_lt h
  have hcases := RingBuffer.availableToRead_cases h
  by_cases hpos : 0 < min len rb.availableToRead
  · obtain ⟨o2, hr2, hl2, hg2⟩ := RingBuffer.read_eq h out len hlen hpos
    generalize hn : min len rb.availableToRead = n at *
    have hwf : RingBuffer.WellFormed
        { rb with readPos := (rb.readPos + n) % rb.capacity } :=
      ⟨hd, hc, h.cap_le, Nat.mod_lt _ hc, hw⟩
    have hcases2 := RingBuffer.availableToRead_cases hwf
    simp only [] at hcases2
    have hnew : RingBuffer.availableToRead
        { rb with readPos := (rb.readPos + n) % rb.capacity }
          = rb.availableToRead - n := by
      rcases mod_two_cases (x := rb.readPos + n) (c := rb.capacity) (by omega)
        with ⟨c1, e1⟩ | ⟨c1, e1⟩
      · omega
      · omega
    have ho2 : o2 = rb.unread.take n ++ out.drop n := by
      apply List.ext_getElem?
      intro j
      rw [hg2 j]
      by_cases hj : j < n
      · rw [if_pos hj, List.getElem?_append_left (by
            rw [List.length_take, RingBuffer.unread_length]; omega),
          List.getElem?_take, if_pos hj, RingBuffer.unread_getElem?, if_pos (by omega),
          getElem?_getD_some (by rw [hd]; exact Nat.mod_lt _ hc)]
      · rw [if_neg hj, List.getElem?_append_right (by
            rw [List.length_take, RingBuffer.unread_length]; omega),
          List.length_take, RingBuffer.unread_length, List.getElem?_drop]
        exact getElem?_index_congr (by omega)
    refine ⟨_, by rw [hr2, ho2], hwf, rfl, rfl, rfl, ?_, fun h0 => absurd h0 (by omega), rfl⟩
    apply List.ext_getElem?
    intro i
    rw [RingBuffer.unread_getElem?, hnew, List.getElem?_drop, RingBuffer.unread_getElem?]
    simp only []
    by_cases hi : i < rb.availableToRead - n
    · rw [if_pos hi, if_pos (by omega)]
      have hidx : ((rb.readPos + n) % rb.capacity + i) % rb.capacity
          = (rb.readPos + (n + i)) % rb.capacity := by
        rw [Nat.mod_add_mod, Nat.add_assoc]
      rw [hidx]
    · rw [if_neg hi, if_neg (by omega)]
  · have hn0 : min len rb.availableToRead = 0 := by omega
    rw [hn0]
    refine ⟨rb, ?_, h, rfl, rfl, rfl, by simp, fun _ => rfl,
      by rw [Nat.add_zero, Nat.mod_eq_of_lt hr]⟩
    have havdef : sizeSub (sizeAdd rb.writePos rb.capacity) rb.readPos % rb.capacity
        = rb.availableToRead := rfl
    unfold RingBuffer.read
    by_cases hl0 : len = 0
    · simp [hl0]
    · have : rb.availableToRead = 0 := by omega
      simp [hl0, havdef, this, Nat.pos_iff_ne_zero.mp hc]

/-! ## Reachable rings are well formed -/

theorem RingBuffer.init_wellFormed {n : Nat} {rb : RingBuffer}
    (h : RingBuffer.init n = some rb) : rb.WellFormed := by
  unfold RingBuffer.init at h
  simp only [] at h
  by_cases hle : (if n ≠ 0 then n else 1) ≤ VECTOR_MAX_SIZE
  · rw [if_pos hle] at h
    injection h with h
    subst h
    refine ⟨by simp, ?_, hle, ?_, ?_⟩ <;> (simp only []; split <;> omega)
  · rw [if_neg hle] at h
    cases h

theorem RingBuffer.write_wellFormed {rb rb' : RingBuffer} {src : Option (List Byte)}
    {len k : Nat} (h : rb.WellFormed) (hw : rb.write src len = some (rb', k)) :
    rb'.WellFormed := by
  unfold RingBuffer.write at hw
  cases src with
  | none =>
    simp only [Option.some.injEq, Prod.mk.injEq] at hw
    rw [← hw.1]; exact h
  | some buf =>
    simp only [] at hw
    by_cases hl : len = 0
    · rw [if_pos hl] at hw
      simp only [Option.some.injEq, Prod.mk.injEq] at hw
      rw [← hw.1]; exact h
    · rw [if_neg hl] at hw
      generalize (if rb.writePos ≥ rb.readPos then
          sizeSub (sizeSub rb.capacity (sizeSub rb.writePos rb.readPos)) 1
        else sizeSub (sizeSub rb.readPos rb.writePos) 1) = avail at hw
      by_cases ha : avail = 0
      · rw [if_pos ha] at hw
        simp only [Option.some.injEq, Prod.mk.injEq] at hw
        rw [← hw.1]; exact h
      · rw [if_neg ha] at hw
        generalize (if len > avail then avail else len) = n at hw
        generalize min n (sizeSub rb.capacity rb.writePos) = first at hw
        cases hm1 : memcpy rb.data rb.writePos buf 0 first with
        | none => rw [hm1] at hw; cases hw
        | some d1 =>
          rw [hm1] at hw
          simp only [] at hw
          cases hm2 : (if n > first then memcpy d1 0 buf first (sizeSub n first)
              else some d1) with
          | none => rw [hm2] at hw; cases hw
          | some d2 =>
            rw [hm2] at hw
            simp only [if_neg (Nat.pos_iff_ne_zero.mp h.cap_pos), Option.some.injEq,
              Prod.mk.injEq] at hw
            rw [← hw.1]
            have hl1 := memcpy_length hm1
            have hl2 : d2.length = d1.length := by
              by_cases hc : n > first
              · rw [if_pos hc] at hm2; exact memcpy_length hm2
              · rw [if_neg hc] at hm2; injection hm2 with hm2; rw [hm2]
            exact ⟨by simp only []; rw [hl2, hl1, h.data_len], h.cap_pos, h.cap_le,
              h.read_lt, Nat.mod_lt _ h.cap_pos⟩

theorem RingBuffer.read_wellFormed {rb rb' : RingBuffer} {dst dst' : Option (List Byte)}
    {len k : Nat} (h : rb.WellFormed) (hr : rb.read dst len = some (rb', dst', k)) :
    rb'.WellFormed := by
  unfold RingBuffer.read at hr
  cases dst with
  | none =>
    simp only [Option.some.injEq, Prod.mk.injEq] at hr
    rw [← hr.1]; exact h
  | some out =>
    simp only [] at hr
    by_cases hl : len = 0
    · rw [if_pos hl] at hr
      simp only [Option.some.injEq, Prod.mk.injEq] at hr
      rw [← hr.1]; exact h
    · rw [if_neg hl, if_neg (Nat.pos_iff_ne_zero.mp h.cap_pos)] at hr
      generalize sizeSub (sizeAdd rb.writePos rb.capacity) rb.readPos % rb.capacity
        = avail at hr
      by_cases ha : avail = 0
      · rw [if_pos ha] at hr
        simp only [Option.some.injEq, Prod.mk.injEq] at hr
        rw [← hr.1]; exact h
      · rw [if_neg ha] at hr
        generalize (if len > avail then avail else len) = n at hr
        generalize min n (sizeSub rb.capacity rb.readPos) = first at hr
        cases hm1 : memcpy out 0 rb.data rb.readPos first with
        | none => rw [hm1] at hr; cases hr
        | some o1 =>
          rw [hm1] at hr
          simp only [] at hr
          cases hm2 : (if n > first then memcpy o1 first rb.data 0 (sizeSub n first)
              else some o1) with
          | none => rw [hm2] at hr; cases hr
          | some o2 =>
            rw [hm2] at hr
            simp only [Option.some.injEq, Prod.mk.injEq] at hr
            rw [← hr.1]
            exact ⟨h.data_len, h.cap_pos, h.cap_le, Nat.mod_lt _ h.cap_pos, h.write_lt⟩

theorem RingBuffer.Reachable.wellFormed {rb : RingBuffer} (h : rb.Reachable) :
    rb.WellFormed := by
  induction h with
  | init hi => exact RingBuffer.init_wellFormed hi
  | write _ hw ih => exact RingBuffer.write_wellFormed ih hw
  | read _ hr ih => exact RingBuffer.read_wellFormed ih hr

/-! ## Reachability of the example states -/

theorem exampleRing_reachable : exampleRing.Reachable :=
  @RingBuffer.Reachable.read
    { data := [1, 2, 3, 0], capacity := 4, readPos := 0, writePos := 3 } exampleRing
    (some [9, 9]) (some [1, 2]) 2 2
    (@RingBuffer.Reachable.write
      { data := [0, 0, 0, 0], capacity := 4, readPos := 0, writePos := 0 }
      { data := [1, 2, 3, 0], capacity := 4, readPos := 0, writePos := 3 }
      (some [1, 2, 3]) 3 3
      (@RingBuffer.Reachable.init 4 _ rfl) (by decide))
    (by decide)

theorem exampleEmptyRing_reachable : exampleEmptyRing.Reachable :=
  @RingBuffer.Reachable.read exampleRing exampleEmptyRing (some [9]) (some [3]) 1 1
    exampleRing_reachable (by decide)

/-! ## The ring buffer: capacity, counts, contents -/

/-- C2 (capacity invariant).  In every ring state reachable from
`RingBuffer::init(n)`, for any `n` (0 included), by `write` and `read` calls:
`availableToRead() + availableToWrite() == capacity - 1` where the capacity is
at least 1, that is `availableToRead() + availableToWrite() + 1 == capacity`;
neither subtraction inside `availableToWrite()` underflows (the capacity is at
least `availableToRead() + 1`); and for every stream owning that ring `GetStats`
reports `buffered = availableToRead()`, `free = availableToWrite()` and
`ringSize = size()`, the capacity, hence `buffered + free + 1 == ringSize` and
`buffered + free == ringSize - 1` with a `ringSize` of at least 1. -/
theorem C2_capacity_invariant (rb : RingBuffer) (h : rb.Reachable) :
    rb.availableToRead + rb.availableToWrite = rb.capacity - 1 ∧
    1 ≤ rb.capacity ∧
    rb.availableToRead + rb.availableToWrite + 1 = rb.capacity ∧
    rb.availableToRead ≤ rb.capacity ∧
    1 ≤ rb.capacity - rb.availableToRead ∧
    ∀ s : OutputStreamState, s.ring = rb →
      (GetStats s).buffered = rb.availableToRead ∧
      (GetStats s).free = rb.availableToWrite ∧
      (GetStats s).ringSize = rb.capacity ∧
      1 ≤ (GetStats s).ringSize ∧
      (GetStats s).buffered + (GetStats s).free + 1 = (GetStats s).ringSize ∧
      (GetStats s).buffered + (GetStats s).free = (GetStats s).ringSize - 1 := by
  have hwf := h.wellFormed
  have h1 := RingBuffer.availableToRead_lt hwf
  have h2 := RingBuffer.availableToWrite_eq hwf
  have h3 := hwf.cap_pos
  refine ⟨by omega, by omega, by omega, by omega, by omega, ?_⟩
  intro s hs
  subst hs
  refine ⟨rfl, rfl, rfl, ?_, ?_, ?_⟩
  · show 1 ≤ s.ring.capacity
    omega
  · show s.ring.availableToRead + s.ring.availableToWrite + 1 = s.ring.capacity
    omega
  · show s.ring.availableToRead + s.ring.availableToWrite = s.ring.capacity - 1
    omega

/-- Witness for C2: the ring of capacity 4 after a write of three bytes and a
read of two (one byte buffered, two free), as `GetStats` reports it for the
stream that owns it. -/
theorem C2_capacity_invariant_witness :
    exampleRing.Reachable ∧
    exampleRing.availableToRead = 1 ∧ exampleRing.availableToWrite = 2 ∧
    exampleRing.capacity = 4 ∧
    exampleRing.availableToRead + exampleRing.availableToWrite + 1 = exampleRing.capacity ∧
    exampleStream.ring = exampleRing ∧
    (GetStats exampleStream).buffered = 1 ∧ (GetStats exampleStream).free = 2 ∧
    (GetStats exampleStream).ringSize = 4 ∧
    (GetStats exampleStream).buffered + (GetStats exampleStream).free + 1
      = (GetStats exampleStream).ringSize :=
  ⟨exampleRing_reachable, by decide, by decide, rfl,
   (C2_capacity_invariant exampleRing exampleRing_reachable).2.2.1, rfl,
   by decide, by decide, by decide,
   ((C2_capacity_invariant exampleRing exampleRing_reachable).2.2.2.2.2
      exampleStream rfl).2.2.2.2.1⟩

/-- C3 (write count).  For every reachable ring state and every call
`write(src, len)` with a non-null `src` pointing at `len` or more bytes: the
call returns `min(len, availableToWrite())` with `availableToWrite()` measured
at entry, which never exceeds that free space; `availableToRead()` grows by
exactly the returned count; and the free-space formula evaluated inside
`write` equals `availableToWrite()`. -/
theorem C3_write_count (rb : RingBuffer) (h : rb.Reachable) (buf : List Byte) (len : Nat)
    (hlen : len ≤ buf.length) :
    ∃ rb', rb.write (some buf) len = some (rb', min len rb.availableToWrite) ∧
      min len rb.availableToWrite ≤ rb.availableToWrite ∧
      rb'.availableToRead = rb.availableToRead + min len rb.availableToWrite ∧
      (if rb.writePos ≥ rb.readPos then
          sizeSub (sizeSub rb.capacity (sizeSub rb.writePos rb.readPos)) 1
        else sizeSub (sizeSub rb.readPos rb.writePos) 1) = rb.availableToWrite := by
  have hwf := h.wellFormed
  obtain ⟨rb', hw, _, _, _, hu⟩ := RingBuffer.write_spec hwf buf len hlen
  refine ⟨rb', hw, Nat.min_le_right _ _, ?_, RingBuffer.write_avail_eq hwf⟩
  have := congrArg List.length hu
  rw [List.length_append, RingBuffer.unread_length, RingBuffer.unread_length,
    List.length_take] at this
  omega

/-- Witness for C3: five bytes offered to a ring with two free bytes. -/
theorem C3_write_count_witness :
    exampleRing.Reachable ∧ 5 ≤ [7, 8, 9, 10, 11].length ∧
    ∃ rb', exampleRing.write (some [7, 8, 9, 10, 11]) 5
        = some (rb', min 5 exampleRing.availableToWrite) ∧
      min 5 exampleRing.availableToWrite ≤ exampleRing.availableToWrite ∧
      rb'.availableToRead = exampleRing.availableToRead + min 5 exampleRing.availableToWrite ∧
      (if exampleRing.writePos ≥ exampleRing.readPos then
          sizeSub (sizeSub exampleRing.capacity
            (sizeSub exampleRing.writePos exampleRing.readPos)) 1
        else sizeSub (sizeSub exampleRing.readPos exampleRing.writePos) 1)
        = exampleRing.availableToWrite :=
  ⟨exampleRing_reachable, by decide,
   C3_write_count exampleRing exampleRing_reachable [7, 8, 9, 10, 11] 5 (by decide)⟩

/-- C5 (read).  For every reachable ring state and every call `read(dst, len)`
with a non-null `dst` pointing at `len` or more bytes: the call returns
`min(len, availableToRead())`; on an empty ring that is 0 and neither the ring
nor `dst` changes; in general the first `count` bytes of `dst` become the
oldest unread bytes, in order, the rest of `dst` is untouched, the remaining
unread bytes stay in order, and the write cursor and the stored data are not
modified. -/
theorem C5_read (rb : RingBuffer) (h : rb.Reachable) (out : List Byte) (len : Nat)
    (hlen : len ≤ out.length) :
    ∃ rb' out', rb.read (some out) len = some (rb', some out', min len rb.availableToRead) ∧
      (rb.availableToRead = 0 → min len rb.availableToRead = 0 ∧ rb' = rb ∧ out' = out) ∧
      out' = rb.unread.take (min len rb.availableToRead)
              ++ out.drop (min len rb.availableToRead) ∧
      rb'.unread = rb.unread.drop (min len rb.availableToRead) ∧
      rb'.writePos = rb.writePos ∧ rb'.data = rb.data ∧ rb'.capacity = rb.capacity := by
  have hwf := h.wellFormed
  obtain ⟨rb', hr, _, hcap, hwp, hdata, hu, h0, _⟩ := RingBuffer.read_spec hwf out len hlen
  refine ⟨rb', _, hr, ?_, rfl, hu, hwp, hdata, hcap⟩
  intro he
  have hn : min len rb.availableToRead = 0 := by omega
  refine ⟨hn, h0 hn, ?_⟩
  rw [hn]
  simp

/-- Witness for C5: three bytes requested from a ring holding one. -/
theorem C5_read_witness :
    exampleRing.Reachable ∧ 3 ≤ [9, 9, 9, 9].length ∧
    ∃ rb' out', exampleRing.read (some [9, 9, 9, 9]) 3
        = some (rb', some out', min 3 exampleRing.availableToRead) ∧
      (exampleRing.availableToRead = 0 →
        min 3 exampleRing.availableToRead = 0 ∧ rb' = exampleRing ∧ out' = [9, 9, 9, 9]) ∧
      out' = exampleRing.unread.take (min 3 exampleRing.availableToRead)
              ++ List.drop (min 3 exampleRing.availableToRead) [9, 9, 9, 9] ∧
      rb'.unread = exampleRing.unread.drop (min 3 exampleRing.availableToRead) ∧
      rb'.writePos = exampleRing.writePos ∧ rb'.data = exampleRing.data ∧
      rb'.capacity = exampleRing.capacity :=
  ⟨exampleRing_reachable, by decide,
   C5_read exampleRing exampleRing_reachable [9, 9, 9, 9] 3 (by decide)⟩

/-- C6 (one sacrificed byte).  In every ring state reachable from `init` by
`write`/`read` calls: at most `capacity - 1` bytes are filled; the ring is
empty (`availableToRead() == 0`) exactly when `readPos == writePos`; and it is
full (`availableToWrite() == 0`) exactly when
`(writePos + 1) % capacity == readPos`. -/
theorem C6_full_empty (rb : RingBuffer) (h : rb.Reachable) :
    rb.availableToRead ≤ rb.capacity - 1 ∧
    (rb.availableToRead = 0 ↔ rb.readPos = rb.writePos) ∧
    (rb.availableToWrite = 0 ↔ sizeAdd rb.writePos 1 % rb.capacity = rb.readPos) := by
  have hwf := h.wellFormed
  have h1 := RingBuffer.availableToRead_lt hwf
  have h2 := RingBuffer.availableToWrite_eq hwf
  have hc := hwf.cap_pos
  have hm := hwf.cap_lt
  have hr := hwf.read_lt
  have hw := hwf.write_lt
  have hcases := RingBuffer.availableToRead_cases hwf
  have hadd : sizeAdd rb.writePos 1 = rb.writePos + 1 :=
    sizeAdd_eq (by unfold SIZE_MODULUS; omega)
  rw [hadd]
  refine ⟨by omega, by omega, ?_⟩
  rcases mod_two_cases (x := rb.writePos + 1) (c := rb.capacity) (by omega)
    with ⟨c1, e1⟩ | ⟨c1, e1⟩
  · omega
  · omega

/-- Witness for C6: the example state. -/
theorem C6_full_empty_witness :
    exampleRing.Reachable ∧
    exampleRing.availableToRead ≤ exampleRing.capacity - 1 ∧
    (exampleRing.availableToRead = 0 ↔ exampleRing.readPos = exampleRing.writePos) ∧
    (exampleRing.availableToWrite = 0 ↔
      sizeAdd exampleRing.writePos 1 % exampleRing.capacity = exampleRing.readPos) :=
  ⟨exampleRing_reachable, C6_full_empty exampleRing exampleRing_reachable⟩

/-! ## Runs of writes and runs of reads -/

/-- A run of whole-string writes on a well-formed ring: every call succeeds,
call `i` returns at most the length of string `i`, the counts add up to
`min(total, availableToWrite())`, the read cursor does not move, and the unread
content grows by the first `sum of counts` bytes of the concatenated strings. -/
theorem RingBuffer.writeAll_spec (ws : List (List Byte)) :
    ∀ {rb : RingBuffer}, rb.WellFormed →
    ∃ rb' ks, rb.writeAll ws = some (rb', ks) ∧
      rb'.WellFormed ∧ rb'.capacity = rb.capacity ∧ rb'.readPos = rb.readPos ∧
      ks.length = ws.length ∧
      ks.sum = min (ws.map List.length).sum rb.availableToWrite ∧
      ((ws.map List.length).sum ≤ rb.availableToWrite → ks = ws.map List.length) ∧
      rb'.unread = rb.unread ++ ws.flatten.take ks.sum ∧
      rb'.unread = rb.unread ++ (List.zipWith List.take ks ws).flatten := by
  induction ws with
  | nil =>
    intro rb h
    exact ⟨rb, [], rfl, h, rfl, rfl, rfl, by simp, fun _ => rfl, by simp, by simp⟩
  | cons w ws ih =>
    intro rb h
    obtain ⟨rb1, hw1, hwf1, hcap1, hrp1, hu1⟩ := RingBuffer.write_spec h w w.length (le_refl _)
    obtain ⟨rb2, ks, hw2, hwf2, hcap2, hrp2, hlen2, hsum2, hall2, hu2, hz2⟩ := ih hwf1
    have ha := RingBuffer.availableToWrite_eq h
    have ha1 := RingBuffer.availableToWrite_eq hwf1
    have hr0 := RingBuffer.availableToRead_lt h
    have hr1 : rb1.availableToRead = rb.availableToRead + min w.length rb.availableToWrite := by
      have := congrArg List.length hu1
      rw [List.length_append, RingBuffer.unread_length, RingBuffer.unread_length,
        List.length_take] at this
      omega
    refine ⟨rb2, min w.length rb.availableToWrite :: ks, ?_, hwf2, by omega, by rw [hrp2, hrp1],
      by simp [hlen2], ?_, ?_, ?_, ?_⟩
    · simp only [RingBuffer.writeAll, hw1, hw2]
    · simp only [List.map_cons, List.sum_cons, hsum2]
      omega
    · intro hle
      simp only [List.map_cons, List.sum_cons] at hle
      rw [hall2 (by omega), Nat.min_eq_left (by omega)]
      rfl
    · rw [hu2, hu1, List.append_assoc]
      simp only [List.flatten_cons, List.sum_cons]
      by_cases hfull : w.length ≤ rb.availableToWrite
      · rw [Nat.min_eq_left hfull, List.take_append, List.take_of_length_le (le_refl _)]
      · have hk0 : ks.sum = 0 := by omega
        rw [hk0, Nat.min_eq_right (by omega), Nat.add_zero, List.take_zero, List.append_nil,
          List.take_append_of_le_length (by omega)]
    · rw [hz2, hu1, List.append_assoc, List.zipWith_cons_cons, List.flatten_cons]

/-- A run of reads on a well-formed ring, each into a block of at least the
requested length: every call succeeds, the delivered chunks have the returned
counts as lengths and concatenate to the first `sum of counts` unread bytes,
the rest stays in the ring, and the write cursor and stored data do not
change. -/
theorem RingBuffer.readAll_spec (reqs : List (List Byte × Nat)) :
    ∀ {rb : RingBuffer}, rb.WellFormed → (∀ q ∈ reqs, q.2 ≤ q.1.length) →
    ∃ rb' ks outs, rb.readAll reqs = some (rb', ks, outs) ∧
      rb'.WellFormed ∧ rb'.capacity = rb.capacity ∧ rb'.writePos = rb.writePos ∧
      rb'.data = rb.data ∧
      ks.sum ≤ rb.availableToRead ∧
      outs.map List.length = ks ∧
      outs.flatten = rb.unread.take ks.sum ∧
      rb'.unread = rb.unread.drop ks.sum := by
  induction reqs with
  | nil =>
    intro rb h _
    exact ⟨rb, [], [], rfl, h, rfl, rfl, rfl, by simp, rfl, by simp, by simp⟩
  | cons q reqs ih =>
    intro rb h hv
    obtain ⟨dst, len⟩ := q
    have hq : len ≤ dst.length := hv (dst, len) (List.mem_cons_self _ _)
    obtain ⟨rb1, hr1, hwf1, hcap1, hwp1, hd1, hu1, _, _⟩ := RingBuffer.read_spec h dst len hq
    obtain ⟨rb2, ks, outs, hr2, hwf2, hcap2, hwp2, hd2, hsum2, hlen2, hj2, hu2⟩ :=
      ih hwf1 (fun q' hq' => hv q' (List.mem_cons_of_mem _ hq'))
    have hr0 : rb1.availableToRead = rb.availableToRead - min len rb.availableToRead := by
      have := congrArg List.length hu1
      rw [List.length_drop, RingBuffer.unread_length, RingBuffer.unread_length] at this
      exact this
    have hul := RingBuffer.unread_length rb
    refine ⟨rb2, min len rb.availableToRead :: ks,
      (rb.unread.take (min len rb.availableToRead)
        ++ dst.drop (min len rb.availableToRead)).take (min len rb.availableToRead) :: outs,
      ?_, hwf2, by omega,
      by rw [hwp2, hwp1], by rw [hd2, hd1], ?_, ?_, ?_, ?_⟩
    · simp only [RingBuffer.readAll, hr1, hr2, Option.getD_some]
    · simp only [List.sum_cons]; omega
    · simp only [List.map_cons, hlen2, Option.getD_some, List.length_take,
        List.length_append, List.length_drop, hul]
      rw [Nat.min_eq_left (by omega)]
    · simp only [List.flatten_cons, List.sum_cons, hj2, hu1]
      rw [List.take_append_of_le_length (by rw [List.length_take, hul]; omega),
        List.take_take, Nat.min_self, List.take_add]
    · rw [hu2, hu1, List.drop_drop, List.sum_cons]

theorem RingBuffer.unread_eq_nil_of_empty {rb : RingBuffer} (h : rb.WellFormed)
    (he : rb.readPos = rb.writePos) : rb.unread = [] := by
  apply List.eq_nil_of_length_eq_zero
  rw [RingBuffer.unread_length]
  have := RingBuffer.availableToRead_cases h
  omega

/-- Every cursor position occurs in a reachable empty ring: for a capacity `C`
that `init` can allocate and every `p < C` there is a reachable state with
`readPos == writePos == p` (write `p` bytes into the fresh ring, read them
back).  So the statements about reachable empty rings cover writes that wrap
around the end of `data`. -/
theorem RingBuffer.empty_reachable_at (C p : Nat) (hC : 0 < C) (hmax : C ≤ VECTOR_MAX_SIZE)
    (hp : p < C) :
    ∃ rb : RingBuffer, rb.Reachable ∧ rb.capacity = C ∧ rb.readPos = p ∧ rb.writePos = p := by
  have hinit : RingBuffer.init C
      = some { data := List.replicate C 0, capacity := C, readPos := 0, writePos := 0 } := by
    unfold RingBuffer.init
    simp only [if_pos (Nat.pos_iff_ne_zero.mp hC), if_pos hmax]
  have hr0 := @RingBuffer.Reachable.init C _ hinit
  by_cases hp0 : p = 0
  · subst hp0
    exact ⟨_, hr0, rfl, rfl, rfl⟩
  · have hwf0 := hr0.wellFormed
    have har0 := RingBuffer.availableToRead_eq hwf0
    have haw0 := RingBuffer.availableToWrite_eq hwf0
    simp only [if_pos (Nat.le_refl 0), Nat.sub_self] at har0
    rw [har0] at haw0
    simp only [Nat.sub_zero] at haw0
    have hn : min p (RingBuffer.availableToWrite
        { data := List.replicate C 0, capacity := C, readPos := 0, writePos := 0 }) = p := by
      rw [haw0]; omega
    obtain ⟨d2, hw, _, _⟩ := RingBuffer.write_eq hwf0 (List.replicate p 0) p
      (by rw [List.length_replicate]) (by rw [hn]; omega)
    rw [hn] at hw
    simp only [Nat.zero_add, Nat.mod_eq_of_lt hp] at hw
    have hr1 := RingBuffer.Reachable.write hr0 hw
    have hwf1 := hr1.wellFormed
    have har1 := RingBuffer.availableToRead_eq hwf1
    simp only [if_pos (Nat.zero_le p), Nat.sub_zero] at har1
    obtain ⟨o2, hrd, _, _⟩ := RingBuffer.read_eq hwf1 (List.replicate p 0) p
      (by rw [List.length_replicate]) (by rw [har1]; omega)
    rw [har1, Nat.min_self] at hrd
    simp only [Nat.zero_add, Nat.mod_eq_of_lt hp] at hrd
    exact ⟨_, RingBuffer.Reachable.read hr1 hrd, rfl, rfl, rfl⟩

/-- C1 (ring FIFO).  For every empty ring state reachable from `init` (read
and write cursor equal, at any position, so the writes may wrap around) and
every sequence of byte strings `W1..Wn` of total length at most
`capacity - 1`: writing them in order returns each string's full length, and
any following run of `read` calls succeeds and, when its returned counts sum
to the written total, delivers (concatenated in call order) exactly
`W1 ++ ... ++ Wn`. -/
theorem C1_ring_fifo (rb : RingBuffer) (h : rb.Reachable) (hempty : rb.readPos = rb.writePos)
    (ws : List (List Byte)) (htotal : (ws.map List.length).sum ≤ rb.capacity - 1) :
    ∃ rb1, rb.writeAll ws = some (rb1, ws.map List.length) ∧
      ∀ reqs : List (List Byte × Nat), (∀ q ∈ reqs, q.2 ≤ q.1.length) →
        ∃ rb2 ks outs, rb1.readAll reqs = some (rb2, ks, outs) ∧
          outs.map List.length = ks ∧
          (ks.sum = (ws.map List.length).sum → outs.flatten = ws.flatten) := by
  have hwf := h.wellFormed
  have hun := RingBuffer.unread_eq_nil_of_empty hwf hempty
  have har : rb.availableToRead = 0 := by rw [← RingBuffer.unread_length, hun]; rfl
  have haw := RingBuffer.availableToWrite_eq hwf
  obtain ⟨rb1, ks, hw, hwf1, _, _, _, hsum, hall, hu, _⟩ := RingBuffer.writeAll_spec ws hwf
  have hks : ks = ws.map List.length := hall (by omega)
  subst hks
  refine ⟨rb1, hw, ?_⟩
  intro reqs hv
  obtain ⟨rb2, ks', outs, hr, _, _, _, _, _, hlen, hj, _⟩ := RingBuffer.readAll_spec reqs hwf1 hv
  refine ⟨rb2, ks', outs, hr, hlen, ?_⟩
  intro hs
  rw [hj, hu, hun, List.nil_append, hs, List.take_take, Nat.min_self]
  apply List.take_of_length_le
  rw [List.length_flatten]

/-- Witness for C1: two strings written across the wrap-around point of a
capacity-4 ring whose cursors both stand at index 3, then read back by two
calls. -/
theorem C1_ring_fifo_witness :
    exampleEmptyRing.Reachable ∧ exampleEmptyRing.readPos = exampleEmptyRing.writePos ∧
    (([[5, 6], [7]] : List (List Byte)).map List.length).sum ≤ exampleEmptyRing.capacity - 1 ∧
    ∃ rb1, exampleEmptyRing.writeAll [[5, 6], [7]]
        = some (rb1, ([[5, 6], [7]] : List (List Byte)).map List.length) ∧
      ∀ reqs : List (List Byte × Nat), (∀ q ∈ reqs, q.2 ≤ q.1.length) →
        ∃ rb2 ks outs, rb1.readAll reqs = some (rb2, ks, outs) ∧
          outs.map List.length = ks ∧
          (ks.sum = (([[5, 6], [7]] : List (List Byte)).map List.length).sum →
            outs.flatten = ([[5, 6], [7]] : List (List Byte)).flatten) :=
  ⟨exampleEmptyRing_reachable, rfl, by decide,
   C1_ring_fifo exampleEmptyRing exampleEmptyRing_reachable rfl [[5, 6], [7]] (by decide)⟩

/-- C4 (no corruption of unread data).  For every reachable ring state
holding the unread bytes `U` and every burst of `write` calls with no read in
between: every call succeeds, the read cursor is unchanged, the counts add up
to `min(total, availableToWrite())` (so a burst larger than the free space
loses its excess, the counts summing to less than the total), the accepted
bytes are a prefix of each string and together the prefix of the burst of that
length, and any following run of reads that drains the ring delivers `U`
first, unchanged, followed by exactly that accepted prefix. -/
theorem C4_no_corruption (rb : RingBuffer) (h : rb.Reachable) (ws : List (List Byte)) :
    ∃ rb1 ks, rb.writeAll ws = some (rb1, ks) ∧
      rb1.readPos = rb.readPos ∧
      ks.length = ws.length ∧
      ks.sum = min (ws.map List.length).sum rb.availableToWrite ∧
      (rb.availableToWrite < (ws.map List.length).sum → ks.sum < (ws.map List.length).sum) ∧
      (List.zipWith List.take ks ws).flatten = ws.flatten.take ks.sum ∧
      rb1.unread = rb.unread ++ ws.flatten.take ks.sum ∧
      ∀ reqs : List (List Byte × Nat), (∀ q ∈ reqs, q.2 ≤ q.1.length) →
        ∃ rb2 ks' outs, rb1.readAll reqs = some (rb2, ks', outs) ∧
          outs.map List.length = ks' ∧
          (ks'.sum = rb1.availableToRead →
            outs.flatten = rb.unread ++ ws.flatten.take ks.sum) := by
  have hwf := h.wellFormed
  obtain ⟨rb1, ks, hw, hwf1, _, hrp, hlen, hsum, _, hu, hz⟩ := RingBuffer.writeAll_spec ws hwf
  refine ⟨rb1, ks, hw, hrp, hlen, hsum, by omega, ?_, hu, ?_⟩
  · exact List.append_cancel_left (hz.symm.trans hu)
  · intro reqs hv
    obtain ⟨rb2, ks', outs, hr, _, _, _, _, _, hlen', hj, _⟩ :=
      RingBuffer.readAll_spec reqs hwf1 hv
    refine ⟨rb2, ks', outs, hr, hlen', ?_⟩
    intro hs
    rw [hj, hs, ← RingBuffer.unread_length, List.take_length, hu]

/-- Witness for C4: a burst of five bytes against a ring with one unread byte
and two free bytes; the drain returns the old byte and the first two new
ones. -/
theorem C4_no_corruption_witness :
    exampleRing.Reachable ∧
    ∃ rb1 ks, exampleRing.writeAll [[7, 8, 9], [10, 11]] = some (rb1, ks) ∧
      rb1.readPos = exampleRing.readPos ∧
      ks.length = ([[7, 8, 9], [10, 11]] : List (List Byte)).length ∧
      ks.sum = min (([[7, 8, 9], [10, 11]] : List (List Byte)).map List.length).sum
        exampleRing.availableToWrite ∧
      (exampleRing.availableToWrite
          < (([[7, 8, 9], [10, 11]] : List (List Byte)).map List.length).sum →
        ks.sum < (([[7, 8, 9], [10, 11]] : List (List Byte)).map List.length).sum) ∧
      (List.zipWith List.take ks ([[7, 8, 9], [10, 11]] : List (List Byte))).flatten
        = ([[7, 8, 9], [10, 11]] : List (List Byte)).flatten.take ks.sum ∧
      rb1.unread = exampleRing.unread
        ++ ([[7, 8, 9], [10, 11]] : List (List Byte)).flatten.take ks.sum ∧
      ∀ reqs : List (List Byte × Nat), (∀ q ∈ reqs, q.2 ≤ q.1.length) →
        ∃ rb2 ks' outs, rb1.readAll reqs = some (rb2, ks', outs) ∧
          outs.map List.length = ks' ∧
          (ks'.sum = rb1.availableToRead →
            outs.flatten = exampleRing.unread
              ++ ([[7, 8, 9], [10, 11]] : List (List Byte)).flatten.take ks.sum) :=
  ⟨exampleRing_reachable, C4_no_corruption exampleRing exampleRing_reachable [[7, 8, 9], [10, 11]]⟩

/-! ## Render steps -/

theorem memsetZero_eq {dst : List Byte} {off n : Nat} (h : off + n ≤ dst.length) :
    memsetZero dst off n
      = some (dst.take off ++ List.replicate n (0 : Byte) ++ dst.drop (off + n)) := by
  unfold memsetZero
  rw [if_pos h]

theorem memcpy_front {dst src : List Byte} {n : Nat} (h1 : n ≤ dst.length)
    (h2 : n ≤ src.length) : memcpy dst 0 src 0 n = some (src.take n ++ dst.drop n) := by
  unfold memcpy
  rw [if_pos ⟨by omega, by omega⟩]
  simp

/-- Zero-filling the tail of a block whose first `m` bytes were just read from
the unread content `u`. -/
theorem fill_tail (u buf : List Byte) (R m : Nat) (hm : m ≤ R) (hu : m ≤ u.length)
    (hR : R ≤ buf.length) (hR64 : R < SIZE_MODULUS) :
    (if m < R then memsetZero (u.take m ++ buf.drop m) m (sizeSub R m)
      else some (u.take m ++ buf.drop m))
      = some (u.take m ++ List.replicate (R - m) (0 : Byte) ++ buf.drop R) := by
  have hl : (u.take m).length = m := by rw [List.length_take]; omega
  by_cases hlt : m < R
  · rw [if_pos hlt, sizeSub_eq (by omega) hR64,
      memsetZero_eq (by rw [List.length_append, hl, List.length_drop]; omega),
      List.take_append_of_le_length (by omega), List.take_of_length_le (by omega)]
    have e : m + (R - m) = (u.take m).length + (R - m) := by omega
    rw [e, List.drop_append, List.drop_drop]
    have e2 : m + (R - m) = R := by omega
    rw [e2]
  · have : m = R := by omega
    subst this
    rw [if_neg hlt]
    simp

theorem uint_mul_lt_size {a b : Nat} (ha : a < UINT_MODULUS) (hb : b < UINT_MODULUS) :
    a * b < SIZE_MODULUS := by
  unfold UINT_MODULUS at ha hb
  unfold SIZE_MODULUS
  calc a * b ≤ 4294967295 * 4294967295 := Nat.mul_le_mul (by omega) (by omega)
    _ < 18446744073709551616 := by norm_num

theorem sizeMul_eq {a b : Nat} (h : a * b < SIZE_MODULUS) : sizeMul a b = a * b := by
  unfold sizeMul
  exact Nat.mod_eq_of_lt h

theorem vectorResize_length (v : List Byte) (n : Nat) : (vectorResize v n).length = n := by
  unfold vectorResize
  rw [List.length_append, List.length_take, List.length_replicate]
  omega

/-- The un-paused buffer fill of `WasapiRenderThread` on a well-formed ring. -/
theorem WasapiRenderThread_fill_running (s : OutputStreamState) (temp : List Byte) (N : Nat)
    (data : List Byte) (hwf : s.ring.WellFormed) (hp : s.paused = false)
    (h64 : N * s.bytesPerFrame < SIZE_MODULUS) (hdata : N * s.bytesPerFrame ≤ data.length) :
    ∃ ring' temp', WasapiRenderThread_fill s temp N data
        = some ({ s with ring := ring' }, temp',
            s.ring.unread.take (min s.ring.availableToRead (N * s.bytesPerFrame))
              ++ List.replicate
                  (N * s.bytesPerFrame - min s.ring.availableToRead (N * s.bytesPerFrame)) 0
              ++ data.drop (N * s.bytesPerFrame)) ∧
      ring'.WellFormed ∧
      ring'.unread = s.ring.unread.drop (min s.ring.availableToRead (N * s.bytesPerFrame)) ∧
      ring'.writePos = s.ring.writePos ∧ ring'.data = s.ring.data ∧
      ring'.capacity = s.ring.capacity ∧
      ring'.readPos = (s.ring.readPos + min s.ring.availableToRead (N * s.bytesPerFrame)) % s.ring.capacity := by
  have hsm := sizeMul_eq h64
  generalize hR : N * s.bytesPerFrame = R at *
  have hul := RingBuffer.unread_length s.ring
  obtain ⟨ring', hread, hwf', hcap, hwp, hd, hu, _, hrp⟩ :=
    RingBuffer.read_spec hwf (vectorResize temp R) R (by rw [vectorResize_length])
  rw [Nat.min_comm] at hread hu hrp
  generalize hm : min s.ring.availableToRead R = m at *
  have hmR : m ≤ R := by omega
  have hma : m ≤ s.ring.unread.length := by omega
  refine ⟨ring', s.ring.unread.take m ++ (vectorResize temp R).drop m, ?_, hwf', hu, hwp, hd,
    hcap, hrp⟩
  unfold WasapiRenderThread_fill
  simp only [hp, hsm, hread, Bool.false_eq_true, if_false, Option.getD_some]
  have hl : (s.ring.unread.take m).length = m := by rw [List.length_take]; omega
  by_cases hm0 : m > 0
  · rw [if_pos hm0, memcpy_front (by omega) (by
      rw [List.length_append, hl, List.length_drop, vectorResize_length]; omega)]
    simp only []
    rw [List.take_append_of_le_length (by omega), List.take_of_length_le (by omega)]
    have := fill_tail s.ring.unread data R m hmR hma hdata h64
    by_cases hlt : m < R
    · rw [if_pos hlt] at this
      rw [if_pos hlt, this]
    · rw [if_neg hlt] at this
      injection this with this
      rw [if_neg hlt, this]
  · have : m = 0 := by omega
    subst this
    rw [if_neg hm0, memsetZero_eq (by omega)]
    simp

/-- The interleaved path of `CoreAudioRenderCallback` on a running, un-paused
stream with a well-formed ring. -/
theorem CoreAudioRenderCallback_interleaved (s : OutputStreamState) (N : Nat) (b : AudioBuffer)
    (hwf : s.ring.WellFormed) (hrun : s.running = true) (hp : s.paused = false)
    (h32 : N * s.bytesPerFrame < UINT_MODULUS) (hdata : N * s.bytesPerFrame ≤ b.mData.length) :
    ∃ ring', CoreAudioRenderCallback s N [b]
        = some ({ s with lastHardwarePaddingFrames := N, ring := ring' },
            [{ mData :=
                s.ring.unread.take (min s.ring.availableToRead (N * s.bytesPerFrame))
                  ++ List.replicate
                      (N * s.bytesPerFrame - min s.ring.availableToRead (N * s.bytesPerFrame)) 0
                  ++ b.mData.drop (N * s.bytesPerFrame),
               mDataByteSize := N * s.bytesPerFrame }], true) ∧
      ring'.WellFormed ∧
      ring'.unread = s.ring.unread.drop (min s.ring.availableToRead (N * s.bytesPerFrame)) ∧
      ring'.writePos = s.ring.writePos ∧ ring'.data = s.ring.data ∧
      ring'.capacity = s.ring.capacity ∧
      ring'.readPos = (s.ring.readPos + min s.ring.availableToRead (N * s.bytesPerFrame)) % s.ring.capacity := by
  have h64 : N * s.bytesPerFrame < SIZE_MODULUS := by
    unfold UINT_MODULUS at h32; unfold SIZE_MODULUS; omega
  have hsm := sizeMul_eq h64
  have h32' : N * s.bytesPerFrame % UINT_MODULUS = N * s.bytesPerFrame := Nat.mod_eq_of_lt h32
  generalize hR : N * s.bytesPerFrame = R at *
  have hul := RingBuffer.unread_length s.ring
  obtain ⟨ring', hread, hwf', hcap, hwp, hd, hu, _, hrp⟩ := RingBuffer.read_spec hwf b.mData R hdata
  rw [Nat.min_comm] at hread hu hrp
  generalize hm : min s.ring.availableToRead R = m at *
  have hmR : m ≤ R := by omega
  have hma : m ≤ s.ring.unread.length := by omega
  refine ⟨ring', ?_, hwf', hu, hwp, hd, hcap, hrp⟩
  unfold CoreAudioRenderCallback
  simp only [hrun, hp, hsm, hread, Bool.not_true, Bool.false_eq_true, if_false,
    Option.getD_some, fill_tail s.ring.unread b.mData R m hmR hma hdata h64, h32']

/-- The un-paused buffer fill of `AlsaRenderThread` on a well-formed ring, with
`tempBuffer` of the size the thread allocated. -/
theorem AlsaRenderThread_fill_running (s : OutputStreamState) (tempBuffer : List Byte)
    (hwf : s.ring.WellFormed) (hp : s.paused = false)
    (h64 : s.periodSize * s.bytesPerFrame < SIZE_MODULUS) (hbpf : 0 < s.bytesPerFrame)
    (htemp : tempBuffer.length = s.periodSize * s.bytesPerFrame) :
    ∃ ring', AlsaRenderThread_fill s tempBuffer
        = some ({ s with ring := ring' },
            s.ring.unread.take (min s.ring.availableToRead (s.periodSize * s.bytesPerFrame))
              ++ List.replicate (s.periodSize * s.bytesPerFrame
                  - min s.ring.availableToRead (s.periodSize * s.bytesPerFrame)) 0,
            s.periodSize) ∧
      ring'.WellFormed ∧
      ring'.unread
        = s.ring.unread.drop (min s.ring.availableToRead (s.periodSize * s.bytesPerFrame)) ∧
      ring'.writePos = s.ring.writePos ∧ ring'.data = s.ring.data ∧
      ring'.capacity = s.ring.capacity ∧
      ring'.readPos = (s.ring.readPos + min s.ring.availableToRead (s.periodSize * s.bytesPerFrame)) % s.ring.capacity := by
  have hsm := sizeMul_eq h64
  have hdiv : s.periodSize * s.bytesPerFrame / s.bytesPerFrame = s.periodSize :=
    Nat.mul_div_cancel _ hbpf
  generalize hR : s.periodSize * s.bytesPerFrame = R at *
  have hul := RingBuffer.unread_length s.ring
  obtain ⟨ring', hread, hwf', hcap, hwp, hd, hu, _, hrp⟩ :=
    RingBuffer.read_spec hwf tempBuffer R (le_of_eq htemp.symm)
  rw [Nat.min_comm] at hread hu hrp
  generalize hm : min s.ring.availableToRead R = m at *
  have hmR : m ≤ R := by omega
  have hma : m ≤ s.ring.unread.length := by omega
  refine ⟨ring', ?_, hwf', hu, hwp, hd, hcap, hrp⟩
  unfold AlsaRenderThread_fill
  have hdrop : tempBuffer.drop R = [] := List.drop_eq_nil_of_le (le_of_eq htemp)
  simp only [hp, hsm, hread, Bool.false_eq_true, if_false, Option.getD_some,
    fill_tail s.ring.unread tempBuffer R m hmR hma (le_of_eq htemp.symm) h64,
    if_neg (Nat.pos_iff_ne_zero.mp hbpf), hdiv, hdrop, List.append_nil]

/-- Length of the bytes a render step produces. -/
theorem rendered_length (rb : RingBuffer) (R : Nat) :
    (rb.unread.take (min rb.availableToRead R)
      ++ List.replicate (R - min rb.availableToRead R) (0 : Byte)).length = R := by
  rw [List.length_append, List.length_take, List.length_replicate, RingBuffer.unread_length]
  omega

/-- C7 (underrun silence).  In the render step of each backend on a running,
non-paused stream, for a demand of `N` frames (`R = N * bytesPerFrame` bytes)
and a ring holding `a` unread bytes: the step succeeds, the output `out` it
produces is exactly `R` bytes long, consists of the `min(a, R)` oldest unread
bytes of the ring, in order, followed by zero bytes only, and the ring
afterwards holds the remaining `a - min(a, R)` unread bytes unchanged (write
cursor and stored data untouched).

* WASAPI (buffer fill of `WasapiRenderThread`): `N = framesToWrite`, a `UINT32`
  like `bytesPerFrame`; the block from `GetBuffer` holds at least `R` bytes, and
  `out` replaces its first `R` bytes.
* CoreAudio (`CoreAudioRenderCallback`, one buffer): `N = inNumberFrames`; the
  buffer of the host holds `R` bytes or more, within `mDataByteSize`; `out`
  replaces its first `R` bytes and `mDataByteSize` becomes `R`.
* ALSA (`AlsaRenderThread`): `N = periodSize`; `tempBuffer` has the size the
  thread allocated, `periodSize * bytesPerFrame`, which fits a `size_t`, and
  `bytesPerFrame` is not zero; `out` is the whole `tempBuffer`, passed to
  `snd_pcm_writei` with the frame count `N`. -/
theorem C7_underrun_silence :
    (∀ (s : OutputStreamState) (temp : List Byte) (N : Nat) (data : List Byte),
      s.ring.Reachable → s.paused = false →
      N < UINT_MODULUS → s.bytesPerFrame < UINT_MODULUS →
      N * s.bytesPerFrame ≤ data.length →
      ∃ ring' temp' out, WasapiRenderThread_fill s temp N data
          = some ({ s with ring := ring' }, temp', out ++ data.drop (N * s.bytesPerFrame)) ∧
        out.length = N * s.bytesPerFrame ∧
        out = s.ring.unread.take (min s.ring.availableToRead (N * s.bytesPerFrame))
                ++ List.replicate
                    (N * s.bytesPerFrame - min s.ring.availableToRead (N * s.bytesPerFrame)) 0 ∧
        ring'.unread = s.ring.unread.drop (min s.ring.availableToRead (N * s.bytesPerFrame)) ∧
        ring'.writePos = s.ring.writePos ∧ ring'.data = s.ring.data ∧
        ring'.capacity = s.ring.capacity) ∧
    (∀ (s : OutputStreamState) (N : Nat) (b : AudioBuffer),
      s.ring.Reachable → s.running = true → s.paused = false →
      N * s.bytesPerFrame ≤ b.mDataByteSize → b.mDataByteSize < UINT_MODULUS →
      b.mDataByteSize ≤ b.mData.length →
      ∃ ring' out, CoreAudioRenderCallback s N [b]
          = some ({ s with lastHardwarePaddingFrames := N, ring := ring' },
              [{ mData := out ++ b.mData.drop (N * s.bytesPerFrame),
                 mDataByteSize := N * s.bytesPerFrame }], true) ∧
        out.length = N * s.bytesPerFrame ∧
        out = s.ring.unread.take (min s.ring.availableToRead (N * s.bytesPerFrame))
                ++ List.replicate
                    (N * s.bytesPerFrame - min s.ring.availableToRead (N * s.bytesPerFrame)) 0 ∧
        ring'.unread = s.ring.unread.drop (min s.ring.availableToRead (N * s.bytesPerFrame)) ∧
        ring'.writePos = s.ring.writePos ∧ ring'.data = s.ring.data ∧
        ring'.capacity = s.ring.capacity) ∧
    (∀ (s : OutputStreamState) (tempBuffer : List Byte),
      s.ring.Reachable → s.paused = false →
      s.periodSize * s.bytesPerFrame < SIZE_MODULUS → 0 < s.bytesPerFrame →
      tempBuffer.length = s.periodSize * s.bytesPerFrame →
      ∃ ring' out, AlsaRenderThread_fill s tempBuffer
          = some ({ s with ring := ring' }, out, s.periodSize) ∧
        out.length = s.periodSize * s.bytesPerFrame ∧
        out = s.ring.unread.take
                  (min s.ring.availableToRead (s.periodSize * s.bytesPerFrame))
                ++ List.replicate (s.periodSize * s.bytesPerFrame
                    - min s.ring.availableToRead (s.periodSize * s.bytesPerFrame)) 0 ∧
        ring'.unread
          = s.ring.unread.drop (min s.ring.availableToRead (s.periodSize * s.bytesPerFrame)) ∧
        ring'.writePos = s.ring.writePos ∧ ring'.data = s.ring.data ∧
        ring'.capacity = s.ring.capacity) := by
  refine ⟨?_, ?_, ?_⟩
  · intro s temp N data hr hp hN hb hdata
    obtain ⟨ring', temp', h1, _, h2, h3, h4, h5, _⟩ :=
      WasapiRenderThread_fill_running s temp N data hr.wellFormed hp
        (uint_mul_lt_size hN hb) hdata
    exact ⟨ring', temp', _, h1, rendered_length _ _, rfl, h2, h3, h4, h5⟩
  · intro s N b hr hrun hp hsz h32 hlen
    obtain ⟨ring', h1, _, h2, h3, h4, h5, _⟩ :=
      CoreAudioRenderCallback_interleaved s N b hr.wellFormed hrun hp (by omega) (by omega)
    exact ⟨ring', _, h1, rendered_length _ _, rfl, h2, h3, h4, h5⟩
  · intro s tempBuffer hr hp h64 hbpf htemp
    obtain ⟨ring', h1, _, h2, h3, h4, h5, _⟩ :=
      AlsaRenderThread_fill_running s tempBuffer hr.wellFormed hp h64 hbpf htemp
    exact ⟨ring', _, h1, rendered_length _ _, rfl, h2, h3, h4, h5⟩

/-- Witness for C7: a demand of two 2-byte frames against a ring holding one
unread byte, on each backend. -/
theorem C7_underrun_silence_witness :
    (∃ ring' temp' out, WasapiRenderThread_fill exampleStream [] 2 [9, 9, 9, 9, 9]
        = some ({ exampleStream with ring := ring' }, temp',
            out ++ List.drop (2 * exampleStream.bytesPerFrame) [9, 9, 9, 9, 9]) ∧
      out.length = 2 * exampleStream.bytesPerFrame ∧
      out = exampleStream.ring.unread.take
                (min exampleStream.ring.availableToRead (2 * exampleStream.bytesPerFrame))
              ++ List.replicate (2 * exampleStream.bytesPerFrame
                  - min exampleStream.ring.availableToRead (2 * exampleStream.bytesPerFrame)) 0 ∧
      ring'.unread = exampleStream.ring.unread.drop
          (min exampleStream.ring.availableToRead (2 * exampleStream.bytesPerFrame)) ∧
      ring'.writePos = exampleStream.ring.writePos ∧ ring'.data = exampleStream.ring.data ∧
      ring'.capacity = exampleStream.ring.capacity) ∧
    (∃ ring' out, CoreAudioRenderCallback exampleStream 2 [⟨[9, 9, 9, 9, 9], 4⟩]
        = some ({ exampleStream with lastHardwarePaddingFrames := 2, ring := ring' },
            [{ mData := out ++ List.drop (2 * exampleStream.bytesPerFrame) [9, 9, 9, 9, 9],
               mDataByteSize := 2 * exampleStream.bytesPerFrame }], true) ∧
      out.length = 2 * exampleStream.bytesPerFrame ∧
      out = exampleStream.ring.unread.take
                (min exampleStream.ring.availableToRead (2 * exampleStream.bytesPerFrame))
              ++ List.replicate (2 * exampleStream.bytesPerFrame
                  - min exampleStream.ring.availableToRead (2 * exampleStream.bytesPerFrame)) 0 ∧
      ring'.unread = exampleStream.ring.unread.drop
          (min exampleStream.ring.availableToRead (2 * exampleStream.bytesPerFrame)) ∧
      ring'.writePos = exampleStream.ring.writePos ∧ ring'.data = exampleStream.ring.data ∧
      ring'.capacity = exampleStream.ring.capacity) ∧
    (∃ ring' out, AlsaRenderThread_fill exampleStream [7, 7, 7, 7]
        = some ({ exampleStream with ring := ring' }, out, exampleStream.periodSize) ∧
      out.length = exampleStream.periodSize * exampleStream.bytesPerFrame ∧
      out = exampleStream.ring.unread.take (min exampleStream.ring.availableToRead
                (exampleStream.periodSize * exampleStream.bytesPerFrame))
              ++ List.replicate (exampleStream.periodSize * exampleStream.bytesPerFrame
                  - min exampleStream.ring.availableToRead
                      (exampleStream.periodSize * exampleStream.bytesPerFrame)) 0 ∧
      ring'.unread = exampleStream.ring.unread.drop (min exampleStream.ring.availableToRead
          (exampleStream.periodSize * exampleStream.bytesPerFrame)) ∧
      ring'.writePos = exampleStream.ring.writePos ∧ ring'.data = exampleStream.ring.data ∧
      ring'.capacity = exampleStream.ring.capacity) :=
  ⟨C7_underrun_silence.1 exampleStream [] 2 [9, 9, 9, 9, 9] exampleRing_reachable rfl
      (by decide) (by decide) (by decide),
   C7_underrun_silence.2.1 exampleStream 2 ⟨[9, 9, 9, 9, 9], 4⟩ exampleRing_reachable rfl rfl
      (by decide) (by decide) (by decide),
   C7_underrun_silence.2.2 exampleStream [7, 7, 7, 7] exampleRing_reachable rfl
      (by decide) (by decide) (by decide)⟩

/-! ## Paused render steps -/

theorem memsetZero_front {dst : List Byte} {n : Nat} (h : n ≤ dst.length) :
    memsetZero dst 0 n = some (List.replicate n (0 : Byte) ++ dst.drop n) := by
  rw [memsetZero_eq (by omega), List.take_zero, List.nil_append, Nat.zero_add]

theorem WasapiRenderThread_fill_paused (s : OutputStreamState) (temp : List Byte) (N : Nat)
    (data : List Byte) (hp : s.paused = true)
    (h64 : N * s.bytesPerFrame < SIZE_MODULUS) (hdata : N * s.bytesPerFrame ≤ data.length) :
    WasapiRenderThread_fill s temp N data
      = some (s, temp, List.replicate (N * s.bytesPerFrame) 0
          ++ data.drop (N * s.bytesPerFrame)) := by
  unfold WasapiRenderThread_fill
  simp only [hp, if_true, sizeMul_eq h64, memsetZero_front hdata]

theorem WasapiRenderThread_serve_paused (demands : List (Nat × List Byte)) :
    ∀ (s : OutputStreamState) (temp : List Byte), s.paused = true →
    s.bytesPerFrame < UINT_MODULUS →
    (∀ d ∈ demands, d.1 < UINT_MODULUS ∧ d.1 * s.bytesPerFrame ≤ d.2.length) →
    WasapiRenderThread_serve s temp demands
      = some (s, temp, demands.map (fun d =>
          List.replicate (d.1 * s.bytesPerFrame) 0 ++ d.2.drop (d.1 * s.bytesPerFrame))) := by
  induction demands with
  | nil => intro s temp _ _ _; rfl
  | cons d ds ih =>
    intro s temp hp hb hv
    obtain ⟨n, data⟩ := d
    have hd := hv (n, data) (List.mem_cons_self _ _)
    simp only [WasapiRenderThread_serve,
      WasapiRenderThread_fill_paused s temp n data hp (uint_mul_lt_size hd.1 hb) hd.2,
      ih s temp hp hb (fun d' hd' => hv d' (List.mem_cons_of_mem _ hd')), List.map_cons]

theorem CoreAudioRenderCallback_silence_eq (io : List AudioBuffer)
    (hv : ∀ b ∈ io, b.mDataByteSize ≤ b.mData.length) :
    CoreAudioRenderCallback_silence io
      = some (io.map (fun b =>
          { b with mData := List.replicate b.mDataByteSize 0 ++ b.mData.drop b.mDataByteSize })) := by
  induction io with
  | nil => rfl
  | cons b bs ih =>
    have hb := hv b (List.mem_cons_self _ _)
    simp only [CoreAudioRenderCallback_silence, memsetZero_front hb,
      ih (fun b' hb' => hv b' (List.mem_cons_of_mem _ hb')), List.map_cons]

theorem audioBytes_silenced (io : List AudioBuffer)
    (hv : ∀ b ∈ io, b.mDataByteSize ≤ b.mData.length) :
    audioBytes (io.map (fun b =>
        { b with mData := List.replicate b.mDataByteSize 0 ++ b.mData.drop b.mDataByteSize }))
      = List.replicate (io.map (fun b => b.mDataByteSize)).sum 0 := by
  induction io with
  | nil => rfl
  | cons b bs ih =>
    have ih' := ih (fun b' hb' => hv b' (List.mem_cons_of_mem _ hb'))
    unfold audioBytes at ih' ⊢
    simp only [List.map_cons, List.flatten_cons, List.sum_cons, ih']
    rw [List.take_append_of_le_length (by rw [List.length_replicate]),
      List.take_of_length_le (by rw [List.length_replicate]), List.replicate_add]

/-- A paused `CoreAudioRenderCallback` zeroes the buffers and leaves the stream
alone but for `lastHardwarePaddingFrames`. -/
theorem CoreAudioRenderCallback_paused (s : OutputStreamState) (N : Nat) (io : List AudioBuffer)
    (hp : s.paused = true) (hv : ∀ b ∈ io, b.mDataByteSize ≤ b.mData.length) :
    ∃ p nf, CoreAudioRenderCallback s N io
      = some ({ s with lastHardwarePaddingFrames := p },
          io.map (fun b =>
            { b with mData := List.replicate b.mDataByteSize 0 ++ b.mData.drop b.mDataByteSize }),
          nf) := by
  unfold CoreAudioRenderCallback
  by_cases hr : s.running = true
  · exact ⟨N, true, by simp only [hr, hp, Bool.not_true, Bool.false_eq_true, if_false, if_true,
      CoreAudioRenderCallback_silence_eq io hv]⟩
  · have hr' : s.running = false := by simpa using hr
    refine ⟨s.lastHardwarePaddingFrames, false, ?_⟩
    have hs : ({ s with lastHardwarePaddingFrames := s.lastHardwarePaddingFrames }
        : OutputStreamState) = s := rfl
    rw [hs, if_pos (by rw [hr']; rfl), CoreAudioRenderCallback_silence_eq io hv]

/-- The callback overwrites `lastHardwarePaddingFrames` before it looks at
anything else, or (on a stream that is not running) does not look at it at
all, so its outcome on the buffers and the ring does not depend on it. -/
theorem CoreAudioRenderCallback_padding (s : OutputStreamState) (p N : Nat)
    (io : List AudioBuffer) :
    (CoreAudioRenderCallback { s with lastHardwarePaddingFrames := p } N io).map
        (fun r => (r.1.ring, r.2))
      = (CoreAudioRenderCallback s N io).map (fun r => (r.1.ring, r.2)) := by
  unfold CoreAudioRenderCallback
  by_cases hr : s.running = true
  · simp only [hr, Bool.not_true, Bool.false_eq_true, if_false]
  · have hr' : s.running = false := by simpa using hr
    simp only [hr', Bool.not_false, if_true]
    cases CoreAudioRenderCallback_silence io <;> rfl

theorem RingBuffer.eq_of_fields {a b : RingBuffer} (h1 : a.data = b.data)
    (h2 : a.capacity = b.capacity) (h3 : a.readPos = b.readPos)
    (h4 : a.writePos = b.writePos) : a = b := by
  cases a
  cases b
  simp only [] at h1 h2 h3 h4
  subst h1 h2 h3 h4
  rfl

theorem CoreAudioRenderCallback_serve_paused (demands : List (Nat × List AudioBuffer)) :
    ∀ (s : OutputStreamState), s.paused = true →
    (∀ d ∈ demands, ∀ b ∈ d.2, b.mDataByteSize ≤ b.mData.length) →
    ∃ p, CoreAudioRenderCallback_serve s demands
      = some ({ s with lastHardwarePaddingFrames := p },
          demands.map (fun d => d.2.map (fun b =>
            { b with mData :=
                List.replicate b.mDataByteSize 0 ++ b.mData.drop b.mDataByteSize }))) := by
  induction demands with
  | nil => intro s _ _; exact ⟨s.lastHardwarePaddingFrames, rfl⟩
  | cons d ds ih =>
    intro s hp hv
    obtain ⟨n, io⟩ := d
    obtain ⟨p1, nf, h1⟩ :=
      CoreAudioRenderCallback_paused s n io hp (hv (n, io) (List.mem_cons_self _ _))
    obtain ⟨p2, h2⟩ := ih { s with lastHardwarePaddingFrames := p1 } hp
      (fun d' hd' => hv d' (List.mem_cons_of_mem _ hd'))
    exact ⟨p2, by simp only [CoreAudioRenderCallback_serve, h1, h2, List.map_cons]⟩

theorem AlsaRenderThread_fill_paused (s : OutputStreamState) (tempBuffer : List Byte)
    (hp : s.paused = true) :
    AlsaRenderThread_fill s tempBuffer
      = some (s, List.replicate tempBuffer.length 0, s.periodSize) := by
  unfold AlsaRenderThread_fill
  simp only [hp, if_true, memsetZero_front (le_refl _), List.drop_length, List.append_nil]

theorem AlsaRenderThread_serve_paused (k : Nat) :
    ∀ (s : OutputStreamState) (tempBuffer : List Byte), s.paused = true →
    ∃ t', AlsaRenderThread_serve s tempBuffer k
        = some (s, t', List.replicate k (List.replicate tempBuffer.length 0, s.periodSize)) ∧
      t'.length = tempBuffer.length := by
  induction k with
  | zero => intro s t _; exact ⟨t, rfl, rfl⟩
  | succ k ih =>
    intro s t hp
    obtain ⟨t', h1, h2⟩ := ih s (List.replicate t.length 0) hp
    rw [List.length_replicate] at h1 h2
    exact ⟨t', by simp only [AlsaRenderThread_serve, AlsaRenderThread_fill_paused s t hp, h1,
      List.replicate_succ], h2⟩

/-- C8 (pause silence).  While the paused flag is set, the render step of each
backend outputs zero bytes only, `N * bytesPerFrame` of them for a demand of
`N` frames, whatever the ring holds, and leaves the ring (cursors and stored
bytes) unchanged; so after `Pause`, any number of demands and `Resume`, with no
write in between, the next render step produces exactly what it produces on
the stream that was never paused.

* WASAPI: each demand is `(framesToWrite, data)` with `data` at least
  `framesToWrite * bytesPerFrame` bytes long; the first that many bytes of
  `data` become zero.
* CoreAudio: each demand is `(inNumberFrames, ioData)`; the callback zeroes
  the `mDataByteSize` bytes of every buffer, which the host sizes for the
  demand (`inNumberFrames * bytesPerFrame` bytes in total).
* ALSA: every iteration hands the zeroed `tempBuffer`
  (`periodSize * bytesPerFrame` bytes) and `periodSize` frames to the device. -/
theorem C8_pause_silence :
    (∀ (s : OutputStreamState) (temp : List Byte) (demands : List (Nat × List Byte)),
      s.bytesPerFrame < UINT_MODULUS →
      (∀ d ∈ demands, d.1 < UINT_MODULUS ∧ d.1 * s.bytesPerFrame ≤ d.2.length) →
      ∃ s' temp', WasapiRenderThread_serve (Pause s) temp demands
          = some (s', temp', demands.map (fun d =>
              List.replicate (d.1 * s.bytesPerFrame) 0 ++ d.2.drop (d.1 * s.bytesPerFrame))) ∧
        s'.ring = s.ring ∧
        ∀ (N : Nat) (data : List Byte),
          WasapiRenderThread_fill (Resume s') temp' N data
            = WasapiRenderThread_fill (Resume s) temp N data) ∧
    (∀ (s : OutputStreamState) (demands : List (Nat × List AudioBuffer)),
      (∀ d ∈ demands, (∀ b ∈ d.2, b.mDataByteSize ≤ b.mData.length) ∧
        (d.2.map (fun b => b.mDataByteSize)).sum = d.1 * s.bytesPerFrame) →
      ∃ s' outs, CoreAudioRenderCallback_serve (Pause s) demands = some (s', outs) ∧
        outs.map audioBytes
          = demands.map (fun d => List.replicate (d.1 * s.bytesPerFrame) (0 : Byte)) ∧
        s'.ring = s.ring ∧
        ∀ (N : Nat) (io : List AudioBuffer),
          (CoreAudioRenderCallback (Resume s') N io).map (fun r => (r.1.ring, r.2))
            = (CoreAudioRenderCallback (Resume s) N io).map (fun r => (r.1.ring, r.2))) ∧
    (∀ (s : OutputStreamState) (tempBuffer : List Byte) (k : Nat),
      tempBuffer.length = s.periodSize * s.bytesPerFrame →
      ∃ s' t', AlsaRenderThread_serve (Pause s) tempBuffer k
          = some (s', t', List.replicate k
              (List.replicate (s.periodSize * s.bytesPerFrame) 0, s.periodSize)) ∧
        s'.ring = s.ring ∧
        (s.ring.Reachable → s.periodSize * s.bytesPerFrame < SIZE_MODULUS →
          0 < s.bytesPerFrame →
          AlsaRenderThread_fill (Resume s') t' = AlsaRenderThread_fill (Resume s) tempBuffer)) := by
  refine ⟨?_, ?_, ?_⟩
  · intro s temp demands hb hv
    exact ⟨Pause s, temp, WasapiRenderThread_serve_paused demands (Pause s) temp rfl hb hv, rfl,
      fun _ _ => rfl⟩
  · intro s demands hv
    obtain ⟨p, h⟩ := CoreAudioRenderCallback_serve_paused demands (Pause s) rfl
      (fun d hd => (hv d hd).1)
    refine ⟨_, _, h, ?_, rfl, ?_⟩
    · rw [List.map_map]
      apply List.map_congr_left
      intro d hd
      show audioBytes _ = _
      rw [audioBytes_silenced d.2 (hv d hd).1, (hv d hd).2]
    · intro N io
      exact CoreAudioRenderCallback_padding (Resume s) p N io
  · intro s tempBuffer k htemp
    obtain ⟨t', h1, h2⟩ := AlsaRenderThread_serve_paused k (Pause s) tempBuffer rfl
    rw [htemp] at h1
    refine ⟨Pause s, t', h1, rfl, ?_⟩
    intro hr h64 hbpf
    obtain ⟨r1, e1, _, u1, w1, d1, c1, p1⟩ := AlsaRenderThread_fill_running (Resume s) t'
      hr.wellFormed rfl h64 hbpf (h2.trans htemp)
    obtain ⟨r2, e2, _, u2, w2, d2, c2, p2⟩ := AlsaRenderThread_fill_running (Resume s) tempBuffer
      hr.wellFormed rfl h64 hbpf htemp
    have hr12 : r1 = r2 :=
      RingBuffer.eq_of_fields (d1.trans d2.symm) (c1.trans c2.symm) (p1.trans p2.symm)
        (w1.trans w2.symm)
    show AlsaRenderThread_fill (Resume s) t' = AlsaRenderThread_fill (Resume s) tempBuffer
    rw [e1, e2, hr12]

/-- Witness for C8: paused demands on the example stream, on each backend. -/
theorem C8_pause_silence_witness :
    (∃ s' temp', WasapiRenderThread_serve (Pause exampleStream) [] [(2, [9, 9, 9, 9, 9]), (1, [8, 8])]
        = some (s', temp', [[0, 0, 0, 0, 9], [0, 0]]) ∧
      s'.ring = exampleStream.ring ∧
      ∀ (N : Nat) (data : List Byte),
        WasapiRenderThread_fill (Resume s') temp' N data
          = WasapiRenderThread_fill (Resume exampleStream) [] N data) ∧
    (∃ s' outs, CoreAudioRenderCallback_serve (Pause exampleStream)
          [(2, [⟨[9, 9, 9, 9, 9], 4⟩]), (1, [⟨[8], 1⟩, ⟨[8], 1⟩])] = some (s', outs) ∧
      outs.map audioBytes = [[0, 0, 0, 0], [0, 0]] ∧
      s'.ring = exampleStream.ring ∧
      ∀ (N : Nat) (io : List AudioBuffer),
        (CoreAudioRenderCallback (Resume s') N io).map (fun r => (r.1.ring, r.2))
          = (CoreAudioRenderCallback (Resume exampleStream) N io).map
              (fun r => (r.1.ring, r.2))) ∧
    (∃ s' t', AlsaRenderThread_serve (Pause exampleStream) [7, 7, 7, 7] 2
        = some (s', t', [([0, 0, 0, 0], 2), ([0, 0, 0, 0], 2)]) ∧
      s'.ring = exampleStream.ring ∧
      AlsaRenderThread_fill (Resume s') t'
        = AlsaRenderThread_fill (Resume exampleStream) [7, 7, 7, 7]) :=
  ⟨C8_pause_silence.1 exampleStream [] [(2, [9, 9, 9, 9, 9]), (1, [8, 8])] (by decide)
      (by decide),
   C8_pause_silence.2.1 exampleStream [(2, [⟨[9, 9, 9, 9, 9], 4⟩]), (1, [⟨[8], 1⟩, ⟨[8], 1⟩])]
      (by decide),
   match C8_pause_silence.2.2 exampleStream [7, 7, 7, 7] 2 (by decide) with
   | ⟨s', t', h1, h2, h3⟩ =>
     ⟨s', t', h1, h2, h3 exampleRing_reachable (by decide) (by decide)⟩⟩

/-! ## Format negotiation -/

theorem uintMul_eq {a b : Nat} (h : a * b < UINT_MODULUS) : uintMul a b = a * b := by
  unfold uintMul
  exact Nat.mod_eq_of_lt h

/-- C9 (negotiation fallback).  In a non-bitPerfect exclusive open the
negotiated bit depth is the depth of the first candidate, in the order of the
candidate list of the backend, that the format query of the backend accepts,
and `bytesPerFrame` is recomputed from it as `(depth / 8) * channels` (in
`unsigned int` arithmetic, hence exactly that product whenever it fits 32
bits) instead of being kept from the request.  For `InitWasapi` and
`InitCoreAudio` the format part then always succeeds; `TrySetAlsaParams` has
further steps that can fail, and the statement holds whenever it returns
`true`.  In particular a request for 32 bits against a backend that rejects
float32, int32 and int24 and accepts int16 ends with `bitDepth == 16` and
`bytesPerFrame == 2 * channels`. -/
theorem C9_negotiation_fallback :
    (∀ (s : OutputStreamState) (IsFormatSupported : WAVEFORMATEXTENSIBLE → Bool)
        (mixFormat : Option WAVEFORMATEXTENSIBLE) (c : Nat × Bool),
      (InitWasapi_candidates s.bitDepth false).find?
          (fun c => IsFormatSupported (BuildFormat s.sampleRate s.channels c.1 c.2)) = some c →
      ∃ s', InitWasapi_format s true false IsFormatSupported mixFormat = some s' ∧
        s'.bitDepth = c.1 ∧ s'.channels = s.channels ∧
        s'.bytesPerFrame = uintMul (c.1 / 8) s'.channels ∧
        ((c.1 / 8) * s'.channels < UINT_MODULUS → s'.bytesPerFrame = (c.1 / 8) * s'.channels)) ∧
    (∀ (s : OutputStreamState) (TrySetFormat : Nat → Nat → Nat → Bool → Bool)
        (currentASBD : Option AudioStreamBasicDescription) (c : Nat × Bool),
      (InitCoreAudio_candidates s.bitDepth false).find?
          (fun c => TrySetFormat s.sampleRate s.channels c.1 c.2) = some c →
      (InitCoreAudio_format s true false TrySetFormat currentASBD).bitDepth = c.1 ∧
      (InitCoreAudio_format s true false TrySetFormat currentASBD).channels = s.channels ∧
      (InitCoreAudio_format s true false TrySetFormat currentASBD).bytesPerFrame
        = uintMul (c.1 / 8) s.channels ∧
      ((c.1 / 8) * s.channels < UINT_MODULUS →
        (InitCoreAudio_format s true false TrySetFormat currentASBD).bytesPerFrame
          = (c.1 / 8) * s.channels)) ∧
    (∀ (pcm : AlsaPcm) (s s' : OutputStreamState) (c : Nat × Bool),
      (TrySetAlsaParams_candidates s.bitDepth false).find?
          (fun c => pcm.hw_params_set_format (BitDepthToAlsaFormat c.1 c.2)) = some c →
      TrySetAlsaParams pcm s true false = some s' →
      s'.bitDepth = c.1 ∧
      s'.bytesPerFrame = uintMul (c.1 / 8) s'.channels ∧
      ((c.1 / 8) * s'.channels < UINT_MODULUS → s'.bytesPerFrame = (c.1 / 8) * s'.channels)) ∧
    (∀ (s : OutputStreamState) (IsFormatSupported : WAVEFORMATEXTENSIBLE → Bool)
        (mixFormat : Option WAVEFORMATEXTENSIBLE),
      s.bitDepth = 32 →
      IsFormatSupported (BuildFormat s.sampleRate s.channels 32 true) = false →
      IsFormatSupported (BuildFormat s.sampleRate s.channels 32 false) = false →
      IsFormatSupported (BuildFormat s.sampleRate s.channels 24 false) = false →
      IsFormatSupported (BuildFormat s.sampleRate s.channels 16 false) = true →
      ∃ s', InitWasapi_format s true false IsFormatSupported mixFormat = some s' ∧
        s'.bitDepth = 16 ∧ s'.channels = s.channels ∧
        s'.bytesPerFrame = uintMul 2 s.channels ∧
        (2 * s.channels < UINT_MODULUS → s'.bytesPerFrame = 2 * s.channels)) ∧
    (∀ (s : OutputStreamState) (TrySetFormat : Nat → Nat → Nat → Bool → Bool)
        (currentASBD : Option AudioStreamBasicDescription),
      s.bitDepth = 32 →
      TrySetFormat s.sampleRate s.channels 32 true = false →
      TrySetFormat s.sampleRate s.channels 32 false = false →
      TrySetFormat s.sampleRate s.channels 24 false = false →
      TrySetFormat s.sampleRate s.channels 16 false = true →
      (InitCoreAudio_format s true false TrySetFormat currentASBD).bitDepth = 16 ∧
      (InitCoreAudio_format s true false TrySetFormat currentASBD).channels = s.channels ∧
      (InitCoreAudio_format s true false TrySetFormat currentASBD).bytesPerFrame
        = uintMul 2 s.channels ∧
      (2 * s.channels < UINT_MODULUS →
        (InitCoreAudio_format s true false TrySetFormat currentASBD).bytesPerFrame
          = 2 * s.channels)) ∧
    (∀ (pcm : AlsaPcm) (s s' : OutputStreamState),
      s.bitDepth = 32 →
      pcm.hw_params_set_format .FLOAT_LE = false →
      pcm.hw_params_set_format .S32_LE = false →
      pcm.hw_params_set_format .S24_LE = false →
      pcm.hw_params_set_format .S16_LE = true →
      TrySetAlsaParams pcm s true false = some s' →
      s'.bitDepth = 16 ∧ s'.bytesPerFrame = uintMul 2 s'.channels ∧
      (2 * s'.channels < UINT_MODULUS → s'.bytesPerFrame = 2 * s'.channels)) := by
  have hw : ∀ (s : OutputStreamState) (IsFormatSupported : WAVEFORMATEXTENSIBLE → Bool)
      (mixFormat : Option WAVEFORMATEXTENSIBLE) (c : Nat × Bool),
      (InitWasapi_candidates s.bitDepth false).find?
          (fun c => IsFormatSupported (BuildFormat s.sampleRate s.channels c.1 c.2)) = some c →
      ∃ s', InitWasapi_format s true false IsFormatSupported mixFormat = some s' ∧
        s'.bitDepth = c.1 ∧ s'.channels = s.channels ∧
        s'.bytesPerFrame = uintMul (c.1 / 8) s'.channels ∧
        ((c.1 / 8) * s'.channels < UINT_MODULUS →
          s'.bytesPerFrame = (c.1 / 8) * s'.channels) := by
    intro s f mix c hc
    refine ⟨{ s with bitDepth := c.1, bytesPerFrame := uintMul (c.1 / 8) s.channels },
      by unfold InitWasapi_format; simp only [if_true, hc], rfl, rfl, rfl, ?_⟩
    intro hlt
    exact uintMul_eq hlt
  have hca : ∀ (s : OutputStreamState) (TrySetFormat : Nat → Nat → Nat → Bool → Bool)
      (currentASBD : Option AudioStreamBasicDescription) (c : Nat × Bool),
      (InitCoreAudio_candidates s.bitDepth false).find?
          (fun c => TrySetFormat s.sampleRate s.channels c.1 c.2) = some c →
      (InitCoreAudio_format s true false TrySetFormat currentASBD).bitDepth = c.1 ∧
      (InitCoreAudio_format s true false TrySetFormat currentASBD).channels = s.channels ∧
      (InitCoreAudio_format s true false TrySetFormat currentASBD).bytesPerFrame
        = uintMul (c.1 / 8) s.channels ∧
      ((c.1 / 8) * s.channels < UINT_MODULUS →
        (InitCoreAudio_format s true false TrySetFormat currentASBD).bytesPerFrame
          = (c.1 / 8) * s.channels) := by
    intro s f cur c hc
    have e : InitCoreAudio_format s true false f cur
        = { s with bitDepth := c.1, bytesPerFrame := uintMul (c.1 / 8) s.channels } := by
      unfold InitCoreAudio_format
      simp only [if_true, hc]
    rw [e]
    exact ⟨rfl, rfl, rfl, fun hlt => uintMul_eq hlt⟩
  have hal : ∀ (pcm : AlsaPcm) (s s' : OutputStreamState) (c : Nat × Bool),
      (TrySetAlsaParams_candidates s.bitDepth false).find?
          (fun c => pcm.hw_params_set_format (BitDepthToAlsaFormat c.1 c.2)) = some c →
      TrySetAlsaParams pcm s true false = some s' →
      s'.bitDepth = c.1 ∧
      s'.bytesPerFrame = uintMul (c.1 / 8) s'.channels ∧
      ((c.1 / 8) * s'.channels < UINT_MODULUS →
        s'.bytesPerFrame = (c.1 / 8) * s'.channels) := by
    intro pcm s s' c hc hs
    unfold TrySetAlsaParams at hs
    simp only [if_true, hc] at hs
    split at hs
    · cases hs
    · split at hs
      · cases hs
      · split at hs
        · cases hs
        · split at hs
          · cases hs
          · split at hs
            · cases hs
            · split at hs
              · cases hs
              · split at hs
                · cases hs
                · injection hs with hs
                  subst hs
                  exact ⟨rfl, rfl, fun hlt => uintMul_eq hlt⟩
  refine ⟨hw, hca, hal, ?_, ?_, ?_⟩
  · intro s f mix h32 r1 r2 r3 a4
    have hc : (InitWasapi_candidates s.bitDepth false).find?
        (fun c => f (BuildFormat s.sampleRate s.channels c.1 c.2)) = some (16, false) := by
      rw [h32]
      simp [InitWasapi_candidates, List.find?, r1, r2, r3, a4]
    obtain ⟨s', h1, h2, h3, h4, h5⟩ := hw s f mix (16, false) hc
    rw [h3] at h4 h5
    exact ⟨s', h1, h2, h3, h4, h5⟩
  · intro s f cur h32 r1 r2 r3 a4
    have hc : (InitCoreAudio_candidates s.bitDepth false).find?
        (fun c => f s.sampleRate s.channels c.1 c.2) = some (16, false) := by
      rw [h32]
      simp [InitCoreAudio_candidates, List.find?, r1, r2, r3, a4]
    exact hca s f cur (16, false) hc
  · intro pcm s s' h32 r1 r2 r3 a4 hs
    have hc : (TrySetAlsaParams_candidates s.bitDepth false).find?
        (fun c => pcm.hw_params_set_format (BitDepthToAlsaFormat c.1 c.2))
          = some (16, false) := by
      rw [h32]
      simp [TrySetAlsaParams_candidates, List.find?, BitDepthToAlsaFormat, r1, r2, r3, a4]
    exact hal pcm s s' (16, false) hc hs

/-- Witness for C9: a 32-bit stereo request against 16-bit-only devices. -/
theorem C9_negotiation_fallback_witness :
    (∃ s', InitWasapi_format exampleRequest32 true false exampleIsFormatSupported16 none
        = some s' ∧
      s'.bitDepth = 16 ∧ s'.channels = exampleRequest32.channels ∧
      s'.bytesPerFrame = uintMul 2 exampleRequest32.channels ∧
      (2 * exampleRequest32.channels < UINT_MODULUS →
        s'.bytesPerFrame = 2 * exampleRequest32.channels)) ∧
    ((InitCoreAudio_format exampleRequest32 true false exampleTrySetFormat16 none).bitDepth = 16 ∧
      (InitCoreAudio_format exampleRequest32 true false exampleTrySetFormat16 none).channels
        = exampleRequest32.channels ∧
      (InitCoreAudio_format exampleRequest32 true false exampleTrySetFormat16 none).bytesPerFrame
        = uintMul 2 exampleRequest32.channels ∧
      (2 * exampleRequest32.channels < UINT_MODULUS →
        (InitCoreAudio_format exampleRequest32 true false exampleTrySetFormat16
          none).bytesPerFrame = 2 * exampleRequest32.channels)) ∧
    (TrySetAlsaParams examplePcm16 exampleRequest32 true false = some exampleAlsaOpened16 ∧
      exampleAlsaOpened16.bitDepth = 16 ∧
      exampleAlsaOpened16.bytesPerFrame = uintMul 2 exampleAlsaOpened16.channels ∧
      (2 * exampleAlsaOpened16.channels < UINT_MODULUS →
        exampleAlsaOpened16.bytesPerFrame = 2 * exampleAlsaOpened16.channels)) :=
  ⟨C9_negotiation_fallback.2.2.2.1 exampleRequest32 exampleIsFormatSupported16 none
      rfl rfl rfl rfl rfl,
   C9_negotiation_fallback.2.2.2.2.1 exampleRequest32 exampleTrySetFormat16 none
      rfl rfl rfl rfl rfl,
   rfl,
   C9_negotiation_fallback.2.2.2.2.2 examplePcm16 exampleRequest32 exampleAlsaOpened16
      rfl rfl rfl rfl rfl rfl⟩

/-- C10 as stated fails on the code: with `bitPerfect` set, `InitCoreAudio`
and `TrySetAlsaParams` offer two candidates for a 32-bit request (float32, then
int32), and none for a depth other than 16, 24 or 32. -/
theorem C10_bitperfect_counterexample :
    InitCoreAudio_candidates 32 true = [(32, true), (32, false)] ∧
    InitCoreAudio_candidates 32 true ≠ [(32, decide (32 = 32))] ∧
    TrySetAlsaParams_candidates 32 true = [(32, true), (32, false)] ∧
    TrySetAlsaParams_candidates 32 true ≠ [(32, decide (32 = 32))] ∧
    InitCoreAudio_candidates 8 true = [] ∧
    TrySetAlsaParams_candidates 8 true = [] := by
  decide

/-- C10, amended.  With `bitPerfect` set, every candidate of every backend
has the requested bit depth `d`, and is floating point only if `d == 32`;
`InitWasapi` offers exactly one candidate for every `d`, depth `d` with the
floating-point flag set if and only if `d == 32`; `InitCoreAudio` and
`TrySetAlsaParams` offer exactly the integer candidate of depth `d` for
`d == 16` and `d == 24`, and exactly float32 followed by int32 for
`d == 32`. -/
theorem C10_bitperfect_candidates :
    (∀ d : Nat, InitWasapi_candidates d true = [(d, decide (d = 32))]) ∧
    (∀ d : Nat, d = 16 ∨ d = 24 →
      InitCoreAudio_candidates d true = [(d, false)] ∧
      TrySetAlsaParams_candidates d true = [(d, false)]) ∧
    InitCoreAudio_candidates 32 true = [(32, true), (32, false)] ∧
    TrySetAlsaParams_candidates 32 true = [(32, true), (32, false)] ∧
    (∀ (d : Nat) (c : Nat × Bool),
      c ∈ InitWasapi_candidates d true ∨ c ∈ InitCoreAudio_candidates d true ∨
        c ∈ TrySetAlsaParams_candidates d true →
      c.1 = d ∧ (c.2 = true → d = 32)) := by
  refine ⟨fun d => rfl, ?_, rfl, rfl, ?_⟩
  · intro d hd
    rcases hd with rfl | rfl <;> exact ⟨rfl, rfl⟩
  · intro d c hc
    have hca : ∀ c ∈ InitCoreAudio_candidates d true, c.1 = d ∧ (c.2 = true → d = 32) := by
      intro c hc
      unfold InitCoreAudio_candidates at hc
      by_cases h32 : d = 32
      · subst h32
        simp only [if_true] at hc
        rcases List.mem_cons.mp hc with rfl | hc
        · exact ⟨rfl, fun _ => rfl⟩
        · rcases List.mem_cons.mp hc with rfl | hc
          · exact ⟨rfl, fun _ => rfl⟩
          · cases hc
      · by_cases h24 : d = 24
        · subst h24
          simp only [if_true, if_neg h32] at hc
          rcases List.mem_cons.mp hc with rfl | hc
          · exact ⟨rfl, fun h => by cases h⟩
          · cases hc
        · by_cases h16 : d = 16
          · subst h16
            simp only [if_true, if_neg h32, if_neg h24] at hc
            rcases List.mem_cons.mp hc with rfl | hc
            · exact ⟨rfl, fun h => by cases h⟩
            · cases hc
          · simp only [if_neg h32, if_neg h24, if_neg h16] at hc
            cases hc
    rcases hc with hc | hc | hc
    · unfold InitWasapi_candidates at hc
      simp only [if_true] at hc
      rcases List.mem_cons.mp hc with rfl | hc
      · exact ⟨rfl, fun h => of_decide_eq_true h⟩
      · cases hc
    · exact hca c hc
    · exact hca c hc

/-- Witness for C10 (amended): the bit-perfect candidates for 24 bits. -/
theorem C10_bitperfect_candidates_witness :
    (InitCoreAudio_candidates 24 true = [(24, false)] ∧
      TrySetAlsaParams_candidates 24 true = [(24, false)]) ∧
    (((32, true) : Nat × Bool).1 = 32 ∧
      (((32, true) : Nat × Bool).2 = true → 32 = 32)) :=
  ⟨C10_bitperfect_candidates.2.1 24 (Or.inr rfl),
   C10_bitperfect_candidates.2.2.2.2 32 (32, true) (Or.inl (by decide))⟩

/-! ## The candidate ladders without `bitPerfect` -/

/-- C11 as stated fails on the code: for a 24-bit request without `bitPerfect`
`InitWasapi` builds int24 followed by int16 only. -/
theorem C11_ladder_24_counterexample :
    InitWasapi_candidates 24 false = [(24, false), (16, false)] ∧
    InitWasapi_candidates 24 false ≠ [(24, false), (32, true), (32, false), (16, false)] := by
  decide

/-- C11, amended.  When `bitPerfect` is false and the requested bit depth is
24, `InitCoreAudio` and `TrySetAlsaParams` build exactly the candidates int24,
float32, int32, int16, in that order, and `InitWasapi` builds exactly int24,
int16. -/
theorem C11_ladder_24 :
    InitCoreAudio_candidates 24 false = [(24, false), (32, true), (32, false), (16, false)] ∧
    TrySetAlsaParams_candidates 24 false
      = [(24, false), (32, true), (32, false), (16, false)] ∧
    InitWasapi_candidates 24 false = [(24, false), (16, false)] := by
  decide

/-- C12 as stated fails on the code: for a 16-bit request without `bitPerfect`
`InitCoreAudio` and `TrySetAlsaParams` build int16, float32, int24, and for a
depth other than 16, 24 and 32 (here 8) they build no candidate at all. -/
theorem C12_ladder_other_counterexample :
    InitCoreAudio_candidates 16 false = [(16, false), (32, true), (24, false)] ∧
    InitCoreAudio_candidates 16 false ≠ [(16, false)] ∧
    TrySetAlsaParams_candidates 16 false = [(16, false), (32, true), (24, false)] ∧
    TrySetAlsaParams_candidates 16 false ≠ [(16, false)] ∧
    InitCoreAudio_candidates 8 false = [] ∧
    InitCoreAudio_candidates 8 false ≠ [(8, false), (16, false)] ∧
    TrySetAlsaParams_candidates 8 false = [] ∧
    TrySetAlsaParams_candidates 8 false ≠ [(8, false), (16, false)] := by
  decide

/-- C12, amended.  When `bitPerfect` is false and the requested bit depth `d`
is neither 32 nor 24, `InitWasapi` builds exactly the integer candidate of
depth `d` when `d == 16` and exactly integer `d` followed by int16 otherwise;
for `d == 16` `InitCoreAudio` and `TrySetAlsaParams` build exactly int16,
float32, int24, in that order. -/
theorem C12_ladder_other :
    (∀ d : Nat, d ≠ 32 → d ≠ 24 →
      InitWasapi_candidates d false
        = if d = 16 then [(d, false)] else [(d, false), (16, false)]) ∧
    InitCoreAudio_candidates 16 false = [(16, false), (32, true), (24, false)] ∧
    TrySetAlsaParams_candidates 16 false = [(16, false), (32, true), (24, false)] := by
  refine ⟨?_, rfl, rfl⟩
  intro d h32 h24
  unfold InitWasapi_candidates
  by_cases h16 : d = 16
  · subst h16
    rfl
  · simp [h32, h24, h16]

/-- Witness for C12 (amended): the WASAPI ladders for 16 and for 8 bits. -/
theorem C12_ladder_other_witness :
    InitWasapi_candidates 16 false = [(16, false)] ∧
    InitWasapi_candidates 8 false = [(8, false), (16, false)] :=
  ⟨C12_ladder_other.1 16 (by decide) (by decide),
   C12_ladder_other.1 8 (by decide) (by decide)⟩

/-- C13 (32-bit ladder).  When `bitPerfect` is false and the requested bit
depth is 32, each backend (`InitWasapi`, `InitCoreAudio`, `TrySetAlsaParams`)
builds exactly the candidates float32, int32, int24, int16, in that order. -/
theorem C13_ladder_32 :
    InitWasapi_candidates 32 false = [(32, true), (32, false), (24, false), (16, false)] ∧
    InitCoreAudio_candidates 32 false
      = [(32, true), (32, false), (24, false), (16, false)] ∧
    TrySetAlsaParams_candidates 32 false
      = [(32, true), (32, false), (24, false), (16, false)] := by
  decide

/-! ## The write path -/

theorem EnvOp.apply_spec (op : EnvOp) (s : OutputStreamState) (h : s.ring.WellFormed) :
    ∃ s' c, op.apply s = some (s', c) ∧ s'.ring.WellFormed ∧
      c ++ s'.ring.unread = s.ring.unread ∧
      s.ring.availableToWrite ≤ s'.ring.availableToWrite ∧
      (s.ring.Reachable → s'.ring.Reachable) ∧
      ((∀ n, op ≠ EnvOp.consume n) → s'.ring = s.ring ∧ c = []) := by
  cases op with
  | consume n =>
    obtain ⟨rb', hr, hwf, hcap, -, -, hun, -, -⟩ :=
      RingBuffer.read_spec h (List.replicate n 0) n (by simp)
    refine ⟨{ s with ring := rb' }, s.ring.unread.take (min n s.ring.availableToRead),
      ?_, hwf, ?_, ?_, ?_, ?_⟩
    · simp only [EnvOp.apply, hr, Option.getD_some]
      rw [List.take_append_of_le_length (by
        rw [List.length_take, RingBuffer.unread_length]; omega),
        List.take_take, min_self]
    · simp only []
      rw [hun, List.take_append_drop]
    · have h1 := RingBuffer.availableToWrite_eq h
      have h2 := RingBuffer.availableToWrite_eq hwf
      have h3 := congrArg List.length hun
      rw [List.length_drop, RingBuffer.unread_length, RingBuffer.unread_length] at h3
      simp only [] at h2 ⊢
      omega
    · intro hre
      exact RingBuffer.Reachable.read hre hr
    · intro hno
      exact absurd rfl (hno n)
  | storeOpen b =>
    exact ⟨_, _, rfl, h, rfl, le_refl _, id, fun _ => ⟨rfl, rfl⟩⟩
  | storeRunning b =>
    exact ⟨_, _, rfl, h, rfl, le_refl _, id, fun _ => ⟨rfl, rfl⟩⟩
  | storePaused b =>
    exact ⟨_, _, rfl, h, rfl, le_refl _, id, fun _ => ⟨rfl, rfl⟩⟩

theorem EnvOp.applyAll_spec (ops : List EnvOp) :
    ∀ (s : OutputStreamState), s.ring.WellFormed →
    ∃ s' c, EnvOp.applyAll s ops = some (s', c) ∧ s'.ring.WellFormed ∧
      c ++ s'.ring.unread = s.ring.unread ∧
      s.ring.availableToWrite ≤ s'.ring.availableToWrite ∧
      (s.ring.Reachable → s'.ring.Reachable) ∧
      ((∀ op ∈ ops, ∀ n, op ≠ EnvOp.consume n) → s'.ring = s.ring ∧ c = []) := by
  induction ops with
  | nil =>
    intro s h
    exact ⟨s, [], rfl, h, rfl, le_refl _, id, fun _ => ⟨rfl, rfl⟩⟩
  | cons op ops ih =>
    intro s h
    obtain ⟨s1, c1, h1, hwf1, hun1, hav1, hre1, hq1⟩ := EnvOp.apply_spec op s h
    obtain ⟨s2, c2, h2, hwf2, hun2, hav2, hre2, hq2⟩ := ih s1 hwf1
    refine ⟨s2, c1 ++ c2, ?_, hwf2, ?_, le_trans hav1 hav2, fun hr => hre2 (hre1 hr), ?_⟩
    · simp only [EnvOp.applyAll, h1, h2]
    · rw [List.append_assoc, hun2, hun1]
    · intro hno
      obtain ⟨e1, e2⟩ := hq1 (hno op (List.mem_cons_self _ _))
      obtain ⟨e3, e4⟩ := hq2 (fun o ho => hno o (List.mem_cons_of_mem _ ho))
      refine ⟨by rw [e3, e1], by rw [e2, e4]; rfl⟩

theorem take_drop_glue (l : List Byte) (a b c : Nat) (h : b ≤ c) :
    (l.drop a).take b ++ (l.drop (a + b)).take (c - b) = (l.drop a).take c := by
  have h1 : l.drop (a + b) = (l.drop a).drop b := by rw [List.drop_drop, Nat.add_comm]
  have h2 : c = b + (c - b) := by omega
  rw [h1]
  conv_rhs => rw [h2, List.take_add]

theorem min_chunk (a b n : Nat) (h : a ≤ b) : min (min a n) b = min n a := by omega

theorem WriteToRingBlocking_write_eq (src : List Byte) (timeoutMs chunk : Nat) (st : WriteRun)
    (ring' : RingBuffer) (wrote : Nat)
    (h : st.stream.ring.write (some (src.drop st.totalWritten)) chunk = some (ring', wrote)) :
    WriteToRingBlocking_write src timeoutMs chunk st
      = some (if timeoutMs = 0 then some WriteExit.single else none,
          { st with stream := { st.stream with ring := ring' },
                    totalWritten := sizeAdd st.totalWritten wrote,
                    writes := st.writes + 1 }) := by
  unfold WriteToRingBlocking_write
  rw [h]

/-- The loop condition and body of `WriteToRingBlocking` on a well-formed
ring: no undefined behaviour, and the effect on the ring, the counters and the
clock. -/
theorem WriteToRingBlocking_body_spec (buf : List Byte) (len timeoutMs deadline : Nat)
    (hlen : len ≤ buf.length) (h64 : len < SIZE_MODULUS) (e : WriteEnv) (st : WriteRun)
    (hwf : st.stream.ring.WellFormed) (htot : st.totalWritten ≤ len) :
    ∃ ex r, WriteToRingBlocking_body buf len timeoutMs deadline e st = some (ex, r) ∧
      r.stream.ring.WellFormed ∧
      st.totalWritten ≤ r.totalWritten ∧ r.totalWritten ≤ len ∧
      r.consumed ++ r.stream.ring.unread
        = st.consumed ++ st.stream.ring.unread
            ++ (buf.drop st.totalWritten).take (r.totalWritten - st.totalWritten) ∧
      (st.stream.ring.Reachable → r.stream.ring.Reachable) ∧
      (ex = some WriteExit.done → r.totalWritten = len) ∧
      (ex = some WriteExit.stopped → r.stream.running = false ∨ r.stream.isOpen = false) ∧
      (ex = some WriteExit.full ∨ ex = some WriteExit.single → timeoutMs = 0) ∧
      (ex = some WriteExit.timedOut → timeoutMs ≠ 0 ∧ r.clock = max st.clock deadline) ∧
      ex ≠ some WriteExit.guard ∧
      (timeoutMs = 0 → ex ≠ none ∧ r.waits = st.waits) ∧
      st.waits ≤ r.waits ∧
      st.writes ≤ r.writes ∧ r.writes ≤ st.writes + 1 ∧
      st.clock ≤ r.clock ∧ r.clock ≤ max st.clock deadline ∧
      (ex = none → st.totalWritten < r.totalWritten ∨ e.wake ≠ none) ∧
      (st.stream.running = true → st.stream.isOpen = true →
        r.totalWritten
          = st.totalWritten + min (len - st.totalWritten) st.stream.ring.availableToWrite) ∧
      (st.stream.ring.availableToWrite = 0 → (∀ op ∈ e.asleep, ∀ n, op ≠ EnvOp.consume n) →
        r.totalWritten = st.totalWritten ∧ r.writes = st.writes ∧
        r.stream.ring = st.stream.ring ∧ r.consumed = st.consumed) := by
  unfold WriteToRingBlocking_body
  by_cases hd : st.totalWritten < len
  · rw [if_neg (not_not.2 hd)]
    by_cases hf : st.stream.running = true ∧ st.stream.isOpen = true
    · rw [if_neg (not_not.2 hf)]
      by_cases ha : st.stream.ring.availableToWrite = 0
      · show ∃ ex r, (if st.stream.ring.availableToWrite = 0 then _ else _) = some (ex, r) ∧ _
        rw [if_pos ha]
        by_cases ht : timeoutMs = 0
        · rw [if_pos ht]
          refine ⟨_, _, rfl, hwf, le_refl _, htot, ?_, id, ?_, ?_, fun _ => ht, ?_, ?_,
            fun _ => ⟨?_, rfl⟩, le_refl _, le_refl _, Nat.le_succ _, le_refl _,
            le_max_left _ _, ?_, ?_⟩
          · simp
          · intro h; cases h
          · intro h; cases h
          · intro h; cases h
          · intro h; cases h
          · intro h; cases h
          · intro h; cases h
          · exact ⟨fun _ _ => by rw [ha]; simp, fun _ _ => ⟨rfl, rfl, rfl, rfl⟩⟩
        · rw [if_neg ht]
          obtain ⟨s2, c2, h2, hwf2, hun2, hav2, hre2, hq2⟩ :=
            EnvOp.applyAll_spec e.asleep st.stream hwf
          rw [h2]
          have hcontent : (st.consumed ++ c2) ++ s2.ring.unread
              = st.consumed ++ st.stream.ring.unread
                ++ (buf.drop st.totalWritten).take (st.totalWritten - st.totalWritten) := by
            rw [List.append_assoc, hun2]; simp
          have htot' : st.totalWritten
              = st.totalWritten + min (len - st.totalWritten) st.stream.ring.availableToWrite := by
            rw [ha]; simp
          have hquiet : (∀ op ∈ e.asleep, ∀ n, op ≠ EnvOp.consume n) →
              st.totalWritten = st.totalWritten ∧ st.writes = st.writes ∧
              s2.ring = st.stream.ring ∧ st.consumed ++ c2 = st.consumed := by
            intro hno
            obtain ⟨e1, e2⟩ := hq2 hno
            exact ⟨rfl, rfl, e1, by rw [e2, List.append_nil]⟩
          unfold WriteToRingBlocking_wait
          cases hwk : e.wake with
          | none =>
            refine ⟨_, _, rfl, hwf2, le_refl _, htot, hcontent, hre2, ?_, ?_, ?_,
              fun _ => ⟨ht, rfl⟩, ?_, fun h => absurd h ht, Nat.le_succ _, le_refl _,
              Nat.le_succ _, le_max_left _ _, le_refl _, ?_, fun _ _ => htot', fun _ => hquiet⟩
            · intro h; cases h
            · intro h; cases h
            · intro h; rcases h with h | h <;> cases h
            · intro h; cases h
            · intro h; cases h
          | some w =>
            by_cases hw : w < deadline
            · simp only [if_pos hw]
              refine ⟨_, _, rfl, hwf2, le_refl _, htot, hcontent, hre2, ?_, ?_, ?_,
                ?_, ?_, fun h => absurd h ht, Nat.le_succ _, le_refl _,
                Nat.le_succ _, le_max_left _ _, ?_, ?_, fun _ _ => htot', fun _ => hquiet⟩
              · intro h; cases h
              · intro h; cases h
              · intro h; rcases h with h | h <;> cases h
              · intro h; cases h
              · intro h; cases h
              · simp only []; omega
              · intro _; right; simp
            · simp only [if_neg hw]
              refine ⟨_, _, rfl, hwf2, le_refl _, htot, hcontent, hre2, ?_, ?_, ?_,
                fun _ => ⟨ht, rfl⟩, ?_, fun h => absurd h ht, Nat.le_succ _, le_refl _,
                Nat.le_succ _, le_max_left _ _, le_refl _, ?_, fun _ _ => htot', fun _ => hquiet⟩
              · intro h; cases h
              · intro h; cases h
              · intro h; rcases h with h | h <;> cases h
              · intro h; cases h
              · intro h; cases h
      · show ∃ ex r, (if st.stream.ring.availableToWrite = 0 then _ else _) = some (ex, r) ∧ _
        rw [if_neg ha]
        obtain ⟨s2, c2, h2, hwf2, hun2, hav2, hre2, -⟩ :=
          EnvOp.applyAll_spec e.between st.stream hwf
        rw [h2]
        have hsub : sizeSub len st.totalWritten = len - st.totalWritten :=
          sizeSub_eq htot h64
        have hk : min (min st.stream.ring.availableToWrite (sizeSub len st.totalWritten))
            s2.ring.availableToWrite = min (len - st.totalWritten)
              st.stream.ring.availableToWrite := by
          rw [hsub]
          exact min_chunk _ _ _ hav2
        have hK1 : min (len - st.totalWritten) st.stream.ring.availableToWrite
            ≤ len - st.totalWritten := Nat.min_le_left _ _
        have hK2 : 0 < min (len - st.totalWritten) st.stream.ring.availableToWrite :=
          Nat.lt_min.2 ⟨Nat.sub_pos_of_lt hd, Nat.pos_of_ne_zero ha⟩
        have hchunk : min st.stream.ring.availableToWrite (sizeSub len st.totalWritten)
            ≤ (buf.drop st.totalWritten).length := by
          rw [hsub, List.length_drop]
          exact le_trans (Nat.min_le_right _ _) (Nat.sub_le_sub_right hlen _)
        obtain ⟨rb', hw, hwf3, -, -, hun3⟩ :=
          RingBuffer.write_spec hwf2 (buf.drop st.totalWritten)
            (min st.stream.ring.availableToWrite (sizeSub len st.totalWritten)) hchunk
        rw [hk] at hw hun3
        have hadd : sizeAdd st.totalWritten
            (min (len - st.totalWritten) st.stream.ring.availableToWrite)
            = st.totalWritten + min (len - st.totalWritten) st.stream.ring.availableToWrite :=
          sizeAdd_eq (lt_of_le_of_lt (by clear hsub ha hk hw hun3 hK2; omega) h64)
        show ∃ ex r, WriteToRingBlocking_write buf timeoutMs _
          { st with stream := s2, consumed := st.consumed ++ c2 } = some (ex, r) ∧ _
        rw [WriteToRingBlocking_write_eq buf timeoutMs _
          { st with stream := s2, consumed := st.consumed ++ c2 } rb' _ hw]
        refine ⟨_, _, rfl, hwf3, ?_, ?_, ?_, ?_, ?_, ?_, ?_, ?_, ?_, ?_, le_refl _, Nat.le_succ _,
          le_refl _, le_refl _, le_max_left _ _, ?_, ?_⟩
        · show st.totalWritten ≤ sizeAdd st.totalWritten _
          rw [hadd]; exact Nat.le_add_right _ _
        · show sizeAdd st.totalWritten _ ≤ len
          rw [hadd]; clear hsub ha hk hw hun3 hK2 hadd h64; omega
        · show (st.consumed ++ c2) ++ rb'.unread = _ ++ List.take (sizeAdd st.totalWritten _ - _) _
          rw [hun3, hadd, Nat.add_sub_cancel_left, ← hun2]
          simp only [List.append_assoc]
        · intro hr
          exact RingBuffer.Reachable.write (hre2 hr) hw
        · intro h
          by_cases ht : timeoutMs = 0
          · rw [if_pos ht] at h; cases h
          · rw [if_neg ht] at h; cases h
        · intro h
          by_cases ht : timeoutMs = 0
          · rw [if_pos ht] at h; cases h
          · rw [if_neg ht] at h; cases h
        · intro h
          by_cases ht : timeoutMs = 0
          · exact ht
          · rw [if_neg ht] at h; rcases h with h | h <;> cases h
        · intro h
          by_cases ht : timeoutMs = 0
          · rw [if_pos ht] at h; cases h
          · rw [if_neg ht] at h; cases h
        · intro h
          by_cases ht : timeoutMs = 0
          · rw [if_pos ht] at h; cases h
          · rw [if_neg ht] at h; cases h
        · intro ht
          rw [if_pos ht]
          exact ⟨(by intro h; cases h), rfl⟩
        · intro _
          left
          show st.totalWritten < sizeAdd st.totalWritten _
          rw [hadd]; exact Nat.lt_add_of_pos_right hK2
        · refine ⟨?_, fun h0 => absurd h0 ha⟩
          intro _ _
          show sizeAdd st.totalWritten _ = _
          rw [hadd]
    · rw [if_pos hf]
      refine ⟨_, _, rfl, hwf, le_refl _, htot, ?_, id, ?_, ?_, ?_, ?_, ?_,
        fun _ => ⟨?_, rfl⟩, le_refl _, le_refl _, Nat.le_succ _, le_refl _,
        le_max_left _ _, ?_, ?_⟩
      · simp
      · intro h; cases h
      · intro _
        by_cases hr : st.stream.running = true
        · right
          by_cases ho : st.stream.isOpen = true
          · exact absurd ⟨hr, ho⟩ hf
          · simpa using ho
        · left; simpa using hr
      · intro h; rcases h with h | h <;> cases h
      · intro h; cases h
      · intro h; cases h
      · intro h; cases h
      · intro h; cases h
      · exact ⟨fun hr ho => absurd ⟨hr, ho⟩ hf, fun _ _ => ⟨rfl, rfl, rfl, rfl⟩⟩
  · rw [if_pos hd]
    have hEq : st.totalWritten = len := by omega
    refine ⟨_, _, rfl, hwf, le_refl _, htot, ?_, id, fun _ => hEq, ?_, ?_, ?_, ?_,
      fun _ => ⟨?_, rfl⟩, le_refl _, le_refl _, Nat.le_succ _, le_refl _,
      le_max_left _ _, ?_, ?_⟩
    · simp
    · intro h; cases h
    · intro h; rcases h with h | h <;> cases h
    · intro h; cases h
    · intro h; cases h
    · intro h; cases h
    · intro h; cases h
    · exact ⟨fun _ _ => by rw [hEq]; simp, fun _ _ => ⟨rfl, rfl, rfl, rfl⟩⟩

theorem take_drop_glue3 (l : List Byte) (t0 t1 t2 : Nat) (h01 : t0 ≤ t1) (h12 : t1 ≤ t2) :
    (l.drop t0).take (t1 - t0) ++ (l.drop t1).take (t2 - t1) = (l.drop t0).take (t2 - t0) := by
  have h := take_drop_glue l t0 (t1 - t0) (t2 - t0) (by omega)
  have e1 : t0 + (t1 - t0) = t1 := by omega
  have e2 : t2 - t0 - (t1 - t0) = t2 - t1 := by omega
  rw [e1, e2] at h
  exact h

theorem loop_measure_write {L T T' len fuel : Nat} (hf : L + (len - T) < fuel + 1)
    (h1 : T < T') (h2 : T' ≤ len) : (L - 1) + (len - T') < fuel := by omega

theorem loop_measure_wake {L T T' len fuel : Nat} (hf : L + (len - T) < fuel + 1)
    (h0 : 0 < L) (h1 : T ≤ T') : (L - 1) + (len - T') < fuel := by omega

theorem clock_max_eq {a b c d : Nat} (h1 : a ≤ b) (h2 : b ≤ max a d) (h3 : c = max b d) :
    c = max a d := by omega

theorem clock_max_le {a b c d : Nat} (h2 : b ≤ max a d) (h3 : c ≤ max b d) :
    c ≤ max a d := by omega

theorem headD_wake_ne_nil {envs : List WriteEnv} (h : (envs.headD {}).wake ≠ none) :
    0 < envs.length := by
  cases envs with
  | nil => exact absurd rfl h
  | cons e es => exact Nat.succ_pos _

theorem headD_forall {envs : List WriteEnv} {P : WriteEnv → Prop} (h : ∀ e ∈ envs, P e)
    (h0 : P {}) : P (envs.headD {}) := by
  cases envs with
  | nil => exact h0
  | cons e es => exact h e (List.mem_cons_self _ _)

theorem applyAll_nil_eq {s s1 : OutputStreamState} {ops : List EnvOp} {c1 : List Byte}
    (h : EnvOp.applyAll s ops = some (s1, c1)) (h0 : ops = []) : s1 = s ∧ c1 = [] := by
  subst h0
  simp only [EnvOp.applyAll, Option.some.injEq, Prod.mk.injEq] at h
  exact ⟨h.1.symm, h.2.symm⟩

/-- The loop of `WriteToRingBlocking` on a well-formed ring: given
`envs.length + (len - totalWritten) + 1` iterations it returns, and what it has
done by then. -/
theorem WriteToRingBlocking_loop_spec (buf : List Byte) (len timeoutMs deadline : Nat)
    (hlen : len ≤ buf.length) (h64 : len < SIZE_MODULUS) :
    ∀ (fuel : Nat) (envs : List WriteEnv) (st : WriteRun),
      st.stream.ring.WellFormed → st.totalWritten ≤ len →
      envs.length + (len - st.totalWritten) < fuel →
      ∃ ex r, WriteToRingBlocking_loop buf len timeoutMs deadline fuel envs st = some (ex, r) ∧
        r.stream.ring.WellFormed ∧
        st.totalWritten ≤ r.totalWritten ∧ r.totalWritten ≤ len ∧
        r.consumed ++ r.stream.ring.unread
          = st.consumed ++ st.stream.ring.unread
              ++ (buf.drop st.totalWritten).take (r.totalWritten - st.totalWritten) ∧
        (st.stream.ring.Reachable → r.stream.ring.Reachable) ∧
        (ex = WriteExit.done → r.totalWritten = len) ∧
        (ex = WriteExit.stopped → r.stream.running = false ∨ r.stream.isOpen = false) ∧
        (ex = WriteExit.full ∨ ex = WriteExit.single → timeoutMs = 0) ∧
        (ex = WriteExit.timedOut → timeoutMs ≠ 0 ∧ r.clock = max st.clock deadline) ∧
        ex ≠ WriteExit.guard ∧
        (timeoutMs = 0 → r.waits = st.waits ∧ r.writes ≤ st.writes + 1) ∧
        st.clock ≤ r.clock ∧ r.clock ≤ max st.clock deadline ∧
        (timeoutMs = 0 → (envs.headD {}).before = [] →
          st.stream.running = true → st.stream.isOpen = true →
          r.totalWritten
            = st.totalWritten
                + min (len - st.totalWritten) st.stream.ring.availableToWrite) ∧
        (st.stream.ring.availableToWrite = 0 →
          (∀ e ∈ envs, ∀ op ∈ e.before ++ e.asleep, ∀ n, op ≠ EnvOp.consume n) →
          r.totalWritten = st.totalWritten ∧ r.writes = st.writes ∧
          r.stream.ring = st.stream.ring ∧ r.consumed = st.consumed) := by
  intro fuel
  induction fuel with
  | zero =>
    intro envs st _ _ hf
    exact absurd hf (Nat.not_lt_zero _)
  | succ fuel ih =>
    intro envs st hwf htot hf
    rw [WriteToRingBlocking_loop]
    unfold WriteToRingBlocking_step
    obtain ⟨s1, c1, h1, hwf1, hun1, hav1, hre1, hq1⟩ :=
      EnvOp.applyAll_spec (envs.headD {}).before st.stream hwf
    rw [h1]
    obtain ⟨ex, r1, hb, b2, b3, b4, b5, b6, b7, b8, b9, b10, b11, b12, b13, b14, b15, b16, b17,
        b18, b19, b20⟩ :=
      WriteToRingBlocking_body_spec buf len timeoutMs deadline hlen h64 (envs.headD {})
        { st with stream := s1, consumed := st.consumed ++ c1 } hwf1 htot
    show ∃ ex r, (match WriteToRingBlocking_body buf len timeoutMs deadline (envs.headD {})
        { st with stream := s1, consumed := st.consumed ++ c1 } with
      | none => none
      | some (some ex, r) => some (ex, r)
      | some (none, st') =>
        WriteToRingBlocking_loop buf len timeoutMs deadline fuel envs.tail st') = some (ex, r) ∧ _
    rw [hb]
    have b3' : st.totalWritten ≤ r1.totalWritten := b3
    have b5' : r1.consumed ++ r1.stream.ring.unread
        = st.consumed ++ st.stream.ring.unread
            ++ (buf.drop st.totalWritten).take (r1.totalWritten - st.totalWritten) := by
      have h5 : r1.consumed ++ r1.stream.ring.unread
        = (st.consumed ++ c1) ++ s1.ring.unread
            ++ (buf.drop st.totalWritten).take (r1.totalWritten - st.totalWritten) := b5
      rw [h5, ← hun1]
      simp only [List.append_assoc]
    have b6' : st.stream.ring.Reachable → r1.stream.ring.Reachable := fun h => b6 (hre1 h)
    have b13' : st.waits ≤ r1.waits := b13
    have b14' : st.writes ≤ r1.writes := b14
    have b15' : r1.writes ≤ st.writes + 1 := b15
    have b16' : st.clock ≤ r1.clock := b16
    have b17' : r1.clock ≤ max st.clock deadline := b17
    have hquiet : st.stream.ring.availableToWrite = 0 →
        (∀ e ∈ envs, ∀ op ∈ e.before ++ e.asleep, ∀ n, op ≠ EnvOp.consume n) →
        r1.totalWritten = st.totalWritten ∧ r1.writes = st.writes ∧
        r1.stream.ring = st.stream.ring ∧ r1.consumed = st.consumed := by
      intro h0 hno
      have hhead : ∀ op ∈ (envs.headD {}).before ++ (envs.headD {}).asleep,
          ∀ n, op ≠ EnvOp.consume n :=
        @headD_forall envs
          (fun e => ∀ op ∈ e.before ++ e.asleep, ∀ n, op ≠ EnvOp.consume n) hno
          (fun op hop => absurd hop (List.not_mem_nil _))
      obtain ⟨e1, e2⟩ := hq1 (fun op hop => hhead op (List.mem_append_left _ hop))
      have h0' : s1.ring.availableToWrite = 0 := by rw [e1]; exact h0
      obtain ⟨q1, q2, q3, q4⟩ := b20 h0' (fun op hop => hhead op (List.mem_append_right _ hop))
      refine ⟨q1, q2, q3.trans e1, ?_⟩
      have q4' : r1.consumed = st.consumed ++ c1 := q4
      rw [q4', e2, List.append_nil]
    cases ex with
    | some x =>
      refine ⟨x, r1, rfl, b2, b3', b4, b5', b6', ?_, ?_, ?_, ?_, ?_, ?_, b16', b17', ?_, hquiet⟩
      · intro h; exact b7 (congrArg some h)
      · intro h; exact b8 (congrArg some h)
      · intro h
        exact b9 (h.elim (fun h => Or.inl (congrArg some h)) (fun h => Or.inr (congrArg some h)))
      · intro h; exact b10 (congrArg some h)
      · intro h; exact b11 (congrArg some h)
      · intro ht
        exact ⟨(b12 ht).2, b15'⟩
      · intro _ hb0 hr ho
        obtain ⟨e1, -⟩ := applyAll_nil_eq h1 hb0
        have := b19 (by rw [e1]; exact hr) (by rw [e1]; exact ho)
        rw [e1] at this
        exact this
    | none =>
      have hm : envs.tail.length + (len - r1.totalWritten) < fuel := by
        rw [List.length_tail]
        rcases b18 rfl with h | h
        · exact loop_measure_write hf h b4
        · exact loop_measure_wake hf (headD_wake_ne_nil h) b3'
      obtain ⟨ex2, r2, hl, c2, c3, c4, c5, c6, c7, c8, c9, c10, c11, c12, c13, c14, c15, c16⟩ :=
        ih envs.tail r1 b2 b4 hm
      have ht0 : timeoutMs ≠ 0 := fun ht => (b12 ht).1 rfl
      refine ⟨ex2, r2, hl, c2, le_trans b3' c3, c4, ?_, fun h => c6 (b6' h), c7, c8, c9, ?_, c11,
        fun ht => absurd ht ht0, le_trans b16' c13, clock_max_le b17' c14,
        fun ht => absurd ht ht0, ?_⟩
      · rw [c5, b5', List.append_assoc, take_drop_glue3 buf _ _ _ b3' c3]
      · intro h
        exact ⟨ht0, clock_max_eq b16' b17' (c10 h).2⟩
      · intro h0 hno
        obtain ⟨q1, q2, q3, q4⟩ := hquiet h0 hno
        obtain ⟨p1, p2, p3, p4⟩ := c16 (by rw [q3]; exact h0)
          (fun e he => hno e (List.mem_of_mem_tail he))
        exact ⟨p1.trans q1, p2.trans q2, p3.trans q3, p4.trans q4⟩

theorem WriteToRingBlocking_entry (s : OutputStreamState) (buf : List Byte)
    (len timeoutMs now : Nat) (envs : List WriteEnv)
    (hopen : s.isOpen = true) (hrun : s.running = true) (h0 : len ≠ 0) :
    WriteToRingBlocking s (some buf) len timeoutMs now envs
      = WriteToRingBlocking_loop buf len timeoutMs (now + timeoutMs) (envs.length + len + 1) envs
          { totalWritten := 0, stream := s, clock := now } := by
  unfold WriteToRingBlocking
  simp only [hopen, hrun, h0, Bool.not_true, Bool.or_self, decide_False, Bool.false_eq_true,
    if_false]

theorem WriteToRingBlocking_guard (s : OutputStreamState) (buf : List Byte)
    (len timeoutMs now : Nat) (envs : List WriteEnv)
    (h : s.isOpen = false ∨ s.running = false ∨ len = 0) :
    WriteToRingBlocking s (some buf) len timeoutMs now envs
      = some (WriteExit.guard, { totalWritten := 0, stream := s, clock := now }) := by
  unfold WriteToRingBlocking
  rcases h with h | h | h
  · simp [h]
  · simp [h]
  · simp [h]

theorem exampleFullRing_reachable : exampleFullRing.Reachable :=
  @RingBuffer.Reachable.write
    { data := [0, 0, 0, 0], capacity := 4, readPos := 0, writePos := 0 } exampleFullRing
    (some [1, 2, 3]) 3 3
    (@RingBuffer.Reachable.init 4 _ rfl) (by decide)

theorem clock_unmoved {a c : Nat} (h1 : a ≤ c) (h2 : c ≤ max a (a + 0)) : c = a := by omega

theorem clock_within {a c d : Nat} (h2 : c ≤ max a (a + d)) : c ≤ a + d := by omega

theorem clock_at_deadline {a c d : Nat} (h2 : c = max a (a + d)) : c = a + d := by omega

/-! ## The write path: dead streams, non-blocking and blocking writes -/

/-- C17 (non-blocking write).  `WriteToRingBlocking` with `timeoutMs == 0` on
an open, running stream, whatever the ring holds and whatever the `paused`
flag says, and with `len` bytes of data: it returns, never calls `wait_until`,
calls `ring.write` at most once, returns at the time it was entered, and the
bytes the render thread has taken followed by the bytes left in the ring are
the bytes the ring held at entry followed by the first `totalWritten` bytes of
the data.  If no other thread acts before the free space is measured, the
returned count is exactly `min(len, availableToWrite())`. -/
theorem C17_nonblocking_write (s : OutputStreamState) (buf : List Byte) (len now : Nat)
    (envs : List WriteEnv) (hre : s.ring.Reachable)
    (hopen : s.isOpen = true) (hrun : s.running = true)
    (hlen : len ≤ buf.length) (h64 : len < SIZE_MODULUS) :
    ∃ ex r, WriteToRingBlocking s (some buf) len 0 now envs = some (ex, r) ∧
      r.waits = 0 ∧ r.writes ≤ 1 ∧ r.clock = now ∧
      r.consumed ++ r.stream.ring.unread = s.ring.unread ++ buf.take r.totalWritten ∧
      ((envs.headD {}).before = [] →
        r.totalWritten = min len s.ring.availableToWrite) := by
  by_cases h0 : len = 0
  · refine ⟨_, _, WriteToRingBlocking_guard s buf len 0 now envs (Or.inr (Or.inr h0)),
      rfl, Nat.zero_le _, rfl, ?_, ?_⟩
    · simp
    · intro _
      rw [h0]
      simp
  · rw [WriteToRingBlocking_entry s buf len 0 now envs hopen hrun h0]
    obtain ⟨ex, r, hl, -, -, -, c5, -, -, -, -, -, -, c12, c13, c14, c15, -⟩ :=
      WriteToRingBlocking_loop_spec buf len 0 (now + 0) hlen h64 (envs.length + len + 1) envs
        { totalWritten := 0, stream := s, clock := now } hre.wellFormed (Nat.zero_le _)
        (Nat.lt_succ_self _)
    obtain ⟨w1, w2⟩ := c12 rfl
    refine ⟨ex, r, hl, w1, w2, clock_unmoved c13 c14, ?_, ?_⟩
    · have c5' : r.consumed ++ r.stream.ring.unread
          = [] ++ s.ring.unread ++ (buf.drop 0).take (r.totalWritten - 0) := c5
      rw [c5']
      simp
    · intro hb
      have := c15 rfl hb hrun hopen
      have e : r.totalWritten = 0 + min (len - 0) s.ring.availableToWrite := this
      rw [e, Nat.zero_add, Nat.sub_zero]

/-- Witness for C17: three bytes offered to a ring with two free bytes. -/
theorem C17_nonblocking_write_witness :
    ∃ ex r, WriteToRingBlocking exampleStream (some [7, 8, 9]) 3 0 0 [] = some (ex, r) ∧
      r.waits = 0 ∧ r.writes ≤ 1 ∧ r.clock = 0 ∧
      r.consumed ++ r.stream.ring.unread
        = exampleStream.ring.unread ++ ([7, 8, 9] : List Byte).take r.totalWritten ∧
      ((([] : List WriteEnv).headD {}).before = [] →
        r.totalWritten = min 3 exampleStream.ring.availableToWrite) :=
  C17_nonblocking_write exampleStream [7, 8, 9] 3 0 [] exampleRing_reachable rfl rfl
    (by decide) (by decide)

theorem EnvOp.apply_capacity (op : EnvOp) (s s1 : OutputStreamState) (c : List Byte)
    (h : s.ring.WellFormed) (ha : op.apply s = some (s1, c)) :
    s1.ring.capacity = s.ring.capacity := by
  cases op with
  | consume n =>
    obtain ⟨rb', hr, -, hcap, -⟩ := RingBuffer.read_spec h (List.replicate n 0) n (by simp)
    simp only [EnvOp.apply, hr, Option.some.injEq, Prod.mk.injEq] at ha
    rw [← ha.1]
    exact hcap
  | storeOpen b =>
    simp only [EnvOp.apply, Option.some.injEq, Prod.mk.injEq] at ha
    rw [← ha.1]
  | storeRunning b =>
    simp only [EnvOp.apply, Option.some.injEq, Prod.mk.injEq] at ha
    rw [← ha.1]
  | storePaused b =>
    simp only [EnvOp.apply, Option.some.injEq, Prod.mk.injEq] at ha
    rw [← ha.1]

theorem EnvOp.applyAll_capacity (ops : List EnvOp) :
    ∀ (s s2 : OutputStreamState) (c : List Byte), s.ring.WellFormed →
      EnvOp.applyAll s ops = some (s2, c) → s2.ring.capacity = s.ring.capacity := by
  induction ops with
  | nil =>
    intro s s2 c _ ha
    simp only [EnvOp.applyAll, Option.some.injEq, Prod.mk.injEq] at ha
    rw [← ha.1]
  | cons op ops ih =>
    intro s s2 c h ha
    obtain ⟨s1, c1, h1, hwf1, -⟩ := EnvOp.apply_spec op s h
    obtain ⟨s3, c3, h3, -⟩ := EnvOp.applyAll_spec ops s1 hwf1
    simp only [EnvOp.applyAll, h1, h3, Option.some.injEq, Prod.mk.injEq] at ha
    rw [← ha.1, ih s1 s3 c3 hwf1 h3, EnvOp.apply_capacity op s s1 c1 h h1]

/-- What the other threads take out of the ring is what the ring gains in free
space. -/
theorem EnvOp.applyAll_free (ops : List EnvOp) (s s2 : OutputStreamState) (c : List Byte)
    (h : s.ring.WellFormed) (ha : EnvOp.applyAll s ops = some (s2, c)) :
    s2.ring.WellFormed ∧ s2.ring.capacity = s.ring.capacity ∧
    s2.ring.availableToWrite = s.ring.availableToWrite + c.length := by
  have hcap := EnvOp.applyAll_capacity ops s s2 c h ha
  obtain ⟨s3, c3, h3, hwf3, hun3, -⟩ := EnvOp.applyAll_spec ops s h
  rw [h3] at ha
  simp only [Option.some.injEq, Prod.mk.injEq] at ha
  obtain ⟨e1, e2⟩ := ha
  subst e1 e2
  refine ⟨hwf3, hcap, ?_⟩
  have h1 := RingBuffer.availableToWrite_eq h
  have h2 := RingBuffer.availableToWrite_eq hwf3
  have h4 := RingBuffer.availableToRead_lt h
  have h5 := RingBuffer.availableToRead_lt hwf3
  have h6 := congrArg List.length hun3
  rw [List.length_append, RingBuffer.unread_length, RingBuffer.unread_length] at h6
  omega

/-- The loop condition and body of `WriteToRingBlocking`: when the body leaves
through the `break` after `wait_until`, it has found the ring full, has waited
once and has written nothing; and it writes only through one `ring.write`. -/
theorem WriteToRingBlocking_body_exit (buf : List Byte) (len timeoutMs deadline : Nat)
    (hlen : len ≤ buf.length) (h64 : len < SIZE_MODULUS) (e : WriteEnv) (st : WriteRun)
    (hwf : st.stream.ring.WellFormed) (htot : st.totalWritten ≤ len)
    (ex : Option WriteExit) (r : WriteRun)
    (hb : WriteToRingBlocking_body buf len timeoutMs deadline e st = some (ex, r)) :
    r.stream.ring.capacity = st.stream.ring.capacity ∧
    st.consumed.length ≤ r.consumed.length ∧
    (ex = some WriteExit.timedOut →
      r.waits = st.waits + 1 ∧ r.totalWritten < len ∧
      r.stream.ring.availableToWrite + st.consumed.length = r.consumed.length) ∧
    (st.totalWritten < r.totalWritten → r.writes = st.writes + 1) := by
  unfold WriteToRingBlocking_body at hb
  by_cases hd : st.totalWritten < len
  · rw [if_neg (not_not.2 hd)] at hb
    by_cases hf : st.stream.running = true ∧ st.stream.isOpen = true
    · rw [if_neg (not_not.2 hf)] at hb
      by_cases ha : st.stream.ring.availableToWrite = 0
      · simp only [ha, if_true] at hb
        by_cases ht : timeoutMs = 0
        · rw [if_pos ht] at hb
          simp only [Option.some.injEq, Prod.mk.injEq] at hb
          obtain ⟨e1, e2⟩ := hb
          subst e1 e2
          exact ⟨rfl, le_refl _, (by intro h; cases h), fun h => absurd h (lt_irrefl _)⟩
        · rw [if_neg ht] at hb
          obtain ⟨s2, c2, h2, -⟩ := EnvOp.applyAll_spec e.asleep st.stream hwf
          obtain ⟨-, hcap, hfree⟩ := EnvOp.applyAll_free e.asleep st.stream s2 c2 hwf h2
          rw [h2] at hb
          simp only [Option.some.injEq] at hb
          have hw : ∀ p : Option WriteExit × WriteRun,
              p = WriteToRingBlocking_wait deadline e.wake
                { st with stream := s2, consumed := st.consumed ++ c2 } →
              p.2.stream = s2 ∧ p.2.consumed = st.consumed ++ c2 ∧
              p.2.waits = st.waits + 1 ∧ p.2.totalWritten = st.totalWritten ∧
              p.2.writes = st.writes := by
            intro p hp
            unfold WriteToRingBlocking_wait at hp
            cases hwk : e.wake with
            | none =>
              rw [hwk] at hp
              subst hp
              exact ⟨rfl, rfl, rfl, rfl, rfl⟩
            | some w =>
              rw [hwk] at hp
              by_cases hlt : w < deadline
              · simp only [if_pos hlt] at hp
                subst hp
                exact ⟨rfl, rfl, rfl, rfl, rfl⟩
              · simp only [if_neg hlt] at hp
                subst hp
                exact ⟨rfl, rfl, rfl, rfl, rfl⟩
          obtain ⟨w1, w2, w3, w4, w5⟩ := hw (ex, r) hb.symm
          simp only [] at w1 w2 w3 w4 w5
          refine ⟨?_, ?_, ?_, ?_⟩
          · rw [w1]; exact hcap
          · rw [w2, List.length_append]; exact Nat.le_add_right _ _
          · intro _
            refine ⟨w3, by rw [w4]; exact hd, ?_⟩
            rw [w1, w2, hfree, ha, List.length_append]
            omega
          · intro h
            rw [w4] at h
            exact absurd h (lt_irrefl _)
      · simp only [ha, if_false] at hb
        obtain ⟨s2, c2, h2, hwf2, -⟩ := EnvOp.applyAll_spec e.between st.stream hwf
        obtain ⟨-, hcap, -⟩ := EnvOp.applyAll_free e.between st.stream s2 c2 hwf h2
        rw [h2] at hb
        have hsub : sizeSub len st.totalWritten = len - st.totalWritten :=
          sizeSub_eq htot h64
        have hchunk : min st.stream.ring.availableToWrite (sizeSub len st.totalWritten)
            ≤ (buf.drop st.totalWritten).length := by
          rw [hsub, List.length_drop]
          exact le_trans (Nat.min_le_right _ _) (Nat.sub_le_sub_right hlen _)
        obtain ⟨rb', hw, -, hcap3, -⟩ :=
          RingBuffer.write_spec hwf2 (buf.drop st.totalWritten)
            (min st.stream.ring.availableToWrite (sizeSub len st.totalWritten)) hchunk
        have hb2 : WriteToRingBlocking_write buf timeoutMs
            (min st.stream.ring.availableToWrite (sizeSub len st.totalWritten))
            { st with stream := s2, consumed := st.consumed ++ c2 } = some (ex, r) := hb
        rw [WriteToRingBlocking_write_eq buf timeoutMs _
          { st with stream := s2, consumed := st.consumed ++ c2 } rb' _ hw] at hb2
        simp only [Option.some.injEq, Prod.mk.injEq] at hb2
        obtain ⟨e1, e2⟩ := hb2
        subst e2
        refine ⟨?_, ?_, ?_, fun _ => rfl⟩
        · show rb'.capacity = st.stream.ring.capacity
          rw [hcap3, hcap]
        · show st.consumed.length ≤ (st.consumed ++ c2).length
          rw [List.length_append]; exact Nat.le_add_right _ _
        · intro h
          rw [h] at e1
          by_cases ht : timeoutMs = 0
          · rw [if_pos ht] at e1; cases e1
          · rw [if_neg ht] at e1; cases e1
    · rw [if_pos hf] at hb
      simp only [Option.some.injEq, Prod.mk.injEq] at hb
      obtain ⟨e1, e2⟩ := hb
      subst e1 e2
      exact ⟨rfl, le_refl _, (by intro h; cases h), fun h => absurd h (lt_irrefl _)⟩
  · rw [if_pos hd] at hb
    simp only [Option.some.injEq, Prod.mk.injEq] at hb
    obtain ⟨e1, e2⟩ := hb
    subst e1 e2
    exact ⟨rfl, le_refl _, (by intro h; cases h), fun h => absurd h (lt_irrefl _)⟩

/-- The loop of `WriteToRingBlocking`: it leaves through the `break` after
`wait_until` only after at least one wait, with bytes still to write and with
no more free space in the ring than the render thread has made since the loop
began; and `totalWritten` grows only through calls of `ring.write`. -/
theorem WriteToRingBlocking_loop_exit (buf : List Byte) (len timeoutMs deadline : Nat)
    (hlen : len ≤ buf.length) (h64 : len < SIZE_MODULUS) :
    ∀ (fuel : Nat) (envs : List WriteEnv) (st : WriteRun) (ex : WriteExit) (r : WriteRun),
      st.stream.ring.WellFormed → st.totalWritten ≤ len →
      WriteToRingBlocking_loop buf len timeoutMs deadline fuel envs st = some (ex, r) →
      r.stream.ring.capacity = st.stream.ring.capacity ∧
      st.consumed.length ≤ r.consumed.length ∧
      st.writes ≤ r.writes ∧
      (ex = WriteExit.timedOut →
        st.waits < r.waits ∧ r.totalWritten < len ∧
        r.stream.ring.availableToWrite + st.consumed.length ≤ r.consumed.length) ∧
      (st.totalWritten < r.totalWritten → st.writes < r.writes) := by
  intro fuel
  induction fuel with
  | zero =>
    intro envs st ex r _ _ h
    simp only [WriteToRingBlocking_loop] at h
    cases h
  | succ fuel ih =>
    intro envs st ex r hwf htot h
    rw [WriteToRingBlocking_loop] at h
    unfold WriteToRingBlocking_step at h
    obtain ⟨s1, c1, h1, hwf1, -⟩ := EnvOp.applyAll_spec (envs.headD {}).before st.stream hwf
    obtain ⟨-, hcap1, -⟩ :=
      EnvOp.applyAll_free (envs.headD {}).before st.stream s1 c1 hwf h1
    rw [h1] at h
    obtain ⟨ex1, r1, hb, b2, b3, b4, -, -, -, -, -, -, -, -, b13, b14, -⟩ :=
      WriteToRingBlocking_body_spec buf len timeoutMs deadline hlen h64 (envs.headD {})
        { st with stream := s1, consumed := st.consumed ++ c1 } hwf1 htot
    obtain ⟨x1, x2, x3, x4⟩ :=
      WriteToRingBlocking_body_exit buf len timeoutMs deadline hlen h64 (envs.headD {})
        { st with stream := s1, consumed := st.consumed ++ c1 } hwf1 htot ex1 r1 hb
    have h' : (match WriteToRingBlocking_body buf len timeoutMs deadline (envs.headD {})
        { st with stream := s1, consumed := st.consumed ++ c1 } with
      | none => none
      | some (some ex, r) => some (ex, r)
      | some (none, st') =>
        WriteToRingBlocking_loop buf len timeoutMs deadline fuel envs.tail st')
        = some (ex, r) := h
    rw [hb] at h'
    have hc : st.consumed.length ≤ r1.consumed.length := by
      have : (st.consumed ++ c1).length ≤ r1.consumed.length := x2
      rw [List.length_append] at this
      omega
    have hc' : st.consumed.length + c1.length ≤ r1.consumed.length := by
      have : (st.consumed ++ c1).length ≤ r1.consumed.length := x2
      rw [List.length_append] at this
      exact this
    have hw1 : st.waits ≤ r1.waits := b13
    have hw2 : st.writes ≤ r1.writes := b14
    have hcapr : r1.stream.ring.capacity = st.stream.ring.capacity := by
      rw [x1]; exact hcap1
    cases ex1 with
    | some ex0 =>
      simp only [Option.some.injEq, Prod.mk.injEq] at h'
      obtain ⟨e1, e2⟩ := h'
      subst e1 e2
      refine ⟨hcapr, hc, hw2, ?_, ?_⟩
      · intro hto
        obtain ⟨y1, y2, y3⟩ := x3 (by rw [hto])
        have y1' : r1.waits = st.waits + 1 := y1
        have y3' : r1.stream.ring.availableToWrite + (st.consumed ++ c1).length
            = r1.consumed.length := y3
        rw [List.length_append] at y3'
        exact ⟨by omega, y2, by omega⟩
      · intro hlt
        have : r1.writes = st.writes + 1 := x4 hlt
        omega
    | none =>
      simp only [] at h'
      obtain ⟨z1, z2, z3, z4, z5⟩ := ih envs.tail r1 ex r b2 b4 h'
      refine ⟨by rw [z1, hcapr], le_trans hc z2, le_trans hw2 z3, ?_, ?_⟩
      · intro hto
        obtain ⟨y1, y2, y3⟩ := z4 hto
        exact ⟨by omega, y2, by omega⟩
      · intro hlt
        by_cases hq : st.totalWritten < r1.totalWritten
        · have : r1.writes = st.writes + 1 := x4 hq
          omega
        · have hq2 : r1.totalWritten < r.totalWritten := by
            have : st.totalWritten ≤ r1.totalWritten := b3
            omega
          have := z5 hq2
          omega

theorem timeout_fill_arith {cap ur us c t aw_r aw_s : Nat} (h1 : aw_r = cap - 1 - ur)
    (h2 : aw_s = cap - 1 - us) (h3 : c + ur = us + t) (h4 : aw_r ≤ c) (h5 : ur < cap) :
    aw_s ≤ t := by omega

/-- C18 (blocking write result).  `WriteToRingBlocking` with a non-zero
timeout and `len` bytes of data, under every behaviour of the other threads
(reads by the render thread and stores to the flags, before, during and between
the steps of the loop): the call returns a count `t` with `0 ≤ t ≤ len`; the
bytes the render thread has taken followed by the bytes left in the ring are
the bytes the ring held at entry followed by the first `t` bytes of the data,
in order; and `t` is less than `len` only if the call returned because
`wait_until` timed out, or because `running` or `open` was found false in the
loop condition or in the guard at entry.  The call returns at one of four
places.  From the loop condition with `totalWritten < len` false: then
`t = len`.  From the `break` after `wait_until` reported `timeout`: then the
call has waited at least once, the clock stands at the deadline
`now + timeoutMs`, `t < len`, the ring has no more free space than the render
thread has made during the call, and `t` is at least the free space the ring
had at entry.  From the loop condition with a flag false: then that flag is
false in the stream.  From the guard at entry: then a flag was false or `len`
was 0 at entry, nothing was written and nothing was waited for.  A positive `t`
has taken at least one `ring.write`, and the call returns between `now` and
the deadline. -/
theorem C18_blocking_write (s : OutputStreamState) (buf : List Byte)
    (len timeoutMs now : Nat) (envs : List WriteEnv) (hre : s.ring.Reachable)
    (hlen : len ≤ buf.length) (h64 : len < SIZE_MODULUS) (ht : timeoutMs ≠ 0) :
    ∃ ex r, WriteToRingBlocking s (some buf) len timeoutMs now envs = some (ex, r) ∧
      r.totalWritten ≤ len ∧
      r.consumed ++ r.stream.ring.unread = s.ring.unread ++ buf.take r.totalWritten ∧
      r.stream.ring.Reachable ∧
      (r.totalWritten = len ∨ ex = WriteExit.timedOut ∨
        (ex = WriteExit.stopped ∧ (r.stream.running = false ∨ r.stream.isOpen = false)) ∨
        (ex = WriteExit.guard ∧ (s.isOpen = false ∨ s.running = false))) ∧
      (ex = WriteExit.done ∨ ex = WriteExit.timedOut ∨ ex = WriteExit.stopped ∨
        ex = WriteExit.guard) ∧
      (ex = WriteExit.done → r.totalWritten = len) ∧
      (ex = WriteExit.timedOut →
        1 ≤ r.waits ∧ r.clock = now + timeoutMs ∧ r.totalWritten < len ∧
        r.stream.ring.availableToWrite ≤ r.consumed.length ∧
        s.ring.availableToWrite ≤ r.totalWritten) ∧
      (ex = WriteExit.guard →
        (s.isOpen = false ∨ s.running = false ∨ len = 0) ∧
        r = { totalWritten := 0, stream := s, clock := now }) ∧
      (0 < r.totalWritten → 1 ≤ r.writes) ∧
      now ≤ r.clock ∧ r.clock ≤ now + timeoutMs := by
  by_cases hg : s.isOpen = false ∨ s.running = false ∨ len = 0
  · refine ⟨_, _, WriteToRingBlocking_guard s buf len timeoutMs now envs hg,
      Nat.zero_le _, ?_, hre, ?_, Or.inr (Or.inr (Or.inr rfl)), ?_, ?_, fun _ => ⟨hg, rfl⟩,
      ?_, le_refl _, Nat.le_add_right _ _⟩
    · simp
    · rcases hg with h | h | h
      · exact Or.inr (Or.inr (Or.inr ⟨rfl, Or.inl h⟩))
      · exact Or.inr (Or.inr (Or.inr ⟨rfl, Or.inr h⟩))
      · exact Or.inl h.symm
    · intro h; cases h
    · intro h; cases h
    · intro h; exact absurd h (lt_irrefl _)
  · have hopen : s.isOpen = true := by
      cases ho : s.isOpen with
      | true => rfl
      | false => exact absurd (Or.inl ho) hg
    have hrun : s.running = true := by
      cases hr : s.running with
      | true => rfl
      | false => exact absurd (Or.inr (Or.inl hr)) hg
    have h0 : len ≠ 0 := fun h => hg (Or.inr (Or.inr h))
    rw [WriteToRingBlocking_entry s buf len timeoutMs now envs hopen hrun h0]
    obtain ⟨ex, r, hl, c3, -, c4, c5, c6, c7, c8, c9, c10, c11, -, c13, c14, -⟩ :=
      WriteToRingBlocking_loop_spec buf len timeoutMs (now + timeoutMs) hlen h64
        (envs.length + len + 1) envs
        { totalWritten := 0, stream := s, clock := now } hre.wellFormed (Nat.zero_le _)
        (Nat.lt_succ_self _)
    obtain ⟨x1, x2, x3, x4, x5⟩ :=
      WriteToRingBlocking_loop_exit buf len timeoutMs (now + timeoutMs) hlen h64
        (envs.length + len + 1) envs
        { totalWritten := 0, stream := s, clock := now } ex r hre.wellFormed (Nat.zero_le _) hl
    have c5' : r.consumed ++ r.stream.ring.unread
        = [] ++ s.ring.unread ++ (buf.drop 0).take (r.totalWritten - 0) := c5
    have hcontent : r.consumed ++ r.stream.ring.unread
        = s.ring.unread ++ buf.take r.totalWritten := by
      rw [c5']
      simp
    refine ⟨ex, r, hl, c4, hcontent, c6 hre, ?_, ?_, c7, ?_, fun h => absurd h c11, ?_,
      c13, ?_⟩
    · cases ex with
      | guard => exact absurd rfl c11
      | done => exact Or.inl (c7 rfl)
      | stopped => exact Or.inr (Or.inr (Or.inl ⟨rfl, c8 rfl⟩))
      | full => exact absurd (c9 (Or.inl rfl)) ht
      | timedOut => exact Or.inr (Or.inl rfl)
      | single => exact absurd (c9 (Or.inr rfl)) ht
    · cases ex with
      | guard => exact absurd rfl c11
      | done => exact Or.inl rfl
      | stopped => exact Or.inr (Or.inr (Or.inl rfl))
      | full => exact absurd (c9 (Or.inl rfl)) ht
      | timedOut => exact Or.inr (Or.inl rfl)
      | single => exact absurd (c9 (Or.inr rfl)) ht
    · intro hto
      obtain ⟨y1, y2, y3⟩ := x4 hto
      have y1' : 0 < r.waits := y1
      have y3' : r.stream.ring.availableToWrite + 0 ≤ r.consumed.length := y3
      have hclock : r.clock = max now (now + timeoutMs) := (c10 hto).2
      have hlen2 := congrArg List.length hcontent
      rw [List.length_append, List.length_append, RingBuffer.unread_length,
        RingBuffer.unread_length, List.length_take, Nat.min_eq_left (le_trans c4 hlen)] at hlen2
      have hcap : r.stream.ring.capacity = s.ring.capacity := x1
      have a1 := RingBuffer.availableToWrite_eq c3
      have a2 := RingBuffer.availableToWrite_eq hre.wellFormed
      have a3 := RingBuffer.availableToRead_lt c3
      rw [hcap] at a1 a3
      refine ⟨y1', ?_, y2, by omega, timeout_fill_arith a1 a2 hlen2 (by omega) a3⟩
      rw [hclock]
      omega
    · intro hpos
      have : 0 < r.writes := x5 hpos
      exact this
    · have : r.clock ≤ max now (now + timeoutMs) := c14
      omega

/-- Witness for C18: three bytes offered at time 10 with a 50 ms timeout to a
ring with two free bytes.  When the render thread takes one byte while the
writer waits and wakes it at time 20, the call returns 3 from the loop
condition after one wait and two writes; when nothing wakes the writer, the
call returns 2 at time 60 from the `break` after `wait_until`. -/
theorem C18_blocking_write_witness :
    (∃ ex r, WriteToRingBlocking exampleStream (some [7, 8, 9]) 3 50 10
        [{}, { asleep := [EnvOp.consume 1], wake := some 20 }] = some (ex, r) ∧
      r.totalWritten ≤ 3 ∧
      r.consumed ++ r.stream.ring.unread
        = exampleStream.ring.unread ++ ([7, 8, 9] : List Byte).take r.totalWritten ∧
      r.stream.ring.Reachable ∧
      (r.totalWritten = 3 ∨ ex = WriteExit.timedOut ∨
        (ex = WriteExit.stopped ∧ (r.stream.running = false ∨ r.stream.isOpen = false)) ∨
        (ex = WriteExit.guard ∧
          (exampleStream.isOpen = false ∨ exampleStream.running = false))) ∧
      (ex = WriteExit.done ∨ ex = WriteExit.timedOut ∨ ex = WriteExit.stopped ∨
        ex = WriteExit.guard) ∧
      (ex = WriteExit.done → r.totalWritten = 3) ∧
      (ex = WriteExit.timedOut →
        1 ≤ r.waits ∧ r.clock = 10 + 50 ∧ r.totalWritten < 3 ∧
        r.stream.ring.availableToWrite ≤ r.consumed.length ∧
        exampleStream.ring.availableToWrite ≤ r.totalWritten) ∧
      (ex = WriteExit.guard →
        (exampleStream.isOpen = false ∨ exampleStream.running = false ∨ 3 = 0) ∧
        r = { totalWritten := 0, stream := exampleStream, clock := 10 }) ∧
      (0 < r.totalWritten → 1 ≤ r.writes) ∧
      10 ≤ r.clock ∧ r.clock ≤ 10 + 50) ∧
    (WriteToRingBlocking exampleStream (some [7, 8, 9]) 3 50 10
        [{}, { asleep := [EnvOp.consume 1], wake := some 20 }]).map
      (fun p => (p.1, p.2.totalWritten, p.2.waits, p.2.writes, p.2.clock, p.2.consumed,
        p.2.stream.ring.unread))
      = some (WriteExit.done, 3, 1, 2, 20, [3], [7, 8, 9]) ∧
    (WriteToRingBlocking exampleStream (some [7, 8, 9]) 3 50 10 []).map
      (fun p => (p.1, p.2.totalWritten, p.2.waits, p.2.writes, p.2.clock, p.2.consumed,
        p.2.stream.ring.unread))
      = some (WriteExit.timedOut, 2, 1, 1, 60, [], [3, 7, 8]) :=
  ⟨C18_blocking_write exampleStream [7, 8, 9] 3 50 10
    [{}, { asleep := [EnvOp.consume 1], wake := some 20 }] exampleRing_reachable
    (by decide) (by decide) (by decide), by rfl, by rfl⟩

/-- C19 (blocking deadline).  `WriteToRingBlocking` entered at time `now` with
a non-zero timeout on an open, running stream whose ring is full, when the
render thread takes nothing out of the ring during the call: the call returns
0, has not called `ring.write`, has left the ring as it was, and returns no
later than `now + timeoutMs`, the deadline computed at entry.  It returns
either because `wait_until` reported `timeout`, and then at the deadline
itself, or because `running` or `open` was found false. -/
theorem C19_blocking_deadline (s : OutputStreamState) (buf : List Byte)
    (len timeoutMs now : Nat) (envs : List WriteEnv) (hre : s.ring.Reachable)
    (hopen : s.isOpen = true) (hrun : s.running = true)
    (hfull : s.ring.availableToWrite = 0)
    (hlen : len ≤ buf.length) (h64 : len < SIZE_MODULUS) (h0 : len ≠ 0) (ht : timeoutMs ≠ 0)
    (hquiet : ∀ e ∈ envs, ∀ op ∈ e.before ++ e.asleep, ∀ n, op ≠ EnvOp.consume n) :
    ∃ ex r, WriteToRingBlocking s (some buf) len timeoutMs now envs = some (ex, r) ∧
      r.totalWritten = 0 ∧ r.writes = 0 ∧ r.stream.ring = s.ring ∧ r.consumed = [] ∧
      r.clock ≤ now + timeoutMs ∧
      ((ex = WriteExit.timedOut ∧ r.clock = now + timeoutMs) ∨
        (ex = WriteExit.stopped ∧ (r.stream.running = false ∨ r.stream.isOpen = false))) := by
  rw [WriteToRingBlocking_entry s buf len timeoutMs now envs hopen hrun h0]
  obtain ⟨ex, r, hl, -, -, -, -, -, c7, c8, c9, c10, c11, -, -, c14, -, c16⟩ :=
    WriteToRingBlocking_loop_spec buf len timeoutMs (now + timeoutMs) hlen h64
      (envs.length + len + 1) envs
      { totalWritten := 0, stream := s, clock := now } hre.wellFormed (Nat.zero_le _)
      (Nat.lt_succ_self _)
  obtain ⟨q1, q2, q3, q4⟩ := c16 hfull hquiet
  refine ⟨ex, r, hl, q1, q2, q3, q4, clock_within c14, ?_⟩
  cases ex with
  | guard => exact absurd rfl c11
  | done =>
    have h1 : r.totalWritten = len := c7 rfl
    have h2 : r.totalWritten = 0 := q1
    exact absurd (h1.symm.trans h2) h0
  | stopped => exact Or.inr ⟨rfl, c8 rfl⟩
  | full => exact absurd (c9 (Or.inl rfl)) ht
  | timedOut => exact Or.inl ⟨rfl, clock_at_deadline (c10 rfl).2⟩
  | single => exact absurd (c9 (Or.inr rfl)) ht

/-- Witness for C19: one byte offered at time 10 with a 50 ms timeout to a
full ring; the writer is woken once at time 20 and finds the ring still full. -/
theorem C19_blocking_deadline_witness :
    ∃ ex r, WriteToRingBlocking exampleFullStream (some [7]) 1 50 10
        [{ wake := some 20 }] = some (ex, r) ∧
      r.totalWritten = 0 ∧ r.writes = 0 ∧ r.stream.ring = exampleFullStream.ring ∧
      r.consumed = [] ∧ r.clock ≤ 10 + 50 ∧
      ((ex = WriteExit.timedOut ∧ r.clock = 10 + 50) ∨
        (ex = WriteExit.stopped ∧ (r.stream.running = false ∨ r.stream.isOpen = false))) :=
  C19_blocking_deadline exampleFullStream [7] 1 50 10 [{ wake := some 20 }]
    exampleFullRing_reachable rfl rfl (by decide) (by decide) (by decide) (by decide)
    (by decide) (by simp)

theorem Write_ring_not_running (s : OutputStreamState) (data : Option (List Byte))
    (len : Nat) (blocking : Bool) (now : Nat) (envs : List WriteEnv)
    (hrun : s.running = false) :
    Write_ring s data len blocking now envs = some (0, s, []) := by
  unfold Write_ring
  cases data with
  | none => rfl
  | some buf =>
    simp only [WriteToRingBlocking_guard s buf len _ now envs (Or.inr (Or.inl hrun))]
    rfl

/-- C16 as stated fails on the code: on an open stream whose `running` flag is
false `WriteAlsa` and `WriteCoreAudio` return 0 for a one-byte buffer, and
`WriteWasapi` returns 0 when the length is 0. -/
theorem C16_dead_stream_counterexample :
    WriteAlsa { exampleStream with running := false } (some [7]) 1 false 0 []
      = some (0, { exampleStream with running := false }, []) ∧
    WriteCoreAudio { exampleStream with running := false } (some [7]) 1 false 0 []
      = some (0, { exampleStream with running := false }, []) ∧
    WriteWasapi { exampleStream with running := false } (some [7]) 0 false 0 []
      = some (0, { exampleStream with running := false }, []) := by
  refine ⟨?_, ?_, ?_⟩ <;> decide

/-- C16, amended.  For every data buffer, length and blocking flag, a write
through `WriteWasapi`, `WriteCoreAudio` or `WriteAlsa` on a stream whose `open`
flag is false returns -1 and leaves the stream unchanged.  On a stream that is
open but whose `running` flag is false, `WriteWasapi` returns -1 for a non-null
buffer and a non-zero length and 0 for a null buffer or a zero length, and
`WriteCoreAudio` and `WriteAlsa` return without waiting; in each case the
stream and its ring are unchanged. -/
theorem C16_dead_stream (s : OutputStreamState) (data : Option (List Byte)) (len : Nat)
    (blocking : Bool) (now : Nat) (envs : List WriteEnv) :
    (s.isOpen = false →
      WriteWasapi s data len blocking now envs = some (-1, s, []) ∧
      WriteCoreAudio s data len blocking now envs = some (-1, s, []) ∧
      WriteAlsa s data len blocking now envs = some (-1, s, [])) ∧
    (s.isOpen = true → s.running = false →
      (data ≠ none → len ≠ 0 →
        WriteWasapi s data len blocking now envs = some (-1, s, [])) ∧
      (data = none ∨ len = 0 →
        WriteWasapi s data len blocking now envs = some (0, s, [])) ∧
      (∃ v, WriteCoreAudio s data len blocking now envs = some (v, s, [])) ∧
      (∃ v, WriteAlsa s data len blocking now envs = some (v, s, []))) := by
  constructor
  · intro ho
    refine ⟨?_, ?_, ?_⟩
    · unfold WriteWasapi; simp [ho]
    · unfold WriteCoreAudio; simp [ho]
    · unfold WriteAlsa; simp [ho]
  · intro ho hr
    refine ⟨?_, ?_, ?_, ?_⟩
    · intro hd hl
      cases data with
      | none => exact absurd rfl hd
      | some buf => unfold WriteWasapi; simp [ho, hr, hl]
    · intro h
      unfold WriteWasapi
      rcases h with h | h
      · simp [ho, h]
      · simp [ho, h]
    · unfold WriteCoreAudio
      by_cases h : data.isNone = true ∨ len = 0
      · refine ⟨0, ?_⟩
        rcases h with h | h
        · simp [ho, h]
        · simp [ho, h]
      · refine ⟨0, ?_⟩
        have h1 : data.isNone = false := by
          cases hd : data.isNone with
          | true => exact absurd (Or.inl hd) h
          | false => rfl
        have h2 : len ≠ 0 := fun hl => h (Or.inr hl)
        simp [ho, h1, h2, Write_ring_not_running s data len blocking now envs hr]
    · unfold WriteAlsa
      by_cases h : data.isNone = true ∨ len = 0
      · refine ⟨0, ?_⟩
        rcases h with h | h
        · simp [ho, h]
        · simp [ho, h]
      · refine ⟨0, ?_⟩
        have h1 : data.isNone = false := by
          cases hd : data.isNone with
          | true => exact absurd (Or.inl hd) h
          | false => rfl
        have h2 : len ≠ 0 := fun hl => h (Or.inr hl)
        simp [ho, h1, h2, Write_ring_not_running s data len blocking now envs hr]

/-- Witness for C16 (amended): a closed stream, and an open stream whose render
thread has stopped. -/
theorem C16_dead_stream_witness :
    WriteAlsa { exampleStream with isOpen := false } (some [7]) 1 true 0 []
      = some (-1, { exampleStream with isOpen := false }, []) ∧
    WriteWasapi { exampleStream with running := false } (some [7]) 1 true 0 []
      = some (-1, { exampleStream with running := false }, []) :=
  ⟨((C16_dead_stream { exampleStream with isOpen := false } (some [7]) 1 true 0 []).1 rfl).2.2,
   ((C16_dead_stream { exampleStream with running := false } (some [7]) 1 true 0 []).2
      rfl rfl).1 (by decide) (by decide)⟩

/-! ## `GetStats` -/

/-- C20 as stated fails on the code: `OpenOutput` registers a stream whose
`bytesPerFrame` is 0 (a 4-bit request on a CoreAudio unit whose format cannot
be read), a render callback of 480 frames records the padding, and `GetStats`
then reports `hardwareLatencyMs = 0`, whereas
`lastHardwarePaddingFrames x 1000 / sampleRate` is 480. -/
theorem C20_stats_counterexample :
    OpenOutput_macos exampleCoreAudioNoFormat exampleCoreAudioNoFormat {} exampleOpen4
      = some (({ g_streams := [(1, { exampleZeroFrameStream with
                                      lastHardwarePaddingFrames := 0 })],
                 g_nextId := 2 } : Registry),
          OpenOutcome.opened
            { handle := 1, sampleRate := 1000, channels := 1, bitDepth := 4,
              ringDurationMs := 20 }) ∧
    (CoreAudioRenderCallback { exampleZeroFrameStream with lastHardwarePaddingFrames := 0 } 480
        [{ mData := [], mDataByteSize := 0 }]).map (fun r => r.1)
      = some exampleZeroFrameStream ∧
    (GetStats exampleZeroFrameStream).hardwareLatencyMs = 0 ∧
    ((exampleZeroFrameStream.lastHardwarePaddingFrames : ℚ) * 1000)
        / (exampleZeroFrameStream.sampleRate : ℚ) = 480 ∧
    (GetStats exampleZeroFrameStream).hardwareLatencyMs
      ≠ ((exampleZeroFrameStream.lastHardwarePaddingFrames : ℚ) * 1000)
          / (exampleZeroFrameStream.sampleRate : ℚ) := by
  have h1 : (GetStats exampleZeroFrameStream).hardwareLatencyMs = 0 := by
    simp [GetStats, exampleZeroFrameStream]
  have h2 : ((exampleZeroFrameStream.lastHardwarePaddingFrames : ℚ) * 1000)
        / (exampleZeroFrameStream.sampleRate : ℚ) = 480 := by
    simp only [exampleZeroFrameStream]
    norm_num
  refine ⟨by decide!, by decide!, h1, h2, ?_⟩
  rw [h1, h2]
  norm_num

/-- C20, amended.  For every registered stream state `GetStats` reports
`buffered = ring.availableToRead()` and `free = ring.availableToWrite()` and
`totalSystemLatencyMs = ringLatencyMs + hardwareLatencyMs`.  When
`bytesPerFrame > 0` and `sampleRate > 0` it reports, as exact rational values,
`ringLatencyMs = (buffered / bytesPerFrame) x 1000 / sampleRate` and
`hardwareLatencyMs = lastHardwarePaddingFrames x 1000 / sampleRate`; when
`bytesPerFrame` is 0 it reports 0 for all three latencies. -/
theorem C20_stats (s : OutputStreamState) :
    (GetStats s).buffered = s.ring.availableToRead ∧
    (GetStats s).free = s.ring.availableToWrite ∧
    (GetStats s).totalSystemLatencyMs
      = (GetStats s).ringLatencyMs + (GetStats s).hardwareLatencyMs ∧
    (0 < s.bytesPerFrame → 0 < s.sampleRate →
      (GetStats s).ringLatencyMs
        = ((s.ring.availableToRead : ℚ) / (s.bytesPerFrame : ℚ)) * 1000 / (s.sampleRate : ℚ) ∧
      (GetStats s).hardwareLatencyMs
        = ((s.lastHardwarePaddingFrames : ℚ) * 1000) / (s.sampleRate : ℚ)) ∧
    (s.bytesPerFrame = 0 →
      (GetStats s).ringLatencyMs = 0 ∧ (GetStats s).hardwareLatencyMs = 0 ∧
      (GetStats s).totalSystemLatencyMs = 0) := by
  refine ⟨rfl, rfl, rfl, ?_, ?_⟩
  · intro hb _
    have hb' : s.bytesPerFrame > 0 := hb
    simp only [GetStats, if_pos hb']
    exact ⟨trivial, trivial⟩
  · intro hb
    have hb' : ¬ s.bytesPerFrame > 0 := by rw [hb]; exact Nat.lt_irrefl 0
    simp only [GetStats, if_neg hb']
    exact ⟨trivial, trivial, add_zero 0⟩

/-- Witness for C20 (amended): a 16-bit mono stream with one unread byte, and
the stream with a frame size of 0. -/
theorem C20_stats_witness :
    ((GetStats exampleStream).ringLatencyMs
        = ((exampleStream.ring.availableToRead : ℚ) / (exampleStream.bytesPerFrame : ℚ))
            * 1000 / (exampleStream.sampleRate : ℚ) ∧
      (GetStats exampleStream).hardwareLatencyMs
        = ((exampleStream.lastHardwarePaddingFrames : ℚ) * 1000)
            / (exampleStream.sampleRate : ℚ)) ∧
    ((GetStats exampleZeroFrameStream).ringLatencyMs = 0 ∧
      (GetStats exampleZeroFrameStream).hardwareLatencyMs = 0 ∧
      (GetStats exampleZeroFrameStream).totalSystemLatencyMs = 0) :=
  ⟨(C20_stats exampleStream).2.2.2.1 (by decide) (by decide),
   (C20_stats exampleZeroFrameStream).2.2.2.2 rfl⟩

theorem InitWasapi_ring_fields {s s' : OutputStreamState} {bufferMs : Double} {bufferFrames : Nat}
    (h : InitWasapi_ring s bufferMs bufferFrames = some s') :
    s'.sampleRate = s.sampleRate ∧ s'.channels = s.channels ∧ s'.bitDepth = s.bitDepth ∧
      s'.bytesPerFrame = s.bytesPerFrame := by
  unfold InitWasapi_ring at h
  dsimp only at h
  split at h
  · cases h
  · split at h
    · cases h
    · injection h with h
      rw [← h]
      exact ⟨rfl, rfl, rfl, rfl⟩

theorem InitCoreAudio_ring_fields {s s' : OutputStreamState} {bufferMs : Double}
    (h : InitCoreAudio_ring s bufferMs = some s') :
    s'.sampleRate = s.sampleRate ∧ s'.channels = s.channels ∧ s'.bitDepth = s.bitDepth ∧
      s'.bytesPerFrame = s.bytesPerFrame := by
  unfold InitCoreAudio_ring at h
  dsimp only at h
  split at h
  · cases h
  · split at h
    · cases h
    · injection h with h
      rw [← h]
      exact ⟨rfl, rfl, rfl, rfl⟩

theorem InitAlsa_ring_fields {s s' : OutputStreamState} {bufferMs : Double}
    (h : InitAlsa_ring s bufferMs = some s') :
    s'.sampleRate = s.sampleRate ∧ s'.channels = s.channels ∧ s'.bitDepth = s.bitDepth ∧
      s'.bytesPerFrame = s.bytesPerFrame := by
  unfold InitAlsa_ring at h
  dsimp only at h
  split at h
  · cases h
  · split at h
    · cases h
    · injection h with h
      rw [← h]
      exact ⟨rfl, rfl, rfl, rfl⟩

/-- A successful `InitWasapi` went through the format negotiation and kept
the format it left. -/
theorem InitWasapi_success {dev : WasapiDevice} {s s' : OutputStreamState} {exclusive : Bool}
    {bufferMs : Double} {bitPerfect : Bool}
    (h : InitWasapi dev s exclusive bufferMs bitPerfect = some (true, s')) :
    ∃ sf, InitWasapi_format s exclusive bitPerfect dev.IsFormatSupported dev.GetMixFormat
        = some sf ∧
      s'.sampleRate = sf.sampleRate ∧ s'.channels = sf.channels ∧
      s'.bitDepth = sf.bitDepth ∧ s'.bytesPerFrame = sf.bytesPerFrame := by
  unfold InitWasapi at h
  split at h
  · cases h
  · split at h
    · cases h
    · rename_i sf hsf
      refine ⟨sf, hsf, ?_⟩
      split at h
      · cases h
      · split at h
        · cases h
        · split at h
          · cases h
          · split at h
            · cases h
            · split at h
              · cases h
              · split at h
                · cases h
                · split at h
                  · cases h
                  · rename_i sr hsr
                    obtain ⟨e1, e2, e3, e4⟩ := InitWasapi_ring_fields hsr
                    injection h with h
                    injection h with _ h
                    rw [← h]
                    exact ⟨e1, e2, e3, e4⟩

/-! ## Opening a stream -/

theorem InitWasapi_format_accept {s : OutputStreamState} {bitPerfect : Bool}
    {isf : WAVEFORMATEXTENSIBLE → Bool} {mix : Option WAVEFORMATEXTENSIBLE} {c : Nat × Bool}
    (h : (InitWasapi_candidates s.bitDepth bitPerfect).find?
          (fun c => isf (BuildFormat s.sampleRate s.channels c.1 c.2)) = some c) :
    InitWasapi_format s true bitPerfect isf mix
      = some { s with bitDepth := c.1, bytesPerFrame := uintMul (c.1 / 8) s.channels } := by
  unfold InitWasapi_format
  rw [if_pos rfl, h]

theorem InitWasapi_format_reject {s : OutputStreamState} {bitPerfect : Bool}
    {isf : WAVEFORMATEXTENSIBLE → Bool} {mix : Option WAVEFORMATEXTENSIBLE}
    (h : ∀ c ∈ InitWasapi_candidates s.bitDepth bitPerfect,
          isf (BuildFormat s.sampleRate s.channels c.1 c.2) = false) :
    InitWasapi_format s true bitPerfect isf mix = none := by
  have hf : (InitWasapi_candidates s.bitDepth bitPerfect).find?
      (fun c => isf (BuildFormat s.sampleRate s.channels c.1 c.2)) = none := by
    rw [List.find?_eq_none]
    intro c hc
    rw [h c hc]
    exact Bool.false_ne_true
  unfold InitWasapi_format
  rw [if_pos rfl, hf]

theorem InitCoreAudio_format_accept {s : OutputStreamState} {bitPerfect : Bool}
    {tsf : Nat → Nat → Nat → Bool → Bool} {cur : Option AudioStreamBasicDescription}
    {c : Nat × Bool}
    (h : (InitCoreAudio_candidates s.bitDepth bitPerfect).find?
          (fun c => tsf s.sampleRate s.channels c.1 c.2) = some c) :
    InitCoreAudio_format s true bitPerfect tsf cur
      = { s with bitDepth := c.1, bytesPerFrame := uintMul (c.1 / 8) s.channels } := by
  unfold InitCoreAudio_format
  rw [if_pos rfl, h]

theorem InitCoreAudio_format_reject {s : OutputStreamState} {bitPerfect : Bool}
    {tsf : Nat → Nat → Nat → Bool → Bool} {cur : Option AudioStreamBasicDescription}
    (h : ∀ c ∈ InitCoreAudio_candidates s.bitDepth bitPerfect,
          tsf s.sampleRate s.channels c.1 c.2 = false) :
    InitCoreAudio_format s true bitPerfect tsf cur
      = InitCoreAudio_format s false bitPerfect tsf cur := by
  have hf : (InitCoreAudio_candidates s.bitDepth bitPerfect).find?
      (fun c => tsf s.sampleRate s.channels c.1 c.2) = none := by
    rw [List.find?_eq_none]
    intro c hc
    rw [h c hc]
    exact Bool.false_ne_true
  unfold InitCoreAudio_format
  rw [if_pos rfl, hf]
  rfl

theorem TrySetAlsaParams_reject {pcm : AlsaPcm} {s : OutputStreamState} {bitPerfect : Bool}
    (h : ∀ c ∈ TrySetAlsaParams_candidates s.bitDepth bitPerfect,
          pcm.hw_params_set_format (BitDepthToAlsaFormat c.1 c.2) = false) :
    TrySetAlsaParams pcm s true bitPerfect = TrySetAlsaParams pcm s false bitPerfect ∧
    TrySetAlsaParams_failed pcm s true bitPerfect
      = TrySetAlsaParams_failed pcm s false bitPerfect := by
  have hf : (TrySetAlsaParams_candidates s.bitDepth bitPerfect).find?
      (fun c => pcm.hw_params_set_format (BitDepthToAlsaFormat c.1 c.2)) = none := by
    rw [List.find?_eq_none]
    intro c hc
    rw [h c hc]
    exact Bool.false_ne_true
  unfold TrySetAlsaParams TrySetAlsaParams_failed
  rw [if_pos rfl, hf]
  exact ⟨rfl, rfl⟩

/-- A successful `InitCoreAudio` kept the format its negotiation left. -/
theorem InitCoreAudio_success {dev : CoreAudioDevice} {s s' : OutputStreamState}
    {exclusive : Bool} {bufferMs : Double} {bitPerfect : Bool}
    (h : InitCoreAudio dev s exclusive bufferMs bitPerfect = some (true, s')) :
    s'.sampleRate
      = (InitCoreAudio_format s exclusive bitPerfect dev.TrySetFormat dev.currentASBD).sampleRate ∧
    s'.channels
      = (InitCoreAudio_format s exclusive bitPerfect dev.TrySetFormat dev.currentASBD).channels ∧
    s'.bitDepth
      = (InitCoreAudio_format s exclusive bitPerfect dev.TrySetFormat dev.currentASBD).bitDepth ∧
    s'.bytesPerFrame
      = (InitCoreAudio_format s exclusive bitPerfect dev.TrySetFormat
          dev.currentASBD).bytesPerFrame := by
  unfold InitCoreAudio at h
  split at h
  · cases h
  · dsimp only at h
    split at h
    · cases h
    · split at h
      · cases h
      · split at h
        · cases h
        · rename_i sr hsr
          obtain ⟨e1, e2, e3, e4⟩ := InitCoreAudio_ring_fields hsr
          split at h
          · cases h
          · injection h with h
            injection h with _ h
            rw [← h]
            exact ⟨e1, e2, e3, e4⟩

/-- A successful `InitAlsa` went through a successful `TrySetAlsaParams` and
kept the format it left. -/
theorem InitAlsa_success {dev : AlsaDevice} {s s' : OutputStreamState}
    {exclusive : Bool} {bufferMs : Double} {bitPerfect : Bool}
    (h : InitAlsa dev s exclusive bufferMs bitPerfect = some (true, s')) :
    ∃ sf, TrySetAlsaParams dev.pcm s exclusive bitPerfect = some sf ∧
      s'.sampleRate = sf.sampleRate ∧ s'.channels = sf.channels ∧
      s'.bitDepth = sf.bitDepth ∧ s'.bytesPerFrame = sf.bytesPerFrame := by
  unfold InitAlsa at h
  split at h
  · cases h
  · split at h
    · cases h
    · rename_i sf hsf
      refine ⟨sf, hsf, ?_⟩
      split at h
      · cases h
      · rename_i sr hsr
        obtain ⟨e1, e2, e3, e4⟩ := InitAlsa_ring_fields hsr
        split at h
        · cases h
        · injection h with h
          injection h with _ h
          rw [← h]
          exact ⟨e1, e2, e3, e4⟩

/-- The stream `TrySetAlsaParams` returns when the candidate `c` is the first
one accepted: the format oracle enters through the depth of `c` only. -/
theorem TrySetAlsaParams_accept {pcm : AlsaPcm} {s : OutputStreamState} {bitPerfect : Bool}
    {c : Nat × Bool}
    (h : (TrySetAlsaParams_candidates s.bitDepth bitPerfect).find?
          (fun c => pcm.hw_params_set_format (BitDepthToAlsaFormat c.1 c.2)) = some c) :
    TrySetAlsaParams pcm s true bitPerfect =
      (if !pcm.hw_params_any then none
       else if !pcm.hw_params_set_access then none
       else
        match TrySetAlsaParams_channels pcm s.channels with
        | none => none
        | some channels =>
          match pcm.hw_params_set_rate_near s.sampleRate with
          | none => none
          | some actualRate =>
            if !pcm.hw_params_set_buffer_size_near (uintMul actualRate 100 / 1000) then none
            else if !pcm.hw_params_set_period_size_near (uintMul actualRate 100 / 1000 / 4)
              then none
            else if !pcm.hw_params then none
            else
              some { s with bitDepth := c.1, channels := channels, sampleRate := actualRate,
                            bufferSize := pcm.hw_params_get_buffer_size,
                            periodSize := pcm.hw_params_get_period_size,
                            bytesPerFrame := uintMul (c.1 / 8) channels }) := by
  unfold TrySetAlsaParams
  rw [if_pos rfl, h]

theorem TrySetAlsaParams_accept_fields {pcm : AlsaPcm} {s s' : OutputStreamState}
    {bitPerfect : Bool} {c : Nat × Bool}
    (h : (TrySetAlsaParams_candidates s.bitDepth bitPerfect).find?
          (fun c => pcm.hw_params_set_format (BitDepthToAlsaFormat c.1 c.2)) = some c)
    (hs : TrySetAlsaParams pcm s true bitPerfect = some s') : s'.bitDepth = c.1 := by
  rw [TrySetAlsaParams_accept h] at hs
  split at hs
  · cases hs
  · split at hs
    · cases hs
    · split at hs
      · cases hs
      · split at hs
        · cases hs
        · split at hs
          · cases hs
          · split at hs
            · cases hs
            · split at hs
              · cases hs
              · injection hs with hs
                rw [← hs]

theorem TrySetAlsaParams_failed_accept {pcm : AlsaPcm} {s : OutputStreamState}
    {bitPerfect : Bool} {c : Nat × Bool}
    (h : (TrySetAlsaParams_candidates s.bitDepth bitPerfect).find?
          (fun c => pcm.hw_params_set_format (BitDepthToAlsaFormat c.1 c.2)) = some c) :
    TrySetAlsaParams_failed pcm s true bitPerfect =
      (if !pcm.hw_params_any then s
       else if !pcm.hw_params_set_access then s
       else
        match TrySetAlsaParams_channels pcm s.channels with
        | none => { s with bitDepth := c.1 }
        | some channels =>
          match pcm.hw_params_set_rate_near s.sampleRate with
          | none => { s with bitDepth := c.1, channels := channels }
          | some actualRate =>
            { s with bitDepth := c.1, channels := channels, sampleRate := actualRate }) := by
  unfold TrySetAlsaParams_failed
  rw [if_pos rfl, h]

/-- C14 as stated fails on the code: a 32-bit exclusive open on a device that
accepts float32 and the same open on a device that accepts int32 only have
different accepted candidates, yet `OpenOutput` returns the same object and
registers the same stream (so `GetStats` reports the same) in both. -/
theorem C14_format_info_counterexample :
    (InitWasapi_candidates 32 false).find?
        (fun c => exampleWasapiFloat32.IsFormatSupported (BuildFormat 1000 1 c.1 c.2))
      = some (32, true) ∧
    (InitWasapi_candidates 32 false).find?
        (fun c => exampleWasapiInt32.IsFormatSupported (BuildFormat 1000 1 c.1 c.2))
      = some (32, false) ∧
    OpenOutput_win32 exampleWasapiFloat32 exampleWasapiFloat32 {} exampleOpen32
      = some (({ g_streams := [(1, exampleOpened32)], g_nextId := 2 } : Registry),
          OpenOutcome.opened
            { handle := 1, sampleRate := 1000, channels := 1, bitDepth := 32,
              ringDurationMs := 20 }) ∧
    OpenOutput_win32 exampleWasapiInt32 exampleWasapiInt32 {} exampleOpen32
      = OpenOutput_win32 exampleWasapiFloat32 exampleWasapiFloat32 {} exampleOpen32 := by
  refine ⟨by decide, by decide, by decide!, by decide!⟩

/-- C14, amended.  The format fields that `OpenOutput` returns and that
`GetStats` reports are the sample rate, the channel count and the bit depth of
the registered stream.  After a successful exclusive initialisation the bit
depth of the stream is the depth of the accepted candidate, so two opens whose
accepted candidates differ in bit depth return different format information.
The stream carries no floating-point flag: on every backend the outcome of the
initialisation depends on the format query only through the depth of the
accepted candidate, so two opens whose accepted candidates differ only in the
flag (float32 and int32) return the same format information. -/
theorem C14_format_info :
    (∀ (reg : Registry) (s : OutputStreamState),
      (OpenOutput_register reg s).2
        = OpenOutcome.opened
            { handle := reg.g_nextId, sampleRate := s.sampleRate, channels := s.channels,
              bitDepth := s.bitDepth, ringDurationMs := s.ringDurationMs } ∧
      (GetStats s).sampleRate = s.sampleRate ∧ (GetStats s).channels = s.channels ∧
      (GetStats s).bitDepth = s.bitDepth) ∧
    (∀ (dev : WasapiDevice) (s s' : OutputStreamState) (bufferMs : Double) (bitPerfect : Bool)
        (c : Nat × Bool),
      (InitWasapi_candidates s.bitDepth bitPerfect).find?
          (fun c => dev.IsFormatSupported (BuildFormat s.sampleRate s.channels c.1 c.2))
        = some c →
      InitWasapi dev s true bufferMs bitPerfect = some (true, s') →
      s'.bitDepth = c.1) ∧
    (∀ (dev : CoreAudioDevice) (s s' : OutputStreamState) (bufferMs : Double) (bitPerfect : Bool)
        (c : Nat × Bool),
      (InitCoreAudio_candidates s.bitDepth bitPerfect).find?
          (fun c => dev.TrySetFormat s.sampleRate s.channels c.1 c.2) = some c →
      InitCoreAudio dev s true bufferMs bitPerfect = some (true, s') →
      s'.bitDepth = c.1) ∧
    (∀ (dev : AlsaDevice) (s s' : OutputStreamState) (bufferMs : Double) (bitPerfect : Bool)
        (c : Nat × Bool),
      (TrySetAlsaParams_candidates s.bitDepth bitPerfect).find?
          (fun c => dev.pcm.hw_params_set_format (BitDepthToAlsaFormat c.1 c.2)) = some c →
      InitAlsa dev s true bufferMs bitPerfect = some (true, s') →
      s'.bitDepth = c.1) ∧
    (∀ (dev : WasapiDevice) (isf : WAVEFORMATEXTENSIBLE → Bool) (s : OutputStreamState)
        (bufferMs : Double) (bitPerfect : Bool) (c c' : Nat × Bool),
      (InitWasapi_candidates s.bitDepth bitPerfect).find?
          (fun c => dev.IsFormatSupported (BuildFormat s.sampleRate s.channels c.1 c.2))
        = some c →
      (InitWasapi_candidates s.bitDepth bitPerfect).find?
          (fun c => isf (BuildFormat s.sampleRate s.channels c.1 c.2)) = some c' →
      c.1 = c'.1 →
      InitWasapi { dev with IsFormatSupported := isf } s true bufferMs bitPerfect
        = InitWasapi dev s true bufferMs bitPerfect) ∧
    (∀ (dev : CoreAudioDevice) (tsf : Nat → Nat → Nat → Bool → Bool) (s : OutputStreamState)
        (bufferMs : Double) (bitPerfect : Bool) (c c' : Nat × Bool),
      (InitCoreAudio_candidates s.bitDepth bitPerfect).find?
          (fun c => dev.TrySetFormat s.sampleRate s.channels c.1 c.2) = some c →
      (InitCoreAudio_candidates s.bitDepth bitPerfect).find?
          (fun c => tsf s.sampleRate s.channels c.1 c.2) = some c' →
      c.1 = c'.1 →
      InitCoreAudio { dev with TrySetFormat := tsf } s true bufferMs bitPerfect
        = InitCoreAudio dev s true bufferMs bitPerfect) ∧
    (∀ (dev : AlsaDevice) (f : snd_pcm_format_t → Bool) (s : OutputStreamState)
        (bufferMs : Double) (bitPerfect : Bool) (c c' : Nat × Bool),
      (TrySetAlsaParams_candidates s.bitDepth bitPerfect).find?
          (fun c => dev.pcm.hw_params_set_format (BitDepthToAlsaFormat c.1 c.2)) = some c →
      (TrySetAlsaParams_candidates s.bitDepth bitPerfect).find?
          (fun c => f (BitDepthToAlsaFormat c.1 c.2)) = some c' →
      c.1 = c'.1 →
      InitAlsa { dev with pcm := { dev.pcm with hw_params_set_format := f } } s true bufferMs
          bitPerfect
        = InitAlsa dev s true bufferMs bitPerfect) := by
  refine ⟨fun _ _ => ⟨rfl, rfl, rfl, rfl⟩, ?_, ?_, ?_, ?_, ?_, ?_⟩
  · intro dev s s' bufferMs bitPerfect c hc hs
    obtain ⟨sf, hsf, -, -, e3, -⟩ := InitWasapi_success hs
    rw [InitWasapi_format_accept hc] at hsf
    injection hsf with hsf
    rw [e3, ← hsf]
  · intro dev s s' bufferMs bitPerfect c hc hs
    obtain ⟨-, -, e3, -⟩ := InitCoreAudio_success hs
    rw [e3, InitCoreAudio_format_accept hc]
  · intro dev s s' bufferMs bitPerfect c hc hs
    obtain ⟨sf, hsf, -, -, e3, -⟩ := InitAlsa_success hs
    rw [e3]
    exact TrySetAlsaParams_accept_fields hc hsf
  · intro dev isf s bufferMs bitPerfect c c' hc hc' hcc
    unfold InitWasapi
    simp only []
    rw [InitWasapi_format_accept hc, InitWasapi_format_accept hc', hcc]
  · intro dev tsf s bufferMs bitPerfect c c' hc hc' hcc
    unfold InitCoreAudio
    simp only []
    rw [InitCoreAudio_format_accept hc, InitCoreAudio_format_accept hc', hcc]
  · intro dev f s bufferMs bitPerfect c c' hc hc' hcc
    have h1 := @TrySetAlsaParams_accept dev.pcm s bitPerfect c hc
    have h2 := @TrySetAlsaParams_accept { dev.pcm with hw_params_set_format := f } s bitPerfect
      c' hc'
    unfold InitAlsa
    simp only []
    rw [h1, h2, @TrySetAlsaParams_failed_accept dev.pcm s bitPerfect c hc,
      @TrySetAlsaParams_failed_accept { dev.pcm with hw_params_set_format := f } s bitPerfect
        c' hc', hcc]
    rfl

/-- Witness for C14 (amended): the 32-bit open on the float32 device, and the
same open with the format query of the int32 device. -/
theorem C14_format_info_witness :
    exampleOpened32.bitDepth = ((32, true) : Nat × Bool).1 ∧
    InitWasapi
        { exampleWasapiFloat32 with IsFormatSupported := exampleWasapiInt32.IsFormatSupported }
        (OpenOutput_state exampleOpen32) true 20 false
      = InitWasapi exampleWasapiFloat32 (OpenOutput_state exampleOpen32) true 20 false :=
  ⟨C14_format_info.2.1 exampleWasapiFloat32 (OpenOutput_state exampleOpen32) exampleOpened32
      20 false (32, true) (by decide) (by decide!),
   C14_format_info.2.2.2.2.1 exampleWasapiFloat32 exampleWasapiInt32.IsFormatSupported
      (OpenOutput_state exampleOpen32) 20 false (32, true) (32, false) (by decide) (by decide)
      rfl⟩

theorem InitWasapi_reject {dev : WasapiDevice} {s : OutputStreamState} {bufferMs : Double}
    {bitPerfect : Bool}
    (h : ∀ c ∈ InitWasapi_candidates s.bitDepth bitPerfect,
          dev.IsFormatSupported (BuildFormat s.sampleRate s.channels c.1 c.2) = false) :
    InitWasapi dev s true bufferMs bitPerfect = some (false, s) := by
  unfold InitWasapi
  rw [InitWasapi_format_reject h]
  split <;> rfl

theorem InitCoreAudio_reject {dev : CoreAudioDevice} {s : OutputStreamState} {bufferMs : Double}
    {bitPerfect : Bool}
    (h : ∀ c ∈ InitCoreAudio_candidates s.bitDepth bitPerfect,
          dev.TrySetFormat s.sampleRate s.channels c.1 c.2 = false) :
    InitCoreAudio dev s true bufferMs bitPerfect
      = InitCoreAudio dev s false bufferMs bitPerfect := by
  unfold InitCoreAudio
  rw [InitCoreAudio_format_reject h]

theorem InitAlsa_reject {dev : AlsaDevice} {s : OutputStreamState} {bufferMs : Double}
    {bitPerfect : Bool}
    (h : ∀ c ∈ TrySetAlsaParams_candidates s.bitDepth bitPerfect,
          dev.pcm.hw_params_set_format (BitDepthToAlsaFormat c.1 c.2) = false) :
    InitAlsa dev s true bufferMs bitPerfect = InitAlsa dev s false bufferMs bitPerfect := by
  unfold InitAlsa
  rw [(TrySetAlsaParams_reject h).1, (TrySetAlsaParams_reject h).2]

theorem OpenOutput_win32_exclusive_failed (dev retry : WasapiDevice) (reg : Registry)
    (opts : OpenOptions) (s1 : OutputStreamState) (hm : opts.mode = "exclusive")
    (h : InitWasapi dev (OpenOutput_state opts) true opts.bufferMs opts.bitPerfect
          = some (false, s1)) :
    OpenOutput_win32 dev retry reg opts =
      if opts.strictBitPerfect then
        some (reg, OpenOutcome.error "Exclusive format not supported in strict bitPerfect mode")
      else
        match InitWasapi retry s1 false opts.bufferMs opts.bitPerfect with
        | none => none
        | some (ok, s2) =>
          if ok then some (OpenOutput_register reg s2)
          else some (reg, OpenOutcome.error
            "Failed to open exclusive output; shared fallback also failed") := by
  unfold OpenOutput_win32
  have hne : ¬ opts.mode = "shared" := by rw [hm]; decide
  simp only [if_neg hne, if_pos hm, h, Bool.not_false, if_true]
  split
  · rfl
  · split
    · rfl
    · rename_i ok s2 _
      cases ok <;> rfl

theorem OpenOutput_macos_failed (dev retry : CoreAudioDevice) (reg : Registry)
    (opts : OpenOptions) (s1 : OutputStreamState)
    (h : InitCoreAudio dev (OpenOutput_state opts) (decide (opts.mode = "exclusive"))
          opts.bufferMs opts.bitPerfect = some (false, s1)) :
    OpenOutput_macos dev retry reg opts =
      if opts.strictBitPerfect && decide (opts.mode = "exclusive") then
        some (reg, OpenOutcome.error "Exclusive format not supported in strict bitPerfect mode")
      else
        match InitCoreAudio retry s1 false opts.bufferMs false with
        | none => none
        | some (ok, s2) =>
          if ok then some (OpenOutput_register reg s2)
          else some (reg, OpenOutcome.error "Failed to open CoreAudio output") := by
  unfold OpenOutput_macos
  simp only [h, Bool.not_false, if_true]
  split
  · rfl
  · split
    · rfl
    · rename_i ok s2 _
      cases ok <;> rfl

theorem OpenOutput_linux_failed (dev retry : AlsaDevice) (reg : Registry)
    (opts : OpenOptions) (s1 : OutputStreamState)
    (h : InitAlsa dev (OpenOutput_state opts) (decide (opts.mode = "exclusive"))
          opts.bufferMs opts.bitPerfect = some (false, s1)) :
    OpenOutput_linux dev retry reg opts =
      if opts.strictBitPerfect && decide (opts.mode = "exclusive") then
        some (reg, OpenOutcome.error "Exclusive format not supported in strict bitPerfect mode")
      else
        match InitAlsa retry s1 false opts.bufferMs false with
        | none => none
        | some (ok, s2) =>
          if ok then some (OpenOutput_register reg s2)
          else some (reg, OpenOutcome.error "Failed to open ALSA output") := by
  unfold OpenOutput_linux
  simp only [h, Bool.not_false, if_true]
  split
  · rfl
  · split
    · rfl
    · rename_i ok s2 _
      cases ok <;> rfl

/-- C15 as stated fails on the code: on CoreAudio an exclusive open finds
every candidate of the ladder rejected, and `OpenOutput` registers a stream and
issues handle 1 all the same, (a) with the strict flag set, and (b) with the
strict flag clear although the retry it could make would fail. -/
theorem C15_strict_or_fallback_counterexample :
    (∀ c ∈ InitCoreAudio_candidates exampleOpen32.bitDepth exampleOpen32.bitPerfect,
      exampleCoreAudioRejecting.TrySetFormat exampleOpen32.sampleRate exampleOpen32.channels
        c.1 c.2 = false) ∧
    (OpenOutput_macos exampleCoreAudioRejecting exampleCoreAudioAbsent {}
        { exampleOpen32 with strictBitPerfect := true }).map
        (fun r => (r.2, r.1.g_nextId, r.1.g_streams.map Prod.fst))
      = some (OpenOutcome.opened
          { handle := 1, sampleRate := 1000, channels := 1, bitDepth := 16,
            ringDurationMs := 20 }, 2, [1]) ∧
    (OpenOutput_macos exampleCoreAudioRejecting exampleCoreAudioAbsent {} exampleOpen32).map
        (fun r => (r.2, r.1.g_nextId, r.1.g_streams.map Prod.fst))
      = some (OpenOutcome.opened
          { handle := 1, sampleRate := 1000, channels := 1, bitDepth := 16,
            ringDurationMs := 20 }, 2, [1]) ∧
    (∀ s : OutputStreamState,
      InitCoreAudio exampleCoreAudioAbsent s false 20 false = some (false, s)) := by
  refine ⟨by decide, by decide!, by decide!, fun s => rfl⟩

/-- C15, amended.  For every backend, when the first initialisation of an
exclusive open fails, then (a) with the strict flag set `OpenOutput` fails,
registers no stream and issues no handle, and (b) with the strict flag clear
the whole initialisation is retried once in shared (non-exclusive) mode, on the
stream the failed run left, and `OpenOutput` succeeds if and only if that retry
succeeds.  On WASAPI the exclusive initialisation fails whenever the backend
rejects every candidate of the ladder.  On CoreAudio and ALSA, with the strict
flag clear, rejection of every candidate leads to no retry: the open proceeds
exactly as the same open in shared mode, on the format of the device. -/
theorem C15_strict_or_fallback :
    (∀ (dev : WasapiDevice) (s : OutputStreamState) (bufferMs : Double) (bitPerfect : Bool),
      (∀ c ∈ InitWasapi_candidates s.bitDepth bitPerfect,
        dev.IsFormatSupported (BuildFormat s.sampleRate s.channels c.1 c.2) = false) →
      InitWasapi dev s true bufferMs bitPerfect = some (false, s)) ∧
    (∀ (dev retry : WasapiDevice) (reg : Registry) (opts : OpenOptions)
        (s1 : OutputStreamState),
      opts.mode = "exclusive" →
      InitWasapi dev (OpenOutput_state opts) true opts.bufferMs opts.bitPerfect
        = some (false, s1) →
      (opts.strictBitPerfect = true →
        OpenOutput_win32 dev retry reg opts
          = some (reg, OpenOutcome.error
              "Exclusive format not supported in strict bitPerfect mode")) ∧
      (opts.strictBitPerfect = false →
        OpenOutput_win32 dev retry reg opts =
          match InitWasapi retry s1 false opts.bufferMs opts.bitPerfect with
          | none => none
          | some (ok, s2) =>
            if ok then some (OpenOutput_register reg s2)
            else some (reg, OpenOutcome.error
              "Failed to open exclusive output; shared fallback also failed"))) ∧
    (∀ (dev retry : CoreAudioDevice) (reg : Registry) (opts : OpenOptions)
        (s1 : OutputStreamState),
      opts.mode = "exclusive" →
      InitCoreAudio dev (OpenOutput_state opts) true opts.bufferMs opts.bitPerfect
        = some (false, s1) →
      (opts.strictBitPerfect = true →
        OpenOutput_macos dev retry reg opts
          = some (reg, OpenOutcome.error
              "Exclusive format not supported in strict bitPerfect mode")) ∧
      (opts.strictBitPerfect = false →
        OpenOutput_macos dev retry reg opts =
          match InitCoreAudio retry s1 false opts.bufferMs false with
          | none => none
          | some (ok, s2) =>
            if ok then some (OpenOutput_register reg s2)
            else some (reg, OpenOutcome.error "Failed to open CoreAudio output"))) ∧
    (∀ (dev retry : AlsaDevice) (reg : Registry) (opts : OpenOptions)
        (s1 : OutputStreamState),
      opts.mode = "exclusive" →
      InitAlsa dev (OpenOutput_state opts) true opts.bufferMs opts.bitPerfect
        = some (false, s1) →
      (opts.strictBitPerfect = true →
        OpenOutput_linux dev retry reg opts
          = some (reg, OpenOutcome.error
              "Exclusive format not supported in strict bitPerfect mode")) ∧
      (opts.strictBitPerfect = false →
        OpenOutput_linux dev retry reg opts =
          match InitAlsa retry s1 false opts.bufferMs false with
          | none => none
          | some (ok, s2) =>
            if ok then some (OpenOutput_register reg s2)
            else some (reg, OpenOutcome.error "Failed to open ALSA output"))) ∧
    (∀ (dev retry : CoreAudioDevice) (reg : Registry) (opts : OpenOptions),
      opts.mode = "exclusive" → opts.strictBitPerfect = false →
      (∀ c ∈ InitCoreAudio_candidates opts.bitDepth opts.bitPerfect,
        dev.TrySetFormat opts.sampleRate opts.channels c.1 c.2 = false) →
      OpenOutput_macos dev retry reg opts
        = OpenOutput_macos dev retry reg { opts with mode := "shared" }) ∧
    (∀ (dev retry : AlsaDevice) (reg : Registry) (opts : OpenOptions),
      opts.mode = "exclusive" → opts.strictBitPerfect = false →
      (∀ c ∈ TrySetAlsaParams_candidates opts.bitDepth opts.bitPerfect,
        dev.pcm.hw_params_set_format (BitDepthToAlsaFormat c.1 c.2) = false) →
      OpenOutput_linux dev retry reg opts
        = OpenOutput_linux dev retry reg { opts with mode := "shared" }) := by
  refine ⟨fun dev s bufferMs bitPerfect h => InitWasapi_reject h, ?_, ?_, ?_, ?_, ?_⟩
  · intro dev retry reg opts s1 hm h
    have key := OpenOutput_win32_exclusive_failed dev retry reg opts s1 hm h
    constructor
    · intro hs
      rw [key, hs]
      rfl
    · intro hs
      rw [key, hs]
      rfl
  · intro dev retry reg opts s1 hm h
    have hd : decide (opts.mode = "exclusive") = true := decide_eq_true hm
    have key := OpenOutput_macos_failed dev retry reg opts s1 (by rw [hd]; exact h)
    constructor
    · intro hs
      rw [key, hs, hd]
      rfl
    · intro hs
      rw [key, hs, hd]
      rfl
  · intro dev retry reg opts s1 hm h
    have hd : decide (opts.mode = "exclusive") = true := decide_eq_true hm
    have key := OpenOutput_linux_failed dev retry reg opts s1 (by rw [hd]; exact h)
    constructor
    · intro hs
      rw [key, hs, hd]
      rfl
    · intro hs
      rw [key, hs, hd]
      rfl
  · intro dev retry reg opts hm hs hrej
    have hI : InitCoreAudio dev (OpenOutput_state opts) true opts.bufferMs opts.bitPerfect
        = InitCoreAudio dev (OpenOutput_state opts) false opts.bufferMs opts.bitPerfect :=
      @InitCoreAudio_reject dev (OpenOutput_state opts) opts.bufferMs opts.bitPerfect hrej
    have hd : decide (opts.mode = "exclusive") = true := decide_eq_true hm
    have hd' : decide (({ opts with mode := "shared" } : OpenOptions).mode = "exclusive")
        = false := decide_eq_false (by decide : ¬ ("shared" : String) = "exclusive")
    have hst : OpenOutput_state { opts with mode := "shared" } = OpenOutput_state opts := rfl
    simp only [OpenOutput_macos, hst, hd, hd', hI, hs, Bool.false_and, Bool.and_false]
    rfl
  · intro dev retry reg opts hm hs hrej
    have hI : InitAlsa dev (OpenOutput_state opts) true opts.bufferMs opts.bitPerfect
        = InitAlsa dev (OpenOutput_state opts) false opts.bufferMs opts.bitPerfect :=
      @InitAlsa_reject dev (OpenOutput_state opts) opts.bufferMs opts.bitPerfect hrej
    have hd : decide (opts.mode = "exclusive") = true := decide_eq_true hm
    have hd' : decide (({ opts with mode := "shared" } : OpenOptions).mode = "exclusive")
        = false := decide_eq_false (by decide : ¬ ("shared" : String) = "exclusive")
    have hst : OpenOutput_state { opts with mode := "shared" } = OpenOutput_state opts := rfl
    simp only [OpenOutput_linux, hst, hd, hd', hI, hs, Bool.false_and, Bool.and_false]
    rfl

/-- Witness for C15 (amended): a 32-bit exclusive open on a WASAPI device
without exclusive formats, strict and not strict, and on a CoreAudio unit that
rejects every format. -/
theorem C15_strict_or_fallback_witness :
    InitWasapi exampleWasapiShared (OpenOutput_state exampleOpen32) true 20 false
      = some (false, OpenOutput_state exampleOpen32) ∧
    OpenOutput_win32 exampleWasapiShared exampleWasapiShared {}
        { exampleOpen32 with strictBitPerfect := true }
      = some ({}, OpenOutcome.error
          "Exclusive format not supported in strict bitPerfect mode") ∧
    OpenOutput_win32 exampleWasapiShared exampleWasapiShared {} exampleOpen32
      = (match InitWasapi exampleWasapiShared (OpenOutput_state exampleOpen32) false
            exampleOpen32.bufferMs exampleOpen32.bitPerfect with
         | none => none
         | some (ok, s2) =>
           if ok then some (OpenOutput_register {} s2)
           else some ({}, OpenOutcome.error
             "Failed to open exclusive output; shared fallback also failed")) ∧
    OpenOutput_macos exampleCoreAudioRejecting exampleCoreAudioAbsent {} exampleOpen32
      = OpenOutput_macos exampleCoreAudioRejecting exampleCoreAudioAbsent {}
          { exampleOpen32 with mode := "shared" } :=
  ⟨C15_strict_or_fallback.1 exampleWasapiShared (OpenOutput_state exampleOpen32) 20 false
      (by decide),
   (C15_strict_or_fallback.2.1 exampleWasapiShared exampleWasapiShared {}
      { exampleOpen32 with strictBitPerfect := true } (OpenOutput_state exampleOpen32)
      rfl (by decide!)).1 rfl,
   (C15_strict_or_fallback.2.1 exampleWasapiShared exampleWasapiShared {} exampleOpen32
      (OpenOutput_state exampleOpen32) rfl (by decide!)).2 rfl,
   C15_strict_or_fallback.2.2.2.2.1 exampleCoreAudioRejecting exampleCoreAudioAbsent {}
      exampleOpen32 rfl rfl (by decide)⟩

theorem mem_wrap_pair {N M : Nat} {p : Nat × Nat}
    (h : p ∈ (if N > min N M then [(N, min N M)] else ([] : List (Nat × Nat)))) :
    p.2 ≤ p.1 := by
  split at h
  · rw [List.mem_singleton] at h
    subst h
    exact Nat.min_le_left _ _
  · cases h

theorem RingBuffer.write_subtractions_le {rb : RingBuffer} (h : rb.WellFormed) (len : Nat) :
    ∀ p ∈ rb.write_subtractions len, p.2 ≤ p.1 := by
  have hc := h.cap_pos
  have hm := h.cap_lt
  have hr := h.read_lt
  have hw := h.write_lt
  clear h
  rcases rb with ⟨data, c, r, t⟩
  simp only [] at hc hm hr hw
  intro p hp
  unfold RingBuffer.write_subtractions at hp
  simp only [] at hp
  have e4 : sizeSub c t = c - t := sizeSub_eq (by omega) (by unfold SIZE_MODULUS; omega)
  by_cases h0 : len = 0
  · rw [if_pos h0] at hp
    cases hp
  · rw [if_neg h0] at hp
    by_cases hge : t ≥ r
    · have e1 : sizeSub t r = t - r := sizeSub_eq hge (by unfold SIZE_MODULUS; omega)
      have e2 : sizeSub c (t - r) = c - (t - r) :=
        sizeSub_eq (by omega) (by unfold SIZE_MODULUS; omega)
      have e3 : sizeSub (c - (t - r)) 1 = c - (t - r) - 1 :=
        sizeSub_eq (by omega) (by unfold SIZE_MODULUS; omega)
      simp only [if_pos hge, e1, e2, e3, e4] at hp
      clear e1 e2 e3 e4
      split at hp
      · simp only [List.mem_cons, List.mem_singleton, List.not_mem_nil, or_false] at hp
        rcases hp with rfl | rfl | rfl <;> simp only [] <;> omega
      · simp only [List.mem_append, List.mem_cons, List.mem_singleton, List.not_mem_nil,
          or_false] at hp
        rcases hp with ((rfl | rfl | rfl) | rfl) | hp
        · simp only []; omega
        · simp only []; omega
        · simp only []; omega
        · simp only []; omega
        · exact mem_wrap_pair hp
    · have e1 : sizeSub r t = r - t := sizeSub_eq (by omega) (by unfold SIZE_MODULUS; omega)
      have e3 : sizeSub (r - t) 1 = r - t - 1 :=
        sizeSub_eq (by omega) (by unfold SIZE_MODULUS; omega)
      simp only [if_neg hge, e1, e3, e4] at hp
      clear e1 e3 e4
      split at hp
      · simp only [List.mem_cons, List.mem_singleton, List.not_mem_nil, or_false] at hp
        rcases hp with rfl | rfl <;> simp only [] <;> omega
      · simp only [List.mem_append, List.mem_cons, List.mem_singleton, List.not_mem_nil,
          or_false] at hp
        rcases hp with ((rfl | rfl) | rfl) | hp
        · simp only []; omega
        · simp only []; omega
        · simp only []; omega
        · exact mem_wrap_pair hp
theorem RingBuffer.read_subtractions_le {rb : RingBuffer} (h : rb.WellFormed) (len : Nat) :
    ∀ p ∈ rb.read_subtractions len, p.2 ≤ p.1 := by
  have hc := h.cap_pos
  have hm := h.cap_lt
  have hr := h.read_lt
  have hw := h.write_lt
  clear h
  rcases rb with ⟨data, c, r, t⟩
  simp only [] at hc hm hr hw
  intro p hp
  unfold RingBuffer.read_subtractions at hp
  simp only [] at hp
  have e1 : sizeAdd t c = t + c := sizeAdd_eq (by unfold SIZE_MODULUS; omega)
  have e4 : sizeSub c r = c - r := sizeSub_eq (by omega) (by unfold SIZE_MODULUS; omega)
  by_cases h0 : len = 0
  · rw [if_pos h0] at hp
    cases hp
  · rw [if_neg h0, e1, e4] at hp
    clear e1 e4
    split at hp
    · simp only [List.mem_singleton] at hp
      subst hp
      simp only []
      omega
    · simp only [List.mem_append, List.mem_cons, List.mem_singleton, List.not_mem_nil,
        or_false] at hp
      rcases hp with (rfl | rfl) | hp
      · simp only []; omega
      · simp only []; omega
      · exact mem_wrap_pair hp
/-! ## Ring index safety -/

/-- C29 (ring index safety).  In every ring state reachable from
`RingBuffer::init(n)`, for any `n` (0 included), by `write` and `read` calls:
`readPos < capacity`, `writePos < capacity` and `data.size() == capacity`; a
`write` of `len` bytes from a block of exactly `len` bytes and a `read` of
`len` bytes into a block of exactly `len` bytes run without a copy leaving
`data` or the block (the copies of the model fail outside either); and in every
subtraction that `write` and `read` evaluate the subtrahend is at most the
minuend, so none wraps. -/
theorem C29_index_safety (rb : RingBuffer) (h : rb.Reachable) :
    (rb.readPos < rb.capacity ∧ rb.writePos < rb.capacity ∧ rb.data.length = rb.capacity) ∧
    (∀ buf : List Byte, ∃ rb' k, rb.write (some buf) buf.length = some (rb', k)) ∧
    (∀ (len : Nat) (p : Nat × Nat), p ∈ rb.write_subtractions len → p.2 ≤ p.1) ∧
    (∀ out : List Byte, ∃ rb' out' k, rb.read (some out) out.length = some (rb', some out', k)) ∧
    (∀ (len : Nat) (p : Nat × Nat), p ∈ rb.read_subtractions len → p.2 ≤ p.1) := by
  have hwf := h.wellFormed
  refine ⟨⟨hwf.read_lt, hwf.write_lt, hwf.data_len⟩, ?_,
    fun len p hp => RingBuffer.write_subtractions_le hwf len p hp, ?_,
    fun len p hp => RingBuffer.read_subtractions_le hwf len p hp⟩
  · intro buf
    obtain ⟨rb', hw, -⟩ := RingBuffer.write_spec hwf buf buf.length (le_refl _)
    exact ⟨rb', _, hw⟩
  · intro out
    obtain ⟨rb', hr, -⟩ := RingBuffer.read_spec hwf out out.length (le_refl _)
    exact ⟨rb', _, _, hr⟩

/-- Witness for C29: the ring with one unread byte at position 2 of 4, where a
write of three bytes wraps around the end of `data`. -/
theorem C29_index_safety_witness :
    exampleRing.Reachable ∧
    (exampleRing.readPos < exampleRing.capacity ∧ exampleRing.writePos < exampleRing.capacity ∧
      exampleRing.data.length = exampleRing.capacity) ∧
    exampleRing.write_subtractions 3 = [(3, 2), (4, 1), (3, 1), (4, 3), (2, 1)] ∧
    (∀ p ∈ exampleRing.write_subtractions 3, p.2 ≤ p.1) :=
  ⟨exampleRing_reachable, (C29_index_safety exampleRing exampleRing_reachable).1, by decide,
   fun p hp => (C29_index_safety exampleRing exampleRing_reachable).2.2.1 3 p hp⟩

/-! ## `bytesPerFrame` -/

/-- C23 as stated fails on the code: a 12-bit stereo open ends with
`bytesPerFrame = (12 / 8) * 2 = 2`, whereas `2 * 12 / 8 = 3`, which is also the
block alignment `BuildFormat` gives the device; and a 16-bit open with 65538
channels, which `BuildFormat` presents to the device as stereo with block
alignment 4, ends with `bytesPerFrame = 131076`. -/
theorem C23_bytes_per_frame_counterexample :
    OpenOutput_win32 exampleWasapi12 exampleWasapi12 {} exampleOpen12
      = some (({ g_streams := [(1, exampleOpened12)], g_nextId := 2 } : Registry),
          OpenOutcome.opened
            { handle := 1, sampleRate := 1000, channels := 2, bitDepth := 12,
              ringDurationMs := 20 }) ∧
    exampleOpened12.bytesPerFrame = 2 ∧
    exampleOpened12.channels * exampleOpened12.bitDepth / 8 = 3 ∧
    (BuildFormat 1000 exampleOpened12.channels exampleOpened12.bitDepth false).nBlockAlign = 3 ∧
    (InitWasapi_format { sampleRate := 1000, channels := 65538, bitDepth := 16 } true false
        exampleIsFormatSupportedStereo16 none).map (fun s => (s.channels, s.bitDepth, s.bytesPerFrame))
      = some (65538, 16, 131076) ∧
    (BuildFormat 1000 65538 16 false).nBlockAlign = 4 := by
  refine ⟨by decide!, by decide, by decide, by decide, by decide, by decide⟩

theorem div8_mul (c b : Nat) (h : b % 8 = 0) : b / 8 * c = c * b / 8 := by
  obtain ⟨k, rfl⟩ := Nat.dvd_of_mod_eq_zero h
  rw [Nat.mul_div_cancel_left k (by decide : 0 < 8), Nat.mul_left_comm,
    Nat.mul_div_cancel_left _ (by decide : 0 < 8), Nat.mul_comm]

theorem InitWasapi_format_bytesPerFrame {s sf : OutputStreamState} {exclusive bitPerfect : Bool}
    {isf : WAVEFORMATEXTENSIBLE → Bool} {mix : Option WAVEFORMATEXTENSIBLE}
    (h : InitWasapi_format s exclusive bitPerfect isf mix = some sf) :
    sf.bytesPerFrame = uintMul (sf.bitDepth / 8) sf.channels := by
  unfold InitWasapi_format at h
  split at h
  · split at h
    · injection h with h
      rw [← h]
    · cases h
  · split at h
    · cases h
    · injection h with h
      rw [← h]

theorem InitCoreAudio_format_bytesPerFrame (s : OutputStreamState) (exclusive bitPerfect : Bool)
    (tsf : Nat → Nat → Nat → Bool → Bool) (cur : Option AudioStreamBasicDescription) :
    (InitCoreAudio_format s exclusive bitPerfect tsf cur).bytesPerFrame
      = uintMul ((InitCoreAudio_format s exclusive bitPerfect tsf cur).bitDepth / 8)
          (InitCoreAudio_format s exclusive bitPerfect tsf cur).channels := by
  unfold InitCoreAudio_format
  rfl

theorem TrySetAlsaParams_bytesPerFrame {pcm : AlsaPcm} {s sf : OutputStreamState}
    {exclusive bitPerfect : Bool} (h : TrySetAlsaParams pcm s exclusive bitPerfect = some sf) :
    sf.bytesPerFrame = uintMul (sf.bitDepth / 8) sf.channels := by
  unfold TrySetAlsaParams at h
  split at h
  · cases h
  · split at h
    · cases h
    · dsimp only at h
      split at h
      · cases h
      · split at h
        · cases h
        · split at h
          · cases h
          · split at h
            · cases h
            · split at h
              · cases h
              · split at h
                · cases h
                · injection h with h
                  rw [← h]

/-- C23, amended.  The stream `OpenOutput` sets up and the stream every
successful `Init*` run leaves have `bytesPerFrame == (bitDepth / 8) * channels`
in `unsigned int` arithmetic.  For every channel count and every bit depth
that is a multiple of 8 this equals `channels * bitDepth / 8` as long as the
product fits an `unsigned int`, and it agrees with the block alignment
`(channels * bits) / 8` that `BuildFormat` hands to the backend as long as the
channel count, the bit depth and the block alignment fit the 16-bit fields of
the format. -/
theorem C23_bytes_per_frame :
    (∀ opts : OpenOptions,
      (OpenOutput_state opts).bytesPerFrame = uintMul (opts.bitDepth / 8) opts.channels) ∧
    (∀ (dev : WasapiDevice) (s s' : OutputStreamState) (exclusive : Bool) (bufferMs : Double)
        (bitPerfect : Bool),
      InitWasapi dev s exclusive bufferMs bitPerfect = some (true, s') →
      s'.bytesPerFrame = uintMul (s'.bitDepth / 8) s'.channels) ∧
    (∀ (dev : CoreAudioDevice) (s s' : OutputStreamState) (exclusive : Bool) (bufferMs : Double)
        (bitPerfect : Bool),
      InitCoreAudio dev s exclusive bufferMs bitPerfect = some (true, s') →
      s'.bytesPerFrame = uintMul (s'.bitDepth / 8) s'.channels) ∧
    (∀ (dev : AlsaDevice) (s s' : OutputStreamState) (exclusive : Bool) (bufferMs : Double)
        (bitPerfect : Bool),
      InitAlsa dev s exclusive bufferMs bitPerfect = some (true, s') →
      s'.bytesPerFrame = uintMul (s'.bitDepth / 8) s'.channels) ∧
    (∀ channels bitDepth : Nat, bitDepth % 8 = 0 →
      (bitDepth / 8) * channels < UINT_MODULUS →
      uintMul (bitDepth / 8) channels = channels * bitDepth / 8) ∧
    (∀ (sampleRate channels bitDepth : Nat) (isFloat : Bool), bitDepth % 8 = 0 →
      channels < WORD_MODULUS → bitDepth < WORD_MODULUS →
      channels * bitDepth / 8 < WORD_MODULUS →
      (BuildFormat sampleRate channels bitDepth isFloat).nBlockAlign
        = uintMul (bitDepth / 8) channels) := by
  refine ⟨fun _ => rfl, ?_, ?_, ?_, ?_, ?_⟩
  · intro dev s s' exclusive bufferMs bitPerfect h
    obtain ⟨sf, hsf, -, e2, e3, e4⟩ := InitWasapi_success h
    rw [e4, e3, e2]
    exact InitWasapi_format_bytesPerFrame hsf
  · intro dev s s' exclusive bufferMs bitPerfect h
    obtain ⟨-, e2, e3, e4⟩ := InitCoreAudio_success h
    rw [e4, e3, e2]
    exact InitCoreAudio_format_bytesPerFrame _ _ _ _ _
  · intro dev s s' exclusive bufferMs bitPerfect h
    obtain ⟨sf, hsf, -, e2, e3, e4⟩ := InitAlsa_success h
    rw [e4, e3, e2]
    exact TrySetAlsaParams_bytesPerFrame hsf
  · intro channels bitDepth h8 hfit
    rw [uintMul_eq hfit, div8_mul channels bitDepth h8]
  · intro sampleRate channels bitDepth isFloat h8 hc hb hfit
    have hu : bitDepth / 8 * channels < UINT_MODULUS := by
      rw [div8_mul channels bitDepth h8]
      unfold WORD_MODULUS at hfit
      unfold UINT_MODULUS
      omega
    show (channels % WORD_MODULUS * (bitDepth % WORD_MODULUS) / 8) % WORD_MODULUS = _
    rw [Nat.mod_eq_of_lt hc, Nat.mod_eq_of_lt hb, Nat.mod_eq_of_lt hfit, uintMul_eq hu,
      div8_mul channels bitDepth h8]

/-- Witness for C23 (amended): the 32-bit mono stream opened on the float32
device, and 16-bit stereo. -/
theorem C23_bytes_per_frame_witness :
    exampleOpened32.bytesPerFrame
      = uintMul (exampleOpened32.bitDepth / 8) exampleOpened32.channels ∧
    uintMul (16 / 8) 2 = 2 * 16 / 8 ∧
    (BuildFormat 44100 2 16 false).nBlockAlign = uintMul (16 / 8) 2 :=
  ⟨C23_bytes_per_frame.2.1 exampleWasapiFloat32 (OpenOutput_state exampleOpen32)
      exampleOpened32 true 20 false (by decide!),
   C23_bytes_per_frame.2.2.2.2.1 2 16 (by decide) (by decide),
   C23_bytes_per_frame.2.2.2.2.2 44100 2 16 false (by decide) (by decide) (by decide)
      (by decide)⟩

theorem floor_toNat_le {q : ℚ} (h : 0 ≤ q) : (((Rat.floor q).toNat : ℕ) : ℚ) ≤ q := by
  have h1 : (⌊q⌋ : ℤ) = Rat.floor q := rfl
  have h2 : 0 ≤ ⌊q⌋ := Int.floor_nonneg.mpr h
  have h3 : ((⌊q⌋.toNat : ℕ) : ℤ) = ⌊q⌋ := Int.toNat_of_nonneg h2
  have h4 : (((⌊q⌋.toNat : ℕ) : ℤ) : ℚ) = ((⌊q⌋ : ℤ) : ℚ) := by rw [h3]
  rw [← h1]
  calc ((⌊q⌋.toNat : ℕ) : ℚ) = (((⌊q⌋.toNat : ℕ) : ℤ) : ℚ) := by push_cast; rfl
    _ = ((⌊q⌋ : ℤ) : ℚ) := h4
    _ ≤ q := Int.floor_le q

theorem lt_floor_toNat_add_one (q : ℚ) : q < (((Rat.floor q).toNat : ℕ) : ℚ) + 1 := by
  have h1 : (⌊q⌋ : ℤ) = Rat.floor q := rfl
  rw [← h1]
  have h2 : q < ((⌊q⌋ : ℤ) : ℚ) + 1 := Int.lt_floor_add_one q
  have h3 : (⌊q⌋ : ℤ) ≤ ((⌊q⌋.toNat : ℕ) : ℤ) := Int.self_le_toNat _
  have h4 : ((⌊q⌋ : ℤ) : ℚ) ≤ (((⌊q⌋.toNat : ℕ) : ℤ) : ℚ) := by exact_mod_cast h3
  have h5 : (((⌊q⌋.toNat : ℕ) : ℤ) : ℚ) = ((⌊q⌋.toNat : ℕ) : ℚ) := by push_cast; rfl
  linarith

theorem le_floor_toNat {q : ℚ} {n : ℕ} (h : (n : ℚ) ≤ q) : n ≤ (Rat.floor q).toNat := by
  have h1 : (⌊q⌋ : ℤ) = Rat.floor q := rfl
  rw [← h1]
  have h2 : (n : ℤ) ≤ ⌊q⌋ := Int.le_floor.mpr (by exact_mod_cast h)
  have h3 : (⌊q⌋ : ℤ) ≤ ((⌊q⌋.toNat : ℕ) : ℤ) := Int.self_le_toNat _
  exact_mod_cast le_trans h2 h3
/-! ## Rounding to `double` -/

theorem Double.log2_spec : ∀ (fuel n : Nat), 0 < n → n ≤ fuel →
    2 ^ Double.log2 fuel n ≤ n ∧ n < 2 ^ (Double.log2 fuel n + 1) := by
  intro fuel
  induction fuel with
  | zero => intro n h1 h2; omega
  | succ fuel ih =>
    intro n h1 h2
    rw [Double.log2]
    by_cases hn : n < 2
    · rw [if_pos hn]
      have : n = 1 := by omega
      subst this
      exact ⟨le_refl _, by norm_num⟩
    · rw [if_neg hn]
      obtain ⟨i1, i2⟩ := ih (n / 2) (by omega) (by omega)
      rw [pow_succ, pow_succ]
      rw [pow_succ] at i2
      constructor <;> omega

/-- The exponent of a positive rational is no larger than its binary
logarithm. -/
theorem Double.exponent_le {q : ℚ} (hq : 0 < q) : (2 : ℚ) ^ Double.exponent q ≤ q := by
  unfold Double.exponent
  simp only []
  split
  · assumption
  · have hnum : 0 < q.num := Rat.num_pos.2 hq
    have hp : 0 < q.num.toNat := by omega
    have hd : 0 < q.den := q.den_pos
    obtain ⟨p1, -⟩ := Double.log2_spec q.num.toNat q.num.toNat hp (le_refl _)
    obtain ⟨-, d2⟩ := Double.log2_spec q.den q.den hd (le_refl _)
    generalize Double.log2 q.num.toNat q.num.toNat = a at *
    generalize Double.log2 q.den q.den = b at *
    have e1 : ((a : ℤ) - (b : ℤ) - 1) = (a : ℤ) - ((b + 1 : ℕ) : ℤ) := by push_cast; ring
    rw [e1, zpow_sub₀ (by norm_num : (2 : ℚ) ≠ 0), zpow_natCast, zpow_natCast]
    have hqe : q = (q.num.toNat : ℚ) / (q.den : ℚ) := by
      have h1 : ((q.num.toNat : ℤ) : ℚ) = (q.num : ℚ) := by
        rw [Int.toNat_of_nonneg (le_of_lt hnum)]
      have h2 : ((q.num.toNat : ℕ) : ℚ) = ((q.num.toNat : ℤ) : ℚ) := by push_cast; rfl
      rw [h2, h1]
      exact (Rat.num_div_den q).symm
    have hdq : (0 : ℚ) < (q.den : ℚ) := by exact_mod_cast hd
    have p1' : ((2 : ℚ) ^ a) ≤ (q.num.toNat : ℚ) := by exact_mod_cast p1
    have d2' : (q.den : ℚ) ≤ (2 : ℚ) ^ (b + 1) := by exact_mod_cast le_of_lt d2
    rw [hqe]
    rw [div_le_div_iff₀ (by positivity) hdq]
    calc (2 : ℚ) ^ a * (q.den : ℚ) ≤ (q.num.toNat : ℚ) * (q.den : ℚ) :=
          mul_le_mul_of_nonneg_right p1' (le_of_lt hdq)
      _ ≤ (q.num.toNat : ℚ) * (2 : ℚ) ^ (b + 1) :=
          mul_le_mul_of_nonneg_left d2' (by positivity)

theorem Double.roundHalfEven_ge {y : ℚ} {k : ℤ} (h : (k : ℚ) ≤ y) :
    k ≤ Double.roundHalfEven y := by
  have h1 : (⌊y⌋ : ℤ) = Rat.floor y := rfl
  have h2 : k ≤ ⌊y⌋ := Int.le_floor.2 h
  rw [h1] at h2
  unfold Double.roundHalfEven
  simp only []
  split
  · exact h2
  · split
    · omega
    · split <;> omega

theorem Double.roundHalfEven_le {y : ℚ} {k : ℤ} (h : y ≤ (k : ℚ)) :
    Double.roundHalfEven y ≤ k := by
  have h1 : (⌊y⌋ : ℤ) = Rat.floor y := rfl
  have h2 : ⌊y⌋ ≤ k := by
    have : (⌊y⌋ : ℚ) ≤ (k : ℚ) := le_trans (Int.floor_le y) h
    exact_mod_cast this
  have h3 : y - (⌊y⌋ : ℤ) ≠ 0 → ⌊y⌋ + 1 ≤ k := by
    intro hne
    have hlt : (⌊y⌋ : ℚ) < y := by
      rcases lt_or_eq_of_le (Int.floor_le y) with h | h
      · exact h
      · exact absurd (sub_eq_zero.2 h.symm) hne
    have : (⌊y⌋ : ℚ) < (k : ℚ) := lt_of_lt_of_le hlt h
    have : ⌊y⌋ < k := by exact_mod_cast this
    omega
  rw [h1] at h2 h3
  unfold Double.roundHalfEven
  simp only []
  split
  · exact h2
  · rename_i hr
    have hne : y - ((Rat.floor y : ℤ) : ℚ) ≠ 0 := by
      intro h0
      rw [h0] at hr
      exact hr (by norm_num)
    have := h3 hne
    split
    · exact this
    · split
      · exact h2
      · exact this

theorem Double.binade_eq (e : ℤ) :
    ((2 ^ 52 : ℤ) : ℚ) * (2 : ℚ) ^ e = (2 : ℚ) ^ (e + 52) := by
  rw [zpow_add₀ (by norm_num : (2 : ℚ) ≠ 0)]
  norm_num
  ring

theorem Double.scaled_int {M : ℕ} {j e : ℤ} (hje : e ≤ j) :
    (((M : ℤ) * 2 ^ (j - e).toNat : ℤ) : ℚ) * (2 : ℚ) ^ e = (M : ℚ) * (2 : ℚ) ^ j := by
  have h1 : ((j - e).toNat : ℤ) = j - e := Int.toNat_of_nonneg (by omega)
  have h2 : ((2 : ℚ) ^ (j - e).toNat) = (2 : ℚ) ^ (j - e) := by
    rw [← zpow_natCast, h1]
  push_cast
  rw [h2, mul_assoc, ← zpow_add₀ (by norm_num : (2 : ℚ) ≠ 0)]
  congr 2
  omega

theorem Double.below_binade {M : ℕ} {j e : ℤ} (hM : M < 2 ^ 53) (hje : j < e) :
    (M : ℚ) * (2 : ℚ) ^ j < (2 : ℚ) ^ (e + 52) := by
  have h1 : (M : ℚ) < (2 : ℚ) ^ (53 : ℕ) := by exact_mod_cast hM
  have h2 : (0 : ℚ) < (2 : ℚ) ^ j := zpow_pos (by norm_num) _
  have h3 : (2 : ℚ) ^ (53 : ℕ) * (2 : ℚ) ^ j = (2 : ℚ) ^ (j + 53) := by
    rw [← zpow_natCast, ← zpow_add₀ (by norm_num : (2 : ℚ) ≠ 0)]
    congr 1
    push_cast
    ring
  calc (M : ℚ) * (2 : ℚ) ^ j < (2 : ℚ) ^ (53 : ℕ) * (2 : ℚ) ^ j :=
        mul_lt_mul_of_pos_right h1 h2
    _ = (2 : ℚ) ^ (j + 53) := h3
    _ ≤ (2 : ℚ) ^ (e + 52) := zpow_le_zpow_right₀ (by norm_num) (by omega)

/-- Rounding a positive value does not pass below a `double` that lies at or
below the value. -/
theorem Double.roundPos_ge {q : ℚ} (hq : 0 < q) {M : ℕ} {j : ℤ} (hM : M < 2 ^ 53)
    (hj : -1074 ≤ j) (h : (M : ℚ) * (2 : ℚ) ^ j ≤ q) :
    Double.roundPos q = Double.posInf ∨
    ∃ v, Double.roundPos q = Double.finite v ∧ (M : ℚ) * (2 : ℚ) ^ j ≤ v := by
  unfold Double.roundPos
  simp only []
  generalize he : max (Double.exponent q - 52) (-1074) = e
  split
  · right
    refine ⟨_, rfl, ?_⟩
    have h2e : (0 : ℚ) < (2 : ℚ) ^ e := zpow_pos (by norm_num) _
    by_cases hje : e ≤ j
    · have hK := @Double.scaled_int M j e hje
      have hy : (((M : ℤ) * 2 ^ (j - e).toNat : ℤ) : ℚ) ≤ q / (2 : ℚ) ^ e := by
        rw [le_div_iff₀ h2e, hK]
        exact h
      have hm := Double.roundHalfEven_ge hy
      have hm' : (((M : ℤ) * 2 ^ (j - e).toNat : ℤ) : ℚ)
          ≤ ((Double.roundHalfEven (q / (2 : ℚ) ^ e) : ℤ) : ℚ) := by exact_mod_cast hm
      rw [← hK]
      exact mul_le_mul_of_nonneg_right hm' (le_of_lt h2e)
    · have hee : e = Double.exponent q - 52 := by
        rcases max_cases (Double.exponent q - 52) (-1074) with ⟨h1, -⟩ | ⟨h1, -⟩
        · rw [← he, h1]
        · rw [h1] at he; omega
      have hL := Double.exponent_le hq
      have hy : (((2 ^ 52 : ℤ) : ℤ) : ℚ) ≤ q / (2 : ℚ) ^ e := by
        rw [le_div_iff₀ h2e]
        have : ((2 ^ 52 : ℤ) : ℚ) * (2 : ℚ) ^ e = (2 : ℚ) ^ Double.exponent q := by
          rw [Double.binade_eq]
          congr 1
          omega
        rw [this]
        exact hL
      have hm := Double.roundHalfEven_ge hy
      have hm' : ((2 ^ 52 : ℤ) : ℚ)
          ≤ ((Double.roundHalfEven (q / (2 : ℚ) ^ e) : ℤ) : ℚ) := by exact_mod_cast hm
      have hlt := @Double.below_binade M j e hM (by omega)
      have h52 : (2 : ℚ) ^ (e + 52) = ((2 ^ 52 : ℤ) : ℚ) * (2 : ℚ) ^ e :=
        (Double.binade_eq e).symm
      rw [h52] at hlt
      exact le_trans (le_of_lt hlt) (mul_le_mul_of_nonneg_right hm' (le_of_lt h2e))
  · left
    rfl

/-- Rounding a positive value does not pass above a `double` that lies at or
above the value. -/
theorem Double.roundPos_le {q : ℚ} (hq : 0 < q) {M : ℕ} {j : ℤ} (hM : M < 2 ^ 53)
    (hj : -1074 ≤ j) (hfin : (M : ℚ) * (2 : ℚ) ^ j < (2 : ℚ) ^ (1024 : ℕ))
    (h : q ≤ (M : ℚ) * (2 : ℚ) ^ j) :
    ∃ v, Double.roundPos q = Double.finite v ∧ v ≤ (M : ℚ) * (2 : ℚ) ^ j := by
  unfold Double.roundPos
  simp only []
  generalize he : max (Double.exponent q - 52) (-1074) = e
  have h2e : (0 : ℚ) < (2 : ℚ) ^ e := zpow_pos (by norm_num) _
  have hje : e ≤ j := by
    by_contra hje
    have hee : e = Double.exponent q - 52 := by
      rcases max_cases (Double.exponent q - 52) (-1074) with ⟨h1, -⟩ | ⟨h1, -⟩
      · rw [← he, h1]
      · rw [h1] at he; omega
    have hL := Double.exponent_le hq
    have hlt := @Double.below_binade M j e hM (by omega)
    have : e + 52 = Double.exponent q := by omega
    rw [this] at hlt
    exact absurd (lt_of_le_of_lt (le_trans hL h) hlt) (lt_irrefl _)
  have hK := @Double.scaled_int M j e hje
  have hy : q / (2 : ℚ) ^ e ≤ (((M : ℤ) * 2 ^ (j - e).toNat : ℤ) : ℚ) := by
    rw [div_le_iff₀ h2e, hK]
    exact h
  have hm := Double.roundHalfEven_le hy
  have hm' : ((Double.roundHalfEven (q / (2 : ℚ) ^ e) : ℤ) : ℚ)
      ≤ (((M : ℤ) * 2 ^ (j - e).toNat : ℤ) : ℚ) := by exact_mod_cast hm
  have hv : ((Double.roundHalfEven (q / (2 : ℚ) ^ e) : ℤ) : ℚ) * (2 : ℚ) ^ e
      ≤ (M : ℚ) * (2 : ℚ) ^ j := by
    rw [← hK]
    exact mul_le_mul_of_nonneg_right hm' (le_of_lt h2e)
  rw [if_pos (lt_of_le_of_lt hv hfin)]
  exact ⟨_, rfl, hv⟩

/-- Rounding keeps a value between two `double`s that enclose it: `a` and `b`
are `double`s given by a significand below `2 ^ 53` and an exponent. -/
theorem Double.round_bounds {q : ℚ} {A B : ℕ} {i j : ℤ} (hA : A < 2 ^ 53) (hi : -1074 ≤ i)
    (hB : B < 2 ^ 53) (hj : -1074 ≤ j)
    (hfin : (B : ℚ) * (2 : ℚ) ^ j < (2 : ℚ) ^ (1024 : ℕ))
    (h1 : (A : ℚ) * (2 : ℚ) ^ i ≤ q) (h2 : q ≤ (B : ℚ) * (2 : ℚ) ^ j) :
    ∃ v, Double.round q = Double.finite v ∧
      (A : ℚ) * (2 : ℚ) ^ i ≤ v ∧ v ≤ (B : ℚ) * (2 : ℚ) ^ j := by
  have hA0 : (0 : ℚ) ≤ (A : ℚ) * (2 : ℚ) ^ i :=
    mul_nonneg (Nat.cast_nonneg _) (le_of_lt (zpow_pos (by norm_num) _))
  unfold Double.round
  by_cases h0 : q = 0
  · rw [if_pos h0]
    exact ⟨0, rfl, by rw [← h0]; exact h1, by rw [← h0]; exact h2⟩
  · rw [if_neg h0]
    have hq : 0 < q := lt_of_le_of_ne (le_trans hA0 h1) (Ne.symm h0)
    rw [if_pos hq]
    obtain ⟨v, hv, hle⟩ := Double.roundPos_le hq hB hj hfin h2
    refine ⟨v, hv, ?_, hle⟩
    rcases Double.roundPos_ge hq hA hi h1 with h | ⟨w, hw, hge⟩
    · rw [hv] at h; cases h
    · rw [hv] at hw
      cases hw
      exact hge

/-- Rounding keeps a value between two integers below `2 ^ 53` that enclose
it. -/
theorem Double.round_nat_bounds {q : ℚ} {a b : ℕ} (hb : b < 2 ^ 53) (h1 : (a : ℚ) ≤ q)
    (h2 : q ≤ (b : ℚ)) :
    ∃ v, Double.round q = Double.finite v ∧ (a : ℚ) ≤ v ∧ v ≤ (b : ℚ) := by
  have hab : a ≤ b := by exact_mod_cast le_trans h1 h2
  have hfin : (b : ℚ) * (2 : ℚ) ^ (0 : ℤ) < (2 : ℚ) ^ (1024 : ℕ) := by
    rw [zpow_zero, mul_one]
    have h53 : (b : ℚ) < (2 : ℚ) ^ (53 : ℕ) := by exact_mod_cast hb
    exact lt_trans h53 (by norm_num)
  obtain ⟨v, hv, c1, c2⟩ := @Double.round_bounds q a b 0 0 (lt_of_le_of_lt hab hb)
    (by norm_num) hb (by norm_num) hfin (by rw [zpow_zero, mul_one]; exact h1)
    (by rw [zpow_zero, mul_one]; exact h2)
  rw [zpow_zero, mul_one] at c1 c2
  exact ⟨v, hv, c1, c2⟩

/-- An unsigned integer below `2 ^ 53` converts to `double` exactly. -/
theorem Double.ofNat_exact {n : ℕ} (h : n < 2 ^ 53) : Double.ofNat n = Double.finite n := by
  obtain ⟨v, hv, c1, c2⟩ := @Double.round_nat_bounds (n : ℚ) n n h (le_refl _) (le_refl _)
  have : v = (n : ℚ) := le_antisymm c2 c1
  rw [this] at hv
  exact hv

/-! ## Ring sizing -/

theorem Double.lit_eq (n : Nat) : (OfNat.ofNat n : Double) = Double.finite (n : ℚ) := rfl

/-- The two clamps of `bufferMs`: anything but NaN ends between 20 and 2000. -/
theorem clamp_spec (bufferMs : Double) (hn : bufferMs ≠ Double.nan) :
    ∃ B : ℚ,
      (if Double.lt 2000 (if bufferMs.lt 20 then 20 else bufferMs) then (2000 : Double)
        else (if bufferMs.lt 20 then 20 else bufferMs)) = Double.finite B ∧
      20 ≤ B ∧ B ≤ 2000 := by
  cases bufferMs with
  | nan => exact absurd rfl hn
  | posInf => exact ⟨2000, rfl, by norm_num, le_refl _⟩
  | negInf => exact ⟨20, by decide, le_refl _, by norm_num⟩
  | finite q =>
    by_cases h1 : q < 20
    · have e1 : (Double.finite q).lt 20 = true := by
        show decide (q < ((20 : ℕ) : ℚ)) = true
        rw [decide_eq_true_iff]
        exact_mod_cast h1
      rw [e1]
      exact ⟨20, rfl, le_refl _, by norm_num⟩
    · have e1 : (Double.finite q).lt 20 = false := by
        show decide (q < ((20 : ℕ) : ℚ)) = false
        rw [decide_eq_false_iff_not]
        exact_mod_cast h1
      rw [e1]
      simp only [Bool.false_eq_true, if_false]
      by_cases h2 : 2000 < q
      · have e2 : Double.lt 2000 (Double.finite q) = true := by
          show decide (((2000 : ℕ) : ℚ) < q) = true
          rw [decide_eq_true_iff]
          exact_mod_cast h2
        rw [e2]
        exact ⟨2000, rfl, by norm_num, le_refl _⟩
      · have e2 : Double.lt 2000 (Double.finite q) = false := by
          show decide (((2000 : ℕ) : ℚ) < q) = false
          rw [decide_eq_false_iff_not]
          exact_mod_cast h2
        rw [e2]
        simp only [Bool.false_eq_true, if_false]
        exact ⟨q, rfl, not_lt.1 h1, not_lt.1 h2⟩

theorem pow32_lt (n : ℕ) (h : n < 4294967296) (k : ℕ) (hk : k ≤ 2000) :
    n * k < 2 ^ 53 := by
  have : n * k ≤ 4294967296 * 2000 := Nat.mul_le_mul (le_of_lt h) hk
  exact lt_of_le_of_lt this (by norm_num)

/-- The `double` `sampleRate * bufferMs / 1000` for a clamped `bufferMs`: finite,
no smaller than `sampleRate / 50` rounded down and no larger than
`2 * sampleRate`. -/
theorem ringFramesD_spec (sampleRate : ℕ) (hsr : sampleRate < UINT_MODULUS) (B : ℚ)
    (h1 : 20 ≤ B) (h2 : B ≤ 2000) :
    ∃ d0 : ℚ, ((Double.ofNat sampleRate).mul (Double.finite B)).div 1000 = Double.finite d0 ∧
      ((sampleRate / 50 : ℕ) : ℚ) ≤ d0 ∧ d0 ≤ ((2 * sampleRate : ℕ) : ℚ) := by
  have hsr' : sampleRate < 4294967296 := hsr
  have e1 : Double.ofNat sampleRate = Double.finite sampleRate :=
    Double.ofNat_exact (lt_trans hsr' (by norm_num))
  rw [e1]
  have hs0 : (0 : ℚ) ≤ (sampleRate : ℚ) := Nat.cast_nonneg _
  obtain ⟨P, hP, p1, p2⟩ := @Double.round_nat_bounds ((sampleRate : ℚ) * B)
    (sampleRate * 20) (sampleRate * 2000) (pow32_lt _ hsr' _ (le_refl _))
    (by push_cast; exact mul_le_mul_of_nonneg_left h1 hs0)
    (by push_cast; exact mul_le_mul_of_nonneg_left h2 hs0)
  have e2 : (Double.finite (sampleRate : ℚ)).mul (Double.finite B) = Double.finite P := hP
  rw [e2]
  have e3 : (Double.finite P).div 1000 = Double.round (P / 1000) := by
    show (if ((1000 : ℕ) : ℚ) = 0 then
        (if P = 0 then Double.nan else if 0 < P then Double.posInf else Double.negInf)
      else Double.round (P / ((1000 : ℕ) : ℚ))) = Double.round (P / 1000)
    rw [if_neg (by norm_num)]
    norm_num
  rw [e3]
  have hdiv : ((sampleRate / 50 : ℕ) : ℚ) ≤ (sampleRate : ℚ) / 50 := by
    rw [le_div_iff₀ (by norm_num)]
    have : sampleRate / 50 * 50 ≤ sampleRate := Nat.div_mul_le_self _ _
    exact_mod_cast this
  push_cast at p1 p2
  obtain ⟨d0, hd, q1, q2⟩ := @Double.round_nat_bounds (P / 1000)
    (sampleRate / 50) (2 * sampleRate)
    (by have := pow32_lt _ hsr' 2 (by norm_num); omega)
    (by
      refine le_trans hdiv ?_
      rw [div_le_div_iff₀ (by norm_num) (by norm_num)]
      linarith)
    (by
      rw [div_le_iff₀ (by norm_num)]
      push_cast
      linarith)
  exact ⟨d0, hd, q1, q2⟩

theorem Double.toSize_some {x : Double} {n : ℕ} (h : x.toSize = some n) :
    ∃ d : ℚ, x = Double.finite d ∧ -1 < d ∧ n = (Rat.floor d).toNat ∧ n < SIZE_MODULUS := by
  cases x with
  | finite d =>
    simp only [Double.toSize] at h
    by_cases hd : d ≤ -1
    · rw [if_pos hd] at h
      cases h
    · rw [if_neg hd] at h
      by_cases hlt : (Rat.floor d).toNat < SIZE_MODULUS
      · rw [if_pos hlt] at h
        injection h with h
        exact ⟨d, rfl, not_le.1 hd, h.symm, by rw [← h]; exact hlt⟩
      · rw [if_neg hlt] at h
        cases h
  | posInf => cases h
  | negInf => cases h
  | nan => cases h

theorem floor_toNat_le_nat {q : ℚ} {n : ℕ} (h : q ≤ (n : ℚ)) : (Rat.floor q).toNat ≤ n := by
  have h1 : (⌊q⌋ : ℤ) = Rat.floor q := rfl
  rw [← h1]
  have h2 : (⌊q⌋ : ℚ) ≤ (n : ℚ) := le_trans (Int.floor_le q) h
  have h3 : ⌊q⌋ ≤ (n : ℤ) := by exact_mod_cast h2
  omega

/-- The local `ringFrames` for a `bufferMs` that is not NaN and a 32-bit sample
rate: at least `sampleRate / 50` rounded down and at least the minimum
`minFrames` rounded down; and no more than `2 * sampleRate` unless it is the
minimum itself. -/
theorem ringFramesFor_spec {sampleRate : ℕ} {bufferMs minFrames : Double} {rf : ℕ}
    (h : ringFramesFor sampleRate bufferMs minFrames = some rf)
    (hn : bufferMs ≠ Double.nan) (hsr : sampleRate < UINT_MODULUS) :
    sampleRate / 50 ≤ rf ∧
    (rf ≤ 2 * sampleRate ∨ minFrames.toSize = some rf) ∧
    (∀ m : ℚ, minFrames = Double.finite m → ∀ k : ℕ, (k : ℚ) ≤ m → k ≤ rf) := by
  unfold ringFramesFor at h
  simp only [] at h
  obtain ⟨B, hB, b1, b2⟩ := clamp_spec bufferMs hn
  rw [hB] at h
  obtain ⟨d0, hd0, c1, c2⟩ := ringFramesD_spec sampleRate hsr B b1 b2
  rw [hd0] at h
  by_cases hlt : (Double.finite d0).lt minFrames = true
  · rw [if_pos hlt] at h
    obtain ⟨m', hm', -, hfl, -⟩ := Double.toSize_some h
    rw [hm'] at hlt
    have hlt' : d0 < m' := of_decide_eq_true hlt
    refine ⟨?_, Or.inr h, ?_⟩
    · rw [hfl]
      exact le_floor_toNat (le_trans c1 (le_of_lt hlt'))
    · intro m hm k hk
      rw [hm'] at hm
      injection hm with hm
      rw [hfl, hm]
      exact le_floor_toNat hk
  · rw [if_neg hlt] at h
    obtain ⟨d, hd, -, hfl, -⟩ := Double.toSize_some h
    injection hd with hd
    subst hd
    refine ⟨?_, Or.inl ?_, ?_⟩
    · rw [hfl]
      exact le_floor_toNat c1
    · rw [hfl]
      exact floor_toNat_le_nat c2
    · intro m hm k hk
      rw [hm] at hlt
      have hnl : ¬ d0 < m := fun hc => hlt (decide_eq_true hc)
      rw [hfl]
      exact le_floor_toNat (le_trans hk (not_lt.1 hnl))

theorem duration_low_arith {x : ℚ} {rf sr : ℕ} (hs0 : 0 < sr) (hlow : sr / 50 ≤ rf)
    (hx : x = (rf : ℚ) * 1000 / (sr : ℚ)) : 20 - 980 / (sr : ℚ) ≤ x := by
  have hq : (0 : ℚ) < (sr : ℚ) := by exact_mod_cast hs0
  have h1 : sr ≤ 50 * rf + 49 := by omega
  have h2 : (sr : ℚ) ≤ 50 * (rf : ℚ) + 49 := by exact_mod_cast h1
  rw [hx, sub_le_iff_le_add, ← add_div, le_div_iff₀ hq]
  linarith

/-- The `double` assigned to `ringDurationMs` for a ring of at least
`sampleRate / 50` rounded down and at most `2 * sampleRate` frames: the exact
quotient rounded, above `20 - 1000 / sampleRate`, at most 2000, and at least
20 when the sample rate is a multiple of 50. -/
theorem ringDurationFor_spec {rf sampleRate : ℕ} (hs0 : 0 < sampleRate)
    (hsr : sampleRate < UINT_MODULUS) (hrf : rf ≤ 2 * sampleRate)
    (hlow : sampleRate / 50 ≤ rf) :
    ∃ d : ℚ, ringDurationFor rf sampleRate = Double.finite d ∧
      Double.round ((rf : ℚ) * 1000 / (sampleRate : ℚ)) = Double.finite d ∧
      20 - 1000 / (sampleRate : ℚ) < d ∧ d ≤ 2000 ∧ (sampleRate % 50 = 0 → 20 ≤ d) := by
  have hsr' : sampleRate < 4294967296 := hsr
  have hq : (0 : ℚ) < (sampleRate : ℚ) := by exact_mod_cast hs0
  have e1 : Double.ofNat rf = Double.finite rf := Double.ofNat_exact (by
    have : rf < 2 * 4294967296 := by omega
    exact lt_trans this (by norm_num))
  have e2 : Double.ofNat sampleRate = Double.finite sampleRate :=
    Double.ofNat_exact (lt_trans hsr' (by norm_num))
  have e3 : (Double.finite (rf : ℚ)).mul 1000 = Double.finite ((rf : ℚ) * 1000) := by
    have h53 : rf * 1000 < 2 ^ 53 := by
      have : rf * 1000 < 2 * 4294967296 * 1000 := by omega
      exact lt_trans this (by norm_num)
    obtain ⟨v, hv, v1, v2⟩ := @Double.round_nat_bounds (((rf * 1000 : ℕ) : ℚ)) (rf * 1000)
      (rf * 1000) h53 (le_refl _) (le_refl _)
    have hve : v = ((rf * 1000 : ℕ) : ℚ) := le_antisymm v2 v1
    rw [hve] at hv
    push_cast at hv
    exact hv
  have e4 : (Double.finite ((rf : ℚ) * 1000)).div (Double.finite (sampleRate : ℚ))
      = Double.round ((rf : ℚ) * 1000 / (sampleRate : ℚ)) := by
    show (if (sampleRate : ℚ) = 0 then
        (if (rf : ℚ) * 1000 = 0 then Double.nan
          else if 0 < (rf : ℚ) * 1000 then Double.posInf else Double.negInf)
      else Double.round ((rf : ℚ) * 1000 / (sampleRate : ℚ))) = _
    rw [if_neg (ne_of_gt hq)]
  have hdef : ringDurationFor rf sampleRate
      = Double.round ((rf : ℚ) * 1000 / (sampleRate : ℚ)) := by
    unfold ringDurationFor
    rw [e1, e2, e3, e4]
  generalize hx : (rf : ℚ) * 1000 / (sampleRate : ℚ) = x at hdef
  have hx0 : 0 ≤ x := by
    rw [← hx]
    positivity
  have hx2 : x ≤ ((2000 : ℕ) : ℚ) := by
    rw [← hx, div_le_iff₀ hq]
    have : (rf : ℚ) ≤ 2 * (sampleRate : ℚ) := by exact_mod_cast hrf
    push_cast
    linarith
  have hxl := duration_low_arith hs0 hlow hx.symm
  -- a `double` just below `x`: `x` cut off after 33 binary places
  have hA1 : (((Rat.floor (x * 2 ^ 33)).toNat : ℕ) : ℚ) ≤ x * 2 ^ 33 :=
    floor_toNat_le (by positivity)
  have hA2 : x * 2 ^ 33 < (((Rat.floor (x * 2 ^ 33)).toNat : ℕ) : ℚ) + 1 :=
    lt_floor_toNat_add_one _
  generalize (Rat.floor (x * 2 ^ 33)).toNat = A at hA1 hA2
  have hA53 : A < 2 ^ 53 := by
    have h1 : (A : ℚ) ≤ 2000 * 2 ^ 33 := by
      have : x ≤ 2000 := by exact_mod_cast hx2
      linarith
    have h2 : (A : ℚ) < ((2 ^ 53 : ℕ) : ℚ) := lt_of_le_of_lt h1 (by norm_num)
    exact_mod_cast h2
  have hpow : (2 : ℚ) ^ (-33 : ℤ) = 1 / 2 ^ 33 := by
    rw [zpow_neg, one_div, ← zpow_natCast]
    rfl
  have hAle : (A : ℚ) * (2 : ℚ) ^ (-33 : ℤ) ≤ x := by
    rw [hpow, mul_one_div, div_le_iff₀ (by positivity)]
    exact hA1
  have hfin : ((2000 : ℕ) : ℚ) * (2 : ℚ) ^ (0 : ℤ) < (2 : ℚ) ^ (1024 : ℕ) := by norm_num
  obtain ⟨d, hd, d1, d2⟩ := @Double.round_bounds x A 2000 (-33) 0 hA53 (by norm_num)
    (by norm_num) (by norm_num) hfin hAle (by rw [zpow_zero, mul_one]; exact hx2)
  rw [zpow_zero, mul_one] at d2
  refine ⟨d, by rw [hdef, hd], hd, ?_, by exact_mod_cast d2, ?_⟩
  · have hgap : (20 : ℚ) / (sampleRate : ℚ) > 1 / 2 ^ 33 := by
      rw [gt_iff_lt, div_lt_div_iff₀ (by positivity) hq]
      have : (sampleRate : ℚ) < 4294967296 := by exact_mod_cast hsr'
      norm_num
      linarith
    have hAx : x - 1 / 2 ^ 33 < (A : ℚ) * (2 : ℚ) ^ (-33 : ℤ) := by
      rw [hpow, mul_one_div, lt_div_iff₀ (by positivity), sub_mul]
      have : (1 : ℚ) / 2 ^ 33 * 2 ^ 33 = 1 := by norm_num
      rw [this]
      linarith
    have hsplit : (1000 : ℚ) / (sampleRate : ℚ) = 980 / (sampleRate : ℚ) + 20 / (sampleRate : ℚ) := by
      rw [← add_div]
      norm_num
    rw [hsplit]
    generalize (A : ℚ) * (2 : ℚ) ^ (-33 : ℤ) = t at d1 hAx
    generalize (1 : ℚ) / 2 ^ 33 = g at hgap hAx
    generalize (980 : ℚ) / (sampleRate : ℚ) = u at hxl
    generalize (20 : ℚ) / (sampleRate : ℚ) = w at hgap
    linarith
  · intro h50
    have h20 : ((20 : ℕ) : ℚ) ≤ x := by
      rw [← hx, le_div_iff₀ hq]
      have h1 : sampleRate = 50 * (sampleRate / 50) := by omega
      have h2 : sampleRate ≤ 50 * rf := by omega
      have h3 : (sampleRate : ℚ) ≤ 50 * (rf : ℚ) := by exact_mod_cast h2
      push_cast
      linarith
    obtain ⟨v, hv, v1, -⟩ := @Double.round_nat_bounds x 20 2000 (by norm_num) h20 hx2
    rw [hd] at hv
    injection hv with hv
    rw [hv]
    exact_mod_cast v1

theorem Double.mul_nan (x : Double) : x.mul Double.nan = Double.nan := by
  cases x <;> rfl

theorem Double.nan_lt (x : Double) : Double.nan.lt x = false := by
  cases x <;> rfl

/-- A NaN `bufferMs` passes both clamps and the comparison with the minimum,
and the conversion of `ringFramesD` to `size_t` is undefined. -/
theorem ringFramesFor_nan (sampleRate : ℕ) (minFrames : Double) :
    ringFramesFor sampleRate Double.nan minFrames = none := by
  unfold ringFramesFor
  have e1 : Double.nan.lt 20 = false := rfl
  have e2 : Double.lt 2000 Double.nan = false := rfl
  simp only [e1, e2, Bool.false_eq_true, if_false, Double.mul_nan]
  have e3 : Double.nan.div 1000 = Double.nan := rfl
  rw [e3, Double.nan_lt]
  rfl

theorem Double.toSize_natCast {n : ℕ} (h : n < SIZE_MODULUS) :
    (Double.finite (n : ℚ)).toSize = some n := by
  have hfl : (Rat.floor (n : ℚ)).toNat = n := by
    have h1 : (⌊(n : ℚ)⌋ : ℤ) = Rat.floor (n : ℚ) := rfl
    rw [← h1, Int.floor_natCast]
    rfl
  simp only [Double.toSize]
  rw [if_neg (by
    have : (0 : ℚ) ≤ (n : ℚ) := Nat.cast_nonneg _
    intro hc
    linarith), hfl, if_pos h]

/-- The minimum of `InitWasapi`, `bufferFrames * 2.0`, is exact for a 32-bit
`bufferFrames`. -/
theorem InitWasapi_minFrames {bufferFrames : ℕ} (h : bufferFrames < UINT_MODULUS) :
    (Double.ofNat bufferFrames).mul 2 = Double.finite ((2 * bufferFrames : ℕ) : ℚ) := by
  have h' : bufferFrames < 4294967296 := h
  have e1 : Double.ofNat bufferFrames = Double.finite bufferFrames :=
    Double.ofNat_exact (lt_trans h' (by norm_num))
  rw [e1]
  obtain ⟨v, hv, v1, v2⟩ := @Double.round_nat_bounds (((2 * bufferFrames : ℕ) : ℚ))
    (2 * bufferFrames) (2 * bufferFrames)
    (by have : 2 * bufferFrames < 2 * 4294967296 := by omega
        exact lt_trans this (by norm_num)) (le_refl _) (le_refl _)
  have hve : v = ((2 * bufferFrames : ℕ) : ℚ) := le_antisymm v2 v1
  rw [hve] at hv
  rw [← hv]
  show Double.round ((bufferFrames : ℚ) * ((2 : ℕ) : ℚ)) = _
  congr 1
  push_cast
  ring

/-- The minimum of `InitAlsa`, `periodSize * 4`, is exact for a `periodSize`
below `2 ^ 51`. -/
theorem InitAlsa_minFrames {periodSize : ℕ} (h : periodSize < 2 ^ 51) :
    (Double.ofNat periodSize).mul 4 = Double.finite ((4 * periodSize : ℕ) : ℚ) := by
  have e1 : Double.ofNat periodSize = Double.finite periodSize :=
    Double.ofNat_exact (lt_trans h (by norm_num))
  rw [e1]
  obtain ⟨v, hv, v1, v2⟩ := @Double.round_nat_bounds (((4 * periodSize : ℕ) : ℚ))
    (4 * periodSize) (4 * periodSize)
    (by have h2 : (2 : ℕ) ^ 53 = 4 * 2 ^ 51 := by norm_num
        omega) (le_refl _) (le_refl _)
  have hve : v = ((4 * periodSize : ℕ) : ℚ) := le_antisymm v2 v1
  rw [hve] at hv
  rw [← hv]
  show Double.round ((periodSize : ℚ) * ((4 : ℕ) : ℚ)) = _
  congr 1
  push_cast
  ring

/-- The minimum of `InitCoreAudio`, `sampleRate / 50.0`, never lifts the ring
above `sampleRate` frames. -/
theorem InitCoreAudio_minFrames {sampleRate rf : ℕ} (hsr : sampleRate < UINT_MODULUS)
    (h : ((Double.ofNat sampleRate).div 50).toSize = some rf) : rf ≤ sampleRate := by
  have hsr' : sampleRate < 4294967296 := hsr
  have e1 : Double.ofNat sampleRate = Double.finite sampleRate :=
    Double.ofNat_exact (lt_trans hsr' (by norm_num))
  rw [e1] at h
  have e2 : (Double.finite (sampleRate : ℚ)).div 50 = Double.round ((sampleRate : ℚ) / 50) := by
    show (if ((50 : ℕ) : ℚ) = 0 then
        (if (sampleRate : ℚ) = 0 then Double.nan
          else if 0 < (sampleRate : ℚ) then Double.posInf else Double.negInf)
      else Double.round ((sampleRate : ℚ) / ((50 : ℕ) : ℚ))) = _
    rw [if_neg (by norm_num)]
    norm_num
  rw [e2] at h
  have hs0 : (0 : ℚ) ≤ (sampleRate : ℚ) := Nat.cast_nonneg _
  obtain ⟨v, hv, -, v2⟩ := @Double.round_nat_bounds ((sampleRate : ℚ) / 50) 0 sampleRate
    (lt_trans hsr' (by norm_num)) (by push_cast; positivity)
    (by rw [div_le_iff₀ (by norm_num)]; linarith)
  rw [hv] at h
  obtain ⟨d, hd, -, hfl, -⟩ := Double.toSize_some h
  injection hd with hd
  rw [hfl, ← hd]
  exact floor_toNat_le_nat v2

theorem InitWasapi_ring_eq (s : OutputStreamState) (bufferMs : Double) (bufferFrames : Nat) :
    InitWasapi_ring s bufferMs bufferFrames =
      (match InitWasapi_ringFrames s.sampleRate bufferMs bufferFrames with
        | none => none
        | some ringFrames =>
          match RingBuffer.init (sizeMul ringFrames s.bytesPerFrame) with
          | none => none
          | some ring =>
            some { s with ring := ring,
                          ringDurationMs := ringDurationFor ringFrames s.sampleRate }) := rfl

theorem InitCoreAudio_ring_eq (s : OutputStreamState) (bufferMs : Double) :
    InitCoreAudio_ring s bufferMs =
      (match InitCoreAudio_ringFrames s.sampleRate bufferMs with
        | none => none
        | some ringFrames =>
          match RingBuffer.init (sizeMul ringFrames s.bytesPerFrame) with
          | none => none
          | some ring =>
            some { s with ring := ring,
                          ringDurationMs := ringDurationFor ringFrames s.sampleRate }) := rfl

theorem InitAlsa_ring_eq (s : OutputStreamState) (bufferMs : Double) :
    InitAlsa_ring s bufferMs =
      (match InitAlsa_ringFrames s.sampleRate bufferMs s.periodSize with
        | none => none
        | some ringFrames =>
          match RingBuffer.init (sizeMul ringFrames s.bytesPerFrame) with
          | none => none
          | some ring =>
            some { s with ring := ring,
                          ringDurationMs := ringDurationFor ringFrames s.sampleRate }) := rfl

theorem InitWasapi_ring_sized {s s' : OutputStreamState} {bufferMs : Double} {bufferFrames : Nat}
    (h : InitWasapi_ring s bufferMs bufferFrames = some s') (hb : s.bufferFrames = bufferFrames) :
    s'.bufferFrames = bufferFrames ∧
    ∃ ringFrames : Nat,
      InitWasapi_ringFrames s'.sampleRate bufferMs s'.bufferFrames = some ringFrames ∧
      s'.ringDurationMs = ringDurationFor ringFrames s'.sampleRate ∧
      RingBuffer.init (sizeMul ringFrames s'.bytesPerFrame) = some s'.ring := by
  rw [InitWasapi_ring_eq] at h
  split at h
  · cases h
  · rename_i rf hrf
    split at h
    · cases h
    · rename_i ring hring
      injection h with h
      subst hb
      rw [← h]
      exact ⟨rfl, rf, hrf, rfl, hring⟩

theorem InitCoreAudio_ring_sized {s s' : OutputStreamState} {bufferMs : Double}
    (h : InitCoreAudio_ring s bufferMs = some s') :
    ∃ ringFrames : Nat,
      InitCoreAudio_ringFrames s'.sampleRate bufferMs = some ringFrames ∧
      s'.ringDurationMs = ringDurationFor ringFrames s'.sampleRate ∧
      RingBuffer.init (sizeMul ringFrames s'.bytesPerFrame) = some s'.ring := by
  rw [InitCoreAudio_ring_eq] at h
  split at h
  · cases h
  · rename_i rf hrf
    split at h
    · cases h
    · rename_i ring hring
      injection h with h
      rw [← h]
      exact ⟨rf, hrf, rfl, hring⟩

theorem InitAlsa_ring_sized {s s' : OutputStreamState} {bufferMs : Double}
    (h : InitAlsa_ring s bufferMs = some s') :
    ∃ ringFrames : Nat,
      InitAlsa_ringFrames s'.sampleRate bufferMs s'.periodSize = some ringFrames ∧
      s'.ringDurationMs = ringDurationFor ringFrames s'.sampleRate ∧
      RingBuffer.init (sizeMul ringFrames s'.bytesPerFrame) = some s'.ring := by
  rw [InitAlsa_ring_eq] at h
  split at h
  · cases h
  · rename_i rf hrf
    split at h
    · cases h
    · rename_i ring hring
      injection h with h
      rw [← h]
      exact ⟨rf, hrf, rfl, hring⟩

/-- A successful `InitWasapi` leaves the ring fresh from `init` with the byte
count of its sizing step, and the duration of that frame count. -/
theorem InitWasapi_success_ring {dev : WasapiDevice} {s s' : OutputStreamState}
    {exclusive : Bool} {bufferMs : Double} {bitPerfect : Bool}
    (h : InitWasapi dev s exclusive bufferMs bitPerfect = some (true, s')) :
    s'.bufferFrames ≠ 0 ∧
    ∃ ringFrames : Nat,
      InitWasapi_ringFrames s'.sampleRate bufferMs s'.bufferFrames = some ringFrames ∧
      s'.ringDurationMs = ringDurationFor ringFrames s'.sampleRate ∧
      RingBuffer.init (sizeMul ringFrames s'.bytesPerFrame) = some s'.ring := by
  unfold InitWasapi at h
  split at h
  · cases h
  · split at h
    · cases h
    · split at h
      · cases h
      · split at h
        · cases h
        · rename_i bf hbf
          split at h
          · cases h
          · rename_i hbf0
            split at h
            · cases h
            · split at h
              · cases h
              · split at h
                · cases h
                · split at h
                  · cases h
                  · rename_i sr hsr
                    obtain ⟨e1, e2⟩ := InitWasapi_ring_sized hsr rfl
                    injection h with h
                    injection h with _ h
                    rw [← h]
                    refine ⟨?_, e2⟩
                    intro h0
                    exact hbf0 (e1.symm.trans h0)

/-- A successful `InitCoreAudio` leaves the ring fresh from `init` with the
byte count of its sizing step, and the duration of that frame count. -/
theorem InitCoreAudio_success_ring {dev : CoreAudioDevice} {s s' : OutputStreamState}
    {exclusive : Bool} {bufferMs : Double} {bitPerfect : Bool}
    (h : InitCoreAudio dev s exclusive bufferMs bitPerfect = some (true, s')) :
    ∃ ringFrames : Nat,
      InitCoreAudio_ringFrames s'.sampleRate bufferMs = some ringFrames ∧
      s'.ringDurationMs = ringDurationFor ringFrames s'.sampleRate ∧
      RingBuffer.init (sizeMul ringFrames s'.bytesPerFrame) = some s'.ring := by
  unfold InitCoreAudio at h
  split at h
  · cases h
  · dsimp only at h
    split at h
    · cases h
    · split at h
      · cases h
      · split at h
        · cases h
        · rename_i sr hsr
          have e := InitCoreAudio_ring_sized hsr
          split at h
          · cases h
          · injection h with h
            injection h with _ h
            rw [← h]
            exact e

/-- A successful `InitAlsa` leaves the ring fresh from `init` with the byte
count of its sizing step, and the duration of that frame count. -/
theorem InitAlsa_success_ring {dev : AlsaDevice} {s s' : OutputStreamState}
    {exclusive : Bool} {bufferMs : Double} {bitPerfect : Bool}
    (h : InitAlsa dev s exclusive bufferMs bitPerfect = some (true, s')) :
    ∃ ringFrames : Nat,
      InitAlsa_ringFrames s'.sampleRate bufferMs s'.periodSize = some ringFrames ∧
      s'.ringDurationMs = ringDurationFor ringFrames s'.sampleRate ∧
      RingBuffer.init (sizeMul ringFrames s'.bytesPerFrame) = some s'.ring := by
  unfold InitAlsa at h
  split at h
  · cases h
  · split at h
    · cases h
    · split at h
      · cases h
      · rename_i sr hsr
        have e := InitAlsa_ring_sized hsr
        split at h
        · cases h
        · injection h with h
          injection h with _ h
          rw [← h]
          exact e

/-- A frame count that `ringFramesFor` returns comes from a `bufferMs` that
is not NaN. -/
theorem ringFramesFor_ne_nan {sampleRate : ℕ} {bufferMs minFrames : Double} {rf : ℕ}
    (h : ringFramesFor sampleRate bufferMs minFrames = some rf) : bufferMs ≠ Double.nan := by
  intro hn
  rw [hn, ringFramesFor_nan] at h
  cases h

/-- Rounding does not pass below an integer below `2 ^ 53` that lies at or
below the value. -/
theorem Double.round_ge_nat {q : ℚ} {a : ℕ} (ha : a < 2 ^ 53) (h : (a : ℚ) ≤ q) :
    Double.round q = Double.posInf ∨
    ∃ v, Double.round q = Double.finite v ∧ (a : ℚ) ≤ v := by
  have ha0 : (0 : ℚ) ≤ (a : ℚ) := Nat.cast_nonneg _
  unfold Double.round
  by_cases h0 : q = 0
  · rw [if_pos h0]
    exact Or.inr ⟨0, rfl, by rw [← h0]; exact h⟩
  · rw [if_neg h0]
    have hq : 0 < q := lt_of_le_of_ne (le_trans ha0 h) (Ne.symm h0)
    rw [if_pos hq]
    have := @Double.roundPos_ge q hq a 0 ha (by norm_num) (by rw [zpow_zero, mul_one]; exact h)
    rw [zpow_zero, mul_one] at this
    exact this

/-- The `double` assigned to `ringDurationMs` for a ring of more than
`2 * sampleRate` frames is at least 2000. -/
theorem ringDurationFor_large {rf sampleRate : ℕ} (hs0 : 0 < sampleRate)
    (hsr : sampleRate < UINT_MODULUS) (h : 2 * sampleRate < rf) :
    ringDurationFor rf sampleRate = Double.posInf ∨
    ∃ d : ℚ, ringDurationFor rf sampleRate = Double.finite d ∧ 2000 ≤ d := by
  have hsr' : sampleRate < 4294967296 := hsr
  have hq : (0 : ℚ) < (sampleRate : ℚ) := by exact_mod_cast hs0
  have e2 : Double.ofNat sampleRate = Double.finite sampleRate :=
    Double.ofNat_exact (lt_trans hsr' (by norm_num))
  have hinf : (Double.posInf.mul 1000).div (Double.finite (sampleRate : ℚ)) = Double.posInf := by
    have e : Double.posInf.mul 1000 = Double.posInf := by decide
    rw [e]
    show (if (0 : ℚ) ≤ (sampleRate : ℚ) then Double.posInf else Double.negInf) = _
    rw [if_pos (le_of_lt hq)]
  have hinf2 : Double.posInf.div (Double.finite (sampleRate : ℚ)) = Double.posInf := by
    show (if (0 : ℚ) ≤ (sampleRate : ℚ) then Double.posInf else Double.negInf) = _
    rw [if_pos (le_of_lt hq)]
  unfold ringDurationFor
  rw [e2]
  have h1 : ((2 * sampleRate + 1 : ℕ) : ℚ) ≤ ((rf : ℕ) : ℚ) := by
    have : 2 * sampleRate + 1 ≤ rf := h
    exact_mod_cast this
  rcases @Double.round_ge_nat (rf : ℚ) (2 * sampleRate + 1)
      (by have : 2 * sampleRate + 1 < 2 * 4294967296 := by omega
          exact lt_trans this (by norm_num)) h1 with hx | ⟨v1, hv1, hge1⟩
  · have : Double.ofNat rf = Double.posInf := hx
    rw [this, hinf]
    exact Or.inl rfl
  · have : Double.ofNat rf = Double.finite v1 := hv1
    rw [this]
    have emul : (Double.finite v1).mul 1000 = Double.round (v1 * 1000) := by
      show Double.round (v1 * ((1000 : ℕ) : ℚ)) = _
      norm_num
    rw [emul]
    have h2 : (((2 * sampleRate + 1) * 1000 : ℕ) : ℚ) ≤ v1 * 1000 := by
      push_cast at hge1 ⊢
      linarith
    rcases @Double.round_ge_nat (v1 * 1000) ((2 * sampleRate + 1) * 1000)
        (by have : (2 * sampleRate + 1) * 1000 < 2 * 4294967296 * 1000 := by omega
            exact lt_trans this (by norm_num)) h2 with hy | ⟨v2, hv2, hge2⟩
    · rw [hy, hinf2]
      exact Or.inl rfl
    · rw [hv2]
      have ediv : (Double.finite v2).div (Double.finite (sampleRate : ℚ))
          = Double.round (v2 / (sampleRate : ℚ)) := by
        show (if (sampleRate : ℚ) = 0 then
            (if v2 = 0 then Double.nan else if 0 < v2 then Double.posInf else Double.negInf)
          else Double.round (v2 / (sampleRate : ℚ))) = _
        rw [if_neg (ne_of_gt hq)]
      rw [ediv]
      have h3 : ((2000 : ℕ) : ℚ) ≤ v2 / (sampleRate : ℚ) := by
        rw [le_div_iff₀ hq]
        push_cast at hge2 ⊢
        linarith
      rcases @Double.round_ge_nat (v2 / (sampleRate : ℚ)) 2000 (by norm_num) h3
        with hz | ⟨d, hd, hge3⟩
      · exact Or.inl hz
      · exact Or.inr ⟨d, hd, by exact_mod_cast hge3⟩

/-- C21 as stated fails on the code.  On CoreAudio a 16-bit mono open at
11025 Hz with `bufferMs = 20` gets a ring of 220 frames (220.5 truncated), and
the duration reported is the `double` nearest to `220 * 1000 / 11025`, which is
`5616734229146877 / 2 ^ 48`, below 20 ms.  On WASAPI an endpoint buffer of
1500 frames at 1000 Hz forces a ring of 3000 frames, which is 3000 ms, above
2000 ms.  A `bufferMs` that is NaN passes both clamps and the minimum, and
the conversion of `ringFramesD` to `size_t` is undefined: there is no ring. -/
theorem C21_ring_duration_counterexample :
    (OpenOutput_macos exampleCoreAudio16 exampleCoreAudio16 {} exampleOpen11025).map Prod.snd
      = some (OpenOutcome.opened
          { handle := 1, sampleRate := 11025, channels := 1, bitDepth := 16,
            ringDurationMs := Double.finite (5616734229146877 / 281474976710656) }) ∧
    Double.lt (Double.finite (5616734229146877 / 281474976710656)) 20 = true ∧
    (OpenOutput_win32 exampleWasapiLargeBuffer exampleWasapiLargeBuffer {} exampleOpen32).map
        Prod.snd
      = some (OpenOutcome.opened
          { handle := 1, sampleRate := 1000, channels := 1, bitDepth := 32,
            ringDurationMs := 3000 }) ∧
    Double.lt 2000 3000 = true ∧
    exampleOpenNaN.bufferMs = Double.nan ∧
    OpenOutput_win32 exampleWasapiFloat32 exampleWasapiFloat32 {} exampleOpenNaN = none := by
  refine ⟨by decide!, by decide!, by decide!, by decide!, rfl, by decide!⟩

/-- C21, amended: after a successful `InitWasapi`, `InitCoreAudio` or
`InitAlsa` that leaves a positive 32-bit sample rate, `bufferMs` was not NaN,
the ring was initialised with a whole number `ringFrames` of frames which is at
least `sampleRate / 50` rounded down, and `ringDurationMs` is
`ringFrames * 1000.0 / sampleRate` in `double` arithmetic.  When `ringFrames`
is at most `2 * sampleRate` (always on CoreAudio), `ringDurationMs` is the
exact quotient rounded to `double`, it is above `20 - 1000 / sampleRate` (one
frame short of 20 ms), at least 20 when the sample rate is a multiple of 50,
and at most 2000.  Otherwise `ringDurationMs` is at least 2000 and
`ringFrames` is the hardware minimum converted to `size_t`:
`2 * bufferFrames` on WASAPI, `4 * periodSize` on ALSA (for a `periodSize`
below `2 ^ 51`).  With a NaN `bufferMs` the ring sizing has
undefined behaviour on every platform. -/
theorem C21_ring_duration :
    (∀ (dev : WasapiDevice) (s s' : OutputStreamState) (exclusive : Bool) (bufferMs : Double)
        (bitPerfect : Bool),
      InitWasapi dev s exclusive bufferMs bitPerfect = some (true, s') →
      0 < s'.sampleRate → s'.sampleRate < UINT_MODULUS →
      bufferMs ≠ Double.nan ∧
      ∃ ringFrames : Nat,
        InitWasapi_ringFrames s'.sampleRate bufferMs s'.bufferFrames = some ringFrames ∧
        RingBuffer.init (sizeMul ringFrames s'.bytesPerFrame) = some s'.ring ∧
        s'.ringDurationMs = ringDurationFor ringFrames s'.sampleRate ∧
        s'.sampleRate / 50 ≤ ringFrames ∧
        (ringFrames ≤ 2 * s'.sampleRate →
          ∃ d : ℚ, s'.ringDurationMs = Double.finite d ∧
            Double.round ((ringFrames : ℚ) * 1000 / (s'.sampleRate : ℚ)) = Double.finite d ∧
            20 - 1000 / (s'.sampleRate : ℚ) < d ∧ d ≤ 2000 ∧
            (s'.sampleRate % 50 = 0 → 20 ≤ d)) ∧
        (2 * s'.sampleRate < ringFrames →
          (s'.ringDurationMs = Double.posInf ∨
            ∃ d : ℚ, s'.ringDurationMs = Double.finite d ∧ 2000 ≤ d) ∧
          ((Double.ofNat s'.bufferFrames).mul 2).toSize = some ringFrames ∧
          (s'.bufferFrames < UINT_MODULUS → ringFrames = 2 * s'.bufferFrames))) ∧
    (∀ (dev : CoreAudioDevice) (s s' : OutputStreamState) (exclusive : Bool) (bufferMs : Double)
        (bitPerfect : Bool),
      InitCoreAudio dev s exclusive bufferMs bitPerfect = some (true, s') →
      0 < s'.sampleRate → s'.sampleRate < UINT_MODULUS →
      bufferMs ≠ Double.nan ∧
      ∃ ringFrames : Nat,
        InitCoreAudio_ringFrames s'.sampleRate bufferMs = some ringFrames ∧
        RingBuffer.init (sizeMul ringFrames s'.bytesPerFrame) = some s'.ring ∧
        s'.ringDurationMs = ringDurationFor ringFrames s'.sampleRate ∧
        s'.sampleRate / 50 ≤ ringFrames ∧ ringFrames ≤ 2 * s'.sampleRate ∧
        ∃ d : ℚ, s'.ringDurationMs = Double.finite d ∧
          Double.round ((ringFrames : ℚ) * 1000 / (s'.sampleRate : ℚ)) = Double.finite d ∧
          20 - 1000 / (s'.sampleRate : ℚ) < d ∧ d ≤ 2000 ∧
          (s'.sampleRate % 50 = 0 → 20 ≤ d)) ∧
    (∀ (dev : AlsaDevice) (s s' : OutputStreamState) (exclusive : Bool) (bufferMs : Double)
        (bitPerfect : Bool),
      InitAlsa dev s exclusive bufferMs bitPerfect = some (true, s') →
      0 < s'.sampleRate → s'.sampleRate < UINT_MODULUS →
      bufferMs ≠ Double.nan ∧
      ∃ ringFrames : Nat,
        InitAlsa_ringFrames s'.sampleRate bufferMs s'.periodSize = some ringFrames ∧
        RingBuffer.init (sizeMul ringFrames s'.bytesPerFrame) = some s'.ring ∧
        s'.ringDurationMs = ringDurationFor ringFrames s'.sampleRate ∧
        s'.sampleRate / 50 ≤ ringFrames ∧
        (ringFrames ≤ 2 * s'.sampleRate →
          ∃ d : ℚ, s'.ringDurationMs = Double.finite d ∧
            Double.round ((ringFrames : ℚ) * 1000 / (s'.sampleRate : ℚ)) = Double.finite d ∧
            20 - 1000 / (s'.sampleRate : ℚ) < d ∧ d ≤ 2000 ∧
            (s'.sampleRate % 50 = 0 → 20 ≤ d)) ∧
        (2 * s'.sampleRate < ringFrames →
          (s'.ringDurationMs = Double.posInf ∨
            ∃ d : ℚ, s'.ringDurationMs = Double.finite d ∧ 2000 ≤ d) ∧
          ((Double.ofNat s'.periodSize).mul 4).toSize = some ringFrames ∧
          (s'.periodSize < 2 ^ 51 → ringFrames = 4 * s'.periodSize))) ∧
    (∀ (s : OutputStreamState) (bufferFrames : Nat),
      InitWasapi_ring s Double.nan bufferFrames = none) ∧
    (∀ s : OutputStreamState, InitCoreAudio_ring s Double.nan = none) ∧
    (∀ s : OutputStreamState, InitAlsa_ring s Double.nan = none) := by
  refine ⟨?_, ?_, ?_, ?_, ?_, ?_⟩
  · intro dev s s' exclusive bufferMs bitPerfect h hs hsr
    obtain ⟨-, rf, e1, e2, e3⟩ := InitWasapi_success_ring h
    have hn := ringFramesFor_ne_nan e1
    obtain ⟨b1, b2, -⟩ := ringFramesFor_spec e1 hn hsr
    refine ⟨hn, rf, e1, e3, e2, b1, ?_, ?_⟩
    · intro hle
      obtain ⟨d, d1, d2, d3, d4, d5⟩ := ringDurationFor_spec hs hsr hle b1
      exact ⟨d, by rw [e2, d1], d2, d3, d4, d5⟩
    · intro hgt
      have hmin : ((Double.ofNat s'.bufferFrames).mul 2).toSize = some rf := by
        rcases b2 with h1 | h1
        · omega
        · exact h1
      refine ⟨by rw [e2]; exact ringDurationFor_large hs hsr hgt, hmin, ?_⟩
      intro hbf
      rw [InitWasapi_minFrames hbf] at hmin
      obtain ⟨d, hd, -, hfl, -⟩ := Double.toSize_some hmin
      injection hd with hd
      rw [hfl, ← hd]
      have h1 : (⌊((2 * s'.bufferFrames : ℕ) : ℚ)⌋ : ℤ)
          = Rat.floor ((2 * s'.bufferFrames : ℕ) : ℚ) := rfl
      rw [← h1, Int.floor_natCast]
      rfl
  · intro dev s s' exclusive bufferMs bitPerfect h hs hsr
    obtain ⟨rf, e1, e2, e3⟩ := InitCoreAudio_success_ring h
    have hn := ringFramesFor_ne_nan e1
    obtain ⟨b1, b2, -⟩ := ringFramesFor_spec e1 hn hsr
    have hle : rf ≤ 2 * s'.sampleRate := by
      rcases b2 with h1 | h1
      · exact h1
      · have := InitCoreAudio_minFrames hsr h1
        omega
    obtain ⟨d, d1, d2, d3, d4, d5⟩ := ringDurationFor_spec hs hsr hle b1
    exact ⟨hn, rf, e1, e3, e2, b1, hle, d, by rw [e2, d1], d2, d3, d4, d5⟩
  · intro dev s s' exclusive bufferMs bitPerfect h hs hsr
    obtain ⟨rf, e1, e2, e3⟩ := InitAlsa_success_ring h
    have hn := ringFramesFor_ne_nan e1
    obtain ⟨b1, b2, -⟩ := ringFramesFor_spec e1 hn hsr
    refine ⟨hn, rf, e1, e3, e2, b1, ?_, ?_⟩
    · intro hle
      obtain ⟨d, d1, d2, d3, d4, d5⟩ := ringDurationFor_spec hs hsr hle b1
      exact ⟨d, by rw [e2, d1], d2, d3, d4, d5⟩
    · intro hgt
      have hmin : ((Double.ofNat s'.periodSize).mul 4).toSize = some rf := by
        rcases b2 with h1 | h1
        · omega
        · exact h1
      refine ⟨by rw [e2]; exact ringDurationFor_large hs hsr hgt, hmin, ?_⟩
      intro hp
      rw [InitAlsa_minFrames hp] at hmin
      obtain ⟨d, hd, -, hfl, -⟩ := Double.toSize_some hmin
      injection hd with hd
      rw [hfl, ← hd]
      have h1 : (⌊((4 * s'.periodSize : ℕ) : ℚ)⌋ : ℤ)
          = Rat.floor ((4 * s'.periodSize : ℕ) : ℚ) := rfl
      rw [← h1, Int.floor_natCast]
      rfl
  · intro s bufferFrames
    rw [InitWasapi_ring_eq]
    have : InitWasapi_ringFrames s.sampleRate Double.nan bufferFrames = none :=
      ringFramesFor_nan _ _
    rw [this]
  · intro s
    rw [InitCoreAudio_ring_eq]
    have : InitCoreAudio_ringFrames s.sampleRate Double.nan = none := ringFramesFor_nan _ _
    rw [this]
  · intro s
    rw [InitAlsa_ring_eq]
    have : InitAlsa_ringFrames s.sampleRate Double.nan s.periodSize = none :=
      ringFramesFor_nan _ _
    rw [this]

/-- C21 on a concrete open: the ring of `exampleOpened32`, 20 frames at
1000 Hz, which lasts 20 ms. -/
theorem C21_ring_duration_witness :
    InitWasapi exampleWasapiFloat32 (OpenOutput_state exampleOpen32) true 20 false
      = some (true, exampleOpened32) ∧
    0 < exampleOpened32.sampleRate ∧ exampleOpened32.sampleRate < UINT_MODULUS ∧
    InitWasapi_ringFrames exampleOpened32.sampleRate 20 exampleOpened32.bufferFrames = some 20 ∧
    exampleOpened32.ringDurationMs = Double.finite 20 ∧
    ((20 : Double) ≠ Double.nan ∧
      ∃ ringFrames : Nat,
        InitWasapi_ringFrames exampleOpened32.sampleRate 20 exampleOpened32.bufferFrames
          = some ringFrames ∧
        RingBuffer.init (sizeMul ringFrames exampleOpened32.bytesPerFrame)
          = some exampleOpened32.ring ∧
        exampleOpened32.ringDurationMs = ringDurationFor ringFrames exampleOpened32.sampleRate ∧
        exampleOpened32.sampleRate / 50 ≤ ringFrames ∧
        (ringFrames ≤ 2 * exampleOpened32.sampleRate →
          ∃ d : ℚ, exampleOpened32.ringDurationMs = Double.finite d ∧
            Double.round ((ringFrames : ℚ) * 1000 / (exampleOpened32.sampleRate : ℚ))
              = Double.finite d ∧
            20 - 1000 / (exampleOpened32.sampleRate : ℚ) < d ∧ d ≤ 2000 ∧
            (exampleOpened32.sampleRate % 50 = 0 → 20 ≤ d)) ∧
        (2 * exampleOpened32.sampleRate < ringFrames →
          (exampleOpened32.ringDurationMs = Double.posInf ∨
            ∃ d : ℚ, exampleOpened32.ringDurationMs = Double.finite d ∧ 2000 ≤ d) ∧
          ((Double.ofNat exampleOpened32.bufferFrames).mul 2).toSize = some ringFrames ∧
          (exampleOpened32.bufferFrames < UINT_MODULUS →
            ringFrames = 2 * exampleOpened32.bufferFrames))) :=
  ⟨by decide!, by decide, by decide, by decide!, rfl,
   C21_ring_duration.1 exampleWasapiFloat32 (OpenOutput_state exampleOpen32) exampleOpened32
     true 20 false (by decide!) (by decide) (by decide)⟩

theorem Close_unregistered (reg : Registry) (handle : Nat)
    (h : ∀ p ∈ reg.g_streams, p.1 ≠ handle) :
    Close reg (some handle) = (reg, none, CloseOutcome.undefined) := by
  have hf : reg.g_streams.find? (fun p => p.1 == handle) = none := by
    rw [List.find?_eq_none]
    intro p hp
    simpa using h p hp
  unfold Close
  simp only [hf]

theorem Close_registry (reg : Registry) (handle : Nat) :
    (Close reg (some handle)).1
        = { reg with g_streams := reg.g_streams.filter (fun p => decide (p.1 ≠ handle)) } ∧
      (Close reg (some handle)).2.2 = CloseOutcome.undefined := by
  cases hf : reg.g_streams.find? (fun p => p.1 == handle) with
  | some p =>
    unfold Close
    simp only [hf]
    exact ⟨trivial, trivial⟩
  | none =>
    have hall : ∀ p ∈ reg.g_streams, decide (p.1 ≠ handle) = true := by
      intro p hp
      have := List.find?_eq_none.mp hf p hp
      simpa using this
    unfold Close
    simp only [hf]
    rw [List.filter_eq_self.mpr hall]
    exact ⟨rfl, trivial⟩

/-- C24 as stated fails on the code: `Close` on a handle that is not
registered (here 7 on the initial registry, and 1 after it has been closed
once) ends with `undefined`, not with an error. -/
theorem C24_close_idempotent_counterexample :
    Close {} (some 7) = ({}, none, CloseOutcome.undefined) ∧
    Close { g_streams := [(1, exampleOpened32)], g_nextId := 2 } (some 1)
      = ({ g_streams := [], g_nextId := 2 }, some exampleOpened32, CloseOutcome.undefined) ∧
    Close { g_streams := [], g_nextId := 2 } (some 1)
      = ({ g_streams := [], g_nextId := 2 }, none, CloseOutcome.undefined) := by
  refine ⟨by decide!, by decide!, by decide!⟩

/-- C24, amended: `Close` on a handle that is not registered leaves the
registry as it is, closes no stream and ends with `undefined` (no error is
reported).  After `Close` the handle is absent, the other entries and
`g_nextId` are unchanged, and a second `Close` on the same handle is
such a call on an unregistered handle: it changes nothing. -/
theorem C24_close_idempotent (reg : Registry) (handle : Nat) :
    ((∀ p ∈ reg.g_streams, p.1 ≠ handle) →
      Close reg (some handle) = (reg, none, CloseOutcome.undefined)) ∧
    (∀ p ∈ (Close reg (some handle)).1.g_streams, p.1 ≠ handle) ∧
    (∀ p : Nat × OutputStreamState, p.1 ≠ handle →
      (p ∈ (Close reg (some handle)).1.g_streams ↔ p ∈ reg.g_streams)) ∧
    (Close reg (some handle)).1.g_nextId = reg.g_nextId ∧
    (Close reg (some handle)).2.2 = CloseOutcome.undefined ∧
    Close (Close reg (some handle)).1 (some handle)
      = ((Close reg (some handle)).1, none, CloseOutcome.undefined) := by
  have habs : ∀ p ∈ (Close reg (some handle)).1.g_streams, p.1 ≠ handle := by
    rw [(Close_registry reg handle).1]
    intro p hp
    have := (List.mem_filter.mp hp).2
    simpa using this
  refine ⟨Close_unregistered reg handle, habs, ?_, ?_, ?_, Close_unregistered _ handle habs⟩
  · intro p hp
    rw [(Close_registry reg handle).1]
    show p ∈ reg.g_streams.filter (fun p => decide (p.1 ≠ handle)) ↔ _
    rw [List.mem_filter]
    constructor
    · exact fun h => h.1
    · intro h
      exact ⟨h, by simpa using hp⟩
  · rw [(Close_registry reg handle).1]
  · exact (Close_registry reg handle).2

/-- C24 on a concrete registry: handle 5 is not registered next to handle 1, so
closing it changes nothing; closing handle 1 twice. -/
theorem C24_close_idempotent_witness :
    (∀ p ∈ ({ g_streams := [(1, exampleOpened32)], g_nextId := 2 } : Registry).g_streams,
        p.1 ≠ 5) ∧
    Close { g_streams := [(1, exampleOpened32)], g_nextId := 2 } (some 5)
      = ({ g_streams := [(1, exampleOpened32)], g_nextId := 2 }, none,
          CloseOutcome.undefined) ∧
    Close (Close { g_streams := [(1, exampleOpened32)], g_nextId := 2 } (some 1)).1 (some 1)
      = ((Close { g_streams := [(1, exampleOpened32)], g_nextId := 2 } (some 1)).1, none,
          CloseOutcome.undefined) :=
  ⟨by decide,
   (C24_close_idempotent { g_streams := [(1, exampleOpened32)], g_nextId := 2 } 5).1 (by decide),
   (C24_close_idempotent { g_streams := [(1, exampleOpened32)], g_nextId := 2 } 1).2.2.2.2.2⟩
theorem OpenOutput_register_registry (reg : Registry) (s : OutputStreamState) :
    (OpenOutput_register reg s).1
      = { g_streams :=
            (reg.g_nextId, s) :: reg.g_streams.filter (fun p => decide (p.1 ≠ reg.g_nextId)),
          g_nextId := (reg.g_nextId + 1) % UINT_MODULUS } := rfl

theorem wrap_step_arith (n : Nat) (h : n + 1 ≤ 4294967295) :
    (2 + n) % 4294967296 ≠ 1 ∧
      ((2 + n) % 4294967296 + 1) % 4294967296 = (2 + (n + 1)) % 4294967296 := by
  omega

/-- One open followed by `n` rounds of open and close leaves the first stream
registered under handle 1 and the counter at `(2 + n) % 2^32`. -/
theorem Registry.reachable_wrap (A B : OutputStreamState) (n : Nat) (hn : n ≤ 4294967295) :
    Registry.Reachable (n + 1)
      { g_streams := [(1, A)], g_nextId := (2 + n) % 4294967296 } := by
  induction n with
  | zero => exact Registry.Reachable.opened A Registry.Reachable.start
  | succ n ih =>
    obtain ⟨hk, hk1⟩ := wrap_step_arith n hn
    have h1 := Registry.Reachable.closed ((2 + n) % 4294967296)
      (Registry.Reachable.opened B (ih (by omega)))
    rw [(Close_registry _ _).1, OpenOutput_register_registry] at h1
    generalize (2 + n) % 4294967296 = k at hk hk1 h1
    have hf1 : List.filter (fun p : Nat × OutputStreamState => decide (p.1 ≠ k)) [(1, A)]
        = [(1, A)] := by
      rw [List.filter_cons_of_pos (by simpa using fun h => hk h.symm)]
      rfl
    have hf2 : List.filter (fun p : Nat × OutputStreamState => decide (p.1 ≠ k))
        ((k, B) :: [(1, A)]) = [(1, A)] := by
      rw [List.filter_cons_of_neg (by simp), hf1]
    simp only [hf1, hf2] at h1
    rw [← hk1]
    exact h1

theorem Registry.reachable_nodup {n : Nat} {reg : Registry} (h : Registry.Reachable n reg) :
    (reg.g_streams.map Prod.fst).Nodup := by
  induction h with
  | start => exact List.nodup_nil
  | @opened n reg s _ ih =>
    rw [OpenOutput_register_registry]
    show ((reg.g_nextId, s)
      :: reg.g_streams.filter (fun p => decide (p.1 ≠ reg.g_nextId))).map Prod.fst |>.Nodup
    rw [List.map_cons, List.nodup_cons]
    refine ⟨?_, ih.sublist ((List.filter_sublist _).map _)⟩
    intro hmem
    obtain ⟨p, hp, hp1⟩ := List.mem_map.mp hmem
    have := (List.mem_filter.mp hp).2
    simp at this
    exact this hp1
  | @closed n reg handle _ ih =>
    rw [(Close_registry _ _).1]
    exact ih.sublist ((List.filter_sublist _).map _)

theorem Registry.reachable_range {n : Nat} {reg : Registry} (h : Registry.Reachable n reg)
    (hn : n < 4294967296) :
    reg.g_nextId = (n + 1) % 4294967296 ∧ ∀ p ∈ reg.g_streams, 1 ≤ p.1 ∧ p.1 ≤ n := by
  induction h with
  | start =>
    refine ⟨rfl, ?_⟩
    intro p hp
    cases hp
  | @opened n reg s _ ih =>
    obtain ⟨i1, i2⟩ := ih (by omega)
    rw [OpenOutput_register_registry]
    have e : reg.g_nextId = n + 1 := by rw [i1]; exact Nat.mod_eq_of_lt hn
    refine ⟨?_, ?_⟩
    · show (reg.g_nextId + 1) % UINT_MODULUS = _
      rw [e]
      rfl
    · intro p hp
      rcases List.mem_cons.mp hp with rfl | hp
      · show 1 ≤ reg.g_nextId ∧ reg.g_nextId ≤ n + 1
        omega
      · have := i2 p (List.mem_filter.mp hp).1
        omega
  | @closed n reg handle _ ih =>
    obtain ⟨i1, i2⟩ := ih hn
    rw [(Close_registry _ _).1]
    exact ⟨i1, fun p hp => i2 p (List.mem_filter.mp hp).1⟩

theorem fresh_handle_arith (n k g : Nat) (hn : n < 4294967296) (hg : g = (n + 1) % 4294967296)
    (h1 : 1 ≤ k) (h2 : k ≤ n) : k ≠ g := by
  omega

/-- C25 as stated fails on the code.  One open (handle 1, still registered)
followed by 4294967295 rounds of an open and a close of the stream just opened
is a sequence of successful opens and closes; it leaves `g_nextId` at 1 again.
The next open is issued handle 1 and replaces the live stream registered under
it. -/
theorem C25_handle_unique_counterexample :
    Registry.Reachable 4294967296 { g_streams := [(1, exampleOpened32)], g_nextId := 1 } ∧
    OpenOutput_register { g_streams := [(1, exampleOpened32)], g_nextId := 1 } exampleOpened12
      = ({ g_streams := [(1, exampleOpened12)], g_nextId := 2 },
          OpenOutcome.opened
            { handle := 1, sampleRate := 1000, channels := 2, bitDepth := 12,
              ringDurationMs := 20 }) :=
  ⟨Registry.reachable_wrap exampleOpened32 exampleOpened32 4294967295 (Nat.le_refl _),
   by decide!⟩

/-- C25, amended: in every registry state reached by `n` successful opens and
any closes, the registered handles are pairwise distinct; and while fewer than
`2^32` opens have taken place (`n < 2^32`), the handle `g_nextId` that the next
open issues differs from every registered handle, so that registering it keeps
every entry of the registry. -/
theorem C25_handle_unique (n : Nat) (reg : Registry) (h : Registry.Reachable n reg) :
    (reg.g_streams.map Prod.fst).Nodup ∧
    (n < UINT_MODULUS →
      (∀ p ∈ reg.g_streams, p.1 ≠ reg.g_nextId) ∧
      ∀ s : OutputStreamState,
        (OpenOutput_register reg s).1.g_streams = (reg.g_nextId, s) :: reg.g_streams ∧
        (OpenOutput_register reg s).2
          = OpenOutcome.opened
              { handle := reg.g_nextId, sampleRate := s.sampleRate, channels := s.channels,
                bitDepth := s.bitDepth, ringDurationMs := s.ringDurationMs }) := by
  refine ⟨Registry.reachable_nodup h, ?_⟩
  intro hn
  obtain ⟨i1, i2⟩ := Registry.reachable_range h hn
  have hfresh : ∀ p ∈ reg.g_streams, p.1 ≠ reg.g_nextId := by
    intro p hp
    exact fresh_handle_arith n p.1 reg.g_nextId hn i1 (i2 p hp).1 (i2 p hp).2
  refine ⟨hfresh, ?_⟩
  intro s
  refine ⟨?_, rfl⟩
  rw [OpenOutput_register_registry]
  show (reg.g_nextId, s) :: reg.g_streams.filter (fun p => decide (p.1 ≠ reg.g_nextId)) = _
  rw [List.filter_eq_self.mpr (fun p hp => by simpa using hfresh p hp)]

/-- C25 on the registry after one open: handle 1 is registered, handle 2 is
issued next and the entry of handle 1 stays. -/
theorem C25_handle_unique_witness :
    Registry.Reachable 1 { g_streams := [(1, exampleOpened32)], g_nextId := 2 } ∧
    1 < UINT_MODULUS ∧
    (∀ p ∈ ({ g_streams := [(1, exampleOpened32)], g_nextId := 2 } : Registry).g_streams,
        p.1 ≠ 2) ∧
    (OpenOutput_register { g_streams := [(1, exampleOpened32)], g_nextId := 2 }
        exampleOpened12).1.g_streams
      = [(2, exampleOpened12), (1, exampleOpened32)] :=
  ⟨Registry.Reachable.opened exampleOpened32 Registry.Reachable.start, by decide,
   ((C25_handle_unique 1 { g_streams := [(1, exampleOpened32)], g_nextId := 2 }
      (Registry.Reachable.opened exampleOpened32 Registry.Reachable.start)).2 (by decide)).1,
   (((C25_handle_unique 1 { g_streams := [(1, exampleOpened32)], g_nextId := 2 }
      (Registry.Reachable.opened exampleOpened32 Registry.Reachable.start)).2 (by decide)).2
      exampleOpened12).1⟩

/-! ## Frame alignment -/

theorem dvd_min_of_dvd {b x y : Nat} (hx : b ∣ x) (hy : b ∣ y) : b ∣ min x y := by
  rcases Nat.le_total x y with h | h
  · rw [Nat.min_eq_left h]; exact hx
  · rw [Nat.min_eq_right h]; exact hy

/-- A read of whole frames by the render thread out of a ring that holds whole
frames: it changes the ring only, takes whole frames and leaves whole
frames. -/
theorem EnvOp.apply_frames {b : Nat} (op : EnvOp) (hop : op.wholeFrames b = true)
    (s : OutputStreamState) (hwf : s.ring.WellFormed) (hdiv : b ∣ s.ring.availableToRead) :
    ∃ ring' c, op.apply s = some ({ s with ring := ring' }, c) ∧ ring'.WellFormed ∧
      c ++ ring'.unread = s.ring.unread ∧ b ∣ c.length ∧ b ∣ ring'.availableToRead ∧
      s.ring.availableToWrite ≤ ring'.availableToWrite := by
  cases op with
  | consume n =>
    have hn : n % b = 0 := of_decide_eq_true hop
    obtain ⟨rb', hr, hwf', hcap, -, -, hun, -, -⟩ :=
      RingBuffer.read_spec hwf (List.replicate n 0) n (by simp)
    have hk : b ∣ min n s.ring.availableToRead :=
      dvd_min_of_dvd (Nat.dvd_of_mod_eq_zero hn) hdiv
    have hlen : (s.ring.unread.take (min n s.ring.availableToRead)).length
        = min n s.ring.availableToRead := by
      rw [List.length_take, RingBuffer.unread_length]
      omega
    have har : rb'.availableToRead = s.ring.availableToRead - min n s.ring.availableToRead := by
      rw [← RingBuffer.unread_length rb', hun, List.length_drop, RingBuffer.unread_length]
    refine ⟨rb', s.ring.unread.take (min n s.ring.availableToRead), ?_, hwf', ?_, ?_, ?_, ?_⟩
    · simp only [EnvOp.apply, hr, Option.getD_some]
      rw [List.take_append_of_le_length (by rw [hlen]), List.take_take, min_self]
    · rw [hun, List.take_append_drop]
    · rw [hlen]; exact hk
    · rw [har]; exact Nat.dvd_sub' hdiv hk
    · have h1 := RingBuffer.availableToWrite_eq hwf
      have h2 := RingBuffer.availableToWrite_eq hwf'
      have h3 := RingBuffer.availableToRead_lt hwf
      rw [h1, h2, hcap, har]
      omega
  | storeOpen v => cases hop
  | storeRunning v => cases hop
  | storePaused v => cases hop

theorem EnvOp.applyAll_frames {b : Nat} (ops : List EnvOp)
    (hops : ops.all (EnvOp.wholeFrames b) = true) :
    ∀ (s : OutputStreamState), s.ring.WellFormed → b ∣ s.ring.availableToRead →
    ∃ ring' c, EnvOp.applyAll s ops = some ({ s with ring := ring' }, c) ∧ ring'.WellFormed ∧
      c ++ ring'.unread = s.ring.unread ∧ b ∣ c.length ∧ b ∣ ring'.availableToRead ∧
      s.ring.availableToWrite ≤ ring'.availableToWrite := by
  induction ops with
  | nil =>
    intro s hwf hdiv
    exact ⟨s.ring, [], rfl, hwf, rfl, Nat.dvd_zero _, hdiv, le_refl _⟩
  | cons op ops ih =>
    intro s hwf hdiv
    rw [List.all_cons, Bool.and_eq_true] at hops
    obtain ⟨r1, c1, h1, hwf1, hun1, hd1, hr1, hav1⟩ := EnvOp.apply_frames op hops.1 s hwf hdiv
    obtain ⟨r2, c2, h2, hwf2, hun2, hd2, hr2, hav2⟩ :=
      ih hops.2 { s with ring := r1 } hwf1 hr1
    refine ⟨r2, c1 ++ c2, ?_, hwf2, ?_, ?_, hr2, le_trans hav1 hav2⟩
    · simp only [EnvOp.applyAll, h1, h2]
    · rw [List.append_assoc, hun2]
      exact hun1
    · rw [List.length_append]
      exact Nat.dvd_add hd1 hd2

theorem WriteEnv.wholeFrames_parts {b : Nat} {e : WriteEnv} (h : e.wholeFrames b = true) :
    e.before.all (EnvOp.wholeFrames b) = true ∧ e.between.all (EnvOp.wholeFrames b) = true ∧
      e.asleep.all (EnvOp.wholeFrames b) = true := by
  unfold WriteEnv.wholeFrames at h
  rw [List.all_append, List.all_append, Bool.and_eq_true, Bool.and_eq_true] at h
  exact ⟨h.1.1, h.1.2, h.2⟩

theorem WriteEnv.wholeFrames_headD {b : Nat} {envs : List WriteEnv}
    (h : envs.all (WriteEnv.wholeFrames b) = true) :
    (envs.headD {}).wholeFrames b = true ∧ envs.tail.all (WriteEnv.wholeFrames b) = true := by
  cases envs with
  | nil => exact ⟨rfl, rfl⟩
  | cons e es =>
    rw [List.all_cons, Bool.and_eq_true] at h
    exact h

/-- The loop condition and body of `WriteToRingBlocking` while the render
thread reads whole frames only: the body changes nothing of the stream but the
ring, and the bytes the render thread has taken stay whole frames. -/
theorem WriteToRingBlocking_body_frames {b : Nat} (buf : List Byte)
    (len timeoutMs deadline : Nat) (hlen : len ≤ buf.length) (h64 : len < SIZE_MODULUS)
    (e : WriteEnv) (he : e.wholeFrames b = true) (st : WriteRun)
    (hwf : st.stream.ring.WellFormed) (htot : st.totalWritten ≤ len)
    (hdiv : b ∣ st.stream.ring.availableToRead) (hc : b ∣ st.consumed.length)
    (ex : Option WriteExit) (r : WriteRun)
    (hb : WriteToRingBlocking_body buf len timeoutMs deadline e st = some (ex, r)) :
    (∃ ring', r.stream = { st.stream with ring := ring' }) ∧ b ∣ r.consumed.length := by
  obtain ⟨-, hbetween, hasleep⟩ := WriteEnv.wholeFrames_parts he
  unfold WriteToRingBlocking_body at hb
  by_cases hd : st.totalWritten < len
  · rw [if_neg (not_not.2 hd)] at hb
    by_cases hf : st.stream.running = true ∧ st.stream.isOpen = true
    · rw [if_neg (not_not.2 hf)] at hb
      by_cases ha : st.stream.ring.availableToWrite = 0
      · simp only [ha, if_true] at hb
        by_cases ht : timeoutMs = 0
        · rw [if_pos ht] at hb
          simp only [Option.some.injEq, Prod.mk.injEq] at hb
          obtain ⟨e1, e2⟩ := hb
          subst e1 e2
          exact ⟨⟨st.stream.ring, rfl⟩, hc⟩
        · rw [if_neg ht] at hb
          obtain ⟨r2, c2, h2, -, -, hd2, -, -⟩ :=
            EnvOp.applyAll_frames e.asleep hasleep st.stream hwf hdiv
          rw [h2] at hb
          simp only [Option.some.injEq] at hb
          have hw : ∀ p : Option WriteExit × WriteRun,
              p = WriteToRingBlocking_wait deadline e.wake
                { st with stream := { st.stream with ring := r2 },
                          consumed := st.consumed ++ c2 } →
              p.2.stream = { st.stream with ring := r2 } ∧
                p.2.consumed = st.consumed ++ c2 := by
            intro p hp
            unfold WriteToRingBlocking_wait at hp
            cases hwk : e.wake with
            | none =>
              rw [hwk] at hp
              subst hp
              exact ⟨rfl, rfl⟩
            | some w =>
              rw [hwk] at hp
              by_cases hlt : w < deadline
              · simp only [if_pos hlt] at hp
                subst hp
                exact ⟨rfl, rfl⟩
              · simp only [if_neg hlt] at hp
                subst hp
                exact ⟨rfl, rfl⟩
          obtain ⟨w1, w2⟩ := hw (ex, r) hb.symm
          simp only [] at w1 w2
          refine ⟨⟨r2, w1⟩, ?_⟩
          rw [w2, List.length_append]
          exact Nat.dvd_add hc hd2
      · simp only [ha, if_false] at hb
        obtain ⟨r2, c2, h2, hwf2, -, hd2, -, -⟩ :=
          EnvOp.applyAll_frames e.between hbetween st.stream hwf hdiv
        rw [h2] at hb
        have hsub : sizeSub len st.totalWritten = len - st.totalWritten :=
          sizeSub_eq htot h64
        have hchunk : min st.stream.ring.availableToWrite (sizeSub len st.totalWritten)
            ≤ (buf.drop st.totalWritten).length := by
          rw [hsub, List.length_drop]
          exact le_trans (Nat.min_le_right _ _) (Nat.sub_le_sub_right hlen _)
        obtain ⟨rb', hw, -, -, -⟩ :=
          RingBuffer.write_spec hwf2 (buf.drop st.totalWritten)
            (min st.stream.ring.availableToWrite (sizeSub len st.totalWritten)) hchunk
        have hb2 : WriteToRingBlocking_write buf timeoutMs
            (min st.stream.ring.availableToWrite (sizeSub len st.totalWritten))
            { st with stream := { st.stream with ring := r2 },
                      consumed := st.consumed ++ c2 } = some (ex, r) := hb
        rw [WriteToRingBlocking_write_eq buf timeoutMs _
          { st with stream := { st.stream with ring := r2 },
                    consumed := st.consumed ++ c2 } rb' _ hw] at hb2
        simp only [Option.some.injEq, Prod.mk.injEq] at hb2
        obtain ⟨-, e2⟩ := hb2
        subst e2
        refine ⟨⟨rb', rfl⟩, ?_⟩
        show b ∣ (st.consumed ++ c2).length
        rw [List.length_append]
        exact Nat.dvd_add hc hd2
    · rw [if_pos hf] at hb
      simp only [Option.some.injEq, Prod.mk.injEq] at hb
      obtain ⟨e1, e2⟩ := hb
      subst e1 e2
      exact ⟨⟨st.stream.ring, rfl⟩, hc⟩
  · rw [if_pos hd] at hb
    simp only [Option.some.injEq, Prod.mk.injEq] at hb
    obtain ⟨e1, e2⟩ := hb
    subst e1 e2
    exact ⟨⟨st.stream.ring, rfl⟩, hc⟩

theorem frames_avail_arith {b c1 a1 c0 a0 t1 t0 : Nat} (h : c1 + a1 = c0 + a0 + (t1 - t0))
    (hc1 : b ∣ c1) (hc0 : b ∣ c0) (ha0 : b ∣ a0) (ht : b ∣ t1 - t0) : b ∣ a1 := by
  have h1 : b ∣ c0 + a0 + (t1 - t0) := Nat.dvd_add (Nat.dvd_add hc0 ha0) ht
  rw [← h] at h1
  exact (Nat.dvd_add_right hc1).1 h1

/-- The loop of `WriteToRingBlocking` on an open, running stream while the
render thread reads whole frames only, entered either with nothing written and
room in the ring for all `len` bytes, or with everything written: it ends
with `len` bytes written, it has changed nothing of the stream but the ring,
and the render thread has taken whole frames. -/
theorem WriteToRingBlocking_loop_frames {b : Nat} (buf : List Byte)
    (len timeoutMs deadline : Nat) (hlen : len ≤ buf.length) (h64 : len < SIZE_MODULUS)
    (hbl : b ∣ len) :
    ∀ (fuel : Nat) (envs : List WriteEnv) (st : WriteRun) (ex : WriteExit) (r : WriteRun),
      envs.all (WriteEnv.wholeFrames b) = true →
      st.stream.ring.WellFormed →
      st.stream.running = true → st.stream.isOpen = true →
      b ∣ st.stream.ring.availableToRead → b ∣ st.consumed.length →
      ((st.totalWritten = 0 ∧ len ≤ st.stream.ring.availableToWrite)
        ∨ st.totalWritten = len) →
      WriteToRingBlocking_loop buf len timeoutMs deadline fuel envs st = some (ex, r) →
      r.totalWritten = len ∧ (∃ ring', r.stream = { st.stream with ring := ring' }) ∧
        b ∣ r.consumed.length := by
  intro fuel
  induction fuel with
  | zero =>
    intro envs st ex r _ _ _ _ _ _ _ h
    simp only [WriteToRingBlocking_loop] at h
    cases h
  | succ fuel ih =>
    intro envs st ex r henv hwf hrun hopen hdiv hc hcase h
    obtain ⟨he, htail⟩ := WriteEnv.wholeFrames_headD henv
    obtain ⟨hbefore, -, -⟩ := WriteEnv.wholeFrames_parts he
    have htot : st.totalWritten ≤ len := by
      rcases hcase with ⟨h0, -⟩ | h0
      · rw [h0]; exact Nat.zero_le _
      · rw [h0]
    rw [WriteToRingBlocking_loop] at h
    unfold WriteToRingBlocking_step at h
    obtain ⟨r1, c1, h1, hwf1, hun1, hd1, hr1, hav1⟩ :=
      EnvOp.applyAll_frames (envs.headD {}).before hbefore st.stream hwf hdiv
    rw [h1] at h
    have hc1 : b ∣ (st.consumed ++ c1).length := by
      rw [List.length_append]
      exact Nat.dvd_add hc hd1
    obtain ⟨ex1, st1, hb, b2, b3, b4, b5, -, -, -, -, -, -, -, -, -, -, -, -, -, b19, -⟩ :=
      WriteToRingBlocking_body_spec buf len timeoutMs deadline hlen h64 (envs.headD {})
        { st with stream := { st.stream with ring := r1 }, consumed := st.consumed ++ c1 }
        hwf1 htot
    obtain ⟨⟨ring1, hs1⟩, hcd⟩ :=
      WriteToRingBlocking_body_frames buf len timeoutMs deadline hlen h64 (envs.headD {}) he
        { st with stream := { st.stream with ring := r1 }, consumed := st.consumed ++ c1 }
        hwf1 htot hr1 hc1 ex1 st1 hb
    have htotal : st1.totalWritten = len := by
      have := b19 hrun hopen
      have e : st1.totalWritten
          = st.totalWritten + min (len - st.totalWritten) r1.availableToWrite := this
      rcases hcase with ⟨h0, hfit⟩ | h0
      · rw [e, h0]
        have : len ≤ r1.availableToWrite := le_trans hfit hav1
        omega
      · rw [e, h0]
        omega
    have hsame : st1.stream = { st.stream with ring := ring1 } := hs1
    have hdvdT : b ∣ st1.totalWritten - st.totalWritten := by
      rcases hcase with ⟨h0, -⟩ | h0
      · rw [htotal, h0]; exact hbl
      · rw [htotal, h0, Nat.sub_self]; exact Nat.dvd_zero _
    have hlens := congrArg List.length b5
    simp only [List.length_append, RingBuffer.unread_length, List.length_take,
      List.length_drop] at hlens
    have hmin : min (st1.totalWritten - st.totalWritten) (buf.length - st.totalWritten)
        = st1.totalWritten - st.totalWritten := by
      rw [htotal]; omega
    rw [hmin] at hlens
    have hdiv1 : b ∣ st1.stream.ring.availableToRead :=
      frames_avail_arith hlens hcd (by rw [← List.length_append]; exact hc1) hr1 hdvdT
    have h' : (match WriteToRingBlocking_body buf len timeoutMs deadline (envs.headD {})
        { st with stream := { st.stream with ring := r1 }, consumed := st.consumed ++ c1 } with
      | none => none
      | some (some ex, r) => some (ex, r)
      | some (none, st') =>
        WriteToRingBlocking_loop buf len timeoutMs deadline fuel envs.tail st')
        = some (ex, r) := h
    rw [hb] at h'
    cases ex1 with
    | some ex0 =>
      simp only [Option.some.injEq, Prod.mk.injEq] at h'
      obtain ⟨-, e2⟩ := h'
      subst e2
      exact ⟨htotal, ⟨ring1, hsame⟩, hcd⟩
    | none =>
      simp only [] at h'
      have hrun1 : st1.stream.running = true := by rw [hsame]; exact hrun
      have hopen1 : st1.stream.isOpen = true := by rw [hsame]; exact hopen
      obtain ⟨z1, ⟨ring2, z2⟩, z3⟩ :=
        ih envs.tail st1 ex r htail b2 hrun1 hopen1 hdiv1 hcd (Or.inr htotal) h'
      refine ⟨z1, ⟨ring2, ?_⟩, z3⟩
      rw [z2, hsame]

/-- A call of `WriteToRingBlocking` with a whole number of frames on an open,
running stream whose ring holds whole frames and has room for all of them,
while the render thread reads whole frames only: the call returns `len`, it
has changed nothing of the stream but the ring, the bytes the render thread
has taken followed by the bytes in the ring are the bytes the ring held
followed by `buf`, and the render thread has taken whole frames. -/
theorem WriteToRingBlocking_frames {b : Nat} (s : OutputStreamState) (buf : List Byte)
    (timeoutMs now : Nat) (envs : List WriteEnv) (hwf : s.ring.WellFormed)
    (hopen : s.isOpen = true) (hrun : s.running = true) (h0 : buf.length ≠ 0)
    (hfit : buf.length ≤ s.ring.availableToWrite) (hbl : b ∣ buf.length)
    (hdiv : b ∣ s.ring.availableToRead) (henv : envs.all (WriteEnv.wholeFrames b) = true) :
    ∃ ex ring' r, WriteToRingBlocking s (some buf) buf.length timeoutMs now envs
        = some (ex, r) ∧
      r.totalWritten = buf.length ∧ r.stream = { s with ring := ring' } ∧
      ring'.WellFormed ∧ r.consumed ++ ring'.unread = s.ring.unread ++ buf ∧
      b ∣ r.consumed.length := by
  have hav := RingBuffer.availableToWrite_eq hwf
  have hcap := hwf.cap_lt
  have h64 : buf.length < SIZE_MODULUS := by
    unfold SIZE_MODULUS
    omega
  rw [WriteToRingBlocking_entry s buf buf.length timeoutMs now envs hopen hrun h0]
  obtain ⟨ex, r, hl, c2, -, -, c5, -⟩ :=
    WriteToRingBlocking_loop_spec buf buf.length timeoutMs (now + timeoutMs) (le_refl _) h64
      (envs.length + buf.length + 1) envs
      { totalWritten := 0, stream := s, clock := now } hwf (Nat.zero_le _)
      (Nat.lt_succ_self _)
  obtain ⟨z1, ⟨ring', z2⟩, z3⟩ :=
    WriteToRingBlocking_loop_frames buf buf.length timeoutMs (now + timeoutMs) (le_refl _) h64
      hbl (envs.length + buf.length + 1) envs
      { totalWritten := 0, stream := s, clock := now } ex r henv hwf hrun hopen hdiv
      (Nat.dvd_zero _) (Or.inl ⟨rfl, hfit⟩) hl
  have z2' : r.stream = { s with ring := ring' } := z2
  refine ⟨ex, ring', r, hl, z1, z2', ?_, ?_, z3⟩
  · have : r.stream.ring.WellFormed := c2
    rw [z2'] at this
    exact this
  · have c5' : r.consumed ++ r.stream.ring.unread
        = [] ++ s.ring.unread ++ (buf.drop 0).take (r.totalWritten - 0) := c5
    rw [z2', z1] at c5'
    rw [c5']
    simp

theorem Framed.mono {b : Nat} {A block : List Byte} (more : List Byte)
    (h : Framed b A block) : Framed b (A ++ more) block := by
  obtain ⟨c, k, h1, h2, h3, h4, h5, h6⟩ := h
  refine ⟨c, k, h1, h2, ?_, h4, h5, ?_⟩
  · rw [List.length_append]; omega
  · rw [List.drop_append_of_le_length (by omega),
      List.take_append_of_le_length (by rw [List.length_drop]; omega)]
    exact h6

theorem frame_index_cases (b i k' : Nat) : (i + 1) * b ≤ b * k' ∨ b * k' ≤ i * b := by
  rcases Nat.lt_or_ge i k' with h | h
  · left
    calc (i + 1) * b ≤ k' * b := Nat.mul_le_mul_right _ h
      _ = b * k' := Nat.mul_comm _ _
  · right
    calc b * k' = k' * b := Nat.mul_comm _ _
      _ ≤ i * b := Nat.mul_le_mul_right _ h

/-- The frames of a block of whole frames: each is a frame of the accepted
bytes or a frame of zeros. -/
theorem Framed.frames {b : Nat} {A block : List Byte} (h : Framed b A block) (i : Nat)
    (hi : (i + 1) * b ≤ block.length) :
    frameAt b block i = List.replicate b 0 ∨
      ∃ j, (j + 1) * b ≤ A.length ∧ frameAt b block i = frameAt b A j := by
  obtain ⟨c, k, ⟨c', hc⟩, ⟨k', hk⟩, h3, h4, h5, h6⟩ := h
  have hX : ((A.drop c).take k).length = k := by
    rw [List.length_take, List.length_drop]; omega
  have hexp : (i + 1) * b = i * b + b := by rw [Nat.add_mul, Nat.one_mul]
  rcases frame_index_cases b i k' with hlt | hge
  · right
    refine ⟨c' + i, ?_, ?_⟩
    · have : (c' + i + 1) * b = c + (i + 1) * b := by
        rw [hc, Nat.add_mul, Nat.add_mul, Nat.add_mul, Nat.mul_comm b c']
        omega
      rw [this]
      omega
    · unfold frameAt
      rw [h6, List.drop_append_of_le_length (by rw [hX]; omega),
        List.take_append_of_le_length (by rw [List.length_drop, hX]; omega),
        List.drop_take, List.take_take, List.drop_drop]
      have e1 : min b (k - i * b) = b := by omega
      have e2 : c + i * b = (c' + i) * b := by
        rw [hc, Nat.add_mul, Nat.mul_comm b c']
      rw [e1, e2]
  · left
    unfold frameAt
    rw [h6]
    have hd : ((A.drop c).take k ++ List.replicate (block.length - k) (0 : Byte)).drop (i * b)
        = List.replicate (block.length - k - (i * b - k)) 0 := by
      rw [List.drop_append_eq_append_drop, hX,
        List.drop_of_length_le (by rw [hX]; omega), List.nil_append, List.drop_replicate]
    rw [hd, List.take_replicate]
    congr 1
    omega

/-- A block of zeros of a whole number of frames consists of whole frames. -/
theorem Framed.zeros {b R : Nat} (A : List Byte) (hR : b ∣ R) :
    Framed b A (List.replicate R 0) := by
  refine ⟨0, 0, Nat.dvd_zero _, Nat.dvd_zero _, Nat.zero_le _, Nat.zero_le _, ?_, ?_⟩
  · rw [List.length_replicate]; exact hR
  · simp

/-- A render step that takes nothing out of the ring and hands over zeros
keeps a session aligned. -/
theorem Session.Aligned.silent {s0 : OutputStreamState} {ss : Session}
    (ha : Session.Aligned s0 ss) (R : Nat) (hR : s0.bytesPerFrame ∣ R) (padding : Nat)
    (temp tempBuffer : List Byte)
    (htb : tempBuffer.length = sizeMul s0.periodSize s0.bytesPerFrame) :
    Session.Aligned s0
      { ss with stream := { ss.stream with lastHardwarePaddingFrames := padding },
                temp := temp, tempBuffer := tempBuffer,
                handed := ss.handed ++ [List.replicate R 0],
                consumed := ss.consumed
                  + (ss.stream.ring.availableToRead - ss.stream.ring.availableToRead) } := by
  obtain ⟨ring, pad, hsame⟩ := ha.same
  refine ⟨ha.wf, ⟨ring, padding, ?_⟩, htb, ?_, ?_, ?_, ha.acc, ?_⟩
  · show ({ ss.stream with lastHardwarePaddingFrames := padding } : OutputStreamState) = _
    rw [hsame]
  · show ss.accepted.drop (ss.consumed + (_ - _)) = _
    rw [Nat.sub_self, Nat.add_zero]; exact ha.unread
  · show ss.consumed + (_ - _) ≤ _
    rw [Nat.sub_self, Nat.add_zero]; exact ha.le
  · show s0.bytesPerFrame ∣ ss.consumed + (_ - _)
    rw [Nat.sub_self, Nat.add_zero]; exact ha.cons
  · intro block hb
    have hb' : block ∈ (ss.handed ++ [List.replicate R 0]) ++ ss.during := hb
    rcases List.mem_append.mp hb' with hb1 | hb1
    · rcases List.mem_append.mp hb1 with hb2 | hb2
      · exact ha.handed block (List.mem_append_left _ hb2)
      · rw [List.mem_singleton.mp hb2]
        exact Framed.zeros _ hR
    · exact ha.handed block (List.mem_append_right _ hb1)

/-- A render step that takes the `min(availableToRead(), R)` oldest bytes out
of the ring, for a demand `R` of whole frames, and hands them over followed by
zeros keeps a session aligned. -/
theorem Session.Aligned.render {s0 : OutputStreamState} {ss : Session}
    (ha : Session.Aligned s0 ss) (R : Nat) (hR : s0.bytesPerFrame ∣ R)
    (ring' : RingBuffer) (padding : Nat) (temp tempBuffer : List Byte)
    (htb : tempBuffer.length = sizeMul s0.periodSize s0.bytesPerFrame)
    (hwf' : ring'.WellFormed)
    (hun : ring'.unread
      = ss.stream.ring.unread.drop (min ss.stream.ring.availableToRead R)) :
    Session.Aligned s0
      { ss with stream := { ss.stream with ring := ring',
                                           lastHardwarePaddingFrames := padding },
                temp := temp, tempBuffer := tempBuffer,
                handed := ss.handed
                  ++ [ss.stream.ring.unread.take (min ss.stream.ring.availableToRead R)
                      ++ List.replicate (R - min ss.stream.ring.availableToRead R) 0],
                consumed := ss.consumed
                  + (ss.stream.ring.availableToRead - ring'.availableToRead) } ∧
    (ss.stream.ring.unread.take (min ss.stream.ring.availableToRead R)
      ++ List.replicate (R - min ss.stream.ring.availableToRead R) (0 : Byte)).length = R := by
  obtain ⟨ring, pad, hsame⟩ := ha.same
  have hlenU := RingBuffer.unread_length ss.stream.ring
  have hacc : ss.stream.ring.availableToRead = ss.accepted.length - ss.consumed := by
    rw [← hlenU, ← ha.unread, List.length_drop]
  have hdvdA : s0.bytesPerFrame ∣ ss.stream.ring.availableToRead := by
    rw [hacc]; exact Nat.dvd_sub' ha.acc ha.cons
  have hk : min ss.stream.ring.availableToRead R ≤ ss.stream.ring.availableToRead :=
    Nat.min_le_left _ _
  have hkR : min ss.stream.ring.availableToRead R ≤ R := Nat.min_le_right _ _
  have hkd : s0.bytesPerFrame ∣ min ss.stream.ring.availableToRead R :=
    dvd_min_of_dvd hdvdA hR
  generalize hkdef : min ss.stream.ring.availableToRead R = k at hun hk hkR hkd
  have hX : (ss.stream.ring.unread.take k).length = k := by
    rw [List.length_take, hlenU]; exact Nat.min_eq_left hk
  have hblen : (ss.stream.ring.unread.take k ++ List.replicate (R - k) (0 : Byte)).length
      = R := by
    rw [List.length_append, hX, List.length_replicate]; omega
  have hafter : ring'.availableToRead = ss.stream.ring.availableToRead - k := by
    rw [← RingBuffer.unread_length ring', hun, List.length_drop, hlenU]
  have hcons : ss.stream.ring.availableToRead - ring'.availableToRead = k := by
    rw [hafter]; omega
  have hle2 : ss.consumed + k ≤ ss.accepted.length := by
    have := ha.le
    omega
  refine ⟨⟨hwf', ⟨ring', padding, ?_⟩, htb, ?_, ?_, ?_, ha.acc, ?_⟩, hblen⟩
  · show ({ ss.stream with ring := ring', lastHardwarePaddingFrames := padding }
      : OutputStreamState) = _
    rw [hsame]
  · show ss.accepted.drop (ss.consumed + (_ - _)) = ring'.unread
    rw [hcons, hun, ← ha.unread, List.drop_drop]
  · show ss.consumed + (_ - _) ≤ _
    rw [hcons]; exact hle2
  · show s0.bytesPerFrame ∣ ss.consumed + (_ - _)
    rw [hcons]; exact Nat.dvd_add ha.cons hkd
  · intro block hb
    have hb' : block ∈ (ss.handed
        ++ [ss.stream.ring.unread.take k ++ List.replicate (R - k) 0]) ++ ss.during := hb
    rcases List.mem_append.mp hb' with hb1 | hb1
    · rcases List.mem_append.mp hb1 with hb2 | hb2
      · exact ha.handed block (List.mem_append_left _ hb2)
      · rw [List.mem_singleton.mp hb2]
        refine ⟨ss.consumed, k, ha.cons, hkd, hle2, by rw [hblen]; exact hkR, ?_, ?_⟩
        · rw [hblen]; exact hR
        · rw [hblen, ha.unread]
    · exact ha.handed block (List.mem_append_right _ hb1)

/-- A write call that appends the whole frames `X` to the ring while the render
thread takes the whole frames `c` out of it keeps a session aligned. -/
theorem Session.Aligned.write {s0 : OutputStreamState} {ss : Session}
    (ha : Session.Aligned s0 ss) (X c : List Byte) (ring' : RingBuffer)
    (hwf' : ring'.WellFormed)
    (hcontent : c ++ ring'.unread = ss.stream.ring.unread ++ X)
    (hX : s0.bytesPerFrame ∣ X.length) (hc : s0.bytesPerFrame ∣ c.length) :
    Session.Aligned s0
      { ss with stream := { ss.stream with ring := ring' },
                accepted := ss.accepted ++ X,
                during := ss.during ++ [c],
                consumed := ss.consumed + c.length } := by
  obtain ⟨ring, pad, hsame⟩ := ha.same
  have hdrop : (ss.accepted ++ X).drop ss.consumed = c ++ ring'.unread := by
    rw [List.drop_append_of_le_length ha.le, ha.unread, hcontent]
  have hlen := congrArg List.length hdrop
  rw [List.length_drop, List.length_append, List.length_append] at hlen
  have hle' : ss.consumed + c.length ≤ (ss.accepted ++ X).length := by
    rw [List.length_append]
    have := ha.le
    omega
  refine ⟨hwf', ⟨ring', pad, ?_⟩, ha.temp, ?_, hle', Nat.dvd_add ha.cons hc, ?_, ?_⟩
  · show ({ ss.stream with ring := ring' } : OutputStreamState) = _
    rw [hsame]
  · show (ss.accepted ++ X).drop (ss.consumed + c.length) = ring'.unread
    rw [← List.drop_drop, hdrop, List.drop_left]
  · show s0.bytesPerFrame ∣ (ss.accepted ++ X).length
    rw [List.length_append]
    exact Nat.dvd_add ha.acc hX
  · intro block hb
    have hb' : block ∈ ss.handed ++ (ss.during ++ [c]) := hb
    rw [← List.append_assoc] at hb'
    rcases List.mem_append.mp hb' with hb1 | hb1
    · exact Framed.mono _ (ha.handed block hb1)
    · rw [List.mem_singleton.mp hb1]
      refine ⟨ss.consumed, c.length, ha.cons, hc, hle', le_refl _, hc, ?_⟩
      show c = ((ss.accepted ++ X).drop ss.consumed).take c.length
        ++ List.replicate (c.length - c.length) 0
      rw [hdrop, List.take_left, Nat.sub_self]
      simp

/-- A write of whole frames that the ring has room for, during which the
render thread reads whole frames only, keeps a session aligned. -/
theorem Session.step_write {s0 : OutputStreamState} {ss : Session}
    (ha : Session.Aligned s0 ss) (buf : List Byte) (timeoutMs : Nat) (envs : List WriteEnv)
    (hw : (SessionOp.write buf timeoutMs envs).wholeFrames ss = true) :
    ∃ ss', ss.step (SessionOp.write buf timeoutMs envs) = some ss' ∧ Session.Aligned s0 ss' ∧
      ss'.handed = ss.handed ∧
      (ss.stream.isOpen = true → ss.stream.running = true →
        ss'.accepted = ss.accepted ++ buf) := by
  obtain ⟨ring, pad, hsame⟩ := ha.same
  have hbpf : ss.stream.bytesPerFrame = s0.bytesPerFrame := by rw [hsame]
  have hw0 : (decide (buf.length % ss.stream.bytesPerFrame = 0
      ∧ buf.length ≤ ss.stream.ring.availableToWrite)
      && envs.all (WriteEnv.wholeFrames ss.stream.bytesPerFrame)) = true := hw
  rw [Bool.and_eq_true, hbpf] at hw0
  obtain ⟨hw1, henv⟩ := hw0
  obtain ⟨hmul, hfit⟩ := of_decide_eq_true hw1
  have hlenU := RingBuffer.unread_length ss.stream.ring
  have hacc : ss.stream.ring.availableToRead = ss.accepted.length - ss.consumed := by
    rw [← hlenU, ← ha.unread, List.length_drop]
  have hdiv : s0.bytesPerFrame ∣ ss.stream.ring.availableToRead := by
    rw [hacc]; exact Nat.dvd_sub' ha.acc ha.cons
  by_cases hg : ss.stream.isOpen = false ∨ ss.stream.running = false ∨ buf.length = 0
  · have hW := WriteToRingBlocking_guard ss.stream buf buf.length timeoutMs 0 envs hg
    have hA := ha.write (buf.take 0) [] ss.stream.ring ha.wf (by simp)
      (by simp) (Nat.dvd_zero _)
    refine ⟨_, ?_, hA, rfl, ?_⟩
    · simp only [Session.step, hW]
    · intro ho hr
      rcases hg with h | h | h
      · rw [ho] at h; cases h
      · rw [hr] at h; cases h
      · have : buf = [] := List.length_eq_zero.mp h
        subst this
        rfl
  · have hopen : ss.stream.isOpen = true := by
      cases h : ss.stream.isOpen
      · exact absurd (Or.inl h) hg
      · rfl
    have hrun : ss.stream.running = true := by
      cases h : ss.stream.running
      · exact absurd (Or.inr (Or.inl h)) hg
      · rfl
    have h0 : buf.length ≠ 0 := fun h => hg (Or.inr (Or.inr h))
    obtain ⟨ex, ring', r, hW, hr1, hr2, hwf', hcont, hcd⟩ :=
      WriteToRingBlocking_frames ss.stream buf timeoutMs 0 envs ha.wf hopen hrun h0 hfit
        (Nat.dvd_of_mod_eq_zero hmul) hdiv henv
    have hA := ha.write buf r.consumed ring' hwf' hcont (Nat.dvd_of_mod_eq_zero hmul) hcd
    refine ⟨_, ?_, hA, rfl, fun _ _ => rfl⟩
    simp only [Session.step, hW, hr1, hr2, List.take_length]

theorem audioBytes_singleton (b : AudioBuffer) :
    audioBytes [b] = b.mData.take b.mDataByteSize := by
  simp [audioBytes]

/-- `CoreAudioRenderCallback` on a stream that is not running zeroes the
buffers and leaves the stream alone. -/
theorem CoreAudioRenderCallback_stopped (s : OutputStreamState) (N : Nat)
    (io : List AudioBuffer) (hr : s.running = false)
    (hv : ∀ b ∈ io, b.mDataByteSize ≤ b.mData.length) :
    CoreAudioRenderCallback s N io
      = some (s, io.map (fun b =>
          { b with mData := List.replicate b.mDataByteSize 0 ++ b.mData.drop b.mDataByteSize }),
          false) := by
  unfold CoreAudioRenderCallback
  simp only [hr, Bool.not_false, if_true, CoreAudioRenderCallback_silence_eq io hv]

/-- A WASAPI demand for whole frames keeps a session aligned. -/
theorem Session.step_renderWasapi {s0 : OutputStreamState} {ss : Session}
    (ha : Session.Aligned s0 ss) (h32 : s0.bytesPerFrame < UINT_MODULUS)
    (n : Nat) (data : List Byte)
    (hw : (SessionOp.renderWasapi n data).wholeFrames ss = true) :
    ∃ ss', ss.step (SessionOp.renderWasapi n data) = some ss' ∧ Session.Aligned s0 ss' ∧
      ss'.accepted = ss.accepted ∧
      (∃ block, ss'.handed = ss.handed ++ [block] ∧ block.length = n * s0.bytesPerFrame) := by
  obtain ⟨ring, pad, hsame⟩ := ha.same
  have hbpf : ss.stream.bytesPerFrame = s0.bytesPerFrame := by rw [hsame]
  have hw' : n < UINT_MODULUS ∧ n * ss.stream.bytesPerFrame ≤ data.length :=
    of_decide_eq_true hw
  obtain ⟨hn, hdata⟩ := hw'
  have h64 : n * ss.stream.bytesPerFrame < SIZE_MODULUS :=
    uint_mul_lt_size hn (by rw [hbpf]; exact h32)
  have hR : sizeMul n ss.stream.bytesPerFrame = n * ss.stream.bytesPerFrame := sizeMul_eq h64
  have hdvdR : s0.bytesPerFrame ∣ n * ss.stream.bytesPerFrame := by
    rw [hbpf]; exact Nat.dvd_mul_left _ _
  cases hp : ss.stream.paused with
  | true =>
    have hF := WasapiRenderThread_fill_paused ss.stream ss.temp n data hp h64 hdata
    have hblock : (List.replicate (n * ss.stream.bytesPerFrame) (0 : Byte)
        ++ data.drop (n * ss.stream.bytesPerFrame)).take (sizeMul n ss.stream.bytesPerFrame)
        = List.replicate (n * ss.stream.bytesPerFrame) 0 := by
      rw [hR, List.take_append_of_le_length (by rw [List.length_replicate]),
        List.take_of_length_le (by rw [List.length_replicate])]
    have hA := ha.silent (n * ss.stream.bytesPerFrame) hdvdR
      ss.stream.lastHardwarePaddingFrames ss.temp ss.tempBuffer ha.temp
    refine ⟨_, ?_, hA, rfl, _, rfl, ?_⟩
    · simp only [Session.step, hF, hblock]
    · rw [List.length_replicate, hbpf]
  | false =>
    obtain ⟨ring', temp', hF, hwf', hun, -, -, -, -⟩ :=
      WasapiRenderThread_fill_running ss.stream ss.temp n data ha.wf hp h64 hdata
    obtain ⟨hA, hblen⟩ := ha.render (n * ss.stream.bytesPerFrame) hdvdR ring'
      ss.stream.lastHardwarePaddingFrames temp' ss.tempBuffer ha.temp hwf' hun
    have hblock : (ss.stream.ring.unread.take
          (min ss.stream.ring.availableToRead (n * ss.stream.bytesPerFrame))
          ++ List.replicate (n * ss.stream.bytesPerFrame
              - min ss.stream.ring.availableToRead (n * ss.stream.bytesPerFrame)) (0 : Byte)
          ++ data.drop (n * ss.stream.bytesPerFrame)).take (sizeMul n ss.stream.bytesPerFrame)
        = ss.stream.ring.unread.take
            (min ss.stream.ring.availableToRead (n * ss.stream.bytesPerFrame))
          ++ List.replicate (n * ss.stream.bytesPerFrame
              - min ss.stream.ring.availableToRead (n * ss.stream.bytesPerFrame)) 0 := by
      rw [hR, List.take_append_of_le_length (by rw [hblen]),
        List.take_of_length_le (by rw [hblen])]
    refine ⟨_, ?_, hA, rfl, _, rfl, ?_⟩
    · simp only [Session.step, hF, hblock]
    · rw [hblen, hbpf]

/-- A CoreAudio demand for whole frames with one buffer of the size of the
demand keeps a session aligned. -/
theorem Session.step_renderCoreAudio {s0 : OutputStreamState} {ss : Session}
    (ha : Session.Aligned s0 ss) (n : Nat) (io : List AudioBuffer)
    (hw : (SessionOp.renderCoreAudio n io).wholeFrames ss = true) :
    ∃ ss', ss.step (SessionOp.renderCoreAudio n io) = some ss' ∧ Session.Aligned s0 ss' ∧
      ss'.accepted = ss.accepted ∧
      (∃ block, ss'.handed = ss.handed ++ [block] ∧ block.length = n * s0.bytesPerFrame) := by
  obtain ⟨ring, pad, hsame⟩ := ha.same
  have hbpf : ss.stream.bytesPerFrame = s0.bytesPerFrame := by rw [hsame]
  match io, hw with
  | [b], hw =>
    have hw' : n * ss.stream.bytesPerFrame < UINT_MODULUS
        ∧ b.mDataByteSize = n * ss.stream.bytesPerFrame
        ∧ b.mDataByteSize ≤ b.mData.length := of_decide_eq_true hw
    obtain ⟨h32, hsz, hroom⟩ := hw'
    have hdvdR : s0.bytesPerFrame ∣ n * ss.stream.bytesPerFrame := by
      rw [hbpf]; exact Nat.dvd_mul_left _ _
    have hv : ∀ b' ∈ [b], b'.mDataByteSize ≤ b'.mData.length := by
      intro b' hb'
      rw [List.mem_singleton.mp hb']
      exact hroom
    have hsil : audioBytes ([b].map (fun b =>
        { b with mData := List.replicate b.mDataByteSize 0 ++ b.mData.drop b.mDataByteSize }))
        = List.replicate (n * ss.stream.bytesPerFrame) 0 := by
      rw [audioBytes_silenced [b] hv]
      simp [hsz]
    by_cases hsilent : ss.stream.running = false ∨ ss.stream.paused = true
    · have hF : ∃ p nf, CoreAudioRenderCallback ss.stream n [b]
          = some ({ ss.stream with lastHardwarePaddingFrames := p },
              [b].map (fun b =>
                { b with mData := List.replicate b.mDataByteSize 0
                    ++ b.mData.drop b.mDataByteSize }), nf) := by
        rcases hsilent with hr | hp
        · exact ⟨ss.stream.lastHardwarePaddingFrames, false,
            CoreAudioRenderCallback_stopped ss.stream n [b] hr hv⟩
        · exact CoreAudioRenderCallback_paused ss.stream n [b] hp hv
      obtain ⟨p, nf, hF⟩ := hF
      have hA := ha.silent (n * ss.stream.bytesPerFrame) hdvdR p ss.temp ss.tempBuffer ha.temp
      refine ⟨_, ?_, hA, rfl, _, rfl, ?_⟩
      · simp only [Session.step, hF, hsil]
      · rw [List.length_replicate, hbpf]
    · have hrun : ss.stream.running = true := by
        cases h : ss.stream.running
        · exact absurd (Or.inl h) hsilent
        · rfl
      have hp : ss.stream.paused = false := by
        cases h : ss.stream.paused
        · rfl
        · exact absurd (Or.inr h) hsilent
      obtain ⟨ring', hF, hwf', hun, -, -, -, -⟩ :=
        CoreAudioRenderCallback_interleaved ss.stream n b ha.wf hrun hp h32
          (by rw [← hsz]; exact hroom)
      obtain ⟨hA, hblen⟩ := ha.render (n * ss.stream.bytesPerFrame) hdvdR ring' n
        ss.temp ss.tempBuffer ha.temp hwf' hun
      have hblock : audioBytes
          [{ mData := ss.stream.ring.unread.take
                (min ss.stream.ring.availableToRead (n * ss.stream.bytesPerFrame))
              ++ List.replicate (n * ss.stream.bytesPerFrame
                  - min ss.stream.ring.availableToRead (n * ss.stream.bytesPerFrame)) 0
              ++ b.mData.drop (n * ss.stream.bytesPerFrame),
             mDataByteSize := n * ss.stream.bytesPerFrame }]
          = ss.stream.ring.unread.take
              (min ss.stream.ring.availableToRead (n * ss.stream.bytesPerFrame))
            ++ List.replicate (n * ss.stream.bytesPerFrame
                - min ss.stream.ring.availableToRead (n * ss.stream.bytesPerFrame)) 0 := by
        rw [audioBytes_singleton]
        show List.take (n * ss.stream.bytesPerFrame) _ = _
        rw [List.take_append_of_le_length (by rw [hblen]),
          List.take_of_length_le (by rw [hblen])]
      refine ⟨_, ?_, hA, rfl, _, rfl, ?_⟩
      · simp only [Session.step, hF, hblock]
      · rw [hblen, hbpf]

/-- An ALSA period of whole frames keeps a session aligned. -/
theorem Session.step_renderAlsa {s0 : OutputStreamState} {ss : Session}
    (ha : Session.Aligned s0 ss)
    (hw : SessionOp.renderAlsa.wholeFrames ss = true) :
    ∃ ss', ss.step SessionOp.renderAlsa = some ss' ∧ Session.Aligned s0 ss' ∧
      ss'.accepted = ss.accepted ∧
      (∃ block, ss'.handed = ss.handed ++ [block]
        ∧ block.length = s0.periodSize * s0.bytesPerFrame) := by
  obtain ⟨ring, pad, hsame⟩ := ha.same
  have hbpf : ss.stream.bytesPerFrame = s0.bytesPerFrame := by rw [hsame]
  have hps : ss.stream.periodSize = s0.periodSize := by rw [hsame]
  have hw' : ss.stream.periodSize * ss.stream.bytesPerFrame < SIZE_MODULUS
      ∧ 0 < ss.stream.bytesPerFrame := of_decide_eq_true hw
  obtain ⟨h64, hpos⟩ := hw'
  have htemp : ss.tempBuffer.length = ss.stream.periodSize * ss.stream.bytesPerFrame := by
    rw [ha.temp, ← hbpf, ← hps]
    exact sizeMul_eq h64
  have hdvdR : s0.bytesPerFrame ∣ ss.stream.periodSize * ss.stream.bytesPerFrame := by
    rw [hbpf]; exact Nat.dvd_mul_left _ _
  cases hp : ss.stream.paused with
  | true =>
    have hF := AlsaRenderThread_fill_paused ss.stream ss.tempBuffer hp
    have hA := ha.silent (ss.stream.periodSize * ss.stream.bytesPerFrame) hdvdR
      ss.stream.lastHardwarePaddingFrames ss.temp (List.replicate ss.tempBuffer.length 0)
      (by rw [List.length_replicate]; exact ha.temp)
    have hblock : (List.replicate ss.tempBuffer.length (0 : Byte)).take
        (ss.stream.periodSize * ss.stream.bytesPerFrame)
        = List.replicate (ss.stream.periodSize * ss.stream.bytesPerFrame) 0 := by
      rw [htemp, List.take_of_length_le (by rw [List.length_replicate])]
    refine ⟨_, ?_, hA, rfl, _, rfl, ?_⟩
    · simp only [Session.step, hF, hblock]
    · rw [List.length_replicate, hbpf, hps]
  | false =>
    obtain ⟨ring', hF, hwf', hun, -, -, -, -⟩ :=
      AlsaRenderThread_fill_running ss.stream ss.tempBuffer ha.wf hp h64 hpos htemp
    have hlen0 : (ss.stream.ring.unread.take
          (min ss.stream.ring.availableToRead (ss.stream.periodSize * ss.stream.bytesPerFrame))
          ++ List.replicate (ss.stream.periodSize * ss.stream.bytesPerFrame
              - min ss.stream.ring.availableToRead
                  (ss.stream.periodSize * ss.stream.bytesPerFrame)) (0 : Byte)).length
        = ss.stream.periodSize * ss.stream.bytesPerFrame := by
      rw [List.length_append, List.length_take, List.length_replicate,
        RingBuffer.unread_length]
      omega
    obtain ⟨hA, hblen⟩ := ha.render (ss.stream.periodSize * ss.stream.bytesPerFrame) hdvdR
      ring' ss.stream.lastHardwarePaddingFrames ss.temp
      (ss.stream.ring.unread.take
          (min ss.stream.ring.availableToRead (ss.stream.periodSize * ss.stream.bytesPerFrame))
        ++ List.replicate (ss.stream.periodSize * ss.stream.bytesPerFrame
            - min ss.stream.ring.availableToRead
                (ss.stream.periodSize * ss.stream.bytesPerFrame)) 0)
      (by rw [hlen0, ← sizeMul_eq h64, hbpf, hps]) hwf' hun
    have hblock : (ss.stream.ring.unread.take
          (min ss.stream.ring.availableToRead (ss.stream.periodSize * ss.stream.bytesPerFrame))
          ++ List.replicate (ss.stream.periodSize * ss.stream.bytesPerFrame
              - min ss.stream.ring.availableToRead
                  (ss.stream.periodSize * ss.stream.bytesPerFrame)) (0 : Byte)).take
          (ss.stream.periodSize * ss.stream.bytesPerFrame)
        = ss.stream.ring.unread.take
            (min ss.stream.ring.availableToRead (ss.stream.periodSize * ss.stream.bytesPerFrame))
          ++ List.replicate (ss.stream.periodSize * ss.stream.bytesPerFrame
              - min ss.stream.ring.availableToRead
                  (ss.stream.periodSize * ss.stream.bytesPerFrame)) 0 :=
      List.take_of_length_le (by rw [hlen0])
    refine ⟨_, ?_, hA, rfl, _, rfl, ?_⟩
    · simp only [Session.step, hF, hblock]
    · rw [hblen, hbpf, hps]

/-- A session of events that deal in whole frames runs to its end and stays
aligned. -/
theorem Session.run_aligned (s0 : OutputStreamState) (h32 : s0.bytesPerFrame < UINT_MODULUS) :
    ∀ (ops : List SessionOp) (ss : Session), Session.Aligned s0 ss →
      ss.wholeFrames ops = true →
      ∃ ss', ss.run ops = some ss' ∧ Session.Aligned s0 ss' ∧
        ss'.handed.map List.length
          = ss.handed.map List.length ++ Session.demanded s0 ops ∧
        (s0.isOpen = true → s0.running = true →
          ss'.accepted = ss.accepted ++ Session.offered ops) := by
  intro ops
  induction ops with
  | nil =>
    intro ss ha _
    exact ⟨ss, rfl, ha, by simp [Session.demanded], fun _ _ => by simp [Session.offered]⟩
  | cons op ops ih =>
    intro ss ha hw
    have hw1 : op.wholeFrames ss = true ∧
        (match ss.step op with
          | none => true
          | some ss' => Session.wholeFrames ss' ops) = true := by
      have : (op.wholeFrames ss &&
          (match ss.step op with
            | none => true
            | some ss' => Session.wholeFrames ss' ops)) = true := hw
      exact Bool.and_eq_true_iff.mp this
    obtain ⟨ring, pad, hsame⟩ := ha.same
    have hrender : ∀ (R : Nat),
        Session.demanded s0 (op :: ops) = R :: Session.demanded s0 ops →
        Session.offered (op :: ops) = Session.offered ops →
        (∃ ss1, ss.step op = some ss1 ∧ Session.Aligned s0 ss1 ∧ ss1.accepted = ss.accepted ∧
          ∃ block, ss1.handed = ss.handed ++ [block] ∧ block.length = R) →
        ∃ ss', ss.run (op :: ops) = some ss' ∧ Session.Aligned s0 ss' ∧
          ss'.handed.map List.length
            = ss.handed.map List.length ++ Session.demanded s0 (op :: ops) ∧
          (s0.isOpen = true → s0.running = true →
            ss'.accepted = ss.accepted ++ Session.offered (op :: ops)) := by
      intro R hdem hoff ⟨ss1, hs1, ha1, hacc1, block, hb1, hb2⟩
      have hw2 : Session.wholeFrames ss1 ops = true := by
        have := hw1.2
        rw [hs1] at this
        exact this
      obtain ⟨ss2, hr2, ha2, hl2, hacc2⟩ := ih ss1 ha1 hw2
      refine ⟨ss2, ?_, ha2, ?_, ?_⟩
      · simp only [Session.run, hs1, hr2]
      · rw [hl2, hb1, List.map_append, List.map_singleton, hb2, List.append_assoc, hdem]
        rfl
      · intro ho hr
        rw [hacc2 ho hr, hacc1, hoff]
    cases op with
    | write buf timeoutMs envs =>
      obtain ⟨ss1, hs1, ha1, hh1, hacc1⟩ := Session.step_write ha buf timeoutMs envs hw1.1
      have hw2 : Session.wholeFrames ss1 ops = true := by
        have := hw1.2
        rw [hs1] at this
        exact this
      obtain ⟨ss2, hr2, ha2, hl2, hacc2⟩ := ih ss1 ha1 hw2
      refine ⟨ss2, ?_, ha2, ?_, ?_⟩
      · simp only [Session.run, hs1, hr2]
      · rw [hl2, hh1]
        rfl
      · intro ho hr
        rw [hacc2 ho hr, hacc1 (by rw [hsame]; exact ho) (by rw [hsame]; exact hr),
          List.append_assoc]
        rfl
    | renderWasapi n data =>
      exact hrender _ rfl rfl (Session.step_renderWasapi ha h32 n data hw1.1)
    | renderCoreAudio n io =>
      exact hrender _ rfl rfl (Session.step_renderCoreAudio ha n io hw1.1)
    | renderAlsa =>
      exact hrender _ rfl rfl (Session.step_renderAlsa ha hw1.1)

/-- C30 as stated fails on the code.  The stream that `InitWasapi` leaves of
`exampleOpen100` on `exampleWasapiOneFrame` has a ring of 8 bytes, two frames
of 4 bytes.  A non-blocking write of two frames gets 7 bytes into it, and a
render step that asks for two frames takes those 7 bytes out: the count
consumed is not a multiple of 4, and the second frame handed to the device is
the bytes 5, 6, 7 followed by a zero.  A blocking write of the same two frames,
during which the render thread asks for two frames, ends with all 8 bytes
written, after the render thread has taken 7 of them. -/
theorem C30_frame_alignment_counterexample :
    InitWasapi exampleWasapiOneFrame (OpenOutput_state exampleOpen100) true 20 false
      = some (true, { exampleFrameStream with running := false }) ∧
    exampleFrameStream.ring.capacity = 2 * exampleFrameStream.bytesPerFrame ∧
    (Session.run (Session.start exampleFrameStream)
        [.write [1, 2, 3, 4, 5, 6, 7, 8] 0 [], .renderWasapi 2 (List.replicate 8 0)]).map
      (fun ss => (ss.accepted, ss.handed, ss.consumed))
      = some ([1, 2, 3, 4, 5, 6, 7], [[1, 2, 3, 4, 5, 6, 7, 0]], 7) ∧
    7 % exampleFrameStream.bytesPerFrame = 3 ∧
    frameAt 4 [1, 2, 3, 4, 5, 6, 7, 0] 1 = [5, 6, 7, 0] ∧
    (WriteToRingBlocking exampleFrameStream (some [1, 2, 3, 4, 5, 6, 7, 8]) 8 2000 0
        [{}, { asleep := [EnvOp.consume 8], wake := some 1 }]).map
      (fun r => (r.1, r.2.totalWritten, r.2.consumed, r.2.stream.ring.unread))
      = some (WriteExit.done, 8, [1, 2, 3, 4, 5, 6, 7], [8]) := by
  refine ⟨by decide!, by decide, by decide!, by decide, by decide, by decide!⟩

/-- C30, amended: on a stream whose ring is empty, a session of write calls
(blocking or not) and render steps of the three backends (the buffer fill of
an iteration of `WasapiRenderThread` or `AlsaRenderThread`, an invocation of
`CoreAudioRenderCallback` with one buffer) in which every write passes a whole
number of frames for which the ring has room at the time of the call
(`len <= availableToWrite()`) while the render thread reads whole frames only,
and every render step asks for a whole number of frames, runs to its end; the
number of bytes consumed from the ring is then a multiple of `bytesPerFrame`,
the bytes consumed and the bytes left in the ring add up to the bytes written,
each render step has handed over a block of the size it was asked for, and
every frame of every block handed to the device, or taken out of the ring
during a write call, is a frame of zeros or a whole frame of the bytes
written. -/
theorem C30_frame_alignment (s : OutputStreamState) (ops : List SessionOp)
    (hre : s.ring.Reachable) (hempty : s.ring.availableToRead = 0)
    (h32 : s.bytesPerFrame < UINT_MODULUS)
    (hops : Session.wholeFrames (Session.start s) ops = true) :
    ∃ ss, Session.run (Session.start s) ops = some ss ∧
      ss.consumed % s.bytesPerFrame = 0 ∧
      ss.consumed + ss.stream.ring.availableToRead = ss.accepted.length ∧
      ss.handed.map List.length = Session.demanded s ops ∧
      (s.isOpen = true → s.running = true → ss.accepted = Session.offered ops) ∧
      ∀ block ∈ ss.handed ++ ss.during, ∀ i, (i + 1) * s.bytesPerFrame ≤ block.length →
        frameAt s.bytesPerFrame block i = List.replicate s.bytesPerFrame 0 ∨
        ∃ j, (j + 1) * s.bytesPerFrame ≤ ss.accepted.length ∧
          frameAt s.bytesPerFrame block i = frameAt s.bytesPerFrame ss.accepted j := by
  have hun : s.ring.unread = [] :=
    List.length_eq_zero.mp (by rw [RingBuffer.unread_length, hempty])
  have h0 : Session.Aligned s (Session.start s) :=
    ⟨hre.wellFormed, ⟨s.ring, s.lastHardwarePaddingFrames, rfl⟩,
      by simp [Session.start, AlsaRenderThread_tempBuffer],
      hun.symm, Nat.le_refl _, Nat.dvd_zero _, Nat.dvd_zero _, fun block hb => by cases hb⟩
  obtain ⟨ss, hr, ha, hl, hacc⟩ := Session.run_aligned s h32 ops (Session.start s) h0 hops
  refine ⟨ss, hr, Nat.mod_eq_zero_of_dvd ha.cons, ?_, ?_, ?_, ?_⟩
  · have h1 := congrArg List.length ha.unread
    rw [List.length_drop, RingBuffer.unread_length] at h1
    have h2 := ha.le
    omega
  · rw [hl]; rfl
  · intro ho hrn
    rw [hacc ho hrn]; rfl
  · intro block hb i hi
    exact (ha.handed block hb).frames i hi

/-- C30 on a concrete session: on `exampleSessionStream`, a write of two
frames, an ALSA period that takes the first, a blocking write of a third frame
during which the render thread takes the second, a CoreAudio demand for two
frames that gets the third and a frame of zeros, and a WASAPI demand that gets
a frame of zeros. -/
theorem C30_frame_alignment_witness :
    exampleSessionStream.ring.Reachable ∧ exampleSessionStream.ring.availableToRead = 0 ∧
    exampleSessionStream.bytesPerFrame < UINT_MODULUS ∧
    Session.wholeFrames (Session.start exampleSessionStream) exampleSession = true ∧
    (Session.run (Session.start exampleSessionStream) exampleSession).map
      (fun ss => (ss.accepted, ss.handed, ss.during, ss.consumed))
      = some ([1, 2, 3, 4, 5, 6, 7, 8, 9, 10, 11, 12],
          [[1, 2, 3, 4], [9, 10, 11, 12, 0, 0, 0, 0], [0, 0, 0, 0]],
          [[], [5, 6, 7, 8]], 12) ∧
    ∃ ss, Session.run (Session.start exampleSessionStream) exampleSession = some ss ∧
      ss.consumed % exampleSessionStream.bytesPerFrame = 0 ∧
      ss.consumed + ss.stream.ring.availableToRead = ss.accepted.length ∧
      ss.handed.map List.length = Session.demanded exampleSessionStream exampleSession ∧
      (exampleSessionStream.isOpen = true → exampleSessionStream.running = true →
        ss.accepted = Session.offered exampleSession) ∧
      ∀ block ∈ ss.handed ++ ss.during, ∀ i,
        (i + 1) * exampleSessionStream.bytesPerFrame ≤ block.length →
        frameAt exampleSessionStream.bytesPerFrame block i
            = List.replicate exampleSessionStream.bytesPerFrame 0 ∨
        ∃ j, (j + 1) * exampleSessionStream.bytesPerFrame ≤ ss.accepted.length ∧
          frameAt exampleSessionStream.bytesPerFrame block i
            = frameAt exampleSessionStream.bytesPerFrame ss.accepted j :=
  ⟨@RingBuffer.Reachable.init 16 _ rfl, by decide, by decide, by decide!, by decide!,
   C30_frame_alignment exampleSessionStream exampleSession
     (@RingBuffer.Reachable.init 16 _ rfl) (by decide) (by decide) (by decide!)⟩

/-! ## The render threads: fatal faults and wake-ups -/

/-- What one iteration of `WasapiRenderThread` does to the events: nothing, or
a block handed over followed by `notify_all`; `exited` stays as it is. -/
theorem WasapiRenderThread_iteration_events {st st' : RenderRun} {c : WasapiCycle} {b : Bool}
    (h : WasapiRenderThread_iteration st c = some (b, st')) :
    st'.exited = st.exited ∧
    (st'.events = st.events ∨
      ∃ out n, st'.events = st.events ++ [RenderEvent.handed out n, RenderEvent.notify]) := by
  unfold WasapiRenderThread_iteration at h
  dsimp only at h
  repeat' split at h
  all_goals
    cases h <;> first
      | exact ⟨rfl, Or.inl rfl⟩
      | exact ⟨rfl, Or.inr ⟨_, _, rfl⟩⟩

theorem WasapiRenderThread_loop_exited {cycles : List WasapiCycle} :
    ∀ {st st' : RenderRun} {b : Bool},
      WasapiRenderThread_loop st cycles = some (b, st') → st'.exited = st.exited := by
  induction cycles with
  | nil =>
    intro st st' b h
    simp only [WasapiRenderThread_loop, Option.some.injEq, Prod.mk.injEq] at h
    rw [← h.2]
  | cons c cs ih =>
    intro st st' b h
    rw [WasapiRenderThread_loop] at h
    split at h
    · cases h
    · rename_i st1 h1
      simp only [Option.some.injEq, Prod.mk.injEq] at h
      rw [← h.2]
      exact (WasapiRenderThread_iteration_events h1).1
    · rename_i st1 h1
      rw [ih h]
      exact (WasapiRenderThread_iteration_events h1).1

/-- Every return of `WasapiRenderThread` after a successful `Start` leaves
`running` and `open` false and ends with a `notify_all`. -/
theorem WasapiRenderThread_exit {s : OutputStreamState} {cycles : List WasapiCycle}
    {r : RenderRun} (h : WasapiRenderThread s true true cycles = some r)
    (he : r.exited = true) :
    r.stream.running = false ∧ r.stream.isOpen = false ∧
      r.events.getLast? = some RenderEvent.notify := by
  unfold WasapiRenderThread at h
  simp only [Bool.not_true, Bool.false_eq_true, if_false] at h
  split at h
  · cases h
  · rename_i st hl
    injection h with h
    have := WasapiRenderThread_loop_exited hl
    rw [h, he] at this
    cases this
  · rename_i st hl
    injection h with h
    rw [← h]
    exact ⟨rfl, rfl, by simp⟩
/-- A cycle in which the backend reports a fatal condition to a running, open
`WasapiRenderThread`, with no store by another thread. -/
theorem WasapiRenderThread_iteration_fatal (st : RenderRun) (c : WasapiCycle)
    (hb : c.before = []) (hd : c.duringWait = [])
    (hrun : st.stream.running = true) (hopen : st.stream.isOpen = true)
    (hf : c.waitRes = WaitResult.WAIT_FAILED ∨
      (c.waitRes = WaitResult.WAIT_OBJECT_0 ∧ c.GetCurrentPadding = none) ∨
      (c.waitRes = WaitResult.WAIT_OBJECT_0 ∧ ∃ p, c.GetCurrentPadding = some p ∧
        p < st.stream.bufferFrames ∧ c.GetBuffer = none) ∨
      (c.waitRes = WaitResult.WAIT_OBJECT_0 ∧ ∃ p data, c.GetCurrentPadding = some p ∧
        p < st.stream.bufferFrames ∧ c.GetBuffer = some data ∧ c.ReleaseBuffer = false ∧
        (WasapiRenderThread_fill { st.stream with lastHardwarePaddingFrames := p } st.temp
          (st.stream.bufferFrames - p) data).isSome = true)) :
    ∃ st', WasapiRenderThread_iteration st c = some (true, st') := by
  have e1 : FlagStore.applyAll st.stream c.before = st.stream := by rw [hb]; rfl
  have e2 : FlagStore.applyAll st.stream c.duringWait = st.stream := by rw [hd]; rfl
  have hc : (!(st.stream.running && st.stream.isOpen)) = false := by rw [hrun, hopen]; rfl
  have hr : (!st.stream.running) = false := by rw [hrun]; rfl
  unfold WasapiRenderThread_iteration
  simp only [e1, e2, hc, hr, Bool.false_eq_true, if_false]
  rcases hf with h | ⟨h1, h2⟩ | ⟨h1, p, h2, h3, h4⟩ | ⟨h1, p, data, h2, h3, h4, h5, h6⟩
  · rw [h]
    exact ⟨_, rfl⟩
  · rw [h1, h2]
    exact ⟨_, rfl⟩
  · rw [h1, h2]
    have hft : (if st.stream.bufferFrames > p then st.stream.bufferFrames - p else 0)
        = st.stream.bufferFrames - p := if_pos h3
    have hne : ¬ st.stream.bufferFrames - p = 0 := by omega
    simp only [hft, hne, if_false, h4]
    exact ⟨_, rfl⟩
  · rw [h1, h2]
    have hft : (if st.stream.bufferFrames > p then st.stream.bufferFrames - p else 0)
        = st.stream.bufferFrames - p := if_pos h3
    have hne : ¬ st.stream.bufferFrames - p = 0 := by omega
    simp only [hft, hne, if_false, h4]
    cases hfill : WasapiRenderThread_fill { st.stream with lastHardwarePaddingFrames := p }
        st.temp (st.stream.bufferFrames - p) data with
    | none => rw [hfill] at h6; cases h6
    | some r =>
      obtain ⟨s', temp', out⟩ := r
      simp only [h5, Bool.not_false, if_true]
      exact ⟨_, rfl⟩

/-- A fatal condition in its first cycle makes `WasapiRenderThread` return. -/
theorem WasapiRenderThread_fatal (s : OutputStreamState) (c : WasapiCycle)
    (rest : List WasapiCycle)
    (h : ∃ st', WasapiRenderThread_iteration { stream := { s with running := true } } c
      = some (true, st')) :
    ∃ r, WasapiRenderThread s true true (c :: rest) = some r ∧ r.exited = true := by
  obtain ⟨st', h⟩ := h
  unfold WasapiRenderThread
  simp only [Bool.not_true, Bool.false_eq_true, if_false, WasapiRenderThread_loop, h]
  exact ⟨_, rfl, rfl⟩

/-- The length of the vector `tempBuffer` of `AlsaRenderThread`. -/
theorem AlsaRenderThread_tempBuffer_length (s : OutputStreamState)
    (h64 : s.periodSize * s.bytesPerFrame < SIZE_MODULUS) :
    (AlsaRenderThread_tempBuffer s).length = s.periodSize * s.bytesPerFrame := by
  unfold AlsaRenderThread_tempBuffer
  rw [List.length_replicate, sizeMul_eq h64]

/-- An un-paused iteration of `AlsaRenderThread` in which `snd_pcm_writei`
fails with an error other than `EPIPE`, or fails with `EPIPE` and the
re-prepare fails: the loop is left, with no event. -/
theorem AlsaRenderThread_iteration_fatal (st : RenderRun) (c : AlsaCycle)
    (hb : c.before = []) (hrun : st.stream.running = true) (hp : st.stream.paused = false)
    (hwf : st.stream.ring.WellFormed) (hbpf : 0 < st.stream.bytesPerFrame)
    (h64 : st.stream.periodSize * st.stream.bytesPerFrame < SIZE_MODULUS)
    (htemp : st.temp.length = st.stream.periodSize * st.stream.bytesPerFrame)
    (hf : (c.snd_pcm_writei < 0 ∧ c.snd_pcm_writei ≠ -EPIPE) ∨
      (c.snd_pcm_writei = -EPIPE ∧ c.snd_pcm_prepare < 0)) :
    ∃ ring' t, AlsaRenderThread_iteration st c
      = some (true, { st with stream := { st.stream with ring := ring' }, temp := t }) := by
  obtain ⟨ring', hfill, -⟩ := AlsaRenderThread_fill_running st.stream st.temp hwf hp h64 hbpf htemp
  have hneg : ¬ c.snd_pcm_writei ≥ 0 := by
    rcases hf with ⟨h1, -⟩ | ⟨h1, -⟩
    · omega
    · rw [h1]; unfold EPIPE; omega
  unfold AlsaRenderThread_iteration
  simp only [hb, FlagStore.applyAll, List.foldl, hrun, hp, Bool.not_true, Bool.false_eq_true,
    if_false, hfill, hneg]
  rcases hf with ⟨h1, h2⟩ | ⟨h1, h2⟩
  · rw [if_neg (fun h => h2 h.1), if_pos ⟨h2, h1⟩]
    exact ⟨_, _, rfl⟩
  · rw [if_pos ⟨h1, h2⟩]
    exact ⟨_, _, rfl⟩

/-- With such a failure in its first cycle `AlsaRenderThread` returns with
`running` false, `open` as it was and no `notify_all`. -/
theorem AlsaRenderThread_fatal (s : OutputStreamState) (c : AlsaCycle) (rest : List AlsaCycle)
    (hb : c.before = []) (hp : s.paused = false)
    (hwf : s.ring.WellFormed) (hbpf : 0 < s.bytesPerFrame)
    (h64 : s.periodSize * s.bytesPerFrame < SIZE_MODULUS)
    (hf : (c.snd_pcm_writei < 0 ∧ c.snd_pcm_writei ≠ -EPIPE) ∨
      (c.snd_pcm_writei = -EPIPE ∧ c.snd_pcm_prepare < 0)) :
    ∃ r, AlsaRenderThread s true (c :: rest) = some r ∧ r.exited = true ∧
      r.stream.running = false ∧ r.stream.isOpen = s.isOpen ∧ r.events = [] := by
  obtain ⟨ring', t, hit⟩ := AlsaRenderThread_iteration_fatal
    { stream := { s with running := true },
      temp := AlsaRenderThread_tempBuffer { s with running := true } } c hb rfl hp hwf hbpf h64
    (AlsaRenderThread_tempBuffer_length { s with running := true } h64) hf
  unfold AlsaRenderThread
  simp only [Bool.not_true, Bool.false_eq_true, if_false, AlsaRenderThread_loop, hit]
  exact ⟨_, rfl, rfl, rfl, rfl, rfl⟩
/-- A paused iteration of `AlsaRenderThread` whose `snd_pcm_writei` succeeds:
the silence is handed over and the loop goes round again, with no
`notify_all`. -/
theorem AlsaRenderThread_iteration_paused (st : RenderRun) (c : AlsaCycle)
    (hrun : (FlagStore.applyAll st.stream c.before).running = true)
    (hp : (FlagStore.applyAll st.stream c.before).paused = true)
    (hw : 0 ≤ c.snd_pcm_writei) :
    AlsaRenderThread_iteration st c
      = some (false,
          { st with stream := FlagStore.applyAll st.stream c.before,
                    temp := List.replicate st.temp.length 0,
                    events := st.events
                      ++ [RenderEvent.handed (List.replicate st.temp.length 0)
                            (FlagStore.applyAll st.stream c.before).periodSize] }) := by
  have hne : ¬ c.snd_pcm_writei = -EPIPE := by unfold EPIPE; omega
  have hnl : ¬ c.snd_pcm_writei < 0 := by omega
  have hge : c.snd_pcm_writei ≥ 0 := hw
  unfold AlsaRenderThread_iteration
  simp only [hrun, hp, Bool.not_true, Bool.false_eq_true, if_false, if_true,
    AlsaRenderThread_fill_paused _ st.temp hp, hne, hnl, hge]

/-- An un-paused iteration of `AlsaRenderThread`: the events are left as they
were, or the iteration ends with `notify_all`. -/
theorem AlsaRenderThread_iteration_running {st st' : RenderRun} {c : AlsaCycle} {b : Bool}
    (hp : (FlagStore.applyAll st.stream c.before).paused = false)
    (h : AlsaRenderThread_iteration st c = some (b, st')) :
    st'.events = st.events ∨ st'.events.getLast? = some RenderEvent.notify := by
  unfold AlsaRenderThread_iteration at h
  simp only [hp, Bool.false_eq_true, if_false] at h
  split at h
  · cases h
    exact Or.inl rfl
  · split at h
    · cases h
    · rename_i s' t frames hfill
      by_cases h1 : c.snd_pcm_writei = -EPIPE ∧ c.snd_pcm_prepare < 0
      · rw [if_pos h1] at h
        have hneg : ¬ c.snd_pcm_writei ≥ 0 := by rw [h1.1]; unfold EPIPE; omega
        rw [if_neg hneg] at h
        cases h
        exact Or.inl rfl
      · rw [if_neg h1] at h
        by_cases h2 : c.snd_pcm_writei ≠ -EPIPE ∧ c.snd_pcm_writei < 0
        · rw [if_pos h2] at h
          have hneg : ¬ c.snd_pcm_writei ≥ 0 := by omega
          rw [if_neg hneg] at h
          cases h
          exact Or.inl rfl
        · rw [if_neg h2] at h
          cases h
          exact Or.inr (by simp)

/-- C27: what the two render threads do on a fatal fault.  Every return of
`WasapiRenderThread` from its loop leaves `running` and `open` false and ends
with `notify_all`, and a failed wait, `GetCurrentPadding`, `GetBuffer` or
`ReleaseBuffer` makes it return.  `AlsaRenderThread`, when `snd_pcm_writei`
fails with an error other than `EPIPE` or the re-prepare after `EPIPE` fails on
an un-paused stream, returns with `running` false only: `open` is left as it
was and `notify_all` is not called. -/
theorem C27_fatal_fault :
    (∀ (s : OutputStreamState) (cycles : List WasapiCycle) (r : RenderRun),
      WasapiRenderThread s true true cycles = some r → r.exited = true →
      r.stream.running = false ∧ r.stream.isOpen = false ∧
        r.events.getLast? = some RenderEvent.notify) ∧
    (∀ (s : OutputStreamState) (c : WasapiCycle) (rest : List WasapiCycle),
      c.before = [] → c.duringWait = [] → s.isOpen = true →
      (c.waitRes = WaitResult.WAIT_FAILED ∨
        (c.waitRes = WaitResult.WAIT_OBJECT_0 ∧ c.GetCurrentPadding = none) ∨
        (c.waitRes = WaitResult.WAIT_OBJECT_0 ∧ ∃ p, c.GetCurrentPadding = some p ∧
          p < s.bufferFrames ∧ c.GetBuffer = none) ∨
        (c.waitRes = WaitResult.WAIT_OBJECT_0 ∧ ∃ p data, c.GetCurrentPadding = some p ∧
          p < s.bufferFrames ∧ c.GetBuffer = some data ∧ c.ReleaseBuffer = false ∧
          (WasapiRenderThread_fill
            { s with running := true, lastHardwarePaddingFrames := p } []
            (s.bufferFrames - p) data).isSome = true)) →
      ∃ r, WasapiRenderThread s true true (c :: rest) = some r ∧ r.exited = true ∧
        r.stream.running = false ∧ r.stream.isOpen = false ∧
        r.events.getLast? = some RenderEvent.notify) ∧
    (∀ (s : OutputStreamState) (c : AlsaCycle) (rest : List AlsaCycle),
      c.before = [] → s.paused = false → s.ring.WellFormed → 0 < s.bytesPerFrame →
      s.periodSize * s.bytesPerFrame < SIZE_MODULUS →
      ((c.snd_pcm_writei < 0 ∧ c.snd_pcm_writei ≠ -EPIPE) ∨
        (c.snd_pcm_writei = -EPIPE ∧ c.snd_pcm_prepare < 0)) →
      ∃ r, AlsaRenderThread s true (c :: rest) = some r ∧ r.exited = true ∧
        r.stream.running = false ∧ r.stream.isOpen = s.isOpen ∧ r.events = []) := by
  refine ⟨fun s cycles r h he => WasapiRenderThread_exit h he, ?_, ?_⟩
  · intro s c rest hb hd hopen hf
    obtain ⟨r, hr, he⟩ := WasapiRenderThread_fatal s c rest
      (WasapiRenderThread_iteration_fatal { stream := { s with running := true } } c hb hd rfl
        hopen hf)
    obtain ⟨e1, e2, e3⟩ := WasapiRenderThread_exit hr he
    exact ⟨r, hr, he, e1, e2, e3⟩
  · intro s c rest hb hp hwf hbpf h64 hf
    exact AlsaRenderThread_fatal s c rest hb hp hwf hbpf h64 hf

/-- C27 on concrete runs: a failed wait ends `WasapiRenderThread` on
`exampleOpened32` with both flags false and a `notify_all`; a write error -5
ends `AlsaRenderThread` on `exampleAlsaOpenedRing` with `open` still true and no
`notify_all`. -/
theorem C27_fatal_fault_witness :
    (∃ r, WasapiRenderThread exampleOpened32 true true
        [{ waitRes := WaitResult.WAIT_FAILED }] = some r ∧ r.exited = true ∧
      r.stream.running = false ∧ r.stream.isOpen = false ∧
      r.events.getLast? = some RenderEvent.notify) ∧
    exampleAlsaOpenedRing.isOpen = true ∧
    (∃ r, AlsaRenderThread exampleAlsaOpenedRing true [{ snd_pcm_writei := -5 }] = some r ∧
      r.exited = true ∧ r.stream.running = false ∧
      r.stream.isOpen = exampleAlsaOpenedRing.isOpen ∧ r.events = []) :=
  ⟨C27_fatal_fault.2.1 exampleOpened32 { waitRes := WaitResult.WAIT_FAILED } [] rfl rfl rfl
      (Or.inl rfl),
   rfl,
   C27_fatal_fault.2.2 exampleAlsaOpenedRing { snd_pcm_writei := -5 } [] rfl rfl
      (RingBuffer.init_wellFormed (rfl : RingBuffer.init 80 = some exampleAlsaOpenedRing.ring))
      (by decide) (by decide) (Or.inl ⟨by decide, by decide⟩)⟩

/-- C28: the wake-up at the end of a demand cycle.  An iteration of
`WasapiRenderThread` that hands a block to the device calls `notify_all` right
after it; `CoreAudioRenderCallback` on a running stream calls `notify_all`; an
un-paused iteration of `AlsaRenderThread` either leaves the events as they were
or ends with `notify_all`.  A paused iteration of `AlsaRenderThread` whose
`snd_pcm_writei` succeeds hands a period of silence to the device and goes
round again without calling `notify_all`. -/
theorem C28_wake :
    (∀ (st st' : RenderRun) (c : WasapiCycle) (b : Bool),
      WasapiRenderThread_iteration st c = some (b, st') →
      st'.events = st.events ∨
        ∃ out n, st'.events = st.events ++ [RenderEvent.handed out n, RenderEvent.notify]) ∧
    (∀ (s : OutputStreamState) (n : Nat) (io : List AudioBuffer)
        (r : OutputStreamState × List AudioBuffer × Bool),
      s.running = true → CoreAudioRenderCallback s n io = some r → r.2.2 = true) ∧
    (∀ (st st' : RenderRun) (c : AlsaCycle) (b : Bool),
      (FlagStore.applyAll st.stream c.before).paused = false →
      AlsaRenderThread_iteration st c = some (b, st') →
      st'.events = st.events ∨ st'.events.getLast? = some RenderEvent.notify) ∧
    (∀ (st : RenderRun) (c : AlsaCycle),
      (FlagStore.applyAll st.stream c.before).running = true →
      (FlagStore.applyAll st.stream c.before).paused = true →
      0 ≤ c.snd_pcm_writei →
      AlsaRenderThread_iteration st c
        = some (false,
            { st with stream := FlagStore.applyAll st.stream c.before,
                      temp := List.replicate st.temp.length 0,
                      events := st.events
                        ++ [RenderEvent.handed (List.replicate st.temp.length 0)
                              (FlagStore.applyAll st.stream c.before).periodSize] })) := by
  refine ⟨fun st st' c b h => (WasapiRenderThread_iteration_events h).2, ?_,
    fun st st' c b hp h => AlsaRenderThread_iteration_running hp h,
    fun st c hrun hp hw => AlsaRenderThread_iteration_paused st c hrun hp hw⟩
  intro s n io r hrun h
  unfold CoreAudioRenderCallback at h
  simp only [hrun, Bool.not_true, Bool.false_eq_true, if_false] at h
  repeat' split at h
  all_goals
    cases h <;> rfl

/-- C28 on a concrete cycle: the paused stream `exampleAlsaPaused` with a
scratch block of 20 bytes hands 10 frames of silence to the device; the only
event is the hand-over. -/
theorem C28_wake_witness :
    (FlagStore.applyAll exampleAlsaPaused []).running = true ∧
    (FlagStore.applyAll exampleAlsaPaused []).paused = true ∧
    AlsaRenderThread_iteration
        { stream := exampleAlsaPaused, temp := List.replicate 20 7 }
        { snd_pcm_writei := 10 }
      = some (false,
          { stream := exampleAlsaPaused, temp := List.replicate 20 0,
            events := [RenderEvent.handed (List.replicate 20 0) 10] }) :=
  ⟨rfl, rfl,
   C28_wake.2.2.2 { stream := exampleAlsaPaused, temp := List.replicate 20 7 }
     { snd_pcm_writei := 10 } rfl rfl (by decide)⟩

/-! ## The ring shared by two threads -/

theorem mod_ne_of_lt_of_sub_lt {c p q : Nat} (hpq : p < q) (hlt : q - p < c) :
    p % c ≠ q % c := by
  intro h
  have hd : c ∣ q - p := (Nat.modEq_iff_dvd' (le_of_lt hpq)).mp h
  have := Nat.le_of_dvd (by omega) hd
  omega

/-- The offset from the write cursor of the index of the byte numbered `p`,
when `y` more than `W` is `p` modulo the capacity. -/
theorem cursor_offset {c p W y : Nat} (hc : 0 < c) (h : (y + W) % c = p % c) :
    (p % c + c - W % c) % c = y % c := by
  have hb : W % c < c := Nat.mod_lt _ hc
  have e1 : (p % c + c - W % c + W) % c = p % c := by
    rw [← Nat.add_mod_mod]
    have : p % c + c - W % c + W % c = p % c + c := by omega
    rw [this, Nat.add_mod_right, Nat.mod_mod]
  have e2 : (p % c + c - W % c + W) % c = (y + W) % c := by rw [e1, h]
  exact Nat.ModEq.add_right_cancel' W e2

/-- The number of unread bytes of a ring whose cursors stand at the counts `a`
and `b`. -/
theorem availableToRead_of_counts {rb : RingBuffer} (h : rb.WellFormed) {a b : Nat}
    (hr : rb.readPos = a % rb.capacity) (hw : rb.writePos = b % rb.capacity)
    (hab : a ≤ b) (hlt : b - a < rb.capacity) : rb.availableToRead = b - a := by
  have hc := h.cap_pos
  have hra : a % rb.capacity < rb.capacity := Nat.mod_lt _ hc
  have hb : b % rb.capacity = (a % rb.capacity + (b - a)) % rb.capacity := by
    rw [Nat.mod_add_mod]
    congr 1
    omega
  have hcases := RingBuffer.availableToRead_cases h
  rw [hr, hw, hb] at hcases
  generalize rb.availableToRead = av at hcases ⊢
  generalize a % rb.capacity = r at hcases hra
  generalize b - a = d at hcases hlt ⊢
  generalize rb.capacity = c at hcases hra hlt hc
  rcases mod_two_cases (x := r + d) (c := c) (by omega) with ⟨c1, e1⟩ | ⟨c1, e1⟩
  · rw [e1] at hcases; omega
  · rw [e1] at hcases; omega

/-- A `write` that accepts nothing leaves the ring as it is. -/
theorem RingBuffer.write_nothing {rb : RingBuffer} (h : rb.WellFormed) (buf : List Byte)
    (len : Nat) (h0 : min len rb.availableToWrite = 0) :
    rb.write (some buf) len = some (rb, 0) := by
  unfold RingBuffer.write
  by_cases hl : len = 0
  · simp only [hl, if_true]
  · have ha : rb.availableToWrite = 0 := by omega
    simp only [hl, if_false, RingBuffer.write_avail_eq h, ha, if_true]

theorem mem_drop_map_range {f : Nat → Nat} {n k x : Nat}
    (h : x ∈ ((List.range n).map f).drop k) : ∃ p, k ≤ p ∧ p < n ∧ x = f p := by
  obtain ⟨j, hj⟩ := List.mem_iff_getElem?.mp h
  rw [List.getElem?_drop, List.getElem?_map] at hj
  by_cases hlt : k + j < n
  · rw [List.getElem?_range hlt] at hj
    simp only [Option.map_some', Option.some.injEq] at hj
    exact ⟨k + j, Nat.le_add_right _ _, hlt, hj.symm⟩
  · rw [List.getElem?_eq_none (by rw [List.length_range]; omega)] at hj
    cases hj

theorem Spsc.conflict_false {capacity cursor count n knows : Nat}
    (h : ∀ i, i < count → ∀ p, knows ≤ p → p < n →
      p % capacity ≠ (cursor + i) % capacity) :
    Spsc.conflict capacity cursor count ((List.range n).map (fun p => p % capacity)) knows
      = false := by
  unfold Spsc.conflict
  rw [List.any_eq_false]
  intro i hi
  rw [Bool.not_eq_true, List.any_eq_false]
  intro x hx
  rw [List.mem_range] at hi
  obtain ⟨p, hkp, hpn, rfl⟩ := mem_drop_map_range hx
  simp [h i hi p hkp hpn]

/-- The indices of `k` further copies from the cursor value of the count `n`
on. -/
theorem copies_at (c n k cursor : Nat) (hcur : cursor = n % c) :
    (List.range n).map (fun p => p % c) ++ (List.range k).map (fun i => (cursor + i) % c)
      = (List.range (n + k)).map (fun p => p % c) := by
  rw [List.range_add, List.map_append, List.map_map]
  congr 1
  apply List.map_congr_left
  intro i _
  show (cursor + i) % c = (n + i) % c
  rw [hcur, Nat.mod_add_mod]
theorem Spsc.Inv.latest_read {st : Spsc} (h : st.Inv) :
    st.readPos.latest.value = st.readPos.latest.copied % st.capacity :=
  (h.rhist st.readPos.latest (List.mem_cons_self _ _)).1

theorem Spsc.Inv.latest_write {st : Spsc} (h : st.Inv) :
    st.writePos.latest.value = st.writePos.latest.copied % st.capacity :=
  (h.whist st.writePos.latest (List.mem_cons_self _ _)).1

/-- The acquire load of `readPos` in `write` keeps the invariant. -/
theorem Spsc.step_producerLoad {st : Spsc} (h : st.Inv) (age : Nat) :
    ∃ st', st.step (SpscStep.producerLoad age) = some st' ∧ st'.Inv := by
  simp only [Spsc.step]
  split
  · rename_i m hph hm
    have hmem : m ∈ st.readPos.stores := List.getElem?_mem hm
    obtain ⟨hv, hle⟩ := h.rhist m hmem
    by_cases hk : st.producer.knows ≤ m.copied
    · rw [if_pos hk]
      refine ⟨_, rfl, { h with kp_le := hle, wc_lt := ?_, pphase := ?_ }⟩
      · show st.written.length < m.copied + st.capacity
        have := h.wc_lt
        omega
      · refine ⟨fun hc => (by cases hc), ?_, fun t hc => (by cases hc)⟩
        intro r hr
        cases hr
        exact ⟨h.pphase.1 hph, hv⟩
    · rw [if_neg hk]
      exact ⟨st, rfl, h⟩
  · exact ⟨st, rfl, h⟩

/-- The acquire load of `writePos` in `read` keeps the invariant. -/
theorem Spsc.step_consumerLoad {st : Spsc} (h : st.Inv) (age : Nat) :
    ∃ st', st.step (SpscStep.consumerLoad age) = some st' ∧ st'.Inv := by
  simp only [Spsc.step]
  split
  · rename_i m hph hm
    have hmem : m ∈ st.writePos.stores := List.getElem?_mem hm
    obtain ⟨hv, hle⟩ := h.whist m hmem
    by_cases hk : st.consumer.knows ≤ m.copied
    · rw [if_pos hk]
      refine ⟨_, rfl, { h with kc_le := hle, rc_le := ?_, cphase := ?_ }⟩
      · show st.delivered.length ≤ m.copied
        have := h.rc_le
        omega
      · refine ⟨fun hc => (by cases hc), ?_, fun t hc => (by cases hc)⟩
        intro r hr
        cases hr
        exact ⟨h.cphase.1 hph, hv⟩
    · rw [if_neg hk]
      exact ⟨st, rfl, h⟩
  · exact ⟨st, rfl, h⟩

/-- The release store to `writePos` keeps the invariant. -/
theorem Spsc.step_producerStore {st : Spsc} (h : st.Inv) :
    ∃ st', st.step SpscStep.producerStore = some st' ∧ st'.Inv := by
  simp only [Spsc.step]
  split
  · rename_i t hph
    obtain ⟨ht, hlt⟩ := h.pphase.2.2 t hph
    refine ⟨_, rfl, { h with whist := ?_, wsorted := ?_, kc_le := ?_, w_le := ?_, pphase := ?_ }⟩
    · intro m hm
      rcases List.mem_cons.mp hm with rfl | hm
      · exact ⟨ht, Nat.le_refl _⟩
      · exact ⟨(h.whist m hm).1, Nat.le_trans (h.whist m hm).2 (Nat.le_of_lt hlt)⟩
    · show List.Pairwise _ (_ :: st.writePos.stores)
      rw [List.pairwise_cons]
      exact ⟨fun b hb => Nat.lt_of_le_of_lt (h.whist b hb).2 hlt, h.wsorted⟩
    · show st.consumer.knows ≤ st.written.length
      exact Nat.le_trans h.kc_le h.w_le
    · exact Nat.le_refl _
    · exact ⟨fun _ => rfl, fun r hc => (by cases hc), fun t hc => (by cases hc)⟩
  · exact ⟨st, rfl, h⟩

/-- The release store to `readPos` keeps the invariant. -/
theorem Spsc.step_consumerStore {st : Spsc} (h : st.Inv) :
    ∃ st', st.step SpscStep.consumerStore = some st' ∧ st'.Inv := by
  simp only [Spsc.step]
  split
  · rename_i r hph
    obtain ⟨hr, hlt⟩ := h.cphase.2.2 r hph
    refine ⟨_, rfl,
      { h with rhist := ?_, rsorted := ?_, kp_le := ?_, r_le := ?_, cphase := ?_, content := ?_ }⟩
    · intro m hm
      rcases List.mem_cons.mp hm with rfl | hm
      · exact ⟨hr, Nat.le_refl _⟩
      · exact ⟨(h.rhist m hm).1, Nat.le_trans (h.rhist m hm).2 (Nat.le_of_lt hlt)⟩
    · show List.Pairwise _ (_ :: st.readPos.stores)
      rw [List.pairwise_cons]
      exact ⟨fun b hb => Nat.lt_of_le_of_lt (h.rhist b hb).2 hlt, h.rsorted⟩
    · show st.producer.knows ≤ st.delivered.length
      exact Nat.le_trans h.kp_le h.r_le
    · exact Nat.le_refl _
    · exact ⟨fun _ => rfl, fun r hc => (by cases hc), fun t hc => (by cases hc)⟩
    · intro p hp hpw
      exact h.content p (Nat.le_trans (Nat.le_of_lt hlt) hp) hpw
  · exact ⟨st, rfl, h⟩
theorem written_index_old {c Kp R W k p : Nat} (hKR : Kp ≤ R) (hRp : R ≤ p) (hpW : p < W)
    (hk : k ≤ c - 1 - (W - Kp)) (hWc : W < Kp + c) :
    (c - (W - p) + W) % c = p % c ∧ (c - (W - p)) % c = c - (W - p) ∧ ¬ c - (W - p) < k := by
  have e : c - (W - p) + W = p + c := by omega
  refine ⟨by rw [e, Nat.add_mod_right], Nat.mod_eq_of_lt (by omega), by omega⟩

theorem written_index_new {c Kp W k p : Nat} (hWp : W ≤ p) (hpk : p < W + k)
    (hk : k ≤ c - 1 - (W - Kp)) :
    (p - W + W) % c = p % c ∧ (p - W) % c = p - W ∧ p - W < k := by
  have e : p - W + W = p := by omega
  refine ⟨by rw [e], Nat.mod_eq_of_lt (by omega), by omega⟩

/-- The copies of `write` keep the invariant. -/
theorem Spsc.step_producerCopy {st : Spsc} (h : st.Inv) (src : List Byte) (len : Nat)
    (hv : len ≤ src.length) :
    ∃ st', st.step (SpscStep.producerCopy src len) = some st' ∧ st'.Inv := by
  simp only [Spsc.step]
  split
  · rename_i r hph
    obtain ⟨hW, hr⟩ := h.pphase.2.1 r hph
    have hc := h.cap_pos
    have hKW : st.producer.knows ≤ st.writePos.latest.copied :=
      Nat.le_trans h.kp_le (Nat.le_trans h.r_le (Nat.le_trans h.rc_le h.kc_le))
    have hWK : st.writePos.latest.copied < st.producer.knows + st.capacity := by
      rw [← hW]; exact h.wc_lt
    have hS : RingBuffer.WellFormed
        { data := st.data, capacity := st.capacity, readPos := r,
          writePos := st.writePos.latest.value } :=
      ⟨h.data_len, hc, h.cap_le, by rw [hr]; exact Nat.mod_lt _ hc,
        by rw [h.latest_write]; exact Nat.mod_lt _ hc⟩
    have havr := availableToRead_of_counts hS (a := st.producer.knows)
      (b := st.writePos.latest.copied) hr h.latest_write hKW
      (show st.writePos.latest.copied - st.producer.knows < st.capacity by omega)
    have havw := RingBuffer.availableToWrite_eq hS
    rw [havr] at havw
    have havw' : RingBuffer.availableToWrite
        { data := st.data, capacity := st.capacity, readPos := r,
          writePos := st.writePos.latest.value }
        = st.capacity - 1 - (st.writePos.latest.copied - st.producer.knows) := havw
    by_cases hk0 : min len (RingBuffer.availableToWrite
        { data := st.data, capacity := st.capacity, readPos := r,
          writePos := st.writePos.latest.value }) = 0
    · simp only [RingBuffer.write_nothing hS src len hk0, List.take_zero, List.append_nil,
        if_true, Spsc.conflict, List.range_zero, List.any_nil, Bool.or_false]
      refine ⟨_, rfl, { h with pphase := ?_, wat := ?_ }⟩
      · exact ⟨fun _ => hW, fun r hc => (by cases hc), fun t hc => (by cases hc)⟩
      · show st.writtenAt ++ List.map _ [] = _
        rw [List.map_nil, List.append_nil]
        exact h.wat
    · obtain ⟨d2, hw, hd2, hpt⟩ := RingBuffer.write_eq hS src len hv (Nat.pos_of_ne_zero hk0)
      have hkle : min len (RingBuffer.availableToWrite
          { data := st.data, capacity := st.capacity, readPos := r,
            writePos := st.writePos.latest.value })
          ≤ st.capacity - 1 - (st.writePos.latest.copied - st.producer.knows) := by
        rw [havw']; exact Nat.min_le_right _ _
      have hklen : min len (RingBuffer.availableToWrite
          { data := st.data, capacity := st.capacity, readPos := r,
            writePos := st.writePos.latest.value }) ≤ src.length :=
        Nat.le_trans (Nat.min_le_left _ _) hv
      generalize hkdef : min len (RingBuffer.availableToWrite
          { data := st.data, capacity := st.capacity, readPos := r,
            writePos := st.writePos.latest.value }) = k at hw hpt hk0 hkle hklen
      simp only [hw, if_neg hk0]
      have htk : (src.take k).length = k := by rw [List.length_take]; exact Nat.min_eq_left hklen
      refine ⟨_, rfl,
        { h with data_len := hd2, w_le := ?_, wc_lt := ?_, pphase := ?_, content := ?_,
                 fifo := ?_, wat := ?_, race_free := ?_ }⟩
      · show st.writePos.latest.copied ≤ (st.written ++ src.take k).length
        rw [List.length_append]
        have := h.w_le
        omega
      · show (st.written ++ src.take k).length < st.producer.knows + st.capacity
        rw [List.length_append, htk]
        omega
      · refine ⟨fun hc => (by cases hc), fun r hc => (by cases hc), ?_⟩
        intro t ht
        cases ht
        refine ⟨?_, ?_⟩
        · show (st.writePos.latest.value + k) % st.capacity
            = (st.written ++ src.take k).length % st.capacity
          rw [List.length_append, htk, h.latest_write, Nat.mod_add_mod, hW]
        · show st.writePos.latest.copied < (st.written ++ src.take k).length
          rw [List.length_append, htk]
          omega
      · intro p hp hpw
        show d2[p % st.capacity]? = (st.written ++ src.take k)[p]?
        have hpw' : p < st.written.length + k := by
          have : p < (st.written ++ src.take k).length := hpw
          rw [List.length_append, htk] at this
          exact this
        rw [hpt (p % st.capacity) (Nat.mod_lt _ hc)]
        show (if (p % st.capacity + st.capacity - st.writePos.latest.value) % st.capacity < k
          then src[(p % st.capacity + st.capacity - st.writePos.latest.value) % st.capacity]?
          else st.data[p % st.capacity]?) = _
        rw [h.latest_write]
        by_cases hpW : p < st.writePos.latest.copied
        · obtain ⟨e1, e2, e3⟩ := written_index_old h.kp_le hp hpW hkle hWK
          rw [cursor_offset hc e1, e2, if_neg e3, h.content p hp (by omega),
            List.getElem?_append_left (by omega)]
        · obtain ⟨e1, e2, e3⟩ := written_index_new (Nat.le_of_not_lt hpW)
            (by omega : p < st.writePos.latest.copied + k) hkle
          rw [cursor_offset hc e1, e2, if_pos e3,
            List.getElem?_append_right (by omega), List.getElem?_take_of_lt (by omega), hW]
      · show st.delivered = (st.written ++ src.take k).take st.delivered.length
        rw [List.take_append_of_le_length (by
          have h1 := h.rc_le
          have h2 := h.kc_le
          have h3 := h.w_le
          omega)]
        exact h.fifo
      · show st.writtenAt
            ++ (List.range k).map (fun i => (st.writePos.latest.value + i) % st.capacity)
          = (List.range (st.written ++ src.take k).length).map (fun p => p % st.capacity)
        rw [List.length_append, htk, h.wat]
        exact copies_at _ _ _ _ (by rw [h.latest_write, hW])
      · show (st.raced || Spsc.conflict st.capacity st.writePos.latest.value k st.deliveredAt
          st.producer.knows) = false
        rw [h.race_free, Bool.false_or, h.dat]
        apply Spsc.conflict_false
        intro i hi p hkp hp
        have h1 := h.rc_le
        have h2 := h.kc_le
        rw [h.latest_write, Nat.mod_add_mod]
        exact mod_ne_of_lt_of_sub_lt (by omega) (by omega)
  · exact ⟨st, rfl, h⟩
/-- The copies of `read` keep the invariant. -/
theorem Spsc.step_consumerCopy {st : Spsc} (h : st.Inv) (dst : List Byte) (len : Nat)
    (hv : len ≤ dst.length) :
    ∃ st', st.step (SpscStep.consumerCopy dst len) = some st' ∧ st'.Inv := by
  simp only [Spsc.step]
  split
  · rename_i t hph
    obtain ⟨hR, ht⟩ := h.cphase.2.1 t hph
    have hc := h.cap_pos
    have h1 := h.kp_le
    have h2 := h.rc_le
    have h3 := h.kc_le
    have h4 := h.w_le
    have h5 := h.wc_lt
    have hS : RingBuffer.WellFormed
        { data := st.data, capacity := st.capacity, readPos := st.readPos.latest.value,
          writePos := t } :=
      ⟨h.data_len, hc, h.cap_le, by rw [h.latest_read]; exact Nat.mod_lt _ hc,
        by rw [ht]; exact Nat.mod_lt _ hc⟩
    have havr := availableToRead_of_counts hS (a := st.readPos.latest.copied)
      (b := st.consumer.knows) h.latest_read ht (by omega)
      (show st.consumer.knows - st.readPos.latest.copied < st.capacity by omega)
    by_cases hk0 : min len (RingBuffer.availableToRead
        { data := st.data, capacity := st.capacity, readPos := st.readPos.latest.value,
          writePos := t }) = 0
    · obtain ⟨rb', hrd, -, -, -, -, -, hsame, -⟩ := RingBuffer.read_spec hS dst len hv
      rw [hk0] at hrd
      simp only [hrd, List.take_zero, List.append_nil, if_true, Spsc.conflict, List.range_zero,
        List.any_nil, Bool.or_false, List.map_nil]
      refine ⟨_, rfl, { h with cphase := ?_ }⟩
      exact ⟨fun _ => hR, fun r hc => (by cases hc), fun t hc => (by cases hc)⟩
    · obtain ⟨o2, hrd, ho2, hpt⟩ := RingBuffer.read_eq hS dst len hv (Nat.pos_of_ne_zero hk0)
      have hkle : min len (RingBuffer.availableToRead
          { data := st.data, capacity := st.capacity, readPos := st.readPos.latest.value,
            writePos := t })
          ≤ st.consumer.knows - st.readPos.latest.copied := by
        rw [havr]; exact Nat.min_le_right _ _
      have hklen : min len (RingBuffer.availableToRead
          { data := st.data, capacity := st.capacity, readPos := st.readPos.latest.value,
            writePos := t }) ≤ dst.length :=
        Nat.le_trans (Nat.min_le_left _ _) hv
      generalize hkdef : min len (RingBuffer.availableToRead
          { data := st.data, capacity := st.capacity, readPos := st.readPos.latest.value,
            writePos := t }) = k at hrd hpt hk0 hkle hklen
      simp only [hrd, if_neg hk0, Option.getD_some]
      have htk : (o2.take k).length = k := by
        rw [List.length_take, ho2]; exact Nat.min_eq_left hklen
      have hbytes : o2.take k = (st.written.drop st.delivered.length).take k := by
        apply List.ext_getElem?
        intro j
        by_cases hj : j < k
        · rw [List.getElem?_take_of_lt hj, List.getElem?_take_of_lt hj, List.getElem?_drop, hpt j,
            if_pos hj]
          show st.data[(st.readPos.latest.value + j) % st.capacity]? = _
          rw [h.latest_read, Nat.mod_add_mod, hR]
          exact h.content _ (Nat.le_add_right _ _) (by omega)
        · rw [List.getElem?_eq_none (by rw [htk]; omega),
            List.getElem?_eq_none (by rw [List.length_take]; omega)]
      refine ⟨_, rfl,
        { h with r_le := ?_, rc_le := ?_, cphase := ?_, fifo := ?_, dat := ?_,
                 race_free := ?_ }⟩
      · show st.readPos.latest.copied ≤ (st.delivered ++ o2.take k).length
        rw [List.length_append]
        omega
      · show (st.delivered ++ o2.take k).length ≤ st.consumer.knows
        rw [List.length_append, htk]
        omega
      · refine ⟨fun hc => (by cases hc), fun r hc => (by cases hc), ?_⟩
        intro r hr
        cases hr
        refine ⟨?_, ?_⟩
        · show (st.readPos.latest.value + k) % st.capacity
            = (st.delivered ++ o2.take k).length % st.capacity
          rw [List.length_append, htk, h.latest_read, Nat.mod_add_mod, hR]
        · show st.readPos.latest.copied < (st.delivered ++ o2.take k).length
          rw [List.length_append, htk]
          omega
      · show st.delivered ++ o2.take k = st.written.take (st.delivered ++ o2.take k).length
        rw [List.length_append, htk, List.take_add, ← h.fifo, hbytes]
      · show st.deliveredAt
            ++ (List.range k).map (fun i => (st.readPos.latest.value + i) % st.capacity)
          = (List.range (st.delivered ++ o2.take k).length).map (fun p => p % st.capacity)
        rw [List.length_append, htk, h.dat]
        exact copies_at _ _ _ _ (by rw [h.latest_read, hR])
      · show (st.raced || Spsc.conflict st.capacity st.readPos.latest.value k st.writtenAt
          st.consumer.knows) = false
        rw [h.race_free, Bool.false_or, h.wat]
        apply Spsc.conflict_false
        intro i hi q hkq hq
        rw [h.latest_read, Nat.mod_add_mod]
        exact Ne.symm (mod_ne_of_lt_of_sub_lt (by omega) (by omega))
  · exact ⟨st, rfl, h⟩
/-- The shared ring fresh from `init` satisfies the invariant. -/
theorem Spsc.init_inv {size : Nat} {st : Spsc} (h : Spsc.init size = some st) : st.Inv := by
  unfold Spsc.init at h
  split at h
  · cases h
  · rename_i rb hrb
    injection h with h
    subst h
    have hwf := RingBuffer.init_wellFormed hrb
    exact
      { cap_pos := hwf.cap_pos
        cap_le := hwf.cap_le
        data_len := hwf.data_len
        rhist := fun m hm => by
          rcases List.mem_singleton.mp hm with rfl
          exact ⟨(Nat.zero_mod _).symm, Nat.le_refl _⟩
        rsorted := List.pairwise_singleton _ _
        whist := fun m hm => by
          rcases List.mem_singleton.mp hm with rfl
          exact ⟨(Nat.zero_mod _).symm, Nat.le_refl _⟩
        wsorted := List.pairwise_singleton _ _
        kp_le := Nat.le_refl _
        r_le := Nat.le_refl _
        rc_le := Nat.le_refl _
        kc_le := Nat.le_refl _
        w_le := Nat.le_refl _
        wc_lt := by
          show 0 < 0 + rb.capacity
          rw [Nat.zero_add]
          exact hwf.cap_pos
        pphase := ⟨fun _ => rfl, fun r hc => (by cases hc), fun t hc => (by cases hc)⟩
        cphase := ⟨fun _ => rfl, fun r hc => (by cases hc), fun t hc => (by cases hc)⟩
        content := fun p _ hp => absurd hp (Nat.not_lt_zero _)
        fifo := rfl
        wat := rfl
        dat := rfl
        race_free := rfl }

/-- Every step with valid blocks is defined and keeps the invariant. -/
theorem Spsc.step_inv {st : Spsc} (h : st.Inv) (a : SpscStep) (hv : a.valid = true) :
    ∃ st', st.step a = some st' ∧ st'.Inv := by
  cases a with
  | producerLoad age => exact Spsc.step_producerLoad h age
  | producerCopy src len => exact Spsc.step_producerCopy h src len (of_decide_eq_true hv)
  | producerStore => exact Spsc.step_producerStore h
  | consumerLoad age => exact Spsc.step_consumerLoad h age
  | consumerCopy dst len => exact Spsc.step_consumerCopy h dst len (of_decide_eq_true hv)
  | consumerStore => exact Spsc.step_consumerStore h

/-- Every schedule with valid blocks runs to its end and keeps the
invariant. -/
theorem Spsc.run_inv (schedule : List SpscStep) :
    ∀ (st : Spsc), st.Inv → (∀ a ∈ schedule, a.valid = true) →
      ∃ st', st.run schedule = some st' ∧ st'.Inv := by
  induction schedule with
  | nil =>
    intro st h _
    exact ⟨st, rfl, h⟩
  | cons a as ih =>
    intro st h hv
    obtain ⟨st1, hs, h1⟩ := Spsc.step_inv h a (hv a (List.mem_cons_self _ _))
    obtain ⟨st2, hr, h2⟩ := ih st1 h1 (fun b hb => hv b (List.mem_cons_of_mem _ hb))
    refine ⟨st2, ?_, h2⟩
    simp only [Spsc.run, hs, hr]

/-- C26 (SPSC correctness under concurrency).  One producer thread calling
`write` and one consumer thread calling `read` on the ring after `init(size)`,
their acquire loads, copies and release stores interleaved in any order, every
acquire load returning any store that the memory model lets it return, and
every call passing a block of the length it states.  Every schedule runs
without undefined behaviour and without a data race between a copy of one
thread and a copy of the other.  The consumer has copied out only bytes whose
copy into the ring was published by a store to `writePos` that it has loaded;
the producer has copied in fewer than `capacity` bytes beyond those whose copy
out of the ring was published by a store to `readPos` that it has loaded; the
bytes published as written and not yet published as read lie in `data`
untouched; and the bytes delivered are the first bytes written, in order. -/
theorem C26_spsc_concurrent (size : Nat) (st0 : Spsc) (schedule : List SpscStep)
    (hinit : Spsc.init size = some st0) (hvalid : ∀ a ∈ schedule, a.valid = true) :
    ∃ st, st0.run schedule = some st ∧
      st.raced = false ∧
      st.delivered = st.written.take st.delivered.length ∧
      (st.delivered.length ≤ st.consumer.knows ∧
        st.consumer.knows ≤ st.writePos.latest.copied ∧
        st.writePos.latest.copied ≤ st.written.length) ∧
      (st.written.length < st.producer.knows + st.capacity ∧
        st.producer.knows ≤ st.readPos.latest.copied ∧
        st.readPos.latest.copied ≤ st.delivered.length) ∧
      (∀ p, st.readPos.latest.copied ≤ p → p < st.written.length →
        st.data[p % st.capacity]? = st.written[p]?) ∧
      st.writtenAt = (List.range st.written.length).map (fun p => p % st.capacity) ∧
      st.deliveredAt = (List.range st.delivered.length).map (fun p => p % st.capacity) ∧
      st.readPos.stores.Pairwise (fun a b => b.copied < a.copied) ∧
      st.writePos.stores.Pairwise (fun a b => b.copied < a.copied) := by
  obtain ⟨st, hr, h⟩ := Spsc.run_inv schedule st0 (Spsc.init_inv hinit) hvalid
  exact ⟨st, hr, h.race_free, h.fifo, ⟨h.rc_le, h.kc_le, h.w_le⟩, ⟨h.wc_lt, h.kp_le, h.r_le⟩,
    h.content, h.wat, h.dat, h.rsorted, h.wsorted⟩

/-- C26 on the schedule `exampleSchedule` on a ring of 4 bytes, in which the
threads overlap and two loads return out-of-date cursors: the five bytes
written are delivered in order, with no data race. -/
theorem C26_spsc_concurrent_witness :
    Spsc.init 4 = some { data := List.replicate 4 0, capacity := 4 } ∧
    (∀ a ∈ exampleSchedule, a.valid = true) ∧
    (Spsc.run { data := List.replicate 4 0, capacity := 4 } exampleSchedule).map
      (fun st => (st.written, st.delivered, st.raced))
      = some ([1, 2, 3, 4, 5], [1, 2, 3, 4, 5], false) ∧
    ∃ st, Spsc.run { data := List.replicate 4 0, capacity := 4 } exampleSchedule = some st ∧
      st.raced = false ∧ st.delivered = st.written.take st.delivered.length :=
  ⟨rfl, by decide, by decide!,
   (C26_spsc_concurrent 4 { data := List.replicate 4 0, capacity := 4 } exampleSchedule rfl
      (by decide)).imp (fun _ h => ⟨h.1, h.2.1, h.2.2.1⟩)⟩

end ExclusiveAudio
